import Mathlib

/-!
The vanilla-CFR traversal engine of slumbot2017 (`src/vcfr.cpp`)

A shallow embedding of the routines of `VCFR` and the properties that the
specification states about them.

Conventions of the embedding.

* `int` values are integers of `Int`; every C operation that can leave the 32-bit
  range is followed by `toInt`, the two's-complement conversion to `int`.
* `unsigned int` values are naturals; unsigned subtraction is `usub`, modulo `2^32`.
* `double` values are rationals.  The product `opp_prob * current_probs[s]` that
  yields the reach of a successor is rounded to binary64 (`dmul`: round to nearest,
  ties to even, gradual underflow); the other operations on doubles are taken
  exact.  `lrint` rounds to the nearest integer, ties to even (the default rounding
  mode).
* An `int *` / `double *` into the regret and sumprob stores is an address (a natural
  number) into an integer heap `IntMem` / a double heap `DblMem`; pointer
  arithmetic is addition of naturals, the null pointer is `none`.
* Freshly allocated value and reach vectors (`new double[n]`) are lists.
* Debug-only data (the action-sequence strings, the `#if 0` blocks, `g_lbd`,
  `succ_counts`) is left out.
-/

/-! ## Machine arithmetic -/

/-- Modelled from the spec: the constant `kMaxInt` of the absent `constants.h`,
the largest 32-bit `int`. -/
def kMaxInt : Int := 2147483647

/-- Modelled from the spec: the constant `kMinInt` of the absent `constants.h`,
the smallest 32-bit `int`. -/
def kMinInt : Int := -2147483648

/-- Conversion of a mathematical integer to a 32-bit `int` (two's complement). -/
def toInt (x : Int) : Int := (x + 2147483648) % 4294967296 - 2147483648

/-- Subtraction of `unsigned int` values, modulo `2^32`. -/
def usub (a b : Nat) : Nat := (a + 4294967296 - b % 4294967296) % 4294967296

/-- The C library function `lrint` under the default rounding mode: the nearest
integer, ties going to the even one. -/
def lrint (x : ℚ) : Int :=
  let f := Rat.floor x
  let r := x - f
  if r < 1 / 2 then f
  else if 1 / 2 < r then f + 1
  else if f % 2 = 0 then f else f + 1

/-- The power `2^e` of an integer exponent. -/
def pow2 (e : Int) : ℚ :=
  if 0 ≤ e then ((2 ^ e.toNat : Nat) : ℚ) else 1 / ((2 ^ (-e).toNat : Nat) : ℚ)

/-- The position of the leading bit of `n`, found in at most `fuel` halvings. -/
def log2Fuel : Nat → Nat → Nat
  | 0, _ => 0
  | fuel + 1, n => if n < 2 then 0 else log2Fuel fuel (n / 2) + 1

/-- The binary exponent of a rational `x` other than 0, the `e` with
`2^e ≤ |x| < 2^(e+1)`: the difference of the leading bits of numerator and denominator,
or one less. -/
def binexp (x : ℚ) : Int :=
  let e0 : Int := (log2Fuel x.num.natAbs x.num.natAbs : Int) - (log2Fuel x.den x.den : Int)
  if |x| < pow2 e0 then e0 - 1 else e0

/-- The rounding of a real result to a `double` (IEEE 754 binary64, round to nearest,
ties to even): the nearest multiple of the spacing `2^(e - 52)` of the doubles of the
binade `2^e ≤ |x| < 2^(e+1)`, the spacing staying `2^-1074` below `2^-1022` (gradual
underflow).  Overflow to infinity is not modelled. -/
def round64 (x : ℚ) : ℚ :=
  if x = 0 then 0
  else
    let q := pow2 (max (binexp x) (-1022) - 52)
    (lrint (x / q) : ℚ) * q

/-- The product `x * y` of two `double` values. -/
def dmul (x y : ℚ) : ℚ := round64 (x * y)

/-- The integer heap that `int *` pointers address. -/
abbrev IntMem := Nat → Int

/-- The double heap that `double *` pointers address. -/
abbrev DblMem := Nat → ℚ

/-- The loop `for (unsigned int i = 0; i < n; ++i) body(i)` as a state transformer. -/
def loop {σ : Type} (n : Nat) (body : Nat → σ → σ) (init : σ) : σ :=
  match n with
  | 0 => init
  | k + 1 => body k (loop k body init)

/-- The ways a run of the engine stops without returning: the fatal exits of the
program (`exit(-1)`), a `sem_wait` that finds the semaphore at 0 (in this sequential
model no worker can post), and the exhaustion of the recursion fuel of the model. -/
inductive Abort where
  | PolicyMismatch
  | MissingFinalVals
  | ConcurrencyInvariantViolation
  | Blocked
  | OutOfFuel
  deriving DecidableEq, Repr

/-- The loop `for (unsigned int i = 0; i < n; ++i) body(i)` with a body that may stop. -/
def loopM {σ : Type} (n : Nat) (body : Nat → σ → Except Abort σ) (init : σ) :
    Except Abort σ :=
  match n with
  | 0 => .ok init
  | k + 1 =>
    match loopM k body init with
    | .ok st => body k st
    | .error e => .error e

/-- The store `a[i] = x` on a heap-allocated array. -/
def setAt (a : List ℚ) (i : Nat) (x : ℚ) : List ℚ := a.set i x

/-- The store `a[s][i] = x` on an array of heap-allocated arrays. -/
def setAt2 (a : List (List ℚ)) (s i : Nat) (x : ℚ) : List (List ℚ) :=
  a.set s ((a.getD s []).set i x)

/-! ## The betting tree, as far as the engine reads it -/

/-- A node of the betting tree with the attributes the engine consumes. -/
inductive Node where
  | mk (street : Nat) (terminal showdown : Bool)
      (player_acting pot_size nonterminal_id default_succ_index call_succ_index : Nat)
      (succs : List Node)

namespace Node

instance : Inhabited Node := ⟨Node.mk 0 true false 0 0 0 0 0 []⟩

def Street : Node → Nat
  | mk st _ _ _ _ _ _ _ _ => st

def Terminal : Node → Bool
  | mk _ t _ _ _ _ _ _ _ => t

def Showdown : Node → Bool
  | mk _ _ sd _ _ _ _ _ _ => sd

def PlayerActing : Node → Nat
  | mk _ _ _ pa _ _ _ _ _ => pa

def PotSize : Node → Nat
  | mk _ _ _ _ ps _ _ _ _ => ps

def NonterminalID : Node → Nat
  | mk _ _ _ _ _ nt _ _ _ => nt

def DefaultSuccIndex : Node → Nat
  | mk _ _ _ _ _ _ dsi _ _ => dsi

def CallSuccIndex : Node → Nat
  | mk _ _ _ _ _ _ _ csi _ => csi

def Succs : Node → List Node
  | mk _ _ _ _ _ _ _ _ succs => succs

def NumSuccs (n : Node) : Nat := n.Succs.length

def IthSucc (n : Node) (s : Nat) : Node := n.Succs.getD s default

end Node

/-! ## External collaborators -/

/-- The hands of one street and board (`CanonicalCards`): hole cards, isomorphism
multiplicity and canonical encoding of each hand. -/
structure CanonicalCards where
  Cards : Nat → Nat → Nat := fun _ _ => 0
  NumVariants : Nat → Nat := fun _ => 1
  Canon : Nat → Nat := fun _ => 0
  NumRaw : Nat := 0

/-- The static interface `Game`. -/
structure Game where
  MaxStreet : Nat := 0
  MaxCard : Nat := 0
  NumCardsForStreet : Nat → Nat := fun _ => 2
  NumHoleCardPairs : Nat → Nat := fun _ => 0
  NumBoardCards : Nat → Nat := fun _ => 0
  StreetPermutations : Nat → Nat := fun _ => 1

/-- The static interface `BoardTree`. -/
structure BoardTree where
  NumBoards : Nat → Nat := fun _ => 1
  GlobalIndex : Nat → Nat → Nat → Nat → Nat := fun _ _ _ lbd => lbd
  LocalIndex : Nat → Nat → Nat → Nat → Nat := fun _ _ _ gbd => gbd
  SuccBoardBegin : Nat → Nat → Nat → Nat := fun _ _ _ => 0
  SuccBoardEnd : Nat → Nat → Nat → Nat := fun _ _ _ => 0
  NumVariants : Nat → Nat → Nat := fun _ _ => 1
  Board : Nat → Nat → Nat → Nat := fun _ _ _ => 0

/-- The interface `Buckets`. -/
structure Buckets where
  None : Nat → Bool := fun _ => true
  NumBuckets : Nat → Nat := fun _ => 0
  Bucket : Nat → Nat → Nat := fun _ _ => 0

/-- Modelled from the spec: the store `CFRValues` (section 4.B), not among the given
sources.  `Players p` tells whether values are kept for player `p`, `Ints p st` whether
the tables of `(p, st)` hold integers, and `addr p st nt` is the address of the table of
nonterminal `nt` in the heap of its element type. -/
structure CFRValues where
  Players : Nat → Bool := fun _ => true
  Ints : Nat → Nat → Bool := fun _ _ => true
  addr : Nat → Nat → Nat → Nat := fun _ _ _ => 0

/-- Modelled from the spec: `CFRValues::Values` asked for an `int *` (section 4.B); it
fails with `PolicyMismatch` when the table holds doubles. -/
def CFRValues.Values_int (c : CFRValues) (p st nt : Nat) : Except Abort Nat :=
  if c.Ints p st then .ok (c.addr p st nt) else .error Abort.PolicyMismatch

/-- Modelled from the spec: `CFRValues::Values` asked for a `double *` (section 4.B); it
fails with `PolicyMismatch` when the table holds integers. -/
def CFRValues.Values_double (c : CFRValues) (p st nt : Nat) : Except Abort Nat :=
  if c.Ints p st then .error Abort.PolicyMismatch else .ok (c.addr p st nt)

/-- The collaborators of the engine: the static interfaces, the hand tree, the buckets,
the bucket thresholds of the card abstraction, the terminal payoffs, the reach
summary `CommonBetResponseCalcs` (its two outputs as a pair), `HCPIndex`, and the
content that freshly allocated `unsigned int` arrays happen to hold. -/
structure Env where
  G : Game := {}
  B : BoardTree := {}
  Hands : Nat → Nat → CanonicalCards := fun _ _ => {}
  buckets : Buckets := {}
  BucketThreshold : Nat → Nat := fun _ => 0
  Showdown : Node → CanonicalCards → List ℚ → ℚ → Option (List ℚ) → List ℚ :=
    fun _ _ _ _ _ => []
  Fold : Node → Nat → CanonicalCards → List ℚ → ℚ → Option (List ℚ) → List ℚ :=
    fun _ _ _ _ _ _ => []
  CommonBetResponseCalcs : Nat → CanonicalCards → List ℚ → ℚ × List ℚ :=
    fun _ _ _ => (0, [])
  HCPIndex : Nat → (Nat → Nat) → Nat := fun _ _ => 0
  uninitialised : Nat → Nat := fun _ => 0

/-! ## The engine -/

/-- The fields of `VCFR` that a traversal only reads. -/
structure VCFR where
  p : Nat := 0
  it : Nat := 0
  nn_regrets : Bool := false
  uniform : Bool := false
  soft_warmup : Nat := 0
  hard_warmup : Nat := 0
  explore : ℚ := 0
  use_avg_for_current_it : Nat := 0
  always_call_preflop : Bool := false
  best_response_streets : Nat → Bool := fun _ => false
  br_current : Bool := false
  value_calculation : Bool := false
  prune : Bool := true
  pre_phase : Bool := false
  subgame_street : Nat := 0
  subgame : Bool := false
  root_bd_st : Nat := 0
  root_bd : Nat := 0
  num_threads : Nat := 1
  regret_floors : Nat → Int := fun _ => 0
  regret_ceilings : Nat → Int := fun _ => kMaxInt
  regret_scaling : Nat → ℚ := fun _ => 1
  sumprob_scaling : Nat → ℚ := fun _ => 1
  sumprob_streets : Nat → Bool := fun _ => true
  target_p : Nat := 4294967295
  last_checkpoint_it : Nat := 0
  regrets : CFRValues := {}
  sumprobs : CFRValues := {}
  current_strategy : CFRValues := { Ints := fun _ _ => false }

/-- A spawned subgame (`VCFRSubgame`) as far as the pool reads it: its root, its root
board, the parameters injected at launch and the result buffer `FinalVals()`. -/
structure VCFRSubgame where
  root : Node
  root_bd : Nat
  p : Nat := 0
  target_p : Nat := 0
  it : Nat := 0
  opp_probs : List ℚ := []
  thread_index : Nat := 0
  last_checkpoint_it : Nat := 0
  final_vals : Option (List ℚ) := none

/-- The data a traversal writes: the two heaps of the regret, sumprob and
current-strategy stores, `street_buckets_`, the cache `final_vals_`, and the pool
(`available_` as the value of the semaphore, `subgame_running_`, `active_subgames_`,
the global `g_num_active`). -/
structure State where
  imem : IntMem := fun _ => 0
  dmem : DblMem := fun _ => 0
  street_buckets : Nat → Nat → Nat := fun _ _ => 0
  final_vals : Nat → Nat → Nat → Option (List ℚ) := fun _ _ _ => none
  available : Nat := 0
  subgame_running : Nat → Bool := fun _ => false
  active_subgames : Nat → Option VCFRSubgame := fun _ => none
  g_num_active : Nat := 0

namespace VCFR

/-- Unabstracted, integer regrets (`vcfr.cpp` lines 46-89).  `regrets` is the
address of the board's first row in the integer heap. -/
def UpdateRegrets_int (G : Game) (v : VCFR) (node : Node) (vals : List ℚ)
    (succ_vals : List (List ℚ)) (regrets : Nat) (imem : IntMem) : IntMem :=
  let st := node.Street
  let num_succs := node.NumSuccs
  let num_hole_card_pairs := G.NumHoleCardPairs st
  let floor := v.regret_floors st
  let ceiling := v.regret_ceilings st
  if v.nn_regrets then
    loop num_hole_card_pairs (fun i m =>
      let my_regrets := regrets + i * num_succs
      loop num_succs (fun s m =>
        let d := (succ_vals.getD s []).getD i 0 - vals.getD i 0
        let di := toInt (lrint (d * v.regret_scaling st))
        let ri := toInt (m (my_regrets + s) + di)
        if ri < floor then Function.update m (my_regrets + s) floor
        else if ri > ceiling then Function.update m (my_regrets + s) ceiling
        else Function.update m (my_regrets + s) ri) m) imem
  else
    loop num_hole_card_pairs (fun i m =>
      let my_regrets := regrets + i * num_succs
      let r := loop num_succs (fun s (mo : IntMem × Bool) =>
        let d := (succ_vals.getD s []).getD i 0 - vals.getD i 0
        let m1 := Function.update mo.1 (my_regrets + s)
          (toInt (mo.1 (my_regrets + s) + lrint (d * v.regret_scaling st)))
        if m1 (my_regrets + s) < -2000000000 ∨ m1 (my_regrets + s) > 2000000000 then
          (m1, true)
        else (m1, mo.2)) (m, false)
      if r.2 then
        loop num_succs (fun s m =>
          Function.update m (my_regrets + s) (Int.tdiv (m (my_regrets + s)) 2)) r.1
      else r.1) imem

/-- Abstracted, integer regrets; no flooring here (`vcfr.cpp` lines 91-135).
`sb` is `street_buckets_`, `regrets` the address of the table of the node. -/
def UpdateRegretsBucketed_int (G : Game) (v : VCFR) (sb : Nat → Nat → Nat) (node : Node)
    (vals : List ℚ) (succ_vals : List (List ℚ)) (regrets : Nat) (imem : IntMem) : IntMem :=
  let st := node.Street
  let num_succs := node.NumSuccs
  let num_hole_card_pairs := G.NumHoleCardPairs st
  let ceiling := v.regret_ceilings st
  if v.nn_regrets then
    loop num_hole_card_pairs (fun i m =>
      let b := sb st i
      let my_regrets := regrets + b * num_succs
      loop num_succs (fun s m =>
        let d := (succ_vals.getD s []).getD i 0 - vals.getD i 0
        let di := toInt (lrint (d * v.regret_scaling st))
        let ri := toInt (m (my_regrets + s) + di)
        if ri > ceiling then Function.update m (my_regrets + s) ceiling
        else Function.update m (my_regrets + s) ri) m) imem
  else
    loop num_hole_card_pairs (fun i m =>
      let b := sb st i
      let my_regrets := regrets + b * num_succs
      let r := loop num_succs (fun s (mo : IntMem × Bool) =>
        let d := (succ_vals.getD s []).getD i 0 - vals.getD i 0
        let m1 := Function.update mo.1 (my_regrets + s)
          (toInt (mo.1 (my_regrets + s) + lrint (d * v.regret_scaling st)))
        if m1 (my_regrets + s) < -2000000000 ∨ m1 (my_regrets + s) > 2000000000 then
          (m1, true)
        else (m1, mo.2)) (m, false)
      if r.2 then
        loop num_succs (fun s m =>
          Function.update m (my_regrets + s) (Int.tdiv (m (my_regrets + s)) 2)) r.1
      else r.1) imem

/-- Unabstracted, double regrets: no rounding, no scaling (`vcfr.cpp` lines 137-169). -/
def UpdateRegrets_double (G : Game) (v : VCFR) (node : Node) (vals : List ℚ)
    (succ_vals : List (List ℚ)) (regrets : Nat) (dmem : DblMem) : DblMem :=
  let st := node.Street
  let num_succs := node.NumSuccs
  let num_hole_card_pairs := G.NumHoleCardPairs st
  let floor : ℚ := v.regret_floors st
  let ceiling : ℚ := v.regret_ceilings st
  if v.nn_regrets then
    loop num_hole_card_pairs (fun i m =>
      let my_regrets := regrets + i * num_succs
      loop num_succs (fun s m =>
        let newr := m (my_regrets + s) + (succ_vals.getD s []).getD i 0 - vals.getD i 0
        if newr < floor then Function.update m (my_regrets + s) floor
        else if newr > ceiling then Function.update m (my_regrets + s) ceiling
        else Function.update m (my_regrets + s) newr) m) dmem
  else
    loop num_hole_card_pairs (fun i m =>
      let my_regrets := regrets + i * num_succs
      loop num_succs (fun s m =>
        Function.update m (my_regrets + s)
          (m (my_regrets + s) + ((succ_vals.getD s []).getD i 0 - vals.getD i 0))) m) dmem

/-- Abstracted, double regrets; no flooring here (`vcfr.cpp` lines 171-203). -/
def UpdateRegretsBucketed_double (G : Game) (v : VCFR) (sb : Nat → Nat → Nat)
    (node : Node) (vals : List ℚ) (succ_vals : List (List ℚ)) (regrets : Nat)
    (dmem : DblMem) : DblMem :=
  let st := node.Street
  let num_succs := node.NumSuccs
  let num_hole_card_pairs := G.NumHoleCardPairs st
  let ceiling : ℚ := v.regret_ceilings st
  if v.nn_regrets then
    loop num_hole_card_pairs (fun i m =>
      let b := sb st i
      let my_regrets := regrets + b * num_succs
      loop num_succs (fun s m =>
        let newr := m (my_regrets + s) + (succ_vals.getD s []).getD i 0 - vals.getD i 0
        if newr > ceiling then Function.update m (my_regrets + s) ceiling
        else Function.update m (my_regrets + s) newr) m) dmem
  else
    loop num_hole_card_pairs (fun i m =>
      let b := sb st i
      let my_regrets := regrets + b * num_succs
      loop num_succs (fun s m =>
        Function.update m (my_regrets + s)
          (m (my_regrets + s) + ((succ_vals.getD s []).getD i 0 - vals.getD i 0))) m) dmem

/-- Modelled from the spec: `RegretsToProbs` (section 4.A), declared in the absent
`cfr_utils.h`.  `row` reads the `num_succs` values of the row (integers are read as
doubles); the result is the probability row written to `probs`. -/
def RegretsToProbs (row : Nat → ℚ) (num_succs : Nat) (nonneg uniform : Bool)
    (default_succ_index : Nat) (explore : ℚ) (num_nonterminal_succs : Nat)
    (nonterminal_succs : List Bool) : List ℚ :=
  if uniform then List.replicate num_succs (1 / (num_succs : ℚ))
  else
    let r : Nat → ℚ := fun s => if nonneg then max (row s) 0 else row s
    let S : ℚ := ((List.range num_succs).map r).sum
    let base : Nat → ℚ := fun s =>
      if S > 0 then r s / S else if s = default_succ_index then 1 else 0
    if explore > 0 ∧ num_nonterminal_succs > 0 then
      (List.range num_succs).map (fun s =>
        base s * (1 - explore) +
          if nonterminal_succs.getD s false then explore / (num_nonterminal_succs : ℚ)
          else 0)
    else (List.range num_succs).map base

/-- The count and the mask of the non-terminal successors of a node, as computed ahead
of every use of `RegretsToProbs` (`vcfr.cpp` lines 318-327, 512-521, 599-608, 673-682). -/
def NonterminalSuccs (node : Node) : Nat × List Bool :=
  loop node.NumSuccs (fun s (r : Nat × List Bool) =>
    if (node.IthSucc s).Terminal then (r.1, r.2 ++ [false])
    else (r.1 + 1, r.2 ++ [true])) (0, [])

/-- The sumprob update of one successor on integer sumprobs, with the `downscale` flag
(`vcfr.cpp` lines 407-431, the same text as lines 550-574). -/
def SumprobUpdate_int (v : VCFR) (st : Nat) (my_sumprobs : Option Nat) (s : Nat)
    (succ_opp_prob : ℚ) (md : IntMem × Bool) : IntMem × Bool :=
  if v.value_calculation ∨ my_sumprobs = none ∨
      (v.hard_warmup > 0 ∧ v.it ≤ v.hard_warmup) then md
  else
    let a := my_sumprobs.getD 0 + s
    let m1 : IntMem :=
      if (v.hard_warmup = 0 ∧ v.soft_warmup = 0) ∨
          (v.soft_warmup > 0 ∧ v.it ≤ v.soft_warmup) then
        Function.update md.1 a
          (toInt (md.1 a + lrint (succ_opp_prob * v.sumprob_scaling st)))
      else if v.hard_warmup > 0 then
        Function.update md.1 a
          (toInt (md.1 a + lrint (succ_opp_prob * (usub v.it v.hard_warmup : ℚ) *
            v.sumprob_scaling st)))
      else
        Function.update md.1 a
          (toInt (md.1 a + lrint (succ_opp_prob * (usub v.it v.soft_warmup : ℚ) *
            v.sumprob_scaling st)))
    if m1 a > 2000000000 then (m1, true) else (m1, md.2)

/-- The sumprob update of one successor on double sumprobs (`vcfr.cpp` lines 475-492,
the same text as lines 636-653 and 710-727). -/
def SumprobUpdate_double (v : VCFR) (my_sumprobs : Option Nat) (s : Nat)
    (succ_opp_prob : ℚ) (m : DblMem) : DblMem :=
  if v.value_calculation ∨ my_sumprobs = none ∨
      (v.hard_warmup > 0 ∧ v.it ≤ v.hard_warmup) then m
  else if (v.hard_warmup = 0 ∧ v.soft_warmup = 0) ∨
      (v.soft_warmup > 0 ∧ v.it ≤ v.soft_warmup) then
    Function.update m (my_sumprobs.getD 0 + s) (m (my_sumprobs.getD 0 + s) + succ_opp_prob)
  else if v.hard_warmup > 0 then
    Function.update m (my_sumprobs.getD 0 + s)
      (m (my_sumprobs.getD 0 + s) + succ_opp_prob * (usub v.it v.hard_warmup : ℚ))
  else
    Function.update m (my_sumprobs.getD 0 + s)
      (m (my_sumprobs.getD 0 + s) + succ_opp_prob * (usub v.it v.soft_warmup : ℚ))

/-- The hole-card encoding of hand `i` (`vcfr.cpp` lines 384-392 and alike). -/
def Encoding (G : Game) (hands : CanonicalCards) (i : Nat) : Nat :=
  if G.NumCardsForStreet 0 = 1 then hands.Cards i 0
  else hands.Cards i 0 * (G.MaxCard + 1) + hands.Cards i 1

/-- Abstracted, int sumprobs (`vcfr.cpp` lines 373-440).  `current_probs` addresses the
current-strategy table in the double heap, `sumprobs` the sumprob table in the integer
heap; the parameter `nonneg`, which the body never reads, is dropped. -/
def ProcessOppProbsBucketed_int (G : Game) (v : VCFR) (sb : Nat → Nat → Nat) (node : Node)
    (hands : CanonicalCards) (opp_probs : List ℚ) (succ_opp_probs : List (List ℚ))
    (current_probs : Nat) (sumprobs : Option Nat) (dmem : DblMem) (imem : IntMem) :
    List (List ℚ) × IntMem :=
  let st := node.Street
  let num_succs := node.NumSuccs
  let num_hole_card_pairs := G.NumHoleCardPairs st
  loop num_hole_card_pairs (fun i (r : List (List ℚ) × IntMem) =>
    let enc := Encoding G hands i
    let opp_prob := opp_probs.getD enc 0
    if opp_prob = 0 then
      (loop num_succs (fun s sop => setAt2 sop s enc 0) r.1, r.2)
    else
      let b := sb st i
      let my_current_probs := current_probs + b * num_succs
      let my_sumprobs := sumprobs.map (fun a => a + b * num_succs)
      let q := loop num_succs (fun s (q : List (List ℚ) × IntMem × Bool) =>
        let succ_opp_prob := dmul opp_prob (dmem (my_current_probs + s))
        (setAt2 q.1 s enc succ_opp_prob,
          SumprobUpdate_int v st my_sumprobs s succ_opp_prob q.2)) (r.1, r.2, false)
      if q.2.2 then
        (q.1, loop num_succs (fun s m =>
          Function.update m (my_sumprobs.getD 0 + s)
            (Int.tdiv (m (my_sumprobs.getD 0 + s)) 2)) q.2.1)
      else (q.1, q.2.1)) (succ_opp_probs, imem)

/-- Abstracted, double sumprobs (`vcfr.cpp` lines 442-496). -/
def ProcessOppProbsBucketed_double (G : Game) (v : VCFR) (sb : Nat → Nat → Nat)
    (node : Node) (hands : CanonicalCards) (opp_probs : List ℚ)
    (succ_opp_probs : List (List ℚ)) (current_probs : Nat) (sumprobs : Option Nat)
    (dmem : DblMem) : List (List ℚ) × DblMem :=
  let st := node.Street
  let num_succs := node.NumSuccs
  let num_hole_card_pairs := G.NumHoleCardPairs st
  loop num_hole_card_pairs (fun i (r : List (List ℚ) × DblMem) =>
    let enc := Encoding G hands i
    let opp_prob := opp_probs.getD enc 0
    if opp_prob = 0 then
      (loop num_succs (fun s sop => setAt2 sop s enc 0) r.1, r.2)
    else
      let b := sb st i
      let my_current_probs := current_probs + b * num_succs
      let my_sumprobs := sumprobs.map (fun a => a + b * num_succs)
      loop num_succs (fun s (q : List (List ℚ) × DblMem) =>
        let succ_opp_prob := dmul opp_prob (q.2 (my_current_probs + s))
        (setAt2 q.1 s enc succ_opp_prob,
          SumprobUpdate_double v my_sumprobs s succ_opp_prob q.2)) r) (succ_opp_probs, dmem)

/-- Unabstracted, int cs_vals, int sumprobs (`vcfr.cpp` lines 500-585). -/
def ProcessOppProbs_int_int (G : Game) (v : VCFR) (node : Node) (hands : CanonicalCards)
    (nonneg : Bool) (explore : ℚ) (opp_probs : List ℚ) (succ_opp_probs : List (List ℚ))
    (cs_vals : Nat) (sumprobs : Option Nat) (imem : IntMem) : List (List ℚ) × IntMem :=
  let st := node.Street
  let num_succs := node.NumSuccs
  let num_hole_card_pairs := G.NumHoleCardPairs st
  let default_succ_index := node.DefaultSuccIndex
  let nts := NonterminalSuccs node
  loop num_hole_card_pairs (fun i (r : List (List ℚ) × IntMem) =>
    let enc := Encoding G hands i
    let opp_prob := opp_probs.getD enc 0
    if opp_prob = 0 then
      (loop num_succs (fun s sop => setAt2 sop s enc 0) r.1, r.2)
    else
      let my_cs_vals := cs_vals + i * num_succs
      let my_sumprobs :=
        if ¬ v.value_calculation then sumprobs.map (fun a => a + i * num_succs) else none
      let current_probs := RegretsToProbs (fun s => (r.2 (my_cs_vals + s) : ℚ)) num_succs
        nonneg v.uniform default_succ_index explore nts.1 nts.2
      let q := loop num_succs (fun s (q : List (List ℚ) × IntMem × Bool) =>
        let succ_opp_prob := dmul opp_prob (current_probs.getD s 0)
        (setAt2 q.1 s enc succ_opp_prob,
          SumprobUpdate_int v st my_sumprobs s succ_opp_prob q.2)) (r.1, r.2, false)
      if q.2.2 then
        (q.1, loop num_succs (fun s m =>
          Function.update m (my_sumprobs.getD 0 + s)
            (Int.tdiv (m (my_sumprobs.getD 0 + s)) 2)) q.2.1)
      else (q.1, q.2.1)) (succ_opp_probs, imem)

/-- Unabstracted, double cs_vals, double sumprobs (`vcfr.cpp` lines 587-659). -/
def ProcessOppProbs_double_double (G : Game) (v : VCFR) (node : Node)
    (hands : CanonicalCards) (nonneg : Bool) (explore : ℚ) (opp_probs : List ℚ)
    (succ_opp_probs : List (List ℚ)) (cs_vals : Nat) (sumprobs : Option Nat)
    (dmem : DblMem) : List (List ℚ) × DblMem :=
  let num_succs := node.NumSuccs
  let num_hole_card_pairs := G.NumHoleCardPairs node.Street
  let default_succ_index := node.DefaultSuccIndex
  let nts := NonterminalSuccs node
  loop num_hole_card_pairs (fun i (r : List (List ℚ) × DblMem) =>
    let enc := Encoding G hands i
    let opp_prob := opp_probs.getD enc 0
    if opp_prob = 0 then
      (loop num_succs (fun s sop => setAt2 sop s enc 0) r.1, r.2)
    else
      let my_cs_vals := cs_vals + i * num_succs
      let my_sumprobs :=
        if ¬ v.value_calculation then sumprobs.map (fun a => a + i * num_succs) else none
      let current_probs := RegretsToProbs (fun s => r.2 (my_cs_vals + s)) num_succs
        nonneg v.uniform default_succ_index explore nts.1 nts.2
      loop num_succs (fun s (q : List (List ℚ) × DblMem) =>
        let succ_opp_prob := dmul opp_prob (current_probs.getD s 0)
        (setAt2 q.1 s enc succ_opp_prob,
          SumprobUpdate_double v my_sumprobs s succ_opp_prob q.2)) r) (succ_opp_probs, dmem)

/-- Unabstracted, int cs_vals, double sumprobs (`vcfr.cpp` lines 661-733). -/
def ProcessOppProbs_int_double (G : Game) (v : VCFR) (node : Node)
    (hands : CanonicalCards) (nonneg : Bool) (explore : ℚ) (opp_probs : List ℚ)
    (succ_opp_probs : List (List ℚ)) (cs_vals : Nat) (sumprobs : Option Nat)
    (imem : IntMem) (dmem : DblMem) : List (List ℚ) × DblMem :=
  let num_succs := node.NumSuccs
  let num_hole_card_pairs := G.NumHoleCardPairs node.Street
  let default_succ_index := node.DefaultSuccIndex
  let nts := NonterminalSuccs node
  loop num_hole_card_pairs (fun i (r : List (List ℚ) × DblMem) =>
    let enc := Encoding G hands i
    let opp_prob := opp_probs.getD enc 0
    if opp_prob = 0 then
      (loop num_succs (fun s sop => setAt2 sop s enc 0) r.1, r.2)
    else
      let my_cs_vals := cs_vals + i * num_succs
      let my_sumprobs :=
        if ¬ v.value_calculation then sumprobs.map (fun a => a + i * num_succs) else none
      let current_probs := RegretsToProbs (fun s => (imem (my_cs_vals + s) : ℚ)) num_succs
        nonneg v.uniform default_succ_index explore nts.1 nts.2
      loop num_succs (fun s (q : List (List ℚ) × DblMem) =>
        let succ_opp_prob := dmul opp_prob (current_probs.getD s 0)
        (setAt2 q.1 s enc succ_opp_prob,
          SumprobUpdate_double v my_sumprobs s succ_opp_prob q.2)) r) (succ_opp_probs, dmem)

/-- The type of `Process`: state, node, local board, reach vector, `sum_opp_probs`,
`total_card_probs` (possibly null) and `last_st`; the result is the value vector and
the state left behind, unless the run stops. -/
abbrev ProcFn :=
  State → Node → Nat → List ℚ → ℚ → Option (List ℚ) → Nat → Except Abort (List ℚ × State)

/-- The part of `OurChoice` after the successors have been processed (`vcfr.cpp` lines
240-370): the value vector of the node from the vectors `succ_vals` of its successors,
and the regret update.  On an unabstracted node `src` is the store whose table the
pointer `i_all_cs_vals` or `d_all_cs_vals` is taken from: the sumprobs when the average
strategy is used, the regrets otherwise. -/
def OurChoiceVals (E : Env) (v : VCFR) (σ : State) (node : Node) (lbd : Nat)
    (succ_vals : List (List ℚ)) : Except Abort (List ℚ × State) :=
  let st := node.Street
  let num_succs := node.NumSuccs
  let num_hole_card_pairs := E.G.NumHoleCardPairs st
  let nt := node.NonterminalID
  if num_succs = 1 then .ok (succ_vals.getD 0 [], σ)
  else
    let vals0 : List ℚ := List.replicate num_hole_card_pairs 0
    if v.best_response_streets st then
      if v.always_call_preflop ∧ st = 0 then
        let csi := node.CallSuccIndex
        .ok (loop num_hole_card_pairs (fun i vals =>
          setAt vals i ((succ_vals.getD csi []).getD i 0)) vals0, σ)
      else
        .ok (loop num_hole_card_pairs (fun i vals =>
          let mb := loop (num_succs - 1) (fun k (mb : ℚ × Nat) =>
            let sv := (succ_vals.getD (k + 1) []).getD i 0
            if sv > mb.1 then (sv, k + 1) else mb) ((succ_vals.getD 0 []).getD i 0, 0)
          setAt vals i mb.1) vals0, σ)
    else
      let bucketed := (! E.buckets.None st) && decide (node.PotSize < E.BucketThreshold st)
      if bucketed then
        match v.current_strategy.Values_double v.p st nt with
        | .error e => .error e
        | .ok d_all_current_probs =>
          let vals := loop num_hole_card_pairs (fun i vals =>
            let b := σ.street_buckets st i
            let my_current_probs := d_all_current_probs + b * num_succs
            loop num_succs (fun s vals =>
              setAt vals i (vals.getD i 0 +
                (succ_vals.getD s []).getD i 0 * σ.dmem (my_current_probs + s))) vals) vals0
          if ¬ v.value_calculation ∧ ¬ v.pre_phase then
            if v.regrets.Ints v.p st then
              match v.regrets.Values_int v.p st nt with
              | .error e => .error e
              | .ok i_all_regrets =>
                .ok (vals, { σ with imem := (UpdateRegretsBucketed_int E.G v σ.street_buckets
                  node vals succ_vals i_all_regrets σ.imem) })
            else
              match v.regrets.Values_double v.p st nt with
              | .error e => .error e
              | .ok d_all_regrets =>
                .ok (vals, { σ with dmem := (UpdateRegretsBucketed_double E.G v
                  σ.street_buckets node vals succ_vals d_all_regrets σ.dmem) })
          else .ok (vals, σ)
      else
        let default_succ_index := node.DefaultSuccIndex
        let avg := v.value_calculation ∨
          (v.use_avg_for_current_it > 0 ∧ v.it ≥ v.use_avg_for_current_it)
        let src := if avg then v.sumprobs else v.regrets
        let nonneg := if avg then true else (v.nn_regrets && decide (v.regret_floors st ≥ 0))
        let explore := if avg then 0 else v.explore
        let nts := NonterminalSuccs node
        if src.Ints v.p st then
          match src.Values_int v.p st nt with
          | .error e => .error e
          | .ok i_all_cs_vals =>
            let i_bd_cs_vals := i_all_cs_vals + lbd * num_hole_card_pairs * num_succs
            let vals := loop num_hole_card_pairs (fun i vals =>
              let my_cs_vals := i_bd_cs_vals + i * num_succs
              let current_probs := RegretsToProbs (fun s => (σ.imem (my_cs_vals + s) : ℚ))
                num_succs nonneg v.uniform default_succ_index explore nts.1 nts.2
              loop num_succs (fun s vals =>
                setAt vals i (vals.getD i 0 +
                  (succ_vals.getD s []).getD i 0 * current_probs.getD s 0)) vals) vals0
            if ¬ v.value_calculation ∧ ¬ v.pre_phase then
              .ok (vals, { σ with imem :=
                (UpdateRegrets_int E.G v node vals succ_vals i_bd_cs_vals σ.imem) })
            else .ok (vals, σ)
        else
          match src.Values_double v.p st nt with
          | .error e => .error e
          | .ok d_all_cs_vals =>
            let d_bd_cs_vals := d_all_cs_vals + lbd * num_hole_card_pairs * num_succs
            let vals := loop num_hole_card_pairs (fun i vals =>
              let my_cs_vals := d_bd_cs_vals + i * num_succs
              let current_probs := RegretsToProbs (fun s => σ.dmem (my_cs_vals + s))
                num_succs nonneg v.uniform default_succ_index explore nts.1 nts.2
              loop num_succs (fun s vals =>
                setAt vals i (vals.getD i 0 +
                  (succ_vals.getD s []).getD i 0 * current_probs.getD s 0)) vals) vals0
            if ¬ v.value_calculation ∧ ¬ v.pre_phase then
              .ok (vals, { σ with dmem :=
                (UpdateRegrets_double E.G v node vals succ_vals d_bd_cs_vals σ.dmem) })
            else .ok (vals, σ)

/-- The traverser's turn (`vcfr.cpp` lines 205-371): process every successor in
ascending order, then combine.  `proc` is the recursive call of `Process`. -/
def OurChoice (proc : ProcFn) (E : Env) (v : VCFR) (σ : State) (node : Node) (lbd : Nat)
    (opp_probs : List ℚ) (sum_opp_probs : ℚ) (total_card_probs : Option (List ℚ)) :
    Except Abort (List ℚ × State) :=
  match loopM node.NumSuccs (fun s (r : List (List ℚ) × State) =>
      match proc r.2 (node.IthSucc s) lbd opp_probs sum_opp_probs total_card_probs
          node.Street with
      | .ok (sv, σ1) => .ok (r.1 ++ [sv], σ1)
      | .error e => .error e) ([], σ) with
  | .error e => .error e
  | .ok (succ_vals, σ1) => OurChoiceVals E v σ1 node lbd succ_vals

/-- The part of `OppChoice` that computes the reach vectors of the successors and
updates the sumprobs (`vcfr.cpp` lines 743-868).  On an unabstracted node `src` is the
store the current-strategy values are taken from. -/
def OppChoiceReach (E : Env) (v : VCFR) (σ : State) (node : Node) (lbd : Nat)
    (opp_probs : List ℚ) : Except Abort (List (List ℚ) × State) :=
  let st := node.Street
  let num_succs := node.NumSuccs
  let num_hole_card_pairs := E.G.NumHoleCardPairs st
  let hands := E.Hands st lbd
  if num_succs = 1 then .ok ([opp_probs], σ)
  else
    let nt := node.NonterminalID
    let opp := v.p ^^^ 1
    let max_card1 := E.G.MaxCard + 1
    let num_enc := if E.G.NumCardsForStreet 0 = 1 then max_card1 else max_card1 * max_card1
    let succ_opp_probs : List (List ℚ) := List.replicate num_succs (List.replicate num_enc 0)
    let explore := if v.value_calculation ∧ ¬ v.br_current then 0 else v.explore
    let bucketed := (! E.buckets.None st) && decide (node.PotSize < E.BucketThreshold st)
    let avg := (v.value_calculation ∧ ¬ v.br_current) ∨
      (v.use_avg_for_current_it > 0 ∧ v.it ≥ v.use_avg_for_current_it)
    let src := if avg then v.sumprobs else v.regrets
    -- The "all" pointers of the sumprobs: `(i_all_sumprobs, d_all_sumprobs)`.
    match (if v.sumprob_streets st ∧ v.sumprobs.Players opp ∧ ¬ v.pre_phase ∧
              ¬ v.value_calculation then
            if v.sumprobs.Ints opp st then
              (v.sumprobs.Values_int opp st nt).map (fun a => (some a, none))
            else (v.sumprobs.Values_double opp st nt).map (fun a => (none, some a))
          else .ok (none, none) : Except Abort (Option Nat × Option Nat)) with
    | .error e => .error e
    | .ok (i_all_sumprobs, d_all_sumprobs) =>
      let off := lbd * num_hole_card_pairs * num_succs
      let nonneg :=
        if v.value_calculation ∧ ¬ v.br_current then true
        else (v.nn_regrets && decide (v.regret_floors st ≥ 0))
      if bucketed then
        match v.current_strategy.Values_double opp st nt with
        | .error e => .error e
        | .ok d_all_current_probs =>
          match d_all_sumprobs with
          | some d_sumprobs =>
            let r := ProcessOppProbsBucketed_double E.G v σ.street_buckets node hands
              opp_probs succ_opp_probs d_all_current_probs (some d_sumprobs) σ.dmem
            .ok (r.1, { σ with dmem := r.2 })
          | none =>
            let r := ProcessOppProbsBucketed_int E.G v σ.street_buckets node hands
              opp_probs succ_opp_probs d_all_current_probs i_all_sumprobs σ.dmem σ.imem
            .ok (r.1, { σ with imem := r.2 })
      else
        let i_sumprobs := i_all_sumprobs.map (fun a => a + off)
        let d_sumprobs := d_all_sumprobs.map (fun a => a + off)
        if src.Ints opp st then
          match src.Values_int opp st nt with
          | .error e => .error e
          | .ok i_all_cs_vals =>
            let i_cs_vals := i_all_cs_vals + off
            match d_sumprobs with
            | some d =>
              let r := ProcessOppProbs_int_double E.G v node hands nonneg explore opp_probs
                succ_opp_probs i_cs_vals (some d) σ.imem σ.dmem
              .ok (r.1, { σ with dmem := r.2 })
            | none =>
              let r := ProcessOppProbs_int_int E.G v node hands nonneg explore opp_probs
                succ_opp_probs i_cs_vals i_sumprobs σ.imem
              .ok (r.1, { σ with imem := r.2 })
        else
          match src.Values_double opp st nt with
          | .error e => .error e
          | .ok d_all_cs_vals =>
            let r := ProcessOppProbs_double_double E.G v node hands nonneg explore opp_probs
              succ_opp_probs (d_all_cs_vals + off) d_sumprobs σ.dmem
            .ok (r.1, { σ with dmem := r.2 })

/-- The opponent's turn (`vcfr.cpp` lines 735-935).  `proc` is the recursive call of
`Process`; the parameters `sum_opp_probs` and `total_card_probs`, which the body never
reads, are dropped. -/
def OppChoice (proc : ProcFn) (E : Env) (v : VCFR) (σ : State) (node : Node) (lbd : Nat)
    (opp_probs : List ℚ) : Except Abort (List ℚ × State) :=
  let st := node.Street
  let num_hole_card_pairs := E.G.NumHoleCardPairs st
  let hands := E.Hands st lbd
  match OppChoiceReach E v σ node lbd opp_probs with
  | .error e => .error e
  | .ok (succ_opp_probs, σ1) =>
    match loopM node.NumSuccs (fun s (r : Option (List ℚ) × State) =>
        let c := E.CommonBetResponseCalcs st hands (succ_opp_probs.getD s [])
        if v.prune ∧ c.1 = 0 then .ok r
        else
          match proc r.2 (node.IthSucc s) lbd (succ_opp_probs.getD s []) c.1 (some c.2)
              st with
          | .error e => .error e
          | .ok (succ_vals, σ2) =>
            match r.1 with
            | none => .ok (some succ_vals, σ2)
            | some vals =>
              .ok (some (loop num_hole_card_pairs (fun i vals =>
                setAt vals i (vals.getD i 0 + succ_vals.getD i 0)) vals), σ2))
        (none, σ1) with
    | .error e => .error e
    | .ok (none, σ2) => .ok (List.replicate num_hole_card_pairs 0, σ2)
    | .ok (some vals, σ2) => .ok (vals, σ2)

/-- The worker's completion signal `Post` (`vcfr.cpp` lines 1087-1100): clear
`subgame_running_[t]`, then post the semaphore. -/
def Post (σ : State) (t : Nat) : State :=
  { σ with subgame_running := Function.update σ.subgame_running t false,
           available := σ.available + 1 }

/-- The join of a finished subgame held in slot `t` (`vcfr.cpp` lines 1179-1187, the same
text as lines 1128-1137): its result buffer goes to the cache `final_vals_`, the slot
is emptied and `g_num_active` decremented.  `pthread_join` on a thread that has
signalled its end returns at once. -/
def JoinSubgame (σ : State) (t : Nat) (subgame : VCFRSubgame) : State :=
  { σ with
    final_vals := (fun p nt bd =>
      if p = subgame.root.PlayerActing ∧ nt = subgame.root.NonterminalID ∧
          bd = subgame.root_bd then subgame.final_vals
      else σ.final_vals p nt bd),
    active_subgames := Function.update σ.active_subgames t none,
    g_num_active := usub σ.g_num_active 1 }

/-- The main thread's side of `SpawnSubgame` (`vcfr.cpp` lines 1157-1210) on the
sequential state of the pool.  A `sem_wait` on a semaphore at 0 is `Blocked`; the worker
started by `pthread_create` acts on the state only through `Post`. -/
def SpawnSubgame (v : VCFR) (σ : State) (node : Node) (bd : Nat) (opp_probs : List ℚ) :
    Except Abort State :=
  if σ.available = 0 then .error Abort.Blocked
  else
    let σ1 : State := { σ with available := σ.available - 1 }
    let t := ((List.range v.num_threads).find? (fun t => ! σ1.subgame_running t)).getD
      v.num_threads
    if t = v.num_threads then .error Abort.ConcurrencyInvariantViolation
    else
      let σ2 : State :=
        match σ1.active_subgames t with
        | some old_subgame => JoinSubgame σ1 t old_subgame
        | none => σ1
      if (σ1.active_subgames t).isSome ∧ v.num_threads = 1 ∧ σ2.g_num_active ≠ 0 then
        .error Abort.ConcurrencyInvariantViolation
      else
        let subgame : VCFRSubgame :=
          { root := node, root_bd := bd, p := v.p, target_p := v.target_p, it := v.it,
            opp_probs := opp_probs, thread_index := t,
            last_checkpoint_it := v.last_checkpoint_it }
        let σ3 : State := { σ2 with
          subgame_running := Function.update σ2.subgame_running t true,
          active_subgames := Function.update σ2.active_subgames t (some subgame),
          g_num_active := (σ2.g_num_active + 1) % 4294967296 }
        if v.num_threads = 1 ∧ σ3.g_num_active ≠ 1 then
          .error Abort.ConcurrencyInvariantViolation
        else .ok σ3

/-- The board-dealing boundary (`vcfr.cpp` lines 937-1085).  `proc` is the recursive call
of `Process`. -/
def StreetInitial (proc : ProcFn) (E : Env) (v : VCFR) (σ : State) (node : Node)
    (plbd : Nat) (opp_probs : List ℚ) : Except Abort (List ℚ × State) :=
  let nst := node.Street
  let pst := usub nst 1
  let prev_num_hole_card_pairs := E.G.NumHoleCardPairs pst
  if nst = v.subgame_street ∧ ¬ v.subgame then
    if v.pre_phase then
      match SpawnSubgame v σ node plbd opp_probs with
      | .error e => .error e
      | .ok σ1 => .ok (List.replicate prev_num_hole_card_pairs 0, σ1)
    else
      let p := node.PlayerActing
      let nt := node.NonterminalID
      match σ.final_vals p nt plbd with
      | none => .error Abort.MissingFinalVals
      | some final_vals =>
        .ok (final_vals, { σ with final_vals := (fun p' nt' bd' =>
          if p' = p ∧ nt' = nt ∧ bd' = plbd then none else σ.final_vals p' nt' bd') })
  else
    let max_street := E.G.MaxStreet
    let num_next_board_cards := E.G.NumBoardCards nst
    let pred_hands := E.Hands pst plbd
    let max_card := E.G.MaxCard
    let vals0 : List ℚ := List.replicate prev_num_hole_card_pairs 0
    let prev_canons1 := loop prev_num_hole_card_pairs (fun ph (pc : Nat → Nat) =>
      if pred_hands.NumVariants ph > 0 then
        Function.update pc
          (pred_hands.Cards ph 0 * (max_card + 1) + pred_hands.Cards ph 1) ph
      else pc) E.uninitialised
    let prev_canons := loop prev_num_hole_card_pairs (fun ph (pc : Nat → Nat) =>
      if pred_hands.NumVariants ph = 0 then
        Function.update pc
          (pred_hands.Cards ph 0 * (max_card + 1) + pred_hands.Cards ph 1)
          (pc (pred_hands.Canon ph))
      else pc) prev_canons1
    let pgbd := if v.root_bd_st = 0 then plbd
      else E.B.GlobalIndex v.root_bd_st v.root_bd pst plbd
    let ngbd_begin := E.B.SuccBoardBegin pst pgbd nst
    let ngbd_end := E.B.SuccBoardEnd pst pgbd nst
    match loopM (ngbd_end - ngbd_begin) (fun k (r : List ℚ × State) =>
        let ngbd := ngbd_begin + k
        let nlbd := if v.root_bd_st = 0 then ngbd
          else E.B.LocalIndex v.root_bd_st v.root_bd nst ngbd
        let hands := E.Hands nst nlbd
        let σ1 : State :=
          if ¬ E.buckets.None nst then
            let next_num_hole_card_pairs := E.G.NumHoleCardPairs nst
            { r.2 with street_buckets := (loop next_num_hole_card_pairs
                (fun i (sb : Nat → Nat → Nat) =>
                  let h :=
                    if nst = max_street then
                      let cards : Nat → Nat := fun j =>
                        if j < 2 then hands.Cards i j
                        else if j < 2 + num_next_board_cards then E.B.Board nst ngbd (j - 2)
                        else 0
                      ngbd * next_num_hole_card_pairs + E.HCPIndex nst cards
                    else ngbd * next_num_hole_card_pairs + i
                  Function.update sb nst (Function.update (sb nst) i (E.buckets.Bucket nst h)))
                r.2.street_buckets) }
          else r.2
        match proc σ1 node nlbd opp_probs 0 none nst with
        | .error e => .error e
        | .ok (next_vals, σ2) =>
          let board_variants := E.B.NumVariants nst ngbd
          let num_next_hands := hands.NumRaw
          .ok (loop num_next_hands (fun nh vals =>
            let encoding := hands.Cards nh 0 * (max_card + 1) + hands.Cards nh 1
            let prev_canon := prev_canons encoding
            setAt vals prev_canon
              (vals.getD prev_canon 0 + (board_variants : ℚ) * next_vals.getD nh 0)) r.1, σ2))
        (vals0, σ) with
    | .error e => .error e
    | .ok (vals1, σ1) =>
      let scale_down : ℚ := E.G.StreetPermutations nst
      let vals2 := loop prev_num_hole_card_pairs (fun ph vals =>
        let prev_hand_variants := pred_hands.NumVariants ph
        if prev_hand_variants > 0 then
          setAt vals ph (vals.getD ph 0 / (scale_down * (prev_hand_variants : ℚ)))
        else vals) vals1
      .ok (loop prev_num_hole_card_pairs (fun ph vals =>
        if pred_hands.NumVariants ph = 0 then
          setAt vals ph (vals.getD (prev_canons (pred_hands.Canon ph)) 0)
        else vals) vals2, σ1)

/-- The dispatch on the kind of node (`vcfr.cpp` lines 1212-1237).  The first argument
bounds the depth of the recursion; `OutOfFuel` is returned when it is used up. -/
def Process (E : Env) (v : VCFR) : Nat → ProcFn
  | 0 => fun _ _ _ _ _ _ _ => .error Abort.OutOfFuel
  | fuel + 1 => fun σ node lbd opp_probs sum_opp_probs total_card_probs last_st =>
    let st := node.Street
    if node.Terminal then
      if node.Showdown then
        .ok (E.Showdown node (E.Hands st lbd) opp_probs sum_opp_probs total_card_probs, σ)
      else
        .ok (E.Fold node v.p (E.Hands st lbd) opp_probs sum_opp_probs total_card_probs, σ)
    else if st > last_st then
      StreetInitial (Process E v fuel) E v σ node lbd opp_probs
    else if node.PlayerActing = v.p then
      OurChoice (Process E v fuel) E v σ node lbd opp_probs sum_opp_probs total_card_probs
    else
      OppChoice (Process E v fuel) E v σ node lbd opp_probs

end VCFR

/-! ## Conditions on the betting tree, the collaborators and the cache -/

mutual
/-- The number of nodes on the longest path from a node down to a leaf. -/
def Node.height : Node → Nat
  | .mk _ _ _ _ _ _ _ _ succs => Node.heightList succs + 1
/-- The largest height among the nodes of a list. -/
def Node.heightList : List Node → Nat
  | [] => 0
  | c :: cs => max c.height (Node.heightList cs)
end

mutual
/-- The shape of a betting tree: no street beyond `max_street`, and every successor of a
node is on the node's street or is a non-terminal node of the next street. -/
def Node.WellFormed (max_street : Nat) : Node → Bool
  | .mk st _ _ _ _ _ _ _ succs =>
    decide (st ≤ max_street) && Node.WellFormedList max_street st succs
/-- The nodes of a list are well-formed successors of a node on street `st`. -/
def Node.WellFormedList (max_street : Nat) (st : Nat) : List Node → Bool
  | [] => true
  | c :: cs =>
    (decide (c.Street = st) || (decide (c.Street = st + 1) && ! c.Terminal)) &&
      c.WellFormed max_street && Node.WellFormedList max_street st cs
end

/-- The contract of the terminal payoffs: the vector they return has one value per
hole-card pair of the node's street. -/
def PayoffShape (E : Env) : Prop :=
  (∀ node hands op sop tcp,
    (E.Showdown node hands op sop tcp).length = E.G.NumHoleCardPairs node.Street) ∧
  (∀ node p hands op sop tcp,
    (E.Fold node p hands op sop tcp).length = E.G.NumHoleCardPairs node.Street)

/-- The result buffers of the subgames, in the cache `final_vals_` or still held by a
slot of the pool, have one value per hole-card pair of the street before the subgame
street. -/
def CacheShape (E : Env) (v : VCFR) (σ : State) : Prop :=
  (∀ p nt bd fv, σ.final_vals p nt bd = some fv →
    fv.length = E.G.NumHoleCardPairs (usub v.subgame_street 1)) ∧
  (∀ t sg fv, σ.active_subgames t = some sg → sg.final_vals = some fv →
    fv.length = E.G.NumHoleCardPairs (usub v.subgame_street 1))

/-- The engine splits no subgame off (the subgame street lies beyond the last street)
and its current-strategy cache holds doubles. -/
def Quiet (E : Env) (v : VCFR) : Prop :=
  E.G.MaxStreet < v.subgame_street ∧ ∀ p st, v.current_strategy.Ints p st = false

/-- A property of what a run returns, or else of the way it stops. -/
def Outcome {α : Type} (P : α → Prop) (Q : Abort → Prop) (r : Except Abort α) : Prop :=
  match r with
  | .ok a => P a
  | .error e => Q e

/-- What a call returns or how it stops: a vector of `N` values and a state whose cache
is in shape, or a stop that is not the exhaustion of the fuel and that a quiet engine
never makes. -/
def ShapeResult (E : Env) (v : VCFR) (N : Nat) (r : Except Abort (List ℚ × State)) : Prop :=
  match r with
  | .ok (vals, σ') => vals.length = N ∧ CacheShape E v σ'
  | .error e => e ≠ Abort.OutOfFuel ∧ ¬ Quiet E v

/-! ## A one-street example: a traverser's node over a showdown and a fold -/

/-- A showdown leaf on street 0. -/
def exampleShowdown : Node := Node.mk 0 true true 1 0 0 0 0 []

/-- A fold leaf on street 0. -/
def exampleFold : Node := Node.mk 0 true false 1 0 0 0 0 []

/-- A node of player 0 on street 0 with the two leaves as successors. -/
def exampleRoot (default_succ_index : Nat) : Node :=
  Node.mk 0 false false 0 0 0 default_succ_index 1 [exampleShowdown, exampleFold]

/-- Three hole-card pairs, no buckets; for hand 0 the showdown is worth `+2` and the
fold `-1`. -/
def exampleEnv : Env :=
  { G := { NumHoleCardPairs := fun _ => 3 },
    Showdown := fun _ _ _ _ _ => [2, 0, 0],
    Fold := fun _ _ _ _ _ _ => [-1, 0, 0] }

/-- The regret row of hand 0 at the example node after a run, if the run returns. -/
def exampleRow (r : Except Abort (List ℚ × State)) : Option (Int × Int) :=
  r.toOption.map (fun x => (x.2.imem 0, x.2.imem 1))

/-! ## A two-street example: one board, a canonical and a non-canonical hand -/

/-- The hands of street 0: hand 0 (cards 1, 0) is canonical with two variants, hand 1
(cards 2, 0) is a variant of it. -/
def exampleHands0 : CanonicalCards :=
  { Cards := fun i k => if k = 0 then i + 1 else 0,
    NumVariants := fun i => if i = 0 then 2 else 0,
    Canon := fun _ => 4,
    NumRaw := 2 }

/-- The hands of street 1: the single hand (cards 1, 0). -/
def exampleHands1 : CanonicalCards :=
  { Cards := fun _ k => if k = 0 then 1 else 0, NumRaw := 1 }

/-- Two hole-card pairs on street 0, one on street 1, cards up to 3, one successor board,
a showdown worth 5. -/
def exampleEnv2 : Env :=
  { G := { MaxStreet := 1, MaxCard := 3, NumHoleCardPairs := fun st => if st = 0 then 2 else 1 },
    B := { SuccBoardEnd := fun _ _ _ => 1 },
    Hands := fun st _ => if st = 0 then exampleHands0 else exampleHands1,
    Showdown := fun node _ _ _ _ => List.replicate (if node.Street = 0 then 2 else 1) 5,
    Fold := fun node _ _ _ _ _ => List.replicate (if node.Street = 0 then 2 else 1) 0 }

/-- The first node of street 1, of player 0, over a showdown leaf. -/
def exampleStreet1 : Node :=
  Node.mk 1 false false 0 0 0 0 0 [Node.mk 1 true true 1 0 0 0 0 []]

/-- An engine without subgames: the subgame street lies beyond the last street. -/
def exampleEngine2 : VCFR := { subgame_street := 2 }

/-! ## Construction -/

/-- The configuration `CFRConfig`, as far as the constructor of `VCFR` reads it. -/
structure CFRConfig where
  SubgameStreet : Nat := 0
  NNR : Bool := false
  Uniform : Bool := false
  SoftWarmup : Nat := 0
  HardWarmup : Nat := 0
  Explore : ℚ := 0
  UseAvgForCurrentIt : Nat := 0
  SumprobStreets : List Nat := []
  RegretFloors : List Int := []
  RegretCeilings : List Int := []
  RegretScaling : List ℚ := []
  SumprobScaling : List ℚ := []

/-- The fatal exits of the constructor of `VCFR` (`exit(-1)`), one for each diagnostic
line that it prints on a configuration vector. -/
inductive ConfigurationError where
  | RegretFloorVectorTooSmall
  | RegretCeilingVectorTooSmall
  | RegretScalingVectorTooSmall
  | SumprobScalingVectorTooSmall
  deriving DecidableEq, Repr

/-- The constructor `VCFR::VCFR` (`vcfr.cpp` lines 1321-1518).  `uninit` and `σ0` hold
what the object and the global `g_num_active` hold before the body runs: the fields the
body does not assign (`p_`, the value stores, the heaps) keep that content, and a fresh
array (`new T[n]`) starts from the content of the field it is assigned to.  The cache
`final_vals_`, null or filled with null pointers, is the all-null cache.  The fields
that no traversal reads (`num_players_`, `double_regrets_`, `double_sumprobs_`,
`compressed_streets_`, `pthread_ids_`, `sumprob_defaults_`) are left out, `sem_init`
succeeds, and the local preflop hand tree is the hand tree of the collaborators. -/
def VCFR.New (E : Env) (cc : CFRConfig) (num_threads : Nat) (uninit : VCFR) (σ0 : State) :
    Except ConfigurationError (VCFR × State) :=
  let max_street := E.G.MaxStreet
  let ssv := cc.SumprobStreets
  let sumprob_streets : Nat → Bool :=
    if ssv.length = 0 then
      loop (max_street + 1) (fun st a => Function.update a st true) uninit.sumprob_streets
    else
      loop ssv.length (fun i a => Function.update a (ssv.getD i 0) true)
        (loop (max_street + 1) (fun st a => Function.update a st false)
          uninit.sumprob_streets)
  let fv := cc.RegretFloors
  match (if fv.length = 0 then
          .ok (loop (max_street + 1) (fun s a => Function.update a s 0) uninit.regret_floors)
        else if fv.length < max_street + 1 then
          .error ConfigurationError.RegretFloorVectorTooSmall
        else
          .ok (loop (max_street + 1) (fun s a =>
            if fv.getD s 0 = 1 then Function.update a s kMinInt
            else Function.update a s (fv.getD s 0)) uninit.regret_floors) :
        Except ConfigurationError (Nat → Int)) with
  | .error e => .error e
  | .ok regret_floors =>
  let cv := cc.RegretCeilings
  match (if cv.length = 0 then
          .ok (loop (max_street + 1) (fun s a => Function.update a s kMaxInt)
            uninit.regret_ceilings)
        else if cv.length < max_street + 1 then
          .error ConfigurationError.RegretCeilingVectorTooSmall
        else
          .ok (loop (max_street + 1) (fun s a =>
            if cv.getD s 0 = 0 then Function.update a s kMaxInt
            else Function.update a s (cv.getD s 0)) uninit.regret_ceilings) :
        Except ConfigurationError (Nat → Int)) with
  | .error e => .error e
  | .ok regret_ceilings =>
  let rv := cc.RegretScaling
  match (if rv.length = 0 then
          .ok (loop (max_street + 1) (fun s a => Function.update a s 1) uninit.regret_scaling)
        else if rv.length < max_street + 1 then
          .error ConfigurationError.RegretScalingVectorTooSmall
        else
          .ok (loop (max_street + 1) (fun s a => Function.update a s (rv.getD s 0))
            uninit.regret_scaling) :
        Except ConfigurationError (Nat → ℚ)) with
  | .error e => .error e
  | .ok regret_scaling =>
  let sv := cc.SumprobScaling
  match (if sv.length = 0 then
          .ok (loop (max_street + 1) (fun s a => Function.update a s 1)
            uninit.sumprob_scaling)
        else if sv.length < max_street + 1 then
          .error ConfigurationError.SumprobScalingVectorTooSmall
        else
          .ok (loop (max_street + 1) (fun s a => Function.update a s (sv.getD s 0))
            uninit.sumprob_scaling) :
        Except ConfigurationError (Nat → ℚ)) with
  | .error e => .error e
  | .ok sumprob_scaling =>
  let street_buckets : Nat → Nat → Nat :=
    if ¬ E.buckets.None 0 then
      let num_hole_card_pairs := E.G.NumHoleCardPairs 0
      if max_street = 0 then
        let hands := E.Hands 0 0
        loop num_hole_card_pairs (fun i (sb : Nat → Nat → Nat) =>
          Function.update sb 0 (Function.update (sb 0) i
            (E.buckets.Bucket 0 (E.HCPIndex 0 (fun j => hands.Cards i j)))))
          σ0.street_buckets
      else
        loop num_hole_card_pairs (fun i (sb : Nat → Nat → Nat) =>
          Function.update sb 0 (Function.update (sb 0) i (E.buckets.Bucket 0 i)))
          σ0.street_buckets
    else σ0.street_buckets
  .ok ({ uninit with
          num_threads := num_threads,
          target_p := 4294967295,
          subgame_street := cc.SubgameStreet,
          nn_regrets := cc.NNR,
          uniform := cc.Uniform,
          soft_warmup := cc.SoftWarmup,
          hard_warmup := cc.HardWarmup,
          explore := cc.Explore,
          use_avg_for_current_it := cc.UseAvgForCurrentIt,
          always_call_preflop := false,
          sumprob_streets := sumprob_streets,
          regret_floors := regret_floors,
          regret_ceilings := regret_ceilings,
          regret_scaling := regret_scaling,
          sumprob_scaling := sumprob_scaling,
          it := 0,
          last_checkpoint_it := 0,
          subgame := false,
          root_bd_st := 0,
          root_bd := 0,
          best_response_streets :=
            (loop (max_street + 1) (fun st a => Function.update a st false)
              uninit.best_response_streets),
          br_current := false,
          value_calculation := false,
          prune := true,
          pre_phase := false },
       { σ0 with
          street_buckets := street_buckets,
          subgame_running :=
            (loop num_threads (fun t a => Function.update a t false) σ0.subgame_running),
          active_subgames :=
            (loop num_threads (fun t a => Function.update a t none) σ0.active_subgames),
          available := 0,
          final_vals := (fun _ _ _ => none) })

/-! ## The join of the last subgames -/

/-- The joining loop of `WaitForFinalSubgames` (`vcfr.cpp` lines 1118-1143), for the
value `available` of the semaphore and `num_remaining` subgames to join.  Each turn waits
on the semaphore (`Blocked` when it is at 0: in this sequential model no worker can
post), then joins the first slot that holds a subgame and is not running, or joins
nothing when there is none. -/
def VCFR.JoinFinished (v : VCFR) : Nat → State → Nat → Except Abort State
  | _, σ, 0 => .ok σ
  | 0, _, _ + 1 => .error Abort.Blocked
  | available + 1, σ, num_remaining + 1 =>
    let σ1 : State := { σ with available := available }
    match (List.range v.num_threads).find? (fun t =>
        ! σ1.subgame_running t && (σ1.active_subgames t).isSome) with
    | none => VCFR.JoinFinished v available σ1 (num_remaining + 1)
    | some t =>
      match σ1.active_subgames t with
      | none => .error Abort.ConcurrencyInvariantViolation
      | some subgame =>
        VCFR.JoinFinished v available (VCFR.JoinSubgame σ1 t subgame) num_remaining

/-- The barrier `WaitForFinalSubgames` (`vcfr.cpp` lines 1106-1149) on the sequential
state of the pool. -/
def VCFR.WaitForFinalSubgames (v : VCFR) (σ : State) : Except Abort State :=
  let num_remaining := loop v.num_threads (fun t (n : Nat) =>
    if (σ.active_subgames t).isSome then n + 1 else n) 0
  if num_remaining ≠ σ.g_num_active then .error Abort.ConcurrencyInvariantViolation
  else
    match VCFR.JoinFinished v σ.available σ num_remaining with
    | .error e => .error e
    | .ok σ1 =>
      if σ1.g_num_active > 0 then .error Abort.ConcurrencyInvariantViolation
      else .ok σ1

/-- A pool of one thread whose slot holds a finished subgame that the semaphore has
announced. -/
def examplePool : State :=
  { available := 1,
    active_subgames := fun t =>
      if t = 0 then some { root := exampleStreet1, root_bd := 0, final_vals := some [1, 2] }
      else none,
    g_num_active := 1 }

/-- Two runs end alike: both return, with results that a relation ties, or both stop in
the same way. -/
def Alike {α β : Type} (R : α → β → Prop) (x : Except Abort α) (y : Except Abort β) : Prop :=
  match x, y with
  | .ok a, .ok b => R a b
  | .error e, .error e' => e = e'
  | _, _ => False

/-- The one-street example with a reach summary that adds the reach vector up. -/
def exampleSumEnv : Env :=
  { exampleEnv with CommonBetResponseCalcs := fun _ _ op => (op.sum, []) }

/-- The invariant of the pool: the counter `g_num_active` is the number of the slots that
hold a subgame, counted as `WaitForFinalSubgames` counts them. -/
def PoolInvariant (v : VCFR) (σ : State) : Prop :=
  loop v.num_threads (fun t (n : Nat) =>
    if (σ.active_subgames t).isSome then n + 1 else n) 0 = σ.g_num_active

/-- The reverse canonical lookup that `StreetInitial` builds for the hands of the previous
street (`vcfr.cpp` lines 969-984): the table `prev_canons`, from a hole-card encoding to
the index of the canonical hand. -/
def VCFR.PrevCanons (E : Env) (pst plbd : Nat) : Nat → Nat :=
  let prev_num_hole_card_pairs := E.G.NumHoleCardPairs pst
  let pred_hands := E.Hands pst plbd
  let max_card := E.G.MaxCard
  let prev_canons1 := loop prev_num_hole_card_pairs (fun ph (pc : Nat → Nat) =>
    if pred_hands.NumVariants ph > 0 then
      Function.update pc
        (pred_hands.Cards ph 0 * (max_card + 1) + pred_hands.Cards ph 1) ph
    else pc) E.uninitialised
  loop prev_num_hole_card_pairs (fun ph (pc : Nat → Nat) =>
    if pred_hands.NumVariants ph = 0 then
      Function.update pc
        (pred_hands.Cards ph 0 * (max_card + 1) + pred_hands.Cards ph 1)
        (pc (pred_hands.Canon ph))
    else pc) prev_canons1

/-- The state in which `StreetInitial` calls `Process` for the successor board `ngbd`
(local index `nlbd`): with a bucketed street the buckets of the hands on that board are
entered in `street_buckets` first (`vcfr.cpp` lines 996-1016). -/
def VCFR.EnterBoard (E : Env) (node : Node) (ngbd nlbd : Nat) (σ : State) : State :=
  let nst := node.Street
  let max_street := E.G.MaxStreet
  let num_next_board_cards := E.G.NumBoardCards nst
  let hands := E.Hands nst nlbd
  if ¬ E.buckets.None nst then
    let next_num_hole_card_pairs := E.G.NumHoleCardPairs nst
    { σ with street_buckets := (loop next_num_hole_card_pairs
        (fun i (sb : Nat → Nat → Nat) =>
          let h :=
            if nst = max_street then
              let cards : Nat → Nat := fun j =>
                if j < 2 then hands.Cards i j
                else if j < 2 + num_next_board_cards then E.B.Board nst ngbd (j - 2)
                else 0
              ngbd * next_num_hole_card_pairs + E.HCPIndex nst cards
            else ngbd * next_num_hole_card_pairs + i
          Function.update sb nst (Function.update (sb nst) i (E.buckets.Bucket nst h)))
        σ.street_buckets) }
  else σ

/-! ## An opponent's node with two hands -/

/-- Two hole-card pairs on the one street, with the encodings 4 and 8, and no buckets. -/
def exampleOppEnv : Env :=
  { G := { MaxCard := 3, NumHoleCardPairs := fun _ => 2 },
    Hands := fun _ _ => exampleHands0 }

/-- A learning run of player 1 with double regrets and integer sumprobs, the sumprob
table at the address 100, scaled by 4. -/
def exampleDoubleRegrets : VCFR :=
  { p := 1, regrets := { Ints := fun _ _ => false },
    sumprobs := { addr := fun _ _ _ => 100 }, sumprob_scaling := fun _ => 4 }

/-- A learning run of player 1 with integer regrets and integer sumprobs, the sumprob
table at the address 100, scaled by 4. -/
def exampleIntRegrets : VCFR :=
  { p := 1, sumprobs := { addr := fun _ _ _ => 100 }, sumprob_scaling := fun _ => 4 }

/-- The heaps of the example: the row `[3, 1]` of hand 0 in both regret tables, the row
`[1, 3]` of hand 1 in the integer one, and the sumprob row `[1999999999, 10]` of hand 0. -/
def exampleOppState : State :=
  { imem := fun a => if a = 0 then 3 else if a = 1 then 1 else if a = 2 then 1
      else if a = 3 then 3 else if a = 100 then 1999999999 else if a = 101 then 10 else 0,
    dmem := fun a => if a = 0 then 3 else 1 }

/-- The double 0 times any double is 0. -/
theorem dmul_zero_left (y : ℚ) : dmul 0 y = 0 := by
  unfold dmul round64
  rw [zero_mul, if_pos rfl]

theorem loop_succ {σ : Type} (n : Nat) (body : Nat → σ → σ) (init : σ) :
    loop (n + 1) body init = body n (loop n body init) := rfl

theorem toInt_range (x : Int) : -2147483648 ≤ toInt x ∧ toInt x ≤ 2147483647 := by
  unfold toInt; omega

theorem toInt_eq_self {x : Int} (h1 : -2147483648 ≤ x) (h2 : x ≤ 2147483647) :
    toInt x = x := by
  unfold toInt; omega

theorem toInt_add_toInt (a b : Int) : toInt (a + toInt b) = toInt (a + b) := by
  unfold toInt; omega

theorem tdiv_two_cases (x : Int) :
    (0 ≤ x ∧ x.tdiv 2 = x / 2) ∨ (x < 0 ∧ x.tdiv 2 = -((-x) / 2)) := by
  rcases le_or_lt 0 x with h | h
  · exact Or.inl ⟨h, Int.tdiv_eq_ediv h (by decide)⟩
  · refine Or.inr ⟨h, ?_⟩
    have h2 : (-x).tdiv 2 = (-x) / 2 := Int.tdiv_eq_ediv (by omega) (by decide)
    rw [← h2, Int.neg_tdiv, neg_neg]

/-- Two cells `i * ns + s` of a row-major table coincide only for equal rows and columns. -/
theorem row_cell_inj {ns i j s t : Nat} (hs : s < ns) (ht : t < ns)
    (h : i * ns + s = j * ns + t) : i = j ∧ s = t := by
  have hpos : 0 < ns := by omega
  have e1 : (i * ns + s) / ns = i := by
    rw [Nat.mul_comm, Nat.mul_add_div hpos, Nat.div_eq_of_lt hs, Nat.add_zero]
  have e2 : (j * ns + t) / ns = j := by
    rw [Nat.mul_comm, Nat.mul_add_div hpos, Nat.div_eq_of_lt ht, Nat.add_zero]
  have hij : i = j := by rw [← e1, ← e2, h]
  subst hij
  exact ⟨rfl, by omega⟩

/-- A loop that rewrites cell `b + s` at step `s` leaves the other cells alone. -/
theorem loop_update_off {α : Type} (b : Nat) (g : Nat → α → α) (m : Nat → α) :
    ∀ (k a : Nat), (∀ s, s < k → a ≠ b + s) →
      loop k (fun s m => Function.update m (b + s) (g s (m (b + s)))) m a = m a := by
  intro k
  induction k with
  | zero => intro a _; rfl
  | succ k ih =>
    intro a ha
    rw [loop_succ, Function.update_noteq (ha k (Nat.lt_succ_self k))]
    exact ih a (fun s hs => ha s (Nat.lt_succ_of_lt hs))

/-- A loop that rewrites cell `b + s` at step `s` applies the step to the old content. -/
theorem loop_update_at {α : Type} (b : Nat) (g : Nat → α → α) (m : Nat → α) :
    ∀ (k s : Nat), s < k →
      loop k (fun s m => Function.update m (b + s) (g s (m (b + s)))) m (b + s)
        = g s (m (b + s)) := by
  intro k
  induction k with
  | zero => intro s hs; omega
  | succ k ih =>
    intro s hs
    rw [loop_succ]
    rcases Nat.lt_succ_iff_lt_or_eq.mp hs with h | h
    · rw [Function.update_noteq (by omega)]
      exact ih s h
    · subst h
      rw [Function.update_same, loop_update_off b g m s (b + s) (fun t ht => by omega)]

/-- A loop over rows whose step `i` only rewrites row `i` leaves cells outside the
first `n` rows alone. -/
theorem loop_rows_off {α : Type} (base ns : Nat) (f : Nat → (Nat → α) → (Nat → α))
    (frame : ∀ i m a, (∀ s, s < ns → a ≠ base + i * ns + s) → f i m a = m a)
    (m0 : Nat → α) :
    ∀ (n a : Nat), (∀ i s, i < n → s < ns → a ≠ base + i * ns + s) →
      loop n f m0 a = m0 a := by
  intro n
  induction n with
  | zero => intro a _; rfl
  | succ n ih =>
    intro a ha
    rw [loop_succ, frame n _ a (fun s hs => ha n s (Nat.lt_succ_self n) hs)]
    exact ih a (fun i s hi hs => ha i s (Nat.lt_succ_of_lt hi) hs)

/-- A loop over rows whose step `i` rewrites row `i` from the content of row `i`
yields in row `i` what step `i` yields on the initial heap. -/
theorem loop_rows_at {α : Type} (base ns : Nat) (f : Nat → (Nat → α) → (Nat → α))
    (frame : ∀ i m a, (∀ s, s < ns → a ≠ base + i * ns + s) → f i m a = m a)
    (loc : ∀ i m m', (∀ s, s < ns → m (base + i * ns + s) = m' (base + i * ns + s)) →
      ∀ s, s < ns → f i m (base + i * ns + s) = f i m' (base + i * ns + s))
    (m0 : Nat → α) :
    ∀ (n i s : Nat), i < n → s < ns →
      loop n f m0 (base + i * ns + s) = f i m0 (base + i * ns + s) := by
  intro n
  induction n with
  | zero => intro i s hi; omega
  | succ n ih =>
    intro i s hi hs
    rw [loop_succ]
    rcases Nat.lt_succ_iff_lt_or_eq.mp hi with h | h
    · rw [frame n _ _ (fun t ht he => by
        have := row_cell_inj hs ht (by omega : i * ns + s = n * ns + t)
        omega)]
      exact ih i s h hs
    · subst h
      refine loc i _ m0 (fun t ht => ?_) s hs
      refine loop_rows_off base ns f frame m0 i _ (fun j u hj hu he => ?_)
      have := row_cell_inj ht hu (by omega : i * ns + t = j * ns + u)
      omega

/-- Rows rewritten cell by cell: every cell of the first `n` rows gets its step applied
to its initial content. -/
theorem loop_rows_cells {α : Type} (base ns : Nat) (g : Nat → Nat → α → α) (m0 : Nat → α)
    (n i s : Nat) (hi : i < n) (hs : s < ns) :
    loop n (fun i m => loop ns (fun s m =>
      Function.update m (base + i * ns + s) (g i s (m (base + i * ns + s)))) m) m0
        (base + i * ns + s) = g i s (m0 (base + i * ns + s)) := by
  rw [loop_rows_at base ns _ ?_ ?_ m0 n i s hi hs]
  · exact loop_update_at (base + i * ns) (g i) m0 ns s hs
  · intro j m a ha
    exact loop_update_off (base + j * ns) (g j) m ns a ha
  · intro j m m' h t ht
    rw [loop_update_at (base + j * ns) (g j) m ns t ht,
      loop_update_at (base + j * ns) (g j) m' ns t ht, h t ht]

/-- The adding pass of a row: the heap component is the cell-by-cell update. -/
theorem add_pass_fst (b : Nat) (g : Nat → Int → Int) (m : IntMem) (f : Bool) :
    ∀ k : Nat,
      (loop k (fun s (mo : IntMem × Bool) =>
        let m1 := Function.update mo.1 (b + s) (g s (mo.1 (b + s)))
        if m1 (b + s) < -2000000000 ∨ m1 (b + s) > 2000000000 then (m1, true)
        else (m1, mo.2)) (m, f)).1
      = loop k (fun s m => Function.update m (b + s) (g s (m (b + s)))) m := by
  intro k
  induction k with
  | zero => rfl
  | succ k ih =>
    rw [loop_succ, loop_succ, ← ih]
    dsimp only
    split <;> rfl

/-- The adding pass of a row: the flag is raised exactly when some cell left the
interval `[-2000000000, 2000000000]` on its addition. -/
theorem add_pass_snd (b : Nat) (g : Nat → Int → Int) (m : IntMem) (f : Bool) :
    ∀ k : Nat,
      ((loop k (fun s (mo : IntMem × Bool) =>
        let m1 := Function.update mo.1 (b + s) (g s (mo.1 (b + s)))
        if m1 (b + s) < -2000000000 ∨ m1 (b + s) > 2000000000 then (m1, true)
        else (m1, mo.2)) (m, f)).2 = true
      ↔ (f = true ∨ ∃ t, t < k ∧
          (g t (m (b + t)) < -2000000000 ∨ g t (m (b + t)) > 2000000000))) := by
  intro k
  induction k with
  | zero => simp [loop]
  | succ k ih =>
    rw [loop_succ]
    dsimp only
    rw [Function.update_same, add_pass_fst b g m f k,
      loop_update_off b g m k (b + k) (fun s hs => by omega)]
    split
    · rename_i hbad
      simp only [true_iff]
      exact Or.inr ⟨k, Nat.lt_succ_self k, hbad⟩
    · rename_i hgood
      rw [ih]
      constructor
      · rintro (h | ⟨t, ht, hb⟩)
        · exact Or.inl h
        · exact Or.inr ⟨t, Nat.lt_succ_of_lt ht, hb⟩
      · rintro (h | ⟨t, ht, hb⟩)
        · exact Or.inl h
        · rcases Nat.lt_succ_iff_lt_or_eq.mp ht with h | h
          · exact Or.inr ⟨t, h, hb⟩
          · subst h; exact absurd hb hgood

/-- The add-then-halve treatment of one row leaves the cells outside the row alone. -/
theorem halving_row_off (b ns : Nat) (g : Nat → Int → Int) (m : IntMem) (a : Nat)
    (ha : ∀ s, s < ns → a ≠ b + s) :
    (let r := loop ns (fun s (mo : IntMem × Bool) =>
        let m1 := Function.update mo.1 (b + s) (g s (mo.1 (b + s)))
        if m1 (b + s) < -2000000000 ∨ m1 (b + s) > 2000000000 then (m1, true)
        else (m1, mo.2)) (m, false)
     if r.2 then
       loop ns (fun s m => Function.update m (b + s) (Int.tdiv (m (b + s)) 2)) r.1
     else r.1) a = m a := by
  dsimp only
  split
  · rw [loop_update_off b (fun _ x => Int.tdiv x 2) _ ns a ha, add_pass_fst,
      loop_update_off b g m ns a ha]
  · rw [add_pass_fst, loop_update_off b g m ns a ha]

/-- The add-then-halve treatment of one row: each cell gets its addition, halved when
some cell of the row left `[-2000000000, 2000000000]` on its addition. -/
theorem halving_row_at (b ns : Nat) (g : Nat → Int → Int) (m : IntMem) (s : Nat)
    (hs : s < ns) :
    (let r := loop ns (fun s (mo : IntMem × Bool) =>
        let m1 := Function.update mo.1 (b + s) (g s (mo.1 (b + s)))
        if m1 (b + s) < -2000000000 ∨ m1 (b + s) > 2000000000 then (m1, true)
        else (m1, mo.2)) (m, false)
     if r.2 then
       loop ns (fun s m => Function.update m (b + s) (Int.tdiv (m (b + s)) 2)) r.1
     else r.1) (b + s)
    = if ∃ t, t < ns ∧
          (g t (m (b + t)) < -2000000000 ∨ g t (m (b + t)) > 2000000000)
      then Int.tdiv (g s (m (b + s))) 2 else g s (m (b + s)) := by
  dsimp only
  have hflag := add_pass_snd b g m false ns
  split
  · rename_i h
    have hex := hflag.mp h
    simp only [Bool.false_eq_true, false_or] at hex
    rw [if_pos hex, loop_update_at b (fun _ x => Int.tdiv x 2) _ ns s hs, add_pass_fst,
      loop_update_at b g m ns s hs]
  · rename_i h
    have hex : ¬ ∃ t, t < ns ∧
        (g t (m (b + t)) < -2000000000 ∨ g t (m (b + t)) > 2000000000) :=
      fun hex => h (hflag.mpr (Or.inr hex))
    rw [if_neg hex, add_pass_fst, loop_update_at b g m ns s hs]

/-- Rows treated by add-then-halve: the content of every cell of the first `n` rows. -/
theorem loop_rows_halving (base ns : Nat) (g : Nat → Nat → Int → Int) (m0 : IntMem)
    (n i s : Nat) (hi : i < n) (hs : s < ns) :
    loop n (fun i m =>
      let r := loop ns (fun s (mo : IntMem × Bool) =>
        let m1 := Function.update mo.1 (base + i * ns + s)
          (g i s (mo.1 (base + i * ns + s)))
        if m1 (base + i * ns + s) < -2000000000 ∨ m1 (base + i * ns + s) > 2000000000 then
          (m1, true)
        else (m1, mo.2)) (m, false)
      if r.2 then
        loop ns (fun s m =>
          Function.update m (base + i * ns + s) (Int.tdiv (m (base + i * ns + s)) 2)) r.1
      else r.1) m0 (base + i * ns + s)
    = if ∃ t, t < ns ∧ (g i t (m0 (base + i * ns + t)) < -2000000000 ∨
          g i t (m0 (base + i * ns + t)) > 2000000000)
      then Int.tdiv (g i s (m0 (base + i * ns + s))) 2
      else g i s (m0 (base + i * ns + s)) := by
  rw [loop_rows_at base ns _ ?_ ?_ m0 n i s hi hs]
  · exact halving_row_at (base + i * ns) ns (g i) m0 s hs
  · intro j m a ha
    exact halving_row_off (base + j * ns) ns (g j) m a ha
  · intro j m m' h t ht
    have e1 := halving_row_at (base + j * ns) ns (g j) m t ht
    have e2 := halving_row_at (base + j * ns) ns (g j) m' t ht
    dsimp only at e1 e2 ⊢
    rw [e1, e2, h t ht]
    have hc : (∃ u, u < ns ∧ (g j u (m (base + j * ns + u)) < -2000000000 ∨
          g j u (m (base + j * ns + u)) > 2000000000)) ↔
        (∃ u, u < ns ∧ (g j u (m' (base + j * ns + u)) < -2000000000 ∨
          g j u (m' (base + j * ns + u)) > 2000000000)) := by
      constructor
      · rintro ⟨u, hu, hb⟩; exact ⟨u, hu, by rw [← h u hu]; exact hb⟩
      · rintro ⟨u, hu, hb⟩; exact ⟨u, hu, by rw [h u hu]; exact hb⟩
    by_cases hx : ∃ u, u < ns ∧ (g j u (m (base + j * ns + u)) < -2000000000 ∨
          g j u (m (base + j * ns + u)) > 2000000000)
    · rw [if_pos hx, if_pos (hc.mp hx)]
    · rw [if_neg hx, if_neg (fun h' => hx (hc.mpr h'))]

/-- A store of one of three values into the same cell is a store of the chosen value. -/
theorem update_ite_ite {α : Type} (m : Nat → α) (a : Nat) (c1 c2 : Prop) [Decidable c1]
    [Decidable c2] (x y z : α) :
    (if c1 then Function.update m a x else if c2 then Function.update m a y
      else Function.update m a z)
      = Function.update m a (if c1 then x else if c2 then y else z) := by
  split_ifs <;> rfl

/-! ## `UpdateRegrets` on integer regrets -/

/-- With `nn_regrets`, the content of every cell after `UpdateRegrets_int`. -/
theorem UpdateRegrets_int_nn_cell (G : Game) (v : VCFR) (node : Node) (vals : List ℚ)
    (succ_vals : List (List ℚ)) (regrets : Nat) (imem : IntMem)
    (hnn : v.nn_regrets = true) (i s : Nat)
    (hi : i < G.NumHoleCardPairs node.Street) (hs : s < node.NumSuccs) :
    VCFR.UpdateRegrets_int G v node vals succ_vals regrets imem
        (regrets + i * node.NumSuccs + s)
      = (fun ri : Int =>
          if ri < v.regret_floors node.Street then v.regret_floors node.Street
          else if ri > v.regret_ceilings node.Street then v.regret_ceilings node.Street
          else ri)
        (toInt (imem (regrets + i * node.NumSuccs + s) +
          lrint (((succ_vals.getD s []).getD i 0 - vals.getD i 0) *
            v.regret_scaling node.Street))) := by
  have h := loop_rows_cells regrets node.NumSuccs
    (fun i s x => (fun ri : Int =>
          if ri < v.regret_floors node.Street then v.regret_floors node.Street
          else if ri > v.regret_ceilings node.Street then v.regret_ceilings node.Street
          else ri)
        (toInt (x + lrint (((succ_vals.getD s []).getD i 0 - vals.getD i 0) *
            v.regret_scaling node.Street)))) imem
    (G.NumHoleCardPairs node.Street) i s hi hs
  refine Eq.trans ?_ h
  unfold VCFR.UpdateRegrets_int
  simp only [hnn, if_true, toInt_add_toInt, update_ite_ite]

/-- Without `nn_regrets`, the content of every cell after `UpdateRegrets_int`. -/
theorem UpdateRegrets_int_free_cell (G : Game) (v : VCFR) (node : Node) (vals : List ℚ)
    (succ_vals : List (List ℚ)) (regrets : Nat) (imem : IntMem)
    (hnn : v.nn_regrets = false) (i s : Nat)
    (hi : i < G.NumHoleCardPairs node.Street) (hs : s < node.NumSuccs) :
    VCFR.UpdateRegrets_int G v node vals succ_vals regrets imem
        (regrets + i * node.NumSuccs + s)
      = if ∃ t, t < node.NumSuccs ∧
            (toInt (imem (regrets + i * node.NumSuccs + t) +
              lrint (((succ_vals.getD t []).getD i 0 - vals.getD i 0) *
                v.regret_scaling node.Street)) < -2000000000 ∨
             toInt (imem (regrets + i * node.NumSuccs + t) +
              lrint (((succ_vals.getD t []).getD i 0 - vals.getD i 0) *
                v.regret_scaling node.Street)) > 2000000000)
        then Int.tdiv (toInt (imem (regrets + i * node.NumSuccs + s) +
              lrint (((succ_vals.getD s []).getD i 0 - vals.getD i 0) *
                v.regret_scaling node.Street))) 2
        else toInt (imem (regrets + i * node.NumSuccs + s) +
              lrint (((succ_vals.getD s []).getD i 0 - vals.getD i 0) *
                v.regret_scaling node.Street)) := by
  have h := loop_rows_halving regrets node.NumSuccs
    (fun i s x => toInt (x + lrint (((succ_vals.getD s []).getD i 0 - vals.getD i 0) *
            v.regret_scaling node.Street))) imem
    (G.NumHoleCardPairs node.Street) i s hi hs
  refine Eq.trans ?_ h
  unfold VCFR.UpdateRegrets_int
  simp only [hnn]
  rfl

/-- C1, counterexample: with the configured floor 5 above the ceiling 3 (a configuration
the constructor accepts), `UpdateRegrets` with `nn_regrets` on the one-cell row `[0]`
with delta 0 stores 5, which is not in the (empty) interval `[5, 3]`. -/
theorem UpdateRegrets_int_clamp_counterexample :
    ¬ ((5 : Int) ≤ VCFR.UpdateRegrets_int { NumHoleCardPairs := fun _ => 1 }
          { nn_regrets := true, regret_floors := fun _ => 5, regret_ceilings := fun _ => 3 }
          (Node.mk 0 false false 0 0 0 0 0 [default]) [0] [[0]] 0 (fun _ => 0) 0 ∧
        VCFR.UpdateRegrets_int { NumHoleCardPairs := fun _ => 1 }
          { nn_regrets := true, regret_floors := fun _ => 5, regret_ceilings := fun _ => 3 }
          (Node.mk 0 false false 0 0 0 0 0 [default]) [0] [[0]] 0 (fun _ => 0) 0 ≤ 3) := by
  decide!

/-- C1, amended: when `regret_floors[st] ≤ regret_ceilings[st]`, after the unabstracted
integer `UpdateRegrets` with `nn_regrets = true` every cell of every hand row it touched
lies in `[regret_floors[st], regret_ceilings[st]]`, for every node, value vectors and
regret table. -/
theorem UpdateRegrets_int_clamped (G : Game) (v : VCFR) (node : Node) (vals : List ℚ)
    (succ_vals : List (List ℚ)) (regrets : Nat) (imem : IntMem)
    (hnn : v.nn_regrets = true)
    (hfc : v.regret_floors node.Street ≤ v.regret_ceilings node.Street)
    (i s : Nat) (hi : i < G.NumHoleCardPairs node.Street) (hs : s < node.NumSuccs) :
    v.regret_floors node.Street ≤
        VCFR.UpdateRegrets_int G v node vals succ_vals regrets imem
          (regrets + i * node.NumSuccs + s) ∧
      VCFR.UpdateRegrets_int G v node vals succ_vals regrets imem
          (regrets + i * node.NumSuccs + s) ≤ v.regret_ceilings node.Street := by
  rw [UpdateRegrets_int_nn_cell G v node vals succ_vals regrets imem hnn i s hi hs]
  dsimp only
  split_ifs with h1 h2
  · exact ⟨le_refl _, hfc⟩
  · exact ⟨hfc, le_refl _⟩
  · exact ⟨not_lt.mp h1, not_lt.mp h2⟩

/-- C1, witness: floor 0, ceiling 100, two hands, two successors. -/
theorem UpdateRegrets_int_clamped_witness :
    (0 : Int) ≤ VCFR.UpdateRegrets_int { NumHoleCardPairs := fun _ => 2 }
        { nn_regrets := true, regret_ceilings := fun _ => 100 }
        (Node.mk 0 false false 0 0 0 0 0 [default, default]) [1, 2] [[500, 0], [-3, 7]] 4
        (fun _ => 60) (4 + 1 * 2 + 0) ∧
      VCFR.UpdateRegrets_int { NumHoleCardPairs := fun _ => 2 }
        { nn_regrets := true, regret_ceilings := fun _ => 100 }
        (Node.mk 0 false false 0 0 0 0 0 [default, default]) [1, 2] [[500, 0], [-3, 7]] 4
        (fun _ => 60) (4 + 1 * 2 + 0) ≤ 100 :=
  UpdateRegrets_int_clamped { NumHoleCardPairs := fun _ => 2 }
    { nn_regrets := true, regret_ceilings := fun _ => 100 }
    (Node.mk 0 false false 0 0 0 0 0 [default, default]) [1, 2] [[500, 0], [-3, 7]] 4
    (fun _ => 60) rfl (by decide) 1 0 (by decide) (by decide)

/-- C2, counterexample: the one-cell row `[2100000000]` exceeds 2e9 before the update;
the delta `-200000000` brings it to `1900000000`, no cell is out of range after its
addition, the row is not halved and ends outside `[-1.5e9, 1.5e9]`. -/
theorem UpdateRegrets_int_halving_counterexample :
    ¬ ((∃ s, s < 1 ∧ ((fun _ => 2100000000 : IntMem) (0 + 0 * 1 + s) < -2000000000 ∨
            (fun _ => 2100000000 : IntMem) (0 + 0 * 1 + s) > 2000000000)) →
        ∀ s, s < 1 →
          -1500000000 ≤ VCFR.UpdateRegrets_int { NumHoleCardPairs := fun _ => 1 } {}
              (Node.mk 0 false false 0 0 0 0 0 [default]) [0] [[-200000000]] 0
              (fun _ => 2100000000) (0 + 0 * 1 + s) ∧
            VCFR.UpdateRegrets_int { NumHoleCardPairs := fun _ => 1 } {}
              (Node.mk 0 false false 0 0 0 0 0 [default]) [0] [[-200000000]] 0
              (fun _ => 2100000000) (0 + 0 * 1 + s) ≤ 1500000000) := by
  decide!

/-- C2, amended: without `nn_regrets`, if some cell of a hand row lies outside
`[-2000000000, 2000000000]` after its addition in this update, then after the update no
cell of that row lies outside `[-1500000000, 1500000000]`. -/
theorem UpdateRegrets_int_halved_bound (G : Game) (v : VCFR) (node : Node) (vals : List ℚ)
    (succ_vals : List (List ℚ)) (regrets : Nat) (imem : IntMem)
    (hnn : v.nn_regrets = false) (i : Nat) (hi : i < G.NumHoleCardPairs node.Street)
    (hover : ∃ t, t < node.NumSuccs ∧
      (toInt (imem (regrets + i * node.NumSuccs + t) +
          lrint (((succ_vals.getD t []).getD i 0 - vals.getD i 0) *
            v.regret_scaling node.Street)) < -2000000000 ∨
       toInt (imem (regrets + i * node.NumSuccs + t) +
          lrint (((succ_vals.getD t []).getD i 0 - vals.getD i 0) *
            v.regret_scaling node.Street)) > 2000000000))
    (s : Nat) (hs : s < node.NumSuccs) :
    -1500000000 ≤ VCFR.UpdateRegrets_int G v node vals succ_vals regrets imem
        (regrets + i * node.NumSuccs + s) ∧
      VCFR.UpdateRegrets_int G v node vals succ_vals regrets imem
        (regrets + i * node.NumSuccs + s) ≤ 1500000000 := by
  rw [UpdateRegrets_int_free_cell G v node vals succ_vals regrets imem hnn i s hi hs,
    if_pos hover]
  have hr := toInt_range (imem (regrets + i * node.NumSuccs + s) +
          lrint (((succ_vals.getD s []).getD i 0 - vals.getD i 0) *
            v.regret_scaling node.Street))
  rcases tdiv_two_cases (toInt (imem (regrets + i * node.NumSuccs + s) +
          lrint (((succ_vals.getD s []).getD i 0 - vals.getD i 0) *
            v.regret_scaling node.Street))) with ⟨h0, he⟩ | ⟨h0, he⟩
  · rw [he]; omega
  · rw [he]; omega

/-- C2, witness: the row `[1900000000, -500000000]` with deltas `[200000000, 0]`. -/
theorem UpdateRegrets_int_halved_bound_witness :
    -1500000000 ≤ VCFR.UpdateRegrets_int { NumHoleCardPairs := fun _ => 1 } {}
        (Node.mk 0 false false 0 0 0 0 0 [default, default]) [0] [[200000000], [0]] 0
        (fun a => if a = 0 then 1900000000 else -500000000) (0 + 0 * 2 + 1) ∧
      VCFR.UpdateRegrets_int { NumHoleCardPairs := fun _ => 1 } {}
        (Node.mk 0 false false 0 0 0 0 0 [default, default]) [0] [[200000000], [0]] 0
        (fun a => if a = 0 then 1900000000 else -500000000) (0 + 0 * 2 + 1) ≤ 1500000000 :=
  UpdateRegrets_int_halved_bound { NumHoleCardPairs := fun _ => 1 } {}
    (Node.mk 0 false false 0 0 0 0 0 [default, default]) [0] [[200000000], [0]] 0
    (fun a => if a = 0 then 1900000000 else -500000000) rfl 0 (by decide)
    ⟨0, by decide, by decide!⟩ 1 (by decide)

/-- C3: without `nn_regrets`, the unabstracted integer `UpdateRegrets` adds (as an `int`
addition) the rounded scaled delta to every cell of hand `i`'s row and then halves every
cell of the row (division truncating toward zero) exactly when some cell of the row is
below -2000000000 or above 2000000000 after its addition, leaving the row as added
otherwise; an addition whose exact sum fits an `int` stores that sum; and the row
`[1900000000, -500000000]` with deltas `[200000000, 0]` becomes
`[1050000000, -250000000]`. -/
theorem UpdateRegrets_int_add_then_halve :
    (∀ (G : Game) (v : VCFR) (node : Node) (vals : List ℚ) (succ_vals : List (List ℚ))
      (regrets : Nat) (imem : IntMem), v.nn_regrets = false →
      ∀ i s, i < G.NumHoleCardPairs node.Street → s < node.NumSuccs →
        VCFR.UpdateRegrets_int G v node vals succ_vals regrets imem
            (regrets + i * node.NumSuccs + s)
          = if ∃ t, t < node.NumSuccs ∧
              (toInt (imem (regrets + i * node.NumSuccs + t) +
                lrint (((succ_vals.getD t []).getD i 0 - vals.getD i 0) *
                  v.regret_scaling node.Street)) < -2000000000 ∨
               toInt (imem (regrets + i * node.NumSuccs + t) +
                lrint (((succ_vals.getD t []).getD i 0 - vals.getD i 0) *
                  v.regret_scaling node.Street)) > 2000000000)
            then Int.tdiv (toInt (imem (regrets + i * node.NumSuccs + s) +
                lrint (((succ_vals.getD s []).getD i 0 - vals.getD i 0) *
                  v.regret_scaling node.Street))) 2
            else toInt (imem (regrets + i * node.NumSuccs + s) +
                lrint (((succ_vals.getD s []).getD i 0 - vals.getD i 0) *
                  v.regret_scaling node.Street))) ∧
    (∀ x : Int, kMinInt ≤ x → x ≤ kMaxInt → toInt x = x) ∧
    (VCFR.UpdateRegrets_int { NumHoleCardPairs := fun _ => 1 } {}
        (Node.mk 0 false false 0 0 0 0 0 [default, default]) [0] [[200000000], [0]] 0
        (fun a => if a = 0 then 1900000000 else -500000000) 0 = 1050000000 ∧
      VCFR.UpdateRegrets_int { NumHoleCardPairs := fun _ => 1 } {}
        (Node.mk 0 false false 0 0 0 0 0 [default, default]) [0] [[200000000], [0]] 0
        (fun a => if a = 0 then 1900000000 else -500000000) 1 = -250000000) := by
  refine ⟨?_, ?_, by decide!⟩
  · intro G v node vals succ_vals regrets imem hnn i s hi hs
    exact UpdateRegrets_int_free_cell G v node vals succ_vals regrets imem hnn i s hi hs
  · intro x h1 h2
    exact toInt_eq_self h1 h2

/-- C3, witness: the general statement at a two-hand, two-successor table. -/
theorem UpdateRegrets_int_add_then_halve_witness :
    VCFR.UpdateRegrets_int { NumHoleCardPairs := fun _ => 2 } {}
        (Node.mk 0 false false 0 0 0 0 0 [default, default]) [1, 2] [[5, 0], [-3, 7]] 4
        (fun _ => 60) (4 + 1 * 2 + 0) = 58 := by
  have h := UpdateRegrets_int_add_then_halve.1 { NumHoleCardPairs := fun _ => 2 } {}
    (Node.mk 0 false false 0 0 0 0 0 [default, default]) [1, 2] [[5, 0], [-3, 7]] 4
    (fun _ => 60) rfl 1 0 (by decide) (by decide)
  exact h.trans (by decide!)

/-- C4: without `nn_regrets`, if every cell of a hand row lies in
`[-2000000000, 2000000000]` before the update and every rounded scaled delta is at most
147483647 in absolute value, then no addition leaves `[kMinInt, kMaxInt]` and after the
update, halving included, every cell of the row lies in `[-2000000000, 2000000000]`. -/
theorem UpdateRegrets_int_stays_in_range (G : Game) (v : VCFR) (node : Node)
    (vals : List ℚ) (succ_vals : List (List ℚ)) (regrets : Nat) (imem : IntMem)
    (hnn : v.nn_regrets = false) (i : Nat) (hi : i < G.NumHoleCardPairs node.Street)
    (hrow : ∀ s, s < node.NumSuccs →
      -2000000000 ≤ imem (regrets + i * node.NumSuccs + s) ∧
        imem (regrets + i * node.NumSuccs + s) ≤ 2000000000)
    (hdelta : ∀ s, s < node.NumSuccs →
      -147483647 ≤ lrint (((succ_vals.getD s []).getD i 0 - vals.getD i 0) *
          v.regret_scaling node.Street) ∧
        lrint (((succ_vals.getD s []).getD i 0 - vals.getD i 0) *
          v.regret_scaling node.Street) ≤ 147483647) :
    (∀ s, s < node.NumSuccs →
      kMinInt ≤ imem (regrets + i * node.NumSuccs + s) +
          lrint (((succ_vals.getD s []).getD i 0 - vals.getD i 0) *
            v.regret_scaling node.Street) ∧
        imem (regrets + i * node.NumSuccs + s) +
          lrint (((succ_vals.getD s []).getD i 0 - vals.getD i 0) *
            v.regret_scaling node.Street) ≤ kMaxInt) ∧
    (∀ s, s < node.NumSuccs →
      -2000000000 ≤ VCFR.UpdateRegrets_int G v node vals succ_vals regrets imem
          (regrets + i * node.NumSuccs + s) ∧
        VCFR.UpdateRegrets_int G v node vals succ_vals regrets imem
          (regrets + i * node.NumSuccs + s) ≤ 2000000000) := by
  have hsum : ∀ s, s < node.NumSuccs →
      kMinInt ≤ imem (regrets + i * node.NumSuccs + s) +
          lrint (((succ_vals.getD s []).getD i 0 - vals.getD i 0) *
            v.regret_scaling node.Street) ∧
        imem (regrets + i * node.NumSuccs + s) +
          lrint (((succ_vals.getD s []).getD i 0 - vals.getD i 0) *
            v.regret_scaling node.Street) ≤ kMaxInt := by
    intro s hs
    have h1 := hrow s hs
    have h2 := hdelta s hs
    unfold kMinInt kMaxInt
    omega
  refine ⟨hsum, ?_⟩
  intro s hs
  rw [UpdateRegrets_int_free_cell G v node vals succ_vals regrets imem hnn i s hi hs]
  have h3 := hsum s hs
  unfold kMinInt kMaxInt at h3
  rw [toInt_eq_self h3.1 h3.2]
  split
  · rcases tdiv_two_cases (imem (regrets + i * node.NumSuccs + s) +
          lrint (((succ_vals.getD s []).getD i 0 - vals.getD i 0) *
            v.regret_scaling node.Street)) with ⟨h0, he⟩ | ⟨h0, he⟩
    · rw [he]; omega
    · rw [he]; omega
  · rename_i hno
    have h4 : ¬ (toInt (imem (regrets + i * node.NumSuccs + s) +
          lrint (((succ_vals.getD s []).getD i 0 - vals.getD i 0) *
            v.regret_scaling node.Street)) < -2000000000 ∨
        toInt (imem (regrets + i * node.NumSuccs + s) +
          lrint (((succ_vals.getD s []).getD i 0 - vals.getD i 0) *
            v.regret_scaling node.Street)) > 2000000000) :=
      fun hb => hno ⟨s, hs, hb⟩
    rw [toInt_eq_self h3.1 h3.2] at h4
    omega

/-- C4, witness: the row `[1900000000, -500000000]` with deltas `[147483647, -1]`. -/
theorem UpdateRegrets_int_stays_in_range_witness :
    -2000000000 ≤ VCFR.UpdateRegrets_int { NumHoleCardPairs := fun _ => 1 } {}
        (Node.mk 0 false false 0 0 0 0 0 [default, default]) [0] [[147483647], [-1]] 0
        (fun a => if a = 0 then 1900000000 else -500000000) (0 + 0 * 2 + 0) ∧
      VCFR.UpdateRegrets_int { NumHoleCardPairs := fun _ => 1 } {}
        (Node.mk 0 false false 0 0 0 0 0 [default, default]) [0] [[147483647], [-1]] 0
        (fun a => if a = 0 then 1900000000 else -500000000) (0 + 0 * 2 + 0)
        ≤ 2000000000 :=
  (UpdateRegrets_int_stays_in_range { NumHoleCardPairs := fun _ => 1 } {}
    (Node.mk 0 false false 0 0 0 0 0 [default, default]) [0] [[147483647], [-1]] 0
    (fun a => if a = 0 then 1900000000 else -500000000) rfl 0 (by decide)
    (by decide!) (by decide!)).2 0 (by decide)

/-! ## The sumprob updates of `ProcessOppProbs` -/

/-- A property that every step of a loop preserves holds after the loop. -/
theorem loop_invariant {σ : Type} (P : σ → Prop) (n : Nat) (body : Nat → σ → σ) (init : σ)
    (h0 : P init) (hstep : ∀ i s, P s → P (body i s)) : P (loop n body init) := by
  induction n with
  | zero => exact h0
  | succ n ih => exact hstep n _ ih

/-- In a value calculation and inside the hard-warmup window the update of integer
sumprobs does nothing. -/
theorem SumprobUpdate_int_gated (v : VCFR) (st : Nat) (my_sumprobs : Option Nat) (s : Nat)
    (x : ℚ) (md : IntMem × Bool) (hg : v.value_calculation = true ∨ (0 < v.hard_warmup ∧ v.it ≤ v.hard_warmup)) :
    VCFR.SumprobUpdate_int v st my_sumprobs s x md = md := by
  unfold VCFR.SumprobUpdate_int
  rw [if_pos (hg.elim Or.inl (fun h => Or.inr (Or.inr h)))]

/-- In a value calculation and inside the hard-warmup window the update of double sumprobs
does nothing. -/
theorem SumprobUpdate_double_gated (v : VCFR) (my_sumprobs : Option Nat) (s : Nat)
    (x : ℚ) (m : DblMem) (hg : v.value_calculation = true ∨ (0 < v.hard_warmup ∧ v.it ≤ v.hard_warmup)) :
    VCFR.SumprobUpdate_double v my_sumprobs s x m = m := by
  unfold VCFR.SumprobUpdate_double
  rw [if_pos (hg.elim Or.inl (fun h => Or.inr (Or.inr h)))]

/-- In a value calculation and inside the hard-warmup window `ProcessOppProbsBucketed` on
integer sumprobs leaves the integer heap alone. -/
theorem ProcessOppProbsBucketed_int_gated (G : Game) (v : VCFR) (sb : Nat → Nat → Nat)
    (node : Node) (hands : CanonicalCards) (opp_probs : List ℚ)
    (succ_opp_probs : List (List ℚ)) (current_probs : Nat) (sumprobs : Option Nat)
    (dmem : DblMem) (imem : IntMem)
    (hg : v.value_calculation = true ∨ (0 < v.hard_warmup ∧ v.it ≤ v.hard_warmup)) :
    (VCFR.ProcessOppProbsBucketed_int G v sb node hands opp_probs succ_opp_probs
      current_probs sumprobs dmem imem).2 = imem := by
  unfold VCFR.ProcessOppProbsBucketed_int
  refine loop_invariant (fun r : List (List ℚ) × IntMem => r.2 = imem) _ _ _ rfl ?_
  intro i r hr
  dsimp only
  split
  · exact hr
  · generalize hq : loop node.NumSuccs _ (r.1, r.2, false) = q
    have h2 : q.2 = (r.2, false) := by
      rw [← hq]
      exact loop_invariant (fun q : List (List ℚ) × IntMem × Bool => q.2 = (r.2, false))
        _ _ _ rfl
        (fun s q hq => by
          dsimp only; rw [SumprobUpdate_int_gated _ _ _ _ _ _ hg]; exact hq)
    rw [h2]
    simpa using hr

/-- In a value calculation and inside the hard-warmup window `ProcessOppProbsBucketed` on
double sumprobs leaves the double heap alone. -/
theorem ProcessOppProbsBucketed_double_gated (G : Game) (v : VCFR) (sb : Nat → Nat → Nat)
    (node : Node) (hands : CanonicalCards) (opp_probs : List ℚ)
    (succ_opp_probs : List (List ℚ)) (current_probs : Nat) (sumprobs : Option Nat)
    (dmem : DblMem)
    (hg : v.value_calculation = true ∨ (0 < v.hard_warmup ∧ v.it ≤ v.hard_warmup)) :
    (VCFR.ProcessOppProbsBucketed_double G v sb node hands opp_probs succ_opp_probs
      current_probs sumprobs dmem).2 = dmem := by
  unfold VCFR.ProcessOppProbsBucketed_double
  refine loop_invariant (fun r : List (List ℚ) × DblMem => r.2 = dmem) _ _ _ rfl ?_
  intro i r hr
  dsimp only
  split
  · exact hr
  · exact loop_invariant (fun q : List (List ℚ) × DblMem => q.2 = dmem) _ _ _ hr
      (fun s q hq => by
        dsimp only; rw [SumprobUpdate_double_gated _ _ _ _ _ hg]; exact hq)

/-- In a value calculation and inside the hard-warmup window `ProcessOppProbs` on integer
values and sumprobs leaves the integer heap alone. -/
theorem ProcessOppProbs_int_int_gated (G : Game) (v : VCFR) (node : Node)
    (hands : CanonicalCards) (nonneg : Bool) (explore : ℚ) (opp_probs : List ℚ)
    (succ_opp_probs : List (List ℚ)) (cs_vals : Nat) (sumprobs : Option Nat)
    (imem : IntMem)
    (hg : v.value_calculation = true ∨ (0 < v.hard_warmup ∧ v.it ≤ v.hard_warmup)) :
    (VCFR.ProcessOppProbs_int_int G v node hands nonneg explore opp_probs succ_opp_probs
      cs_vals sumprobs imem).2 = imem := by
  unfold VCFR.ProcessOppProbs_int_int
  refine loop_invariant (fun r : List (List ℚ) × IntMem => r.2 = imem) _ _ _ rfl ?_
  intro i r hr
  dsimp only
  split
  · exact hr
  · generalize hq : loop node.NumSuccs _ (r.1, r.2, false) = q
    have h2 : q.2 = (r.2, false) := by
      rw [← hq]
      exact loop_invariant (fun q : List (List ℚ) × IntMem × Bool => q.2 = (r.2, false))
        _ _ _ rfl
        (fun s q hq => by
          dsimp only; rw [SumprobUpdate_int_gated _ _ _ _ _ _ hg]; exact hq)
    rw [h2]
    simpa using hr

/-- In a value calculation and inside the hard-warmup window `ProcessOppProbs` on double
values and sumprobs leaves the double heap alone. -/
theorem ProcessOppProbs_double_double_gated (G : Game) (v : VCFR) (node : Node)
    (hands : CanonicalCards) (nonneg : Bool) (explore : ℚ) (opp_probs : List ℚ)
    (succ_opp_probs : List (List ℚ)) (cs_vals : Nat) (sumprobs : Option Nat)
    (dmem : DblMem)
    (hg : v.value_calculation = true ∨ (0 < v.hard_warmup ∧ v.it ≤ v.hard_warmup)) :
    (VCFR.ProcessOppProbs_double_double G v node hands nonneg explore opp_probs
      succ_opp_probs cs_vals sumprobs dmem).2 = dmem := by
  unfold VCFR.ProcessOppProbs_double_double
  refine loop_invariant (fun r : List (List ℚ) × DblMem => r.2 = dmem) _ _ _ rfl ?_
  intro i r hr
  dsimp only
  split
  · exact hr
  · exact loop_invariant (fun q : List (List ℚ) × DblMem => q.2 = dmem) _ _ _ hr
      (fun s q hq => by
        dsimp only; rw [SumprobUpdate_double_gated _ _ _ _ _ hg]; exact hq)

/-- In a value calculation and inside the hard-warmup window `ProcessOppProbs` on integer
values and double sumprobs leaves the double heap alone. -/
theorem ProcessOppProbs_int_double_gated (G : Game) (v : VCFR) (node : Node)
    (hands : CanonicalCards) (nonneg : Bool) (explore : ℚ) (opp_probs : List ℚ)
    (succ_opp_probs : List (List ℚ)) (cs_vals : Nat) (sumprobs : Option Nat)
    (imem : IntMem) (dmem : DblMem)
    (hg : v.value_calculation = true ∨ (0 < v.hard_warmup ∧ v.it ≤ v.hard_warmup)) :
    (VCFR.ProcessOppProbs_int_double G v node hands nonneg explore opp_probs
      succ_opp_probs cs_vals sumprobs imem dmem).2 = dmem := by
  unfold VCFR.ProcessOppProbs_int_double
  refine loop_invariant (fun r : List (List ℚ) × DblMem => r.2 = dmem) _ _ _ rfl ?_
  intro i r hr
  dsimp only
  split
  · exact hr
  · exact loop_invariant (fun q : List (List ℚ) × DblMem => q.2 = dmem) _ _ _ hr
      (fun s q hq => by
        dsimp only; rw [SumprobUpdate_double_gated _ _ _ _ _ hg]; exact hq)

/-- C6, counterexample: with `it = 0` and `hard_warmup = 0` (so `it ≤ hard_warmup`, and no
soft warmup) `ProcessOppProbs` on double values and sumprobs adds the successor reach 1
to the sumprob cell at address 10: the gate needs `hard_warmup > 0`. -/
theorem ProcessOppProbs_gating_counterexample :
    ¬ (({ it := 0, hard_warmup := 0 } : VCFR).it ≤
          ({ it := 0, hard_warmup := 0 } : VCFR).hard_warmup →
        (VCFR.ProcessOppProbs_double_double { NumHoleCardPairs := fun _ => 1 }
          { it := 0, hard_warmup := 0 } (Node.mk 0 false false 1 0 0 0 0 [default, default])
          {} true 0 [1] [[0], [0]] 0 (some 10) (fun _ => 0)).2 10 = (fun _ => 0 : DblMem) 10) := by
  decide!

/-- C6, amended: for every iteration number `it` and every `hard_warmup > 0` with
`it ≤ hard_warmup`, every variant of `ProcessOppProbs` and `ProcessOppProbsBucketed`
returns the heap of its sumprobs unchanged, for every node, reach vector and strategy. -/
theorem ProcessOppProbs_hard_warmup_gated (G : Game) (v : VCFR) (sb : Nat → Nat → Nat)
    (node : Node) (hands : CanonicalCards) (nonneg : Bool) (explore : ℚ)
    (opp_probs : List ℚ) (succ_opp_probs : List (List ℚ)) (cs : Nat)
    (sumprobs : Option Nat) (imem : IntMem) (dmem : DblMem)
    (hw : 0 < v.hard_warmup) (hit : v.it ≤ v.hard_warmup) :
    (VCFR.ProcessOppProbsBucketed_int G v sb node hands opp_probs succ_opp_probs cs
        sumprobs dmem imem).2 = imem ∧
    (VCFR.ProcessOppProbsBucketed_double G v sb node hands opp_probs succ_opp_probs cs
        sumprobs dmem).2 = dmem ∧
    (VCFR.ProcessOppProbs_int_int G v node hands nonneg explore opp_probs succ_opp_probs
        cs sumprobs imem).2 = imem ∧
    (VCFR.ProcessOppProbs_double_double G v node hands nonneg explore opp_probs
        succ_opp_probs cs sumprobs dmem).2 = dmem ∧
    (VCFR.ProcessOppProbs_int_double G v node hands nonneg explore opp_probs
        succ_opp_probs cs sumprobs imem dmem).2 = dmem :=
  ⟨ProcessOppProbsBucketed_int_gated G v sb node hands opp_probs succ_opp_probs cs sumprobs
      dmem imem (Or.inr ⟨hw, hit⟩),
    ProcessOppProbsBucketed_double_gated G v sb node hands opp_probs succ_opp_probs cs
      sumprobs dmem (Or.inr ⟨hw, hit⟩),
    ProcessOppProbs_int_int_gated G v node hands nonneg explore opp_probs succ_opp_probs cs
      sumprobs imem (Or.inr ⟨hw, hit⟩),
    ProcessOppProbs_double_double_gated G v node hands nonneg explore opp_probs
      succ_opp_probs cs sumprobs dmem (Or.inr ⟨hw, hit⟩),
    ProcessOppProbs_int_double_gated G v node hands nonneg explore opp_probs succ_opp_probs
      cs sumprobs imem dmem (Or.inr ⟨hw, hit⟩)⟩

/-- C6, witness: iteration 3 of a hard warmup of 5 iterations, one hand with reach 1. -/
theorem ProcessOppProbs_hard_warmup_gated_witness :
    (VCFR.ProcessOppProbs_double_double { NumHoleCardPairs := fun _ => 1 }
        { it := 3, hard_warmup := 5 } (Node.mk 0 false false 1 0 0 0 0 [default, default])
        {} true 0 [1] [[0], [0]] 0 (some 10) (fun _ => 0)).2 = (fun _ => 0) :=
  (ProcessOppProbs_hard_warmup_gated { NumHoleCardPairs := fun _ => 1 }
    { it := 3, hard_warmup := 5 } (fun _ _ => 0)
    (Node.mk 0 false false 1 0 0 0 0 [default, default]) {} true 0 [1] [[0], [0]] 0
    (some 10) (fun _ => 0) (fun _ => 0) (by decide) (by decide)).2.2.2.1

/-- Unsigned subtraction without wrap-around. -/
theorem usub_eq_sub {a b : Nat} (ha : a < 4294967296) (hb : b ≤ a) : usub a b = a - b := by
  unfold usub; omega

/-- Unsigned subtraction without wrap-around, read as a double. -/
theorem usub_cast {a b : Nat} (ha : a < 4294967296) (hb : b ≤ a) :
    ((usub a b : Nat) : ℚ) = (a : ℚ) - (b : ℚ) := by
  rw [usub_eq_sub ha hb, Nat.cast_sub hb]

/-- C7: when the sumprob update of a successor is not gated off (learning mode, sumprobs
present, not inside the hard-warmup window), the cell `sumprobs[s]` receives
`succ_opp_prob * w` on double storage and (by an `int` addition)
`lrint(succ_opp_prob * w * sumprob_scaling[st])` on integer storage, where `w = 1` if
`hard_warmup = 0` and `soft_warmup = 0` or if `soft_warmup > 0` and `it ≤ soft_warmup`,
else `w = it - hard_warmup` if `hard_warmup > 0`, else `w = it - soft_warmup`; the other
cells are left alone; and with `soft_warmup = 5`, `hard_warmup = 0`, `it = 7` and
successor reach `0.3` the double sumprob delta is `0.6`, also through the whole of
`ProcessOppProbs` (there on the doubles `0.3` and `0.6`, which are `round64 (3 / 10)` and
`round64 (6 / 10)`). -/
theorem SumprobUpdate_weight (v : VCFR) (st ms s : Nat) (x : ℚ)
    (hit : v.it < 4294967296)
    (hvc : v.value_calculation = false)
    (hgate : ¬ (0 < v.hard_warmup ∧ v.it ≤ v.hard_warmup)) :
    (∀ m : DblMem,
      VCFR.SumprobUpdate_double v (some ms) s x m (ms + s) = m (ms + s) + x *
        (if (v.hard_warmup = 0 ∧ v.soft_warmup = 0) ∨ (0 < v.soft_warmup ∧ v.it ≤ v.soft_warmup)
          then 1
          else if 0 < v.hard_warmup then (v.it : ℚ) - (v.hard_warmup : ℚ)
          else (v.it : ℚ) - (v.soft_warmup : ℚ)) ∧
      ∀ a, a ≠ ms + s → VCFR.SumprobUpdate_double v (some ms) s x m a = m a) ∧
    (∀ md : IntMem × Bool,
      (VCFR.SumprobUpdate_int v st (some ms) s x md).1 (ms + s) =
        toInt (md.1 (ms + s) + lrint (x *
          (if (v.hard_warmup = 0 ∧ v.soft_warmup = 0) ∨
              (0 < v.soft_warmup ∧ v.it ≤ v.soft_warmup) then 1
            else if 0 < v.hard_warmup then (v.it : ℚ) - (v.hard_warmup : ℚ)
            else (v.it : ℚ) - (v.soft_warmup : ℚ)) * v.sumprob_scaling st)) ∧
      ∀ a, a ≠ ms + s → (VCFR.SumprobUpdate_int v st (some ms) s x md).1 a = md.1 a) ∧
    (VCFR.SumprobUpdate_double { soft_warmup := 5, hard_warmup := 0, it := 7 } (some 10) 0
        (3 / 10) (fun _ => 0) 10 = 0 + 6 / 10 ∧
      (VCFR.ProcessOppProbs_double_double { NumHoleCardPairs := fun _ => 1 }
        { soft_warmup := 5, hard_warmup := 0, it := 7 }
        (Node.mk 0 false false 1 0 0 0 0 [default, default]) {} true 0 [round64 (3 / 10)]
        [[0], [0]] 0 (some 10) (fun _ => 0)).2 10 = 0 + round64 (6 / 10)) := by
  have hnone : ¬ (v.value_calculation = true ∨ (some ms : Option Nat) = none ∨
      (v.hard_warmup > 0 ∧ v.it ≤ v.hard_warmup)) := by
    rintro (h | h | h)
    · rw [hvc] at h; exact Bool.noConfusion h
    · exact Option.noConfusion h
    · exact hgate h
  refine ⟨?_, ?_, by decide!⟩
  · intro m
    unfold VCFR.SumprobUpdate_double
    rw [if_neg hnone]
    simp only [Option.getD_some]
    by_cases h1 : (v.hard_warmup = 0 ∧ v.soft_warmup = 0) ∨
        (0 < v.soft_warmup ∧ v.it ≤ v.soft_warmup)
    · rw [if_pos h1, if_pos h1]
      refine ⟨by rw [Function.update_same, mul_one], fun a ha => Function.update_noteq ha _ _⟩
    · rw [if_neg h1, if_neg h1]
      by_cases h2 : 0 < v.hard_warmup
      · rw [if_pos h2, if_pos h2, usub_cast hit (by omega)]
        exact ⟨by rw [Function.update_same], fun a ha => Function.update_noteq ha _ _⟩
      · rw [if_neg h2, if_neg h2, usub_cast hit (by omega)]
        exact ⟨by rw [Function.update_same], fun a ha => Function.update_noteq ha _ _⟩
  · intro md
    unfold VCFR.SumprobUpdate_int
    rw [if_neg hnone]
    simp only [Option.getD_some]
    by_cases h1 : (v.hard_warmup = 0 ∧ v.soft_warmup = 0) ∨
        (0 < v.soft_warmup ∧ v.it ≤ v.soft_warmup)
    · rw [if_pos h1, if_pos h1]
      refine ⟨?_, fun a ha => ?_⟩
      · split <;> simp only [Function.update_same, mul_one]
      · split <;> exact Function.update_noteq ha _ _
    · rw [if_neg h1, if_neg h1]
      by_cases h2 : 0 < v.hard_warmup
      · rw [if_pos h2, if_pos h2, usub_cast hit (by omega)]
        refine ⟨?_, fun a ha => ?_⟩
        · split <;> simp only [Function.update_same]
        · split <;> exact Function.update_noteq ha _ _
      · rw [if_neg h2, if_neg h2, usub_cast hit (by omega)]
        refine ⟨?_, fun a ha => ?_⟩
        · split <;> simp only [Function.update_same]
        · split <;> exact Function.update_noteq ha _ _

/-- C7, witness: iteration 7 after a soft warmup of 5 iterations, successor reach 3/10. -/
theorem SumprobUpdate_weight_witness :
    VCFR.SumprobUpdate_double { soft_warmup := 5, hard_warmup := 0, it := 7 } (some 10) 1
      (3 / 10) (fun _ => 0) (10 + 1) = 6 / 10 :=
  ((SumprobUpdate_weight { soft_warmup := 5, hard_warmup := 0, it := 7 } 0 10 1 (3 / 10)
    (by decide) rfl (by decide)).1 (fun _ => 0)).1.trans (by decide!)

/-! ## Value vectors -/

theorem setAt_length (l : List ℚ) (i : Nat) (x : ℚ) : (setAt l i x).length = l.length := by
  unfold setAt; exact List.length_set _ _ _

theorem getD_setAt_same (l : List ℚ) (i : Nat) (x d : ℚ) (h : i < l.length) :
    (setAt l i x).getD i d = x := by
  unfold setAt
  rw [List.getD_eq_getElem?_getD, List.getElem?_set_self h, Option.getD_some]

theorem getD_setAt_ne (l : List ℚ) (i j : Nat) (x d : ℚ) (h : i ≠ j) :
    (setAt l i x).getD j d = l.getD j d := by
  unfold setAt
  rw [List.getD_eq_getElem?_getD, List.getElem?_set_ne h, List.getD_eq_getElem?_getD]

theorem getD_replicate_zero (n j : Nat) : (List.replicate n (0 : ℚ)).getD j 0 = 0 := by
  rw [List.getD_eq_getElem?_getD]
  by_cases h : j < n
  · rw [List.getElem?_replicate_of_lt h, Option.getD_some]
  · rw [List.getElem?_eq_none (by simpa using h), Option.getD_none]

/-- The accumulation of one hand's value over the successors: the length of the vector
and the other cells are kept, the hand's cell gains the sum of the terms. -/
theorem accumulate_hand (g : Nat → ℚ) (i : Nat) (ns : Nat) (vals : List ℚ)
    (hi : i < vals.length) :
    (loop ns (fun s vals => setAt vals i (vals.getD i 0 + g s)) vals).length = vals.length ∧
    (loop ns (fun s vals => setAt vals i (vals.getD i 0 + g s)) vals).getD i 0
      = loop ns (fun s acc => acc + g s) (vals.getD i 0) ∧
    ∀ j, j ≠ i →
      (loop ns (fun s vals => setAt vals i (vals.getD i 0 + g s)) vals).getD j 0
        = vals.getD j 0 := by
  induction ns with
  | zero => exact ⟨rfl, rfl, fun _ _ => rfl⟩
  | succ ns ih =>
    obtain ⟨h1, h2, h3⟩ := ih
    rw [loop_succ, loop_succ]
    refine ⟨?_, ?_, ?_⟩
    · rw [setAt_length, h1]
    · rw [getD_setAt_same _ _ _ _ (by rw [h1]; exact hi), h2]
    · intro j hj
      rw [getD_setAt_ne _ _ _ _ _ (Ne.symm hj), h3 j hj]

/-- The mixed values of all hands (`vals[i] += succ_vals[s][i] * probs[s]` over hands and
successors, from the zero vector): the vector has one cell per hand and the cell of hand
`i` holds the sum of its terms. -/
theorem accumulate_hands (g : Nat → Nat → ℚ) (ns n : Nat) :
    ∀ k, k ≤ n →
      (loop k (fun i vals => loop ns (fun s vals => setAt vals i (vals.getD i 0 + g i s)) vals)
        (List.replicate n 0)).length = n ∧
      ∀ i,
        (loop k (fun i vals =>
            loop ns (fun s vals => setAt vals i (vals.getD i 0 + g i s)) vals)
          (List.replicate n 0)).getD i 0
          = if i < k then loop ns (fun s acc => acc + g i s) 0 else 0 := by
  intro k
  induction k with
  | zero =>
    intro _
    refine ⟨List.length_replicate _ _, fun i => ?_⟩
    rw [if_neg (Nat.not_lt_zero i)]
    exact getD_replicate_zero n i
  | succ k ih =>
    intro hk
    obtain ⟨h1, h2⟩ := ih (Nat.le_of_succ_le hk)
    rw [loop_succ]
    obtain ⟨a1, a2, a3⟩ := accumulate_hand (g k) k ns _ (by rw [h1]; exact hk)
    refine ⟨by rw [a1, h1], fun i => ?_⟩
    by_cases hik : i = k
    · subst hik
      rw [a2, h2 i, if_neg (Nat.lt_irrefl i), if_pos (Nat.lt_succ_self i)]
    · rw [a3 i hik, h2 i]
      by_cases hlt : i < k
      · rw [if_pos hlt, if_pos (Nat.lt_succ_of_lt hlt)]
      · rw [if_neg hlt, if_neg (by omega)]

/-- The rounding `lrint` of an integer is that integer. -/
theorem lrint_intCast (n : Int) : lrint (n : ℚ) = n := by
  unfold lrint
  have hf : Rat.floor (n : ℚ) = n := by
    rw [Rat.floor_def']; simp
  simp only [hf, sub_self]
  norm_num

/-! ## `OurChoice` -/

/-- C5, counterexample: at the example node (default successor 0, no uniform flag, no
exploration, scaling 1, no warmup, regret row `[0, 0]`, successor values `+2` and `-1`
for hand 0) one learning pass of `OurChoice` leaves the row `[0, -3]`, not `[+2, -1]`:
the strategy puts all mass on successor 0, the hand is worth `+2`, and the regrets are
the successor values less that worth. -/
theorem OurChoice_first_iteration_counterexample :
    exampleRow (VCFR.OurChoice (VCFR.Process exampleEnv {} 1) exampleEnv {} {}
        (exampleRoot 0) 0 [1, 1, 1] 3 none) = some (0, -3) ∧
      exampleRow (VCFR.OurChoice (VCFR.Process exampleEnv {} 1) exampleEnv {} {}
        (exampleRoot 0) 0 [1, 1, 1] 3 none) ≠ some (2, -1) := by
  decide!

/-- The routine `OurChoiceVals` on an unabstracted node with integer regrets in a learning pass that
takes the strategy from the regrets: the value vector mixes the successor values with
the `RegretsToProbs` image of each hand's row, and `UpdateRegrets` runs on the board's
rows. -/
theorem OurChoiceVals_learning_int (E : Env) (v : VCFR) (σ : State) (node : Node)
    (lbd : Nat) (succ_vals : List (List ℚ))
    (hns : node.NumSuccs ≠ 1)
    (hbr : v.best_response_streets node.Street = false)
    (hbk : E.buckets.None node.Street = true)
    (hvc : v.value_calculation = false) (hpp : v.pre_phase = false)
    (havg : v.use_avg_for_current_it = 0)
    (hints : v.regrets.Ints v.p node.Street = true) :
    VCFR.OurChoiceVals E v σ node lbd succ_vals =
      .ok (loop (E.G.NumHoleCardPairs node.Street) (fun i vals =>
          loop node.NumSuccs (fun s vals =>
            setAt vals i (vals.getD i 0 + (succ_vals.getD s []).getD i 0 *
              (VCFR.RegretsToProbs (fun s => (σ.imem (v.regrets.addr v.p node.Street
                  node.NonterminalID + lbd * E.G.NumHoleCardPairs node.Street *
                    node.NumSuccs + i * node.NumSuccs + s) : ℚ))
                node.NumSuccs (v.nn_regrets && decide (v.regret_floors node.Street ≥ 0))
                v.uniform node.DefaultSuccIndex v.explore (VCFR.NonterminalSuccs node).1
                (VCFR.NonterminalSuccs node).2).getD s 0)) vals)
          (List.replicate (E.G.NumHoleCardPairs node.Street) 0),
        { σ with imem := (VCFR.UpdateRegrets_int E.G v node
          (loop (E.G.NumHoleCardPairs node.Street) (fun i vals =>
            loop node.NumSuccs (fun s vals =>
              setAt vals i (vals.getD i 0 + (succ_vals.getD s []).getD i 0 *
                (VCFR.RegretsToProbs (fun s => (σ.imem (v.regrets.addr v.p node.Street
                    node.NonterminalID + lbd * E.G.NumHoleCardPairs node.Street *
                      node.NumSuccs + i * node.NumSuccs + s) : ℚ))
                  node.NumSuccs (v.nn_regrets && decide (v.regret_floors node.Street ≥ 0))
                  v.uniform node.DefaultSuccIndex v.explore (VCFR.NonterminalSuccs node).1
                  (VCFR.NonterminalSuccs node).2).getD s 0)) vals)
            (List.replicate (E.G.NumHoleCardPairs node.Street) 0))
          succ_vals (v.regrets.addr v.p node.Street node.NonterminalID +
            lbd * E.G.NumHoleCardPairs node.Street * node.NumSuccs) σ.imem) }) := by
  unfold VCFR.OurChoiceVals
  simp [hns, hbr, hbk, hvc, hpp, havg, hints, CFRValues.Values_int]

/-- The routine `RegretsToProbs` on an all-zero row of two successors, without the uniform flag and
without exploration: all mass on the default successor. -/
theorem RegretsToProbs_zero_row (row : Nat → ℚ) (nonneg : Bool) (dsi k : Nat)
    (mask : List Bool) (h0 : row 0 = 0) (h1 : row 1 = 0) :
    VCFR.RegretsToProbs row 2 nonneg false dsi 0 k mask
      = [if 0 = dsi then 1 else 0, if 1 = dsi then 1 else 0] := by
  unfold VCFR.RegretsToProbs
  cases nonneg <;> simp [List.range_succ, h0, h1]

theorem lrint_small : lrint 0 = 0 ∧ lrint 3 = 3 ∧ lrint (-3) = -3 := by decide!

theorem toInt_small : toInt 0 = 0 ∧ toInt 3 = 3 ∧ toInt (-3) = -3 := by decide

/-- The regret row of hand 0 after `UpdateRegrets` without `nn_regrets`, from the row
`[0, 0]`, scaling 1, successor values `+2` and `-1` and the hand value `w`, for `w = 2`
and `w = -1`. -/
theorem first_iteration_cells (G : Game) (v : VCFR) (node : Node) (vals sv0 sv1 : List ℚ)
    (a : Nat) (imem : IntMem) (h2 : node.NumSuccs = 2) (hnn : v.nn_regrets = false)
    (hscale : v.regret_scaling node.Street = 1) (hn : 0 < G.NumHoleCardPairs node.Street)
    (hsv0 : sv0.getD 0 0 = 2) (hsv1 : sv1.getD 0 0 = -1)
    (hrow0 : imem a = 0) (hrow1 : imem (a + 1) = 0) (b : Bool)
    (hw : vals.getD 0 0 = if b then 2 else -1) :
    VCFR.UpdateRegrets_int G v node vals [sv0, sv1] a imem a = (if b then 0 else 3) ∧
    VCFR.UpdateRegrets_int G v node vals [sv0, sv1] a imem (a + 1)
      = (if b then -3 else 0) := by
  have hc0 := UpdateRegrets_int_free_cell G v node vals [sv0, sv1] a imem hnn 0 0 hn
    (by omega)
  have hc1 := UpdateRegrets_int_free_cell G v node vals [sv0, sv1] a imem hnn 0 1 hn
    (by omega)
  simp only [h2, Nat.zero_mul, Nat.add_zero, hscale, hw, mul_one] at hc0 hc1
  have hno : ¬ ∃ t, t < 2 ∧
      (toInt (imem (a + t) + lrint (([sv0, sv1].getD t []).getD 0 0 - if b then 2 else -1))
          < -2000000000 ∨
        toInt (imem (a + t) + lrint (([sv0, sv1].getD t []).getD 0 0 - if b then 2 else -1))
          > 2000000000) := by
    rintro ⟨t, ht, hb⟩
    have ht' : t = 0 ∨ t = 1 := by omega
    rcases ht' with rfl | rfl <;> cases b <;>
      simp only [Nat.add_zero, hrow0, hrow1, List.getD_cons_zero, List.getD_cons_succ, hsv0,
        hsv1] at hb <;> norm_num at hb <;>
      simp only [lrint_small, toInt_small] at hb <;> omega
  rw [if_neg hno] at hc0 hc1
  rw [hc0, hc1]
  cases b <;>
    simp only [hrow0, hrow1, List.getD_cons_zero, List.getD_cons_succ, hsv0, hsv1] <;>
    norm_num <;> simp [lrint_small, toInt_small]

/-- C5, amended: at a traverser node with two successors, no buckets, no best response,
integer regrets with `regret_scaling = 1`, a learning pass that takes the strategy from
the regrets, with the uniform flag off, no exploration and `nn_regrets` off: if hand 0's
regret row is `[0, 0]` and the two successors return `+2` and `-1` for hand 0, then
`OurChoice` returns and leaves hand 0's row at `[2 - w, -1 - w]`, where `w` is the value
of the default successor for hand 0: `[0, -3]` when `default_succ_index = 0` and
`[+3, 0]` when `default_succ_index = 1`. -/
theorem OurChoice_first_iteration (proc : VCFR.ProcFn) (E : Env) (v : VCFR)
    (σ σ1 σ2 : State) (node : Node) (lbd : Nat) (opp_probs : List ℚ) (sop : ℚ)
    (tcp : Option (List ℚ)) (sv0 sv1 : List ℚ)
    (h2 : node.NumSuccs = 2)
    (hbr : v.best_response_streets node.Street = false)
    (hbk : E.buckets.None node.Street = true)
    (hvc : v.value_calculation = false) (hpp : v.pre_phase = false)
    (havg : v.use_avg_for_current_it = 0)
    (hints : v.regrets.Ints v.p node.Street = true)
    (huni : v.uniform = false) (hexp : v.explore = 0) (hnn : v.nn_regrets = false)
    (hscale : v.regret_scaling node.Street = 1)
    (hn : 0 < E.G.NumHoleCardPairs node.Street)
    (hdsi : node.DefaultSuccIndex < 2)
    (hp0 : proc σ (node.IthSucc 0) lbd opp_probs sop tcp node.Street = .ok (sv0, σ1))
    (hp1 : proc σ1 (node.IthSucc 1) lbd opp_probs sop tcp node.Street = .ok (sv1, σ2))
    (hsv0 : sv0.getD 0 0 = 2) (hsv1 : sv1.getD 0 0 = -1)
    (hrow0 : σ2.imem (v.regrets.addr v.p node.Street node.NonterminalID +
      lbd * E.G.NumHoleCardPairs node.Street * 2) = 0)
    (hrow1 : σ2.imem (v.regrets.addr v.p node.Street node.NonterminalID +
      lbd * E.G.NumHoleCardPairs node.Street * 2 + 1) = 0) :
    ∃ vals σ', VCFR.OurChoice proc E v σ node lbd opp_probs sop tcp = .ok (vals, σ') ∧
      σ'.imem (v.regrets.addr v.p node.Street node.NonterminalID +
          lbd * E.G.NumHoleCardPairs node.Street * 2)
        = (if node.DefaultSuccIndex = 0 then 0 else 3) ∧
      σ'.imem (v.regrets.addr v.p node.Street node.NonterminalID +
          lbd * E.G.NumHoleCardPairs node.Street * 2 + 1)
        = (if node.DefaultSuccIndex = 0 then -3 else 0) := by
  have hrun : VCFR.OurChoice proc E v σ node lbd opp_probs sop tcp
      = VCFR.OurChoiceVals E v σ2 node lbd [sv0, sv1] := by
    unfold VCFR.OurChoice
    rw [h2]
    simp only [loopM, hp0, hp1, List.nil_append, List.singleton_append]
  rw [hrun, OurChoiceVals_learning_int E v σ2 node lbd [sv0, sv1] (by omega) hbr hbk hvc hpp
    havg hints]
  have hV := (accumulate_hands (fun i s => ([sv0, sv1].getD s []).getD i 0 *
      (VCFR.RegretsToProbs (fun s => (σ2.imem (v.regrets.addr v.p node.Street
          node.NonterminalID + lbd * E.G.NumHoleCardPairs node.Street *
            node.NumSuccs + i * node.NumSuccs + s) : ℚ))
        node.NumSuccs (v.nn_regrets && decide (v.regret_floors node.Street ≥ 0))
        v.uniform node.DefaultSuccIndex v.explore (VCFR.NonterminalSuccs node).1
        (VCFR.NonterminalSuccs node).2).getD s 0) node.NumSuccs
    (E.G.NumHoleCardPairs node.Street) (E.G.NumHoleCardPairs node.Street) (le_refl _)).2 0
  rw [if_pos hn] at hV
  have hprobs := RegretsToProbs_zero_row (fun s => (σ2.imem (v.regrets.addr v.p node.Street
      node.NonterminalID + lbd * E.G.NumHoleCardPairs node.Street * 2 + 0 * 2 + s) : ℚ))
    (v.nn_regrets && decide (v.regret_floors node.Street ≥ 0)) node.DefaultSuccIndex
    (VCFR.NonterminalSuccs node).1 (VCFR.NonterminalSuccs node).2
    (by simp only [Nat.zero_mul, Nat.add_zero, hrow0, Int.cast_zero])
    (by simp only [Nat.zero_mul, Nat.add_zero, hrow1, Int.cast_zero])
  have hW : loop node.NumSuccs (fun s acc => acc + ([sv0, sv1].getD s []).getD 0 0 *
      (VCFR.RegretsToProbs (fun s => (σ2.imem (v.regrets.addr v.p node.Street
          node.NonterminalID + lbd * E.G.NumHoleCardPairs node.Street *
            node.NumSuccs + 0 * node.NumSuccs + s) : ℚ))
        node.NumSuccs (v.nn_regrets && decide (v.regret_floors node.Street ≥ 0))
        v.uniform node.DefaultSuccIndex v.explore (VCFR.NonterminalSuccs node).1
        (VCFR.NonterminalSuccs node).2).getD s 0) (0 : ℚ)
      = if node.DefaultSuccIndex = 0 then 2 else -1 := by
    rw [h2, huni, hexp, hprobs]
    simp only [loop, List.getD_cons_zero, List.getD_cons_succ, hsv0, hsv1]
    rcases Nat.lt_succ_iff_lt_or_eq.mp hdsi with h | h
    · have h0 : node.DefaultSuccIndex = 0 := by omega
      rw [h0]; norm_num
    · rw [h]; norm_num
  rw [hW] at hV
  simp only [h2] at hV ⊢
  have hcells := first_iteration_cells E.G v node _ sv0 sv1
    (v.regrets.addr v.p node.Street node.NonterminalID +
      lbd * E.G.NumHoleCardPairs node.Street * 2) σ2.imem h2 hnn hscale hn hsv0 hsv1
    hrow0 hrow1 (decide (node.DefaultSuccIndex = 0)) (by rw [hV]; simp)
  refine ⟨_, _, rfl, ?_, ?_⟩
  · refine hcells.1.trans ?_
    by_cases h : node.DefaultSuccIndex = 0 <;> simp [h]
  · refine hcells.2.trans ?_
    by_cases h : node.DefaultSuccIndex = 0 <;> simp [h]

/-- C5, witness: the example node with default successor 1; the row becomes `[+3, 0]`. -/
theorem OurChoice_first_iteration_witness :
    ∃ vals σ', VCFR.OurChoice (VCFR.Process exampleEnv {} 1) exampleEnv {} {} (exampleRoot 1)
        0 [1, 1, 1] 3 none = .ok (vals, σ') ∧ σ'.imem 0 = 3 ∧ σ'.imem 1 = 0 :=
  OurChoice_first_iteration (VCFR.Process exampleEnv {} 1) exampleEnv {} {} {} {}
    (exampleRoot 1) 0 [1, 1, 1] 3 none [2, 0, 0] [-1, 0, 0] rfl rfl rfl rfl rfl rfl rfl rfl
    rfl rfl rfl (by decide) (by decide) rfl rfl rfl rfl rfl rfl

/-! ## Value-only runs leave the stores alone -/

/-- A property that every returning step of a stoppable loop preserves holds after the
loop, when it returns. -/
theorem loopM_invariant {σ : Type} (P : σ → Prop) (body : Nat → σ → Except Abort σ)
    (init : σ) (h0 : P init) (hstep : ∀ i s s', P s → body i s = .ok s' → P s') :
    ∀ (n : Nat) (r : σ), loopM n body init = .ok r → P r := by
  intro n
  induction n with
  | zero =>
    intro r h
    simp only [loopM, Except.ok.injEq] at h
    rw [← h]; exact h0
  | succ n ih =>
    intro r h
    rw [loopM] at h
    split at h
    · rename_i st hst
      exact hstep n st r (ih st hst) h
    · cases h

/-- In a value calculation the combining part of `OurChoice` returns the state it got. -/
theorem OurChoiceVals_value_calculation (E : Env) (v : VCFR) (σ σ' : State) (node : Node)
    (lbd : Nat) (succ_vals : List (List ℚ)) (out : List ℚ)
    (hvc : v.value_calculation = true)
    (h : VCFR.OurChoiceVals E v σ node lbd succ_vals = .ok (out, σ')) : σ' = σ := by
  unfold VCFR.OurChoiceVals at h
  simp only [hvc, not_true_eq_false, false_and, if_false, true_or, if_true] at h
  repeat' split at h
  all_goals cases h <;> rfl

/-- The routine `OurChoice` leaves the heaps alone when the recursive calls and the combining part
do. -/
theorem OurChoice_frame (proc : VCFR.ProcFn) (E : Env) (v : VCFR)
    (hproc : ∀ σ node lbd op sop tcp lst vals σ',
      proc σ node lbd op sop tcp lst = .ok (vals, σ') →
        σ'.imem = σ.imem ∧ σ'.dmem = σ.dmem)
    (hvals : ∀ σ node lbd sv out σ', VCFR.OurChoiceVals E v σ node lbd sv = .ok (out, σ') →
        σ'.imem = σ.imem ∧ σ'.dmem = σ.dmem)
    (σ : State) (node : Node) (lbd : Nat) (op : List ℚ) (sop : ℚ) (tcp : Option (List ℚ))
    (vals : List ℚ) (σ' : State)
    (h : VCFR.OurChoice proc E v σ node lbd op sop tcp = .ok (vals, σ')) :
    σ'.imem = σ.imem ∧ σ'.dmem = σ.dmem := by
  unfold VCFR.OurChoice at h
  split at h
  · cases h
  · rename_i succ_vals σ1 hloop
    have h1 := loopM_invariant
      (fun r : List (List ℚ) × State => r.2.imem = σ.imem ∧ r.2.dmem = σ.dmem) _ _
      ⟨rfl, rfl⟩ (fun i s s' hs hb => by
        split at hb
        · rename_i sv σ2 hp
          cases hb
          have := hproc _ _ _ _ _ _ _ _ _ hp
          exact ⟨this.1.trans hs.1, this.2.trans hs.2⟩
        · cases hb) _ _ hloop
    have h2 := hvals _ _ _ _ _ _ h
    exact ⟨h2.1.trans h1.1, h2.2.trans h1.2⟩

/-- In a value calculation the reach propagation of `OppChoice` leaves the heaps alone. -/
theorem OppChoiceReach_value_calculation (E : Env) (v : VCFR) (σ σ' : State) (node : Node)
    (lbd : Nat) (op : List ℚ) (sop : List (List ℚ)) (hvc : v.value_calculation = true)
    (h : VCFR.OppChoiceReach E v σ node lbd op = .ok (sop, σ')) :
    σ'.imem = σ.imem ∧ σ'.dmem = σ.dmem := by
  unfold VCFR.OppChoiceReach at h
  by_cases h1 : node.NumSuccs = 1
  · simp only [h1, if_true] at h
    cases h; exact ⟨rfl, rfl⟩
  · simp only [if_neg h1, hvc, not_true_eq_false, and_false, if_false] at h
    by_cases hb : ((! E.buckets.None node.Street) &&
        decide (node.PotSize < E.BucketThreshold node.Street)) = true
    · simp only [hb, if_true] at h
      cases hv : v.current_strategy.Values_double (v.p ^^^ 1) node.Street node.NonterminalID
        with
      | error e => rw [hv] at h; cases h
      | ok a =>
        rw [hv] at h
        cases h
        exact ⟨ProcessOppProbsBucketed_int_gated _ _ _ _ _ _ _ _ _ _ _ (Or.inl hvc), rfl⟩
    · simp only [hb, Bool.false_eq_true, if_false, Option.map_none'] at h
      generalize (if True ∧ ¬v.br_current = true ∨
          v.use_avg_for_current_it > 0 ∧ v.it ≥ v.use_avg_for_current_it then v.sumprobs
        else v.regrets) = src at h
      by_cases hi : src.Ints (v.p ^^^ 1) node.Street = true
      · simp only [hi, if_true] at h
        cases hv : src.Values_int (v.p ^^^ 1) node.Street node.NonterminalID with
        | error e => rw [hv] at h; cases h
        | ok a =>
          rw [hv] at h
          cases h
          exact ⟨ProcessOppProbs_int_int_gated _ _ _ _ _ _ _ _ _ _ _ (Or.inl hvc), rfl⟩
      · simp only [hi, Bool.false_eq_true, if_false] at h
        cases hv : src.Values_double (v.p ^^^ 1) node.Street node.NonterminalID with
        | error e => rw [hv] at h; cases h
        | ok a =>
          rw [hv] at h
          cases h
          exact ⟨rfl, ProcessOppProbs_double_double_gated _ _ _ _ _ _ _ _ _ _ _ (Or.inl hvc)⟩

/-- The routine `OppChoice` leaves the heaps alone when the recursive calls and the reach
propagation do. -/
theorem OppChoice_frame (proc : VCFR.ProcFn) (E : Env) (v : VCFR)
    (hproc : ∀ σ node lbd op sop tcp lst vals σ',
      proc σ node lbd op sop tcp lst = .ok (vals, σ') →
        σ'.imem = σ.imem ∧ σ'.dmem = σ.dmem)
    (hreach : ∀ σ node lbd op sop σ', VCFR.OppChoiceReach E v σ node lbd op = .ok (sop, σ') →
        σ'.imem = σ.imem ∧ σ'.dmem = σ.dmem)
    (σ : State) (node : Node) (lbd : Nat) (op : List ℚ) (vals : List ℚ) (σ' : State)
    (h : VCFR.OppChoice proc E v σ node lbd op = .ok (vals, σ')) :
    σ'.imem = σ.imem ∧ σ'.dmem = σ.dmem := by
  unfold VCFR.OppChoice at h
  split at h
  · cases h
  · rename_i succ_opp_probs σ1 hr
    dsimp only at h
    have h0 := hreach _ _ _ _ _ _ hr
    have key : ∀ r : Option (List ℚ) × State,
        loopM node.NumSuccs (fun s (r : Option (List ℚ) × State) =>
          if v.prune = true ∧
              (E.CommonBetResponseCalcs node.Street (E.Hands node.Street lbd)
                (succ_opp_probs.getD s [])).1 = 0 then .ok r
          else
            match proc r.2 (node.IthSucc s) lbd (succ_opp_probs.getD s [])
                (E.CommonBetResponseCalcs node.Street (E.Hands node.Street lbd)
                  (succ_opp_probs.getD s [])).1
                (some (E.CommonBetResponseCalcs node.Street (E.Hands node.Street lbd)
                  (succ_opp_probs.getD s [])).2) node.Street with
            | .error e => .error e
            | .ok (succ_vals, σ2) =>
              match r.1 with
              | none => .ok (some succ_vals, σ2)
              | some vals =>
                .ok (some (loop (E.G.NumHoleCardPairs node.Street) (fun i vals =>
                  setAt vals i (vals.getD i 0 + succ_vals.getD i 0)) vals), σ2))
          (none, σ1) = .ok r → r.2.imem = σ.imem ∧ r.2.dmem = σ.dmem := by
      intro r hl
      refine loopM_invariant
        (fun r : Option (List ℚ) × State => r.2.imem = σ.imem ∧ r.2.dmem = σ.dmem) _ _
        h0 (fun i s s' hs hb => ?_) _ _ hl
      split at hb
      · cases hb; exact hs
      · split at hb
        · cases hb
        · rename_i sv σ2 hp
          have := hproc _ _ _ _ _ _ _ _ _ hp
          split at hb <;> cases hb <;> exact ⟨this.1.trans hs.1, this.2.trans hs.2⟩
    split at h
    · cases h
    · rename_i σ2 hl
      cases h
      exact key _ hl
    · rename_i vals' σ2 hl
      cases h
      exact key _ hl

/-- The join of a subgame leaves the heaps alone. -/
theorem JoinSubgame_frame (σ : State) (t : Nat) (sg : VCFRSubgame) :
    (VCFR.JoinSubgame σ t sg).imem = σ.imem ∧ (VCFR.JoinSubgame σ t sg).dmem = σ.dmem :=
  ⟨rfl, rfl⟩

/-- The routine `SpawnSubgame` leaves the heaps alone. -/
theorem SpawnSubgame_frame (v : VCFR) (σ σ' : State) (node : Node) (bd : Nat)
    (op : List ℚ) (h : VCFR.SpawnSubgame v σ node bd op = .ok σ') :
    σ'.imem = σ.imem ∧ σ'.dmem = σ.dmem := by
  unfold VCFR.SpawnSubgame at h
  dsimp only at h
  split at h
  · cases h
  · split at h
    · cases h
    · split at h
      · cases h
      · split at h
        · cases h
        · cases h
          dsimp only
          split <;> exact ⟨rfl, rfl⟩

/-- The routine `StreetInitial` leaves the heaps alone when the recursive calls do. -/
theorem StreetInitial_frame (proc : VCFR.ProcFn) (E : Env) (v : VCFR)
    (hproc : ∀ σ node lbd op sop tcp lst vals σ',
      proc σ node lbd op sop tcp lst = .ok (vals, σ') →
        σ'.imem = σ.imem ∧ σ'.dmem = σ.dmem)
    (σ : State) (node : Node) (plbd : Nat) (op : List ℚ) (vals : List ℚ) (σ' : State)
    (h : VCFR.StreetInitial proc E v σ node plbd op = .ok (vals, σ')) :
    σ'.imem = σ.imem ∧ σ'.dmem = σ.dmem := by
  unfold VCFR.StreetInitial at h
  dsimp only at h
  split at h
  · split at h
    · split at h
      · cases h
      · rename_i σ1 hs
        cases h
        exact SpawnSubgame_frame _ _ _ _ _ _ hs
    · split at h
      · cases h
      · cases h; exact ⟨rfl, rfl⟩
  · split at h
    · cases h
    · rename_i vals1 σ1 hl
      cases h
      refine loopM_invariant
        (fun r : List ℚ × State => r.2.imem = σ.imem ∧ r.2.dmem = σ.dmem) _ _
        ⟨rfl, rfl⟩ (fun i s s' hs hb => ?_) _ _ hl
      split at hb
      · cases hb
      · rename_i nv σ2 hp
        cases hb
        have := hproc _ _ _ _ _ _ _ _ _ hp
        refine ⟨this.1.trans ?_, this.2.trans ?_⟩
        · split <;> exact hs.1
        · split <;> exact hs.2

/-- In a value calculation a whole traversal leaves the heaps alone. -/
theorem Process_value_calculation (E : Env) (v : VCFR) (hvc : v.value_calculation = true) :
    ∀ (fuel : Nat) (σ : State) (node : Node) (lbd : Nat) (op : List ℚ) (sop : ℚ)
      (tcp : Option (List ℚ)) (lst : Nat) (vals : List ℚ) (σ' : State),
      VCFR.Process E v fuel σ node lbd op sop tcp lst = .ok (vals, σ') →
        σ'.imem = σ.imem ∧ σ'.dmem = σ.dmem := by
  intro fuel
  induction fuel with
  | zero => intro σ node lbd op sop tcp lst vals σ' h; cases h
  | succ fuel ih =>
    intro σ node lbd op sop tcp lst vals σ' h
    rw [VCFR.Process] at h
    dsimp only at h
    split at h
    · split at h <;> cases h <;> exact ⟨rfl, rfl⟩
    · split at h
      · exact StreetInitial_frame _ E v ih _ _ _ _ _ _ h
      · split at h
        · exact OurChoice_frame _ E v ih
            (fun σ node lbd sv out σ' h => by
              rw [OurChoiceVals_value_calculation E v σ σ' node lbd sv out hvc h]
              exact ⟨rfl, rfl⟩) _ _ _ _ _ _ _ _ h
        · exact OppChoice_frame _ E v ih
            (fun σ node lbd op sop σ' h =>
              OppChoiceReach_value_calculation E v σ σ' node lbd op sop hvc h) _ _ _ _ _ _ h

/-- C8: when `value_calculation` is true, a traversal step through `OurChoice` or
`OppChoice` (the `UpdateRegrets*` and `ProcessOppProbs*` routines they call included)
that returns leaves every cell of the integer and double heaps, hence every regret table
and every sumprob table, unchanged, whenever the recursive calls it makes do; and so does
a whole traversal by `Process`, for every node, board, reach vector and storage policy. -/
theorem value_calculation_frame (E : Env) (v : VCFR) (hvc : v.value_calculation = true) :
    (∀ proc : VCFR.ProcFn,
      (∀ σ node lbd op sop tcp lst vals σ',
        proc σ node lbd op sop tcp lst = .ok (vals, σ') →
          σ'.imem = σ.imem ∧ σ'.dmem = σ.dmem) →
      (∀ σ node lbd op sop tcp vals σ',
        VCFR.OurChoice proc E v σ node lbd op sop tcp = .ok (vals, σ') →
          σ'.imem = σ.imem ∧ σ'.dmem = σ.dmem) ∧
      (∀ σ node lbd op vals σ',
        VCFR.OppChoice proc E v σ node lbd op = .ok (vals, σ') →
          σ'.imem = σ.imem ∧ σ'.dmem = σ.dmem)) ∧
    (∀ fuel σ node lbd op sop tcp lst vals σ',
      VCFR.Process E v fuel σ node lbd op sop tcp lst = .ok (vals, σ') →
        σ'.imem = σ.imem ∧ σ'.dmem = σ.dmem) := by
  refine ⟨fun proc hproc => ⟨?_, ?_⟩, Process_value_calculation E v hvc⟩
  · intro σ node lbd op sop tcp vals σ' h
    exact OurChoice_frame proc E v hproc
      (fun σ node lbd sv out σ' h => by
        rw [OurChoiceVals_value_calculation E v σ σ' node lbd sv out hvc h]
        exact ⟨rfl, rfl⟩) _ _ _ _ _ _ _ _ h
  · intro σ node lbd op vals σ' h
    exact OppChoice_frame proc E v hproc
      (fun σ node lbd op sop σ' h =>
        OppChoiceReach_value_calculation E v σ σ' node lbd op sop hvc h) _ _ _ _ _ _ h

/-- C8, witness: a value-only traversal of the example node returns and leaves the heaps
as they were. -/
theorem value_calculation_frame_witness :
    ∃ vals σ', VCFR.Process exampleEnv { value_calculation := true } 2 {} (exampleRoot 0) 0
        [1, 1, 1] 3 none 0 = .ok (vals, σ') ∧
      σ'.imem = ({} : State).imem ∧ σ'.dmem = ({} : State).dmem :=
  ⟨_, _, rfl, (value_calculation_frame exampleEnv { value_calculation := true } rfl).2 2 {}
    (exampleRoot 0) 0 [1, 1, 1] 3 none 0 _ _ rfl⟩

/-! ## `StreetInitial`: canonical hands -/

/-- First pass over the previous street's hands: a canonical hand that is the only hand
with its encoding is entered at that encoding. -/
theorem prev_canons_first (nv enc : Nat → Nat) (n : Nat) (init : Nat → Nat) (c : Nat)
    (huniq : ∀ j, j < n → enc j = enc c → j = c) (hnv : 0 < nv c) :
    ∀ k, k ≤ n → c < k →
      loop k (fun ph (pc : Nat → Nat) =>
        if nv ph > 0 then Function.update pc (enc ph) ph else pc) init (enc c) = c := by
  intro k
  induction k with
  | zero => intro _ hc; omega
  | succ k ih =>
    intro hk hc
    rw [loop_succ]
    by_cases hck : c = k
    · subst hck
      rw [if_pos hnv, Function.update_same]
    · have hlt : c < k := by omega
      split
      · rw [Function.update_noteq (fun he => hck (huniq k (by omega) he.symm).symm)]
        exact ih (by omega) hlt
      · exact ih (by omega) hlt

/-- Second pass over the previous street's hands: the entry of a canonical hand that is
the only hand with its encoding is kept. -/
theorem prev_canons_second (nv enc canon : Nat → Nat) (n : Nat) (init : Nat → Nat)
    (c : Nat) (huniq : ∀ j, j < n → enc j = enc c → j = c) (hnv : 0 < nv c) :
    ∀ k, k ≤ n →
      loop k (fun ph (pc : Nat → Nat) =>
        if nv ph = 0 then Function.update pc (enc ph) (pc (canon ph)) else pc) init (enc c)
        = init (enc c) := by
  intro k
  induction k with
  | zero => intro _; rfl
  | succ k ih =>
    intro hk
    rw [loop_succ]
    split
    · rename_i h0
      rw [Function.update_noteq (fun he => by
        have := huniq k (by omega) he.symm
        subst this
        omega)]
      exact ih (by omega)
    · exact ih (by omega)

/-- The copy pass: the cells of the canonical hands are kept and a non-canonical hand
receives the cell its canonical entry points to. -/
theorem copy_canonical (nv : Nat → Nat) (pcs : Nat → Nat) (n : Nat) (vals2 : List ℚ)
    (hlen : vals2.length = n) (ph c : Nat) (hph : ph < n) (hv0 : nv ph = 0)
    (hvc : 0 < nv c) (hpc : pcs ph = c) :
    ∀ k, k ≤ n →
      (loop k (fun ph vals =>
        if nv ph = 0 then setAt vals ph (vals.getD (pcs ph) 0) else vals) vals2).length = n ∧
      (∀ j, 0 < nv j →
        (loop k (fun ph vals =>
          if nv ph = 0 then setAt vals ph (vals.getD (pcs ph) 0) else vals) vals2).getD j 0
          = vals2.getD j 0) ∧
      (ph < k →
        (loop k (fun ph vals =>
          if nv ph = 0 then setAt vals ph (vals.getD (pcs ph) 0) else vals) vals2).getD ph 0
          = vals2.getD c 0) := by
  intro k
  induction k with
  | zero => intro _; exact ⟨hlen, fun _ _ => rfl, fun h => by omega⟩
  | succ k ih =>
    intro hk
    obtain ⟨h1, h2, h3⟩ := ih (by omega)
    rw [loop_succ]
    split
    · rename_i hk0
      refine ⟨by rw [setAt_length, h1], fun j hj => ?_, fun hlt => ?_⟩
      · rw [getD_setAt_ne _ _ _ _ _ (fun he => by subst he; omega), h2 j hj]
      · by_cases hpk : ph = k
        · subst hpk
          rw [getD_setAt_same _ _ _ _ (by omega), hpc, h2 c hvc]
        · rw [getD_setAt_ne _ _ _ _ _ (Ne.symm hpk), h3 (by omega)]
    · rename_i hk0
      refine ⟨h1, h2, fun hlt => h3 ?_⟩
      rcases Nat.lt_succ_iff_lt_or_eq.mp hlt with h | h
      · exact h
      · subst h; exact absurd hv0 hk0

/-- C10: in the vector `StreetInitial` returns on its board-enumeration path, for every
previous-street hand `ph` with `NumVariants(ph) = 0`, `vals[ph]` equals `vals[c]` where
`c` is the hand with `NumVariants > 0` whose encoding is `Canon(ph)` (`c` being the one
hand of the previous street with that encoding). -/
theorem StreetInitial_canonical (proc : VCFR.ProcFn) (E : Env) (v : VCFR) (σ σ' : State)
    (node : Node) (plbd : Nat) (op vals : List ℚ)
    (hpath : ¬ (node.Street = v.subgame_street ∧ ¬ v.subgame = true))
    (h : VCFR.StreetInitial proc E v σ node plbd op = .ok (vals, σ'))
    (ph c : Nat) (hph : ph < E.G.NumHoleCardPairs (usub node.Street 1))
    (hc : c < E.G.NumHoleCardPairs (usub node.Street 1))
    (hv0 : (E.Hands (usub node.Street 1) plbd).NumVariants ph = 0)
    (hvc : 0 < (E.Hands (usub node.Street 1) plbd).NumVariants c)
    (hcanon : (E.Hands (usub node.Street 1) plbd).Cards c 0 * (E.G.MaxCard + 1) +
        (E.Hands (usub node.Street 1) plbd).Cards c 1
      = (E.Hands (usub node.Street 1) plbd).Canon ph)
    (huniq : ∀ j, j < E.G.NumHoleCardPairs (usub node.Street 1) →
      (E.Hands (usub node.Street 1) plbd).Cards j 0 * (E.G.MaxCard + 1) +
          (E.Hands (usub node.Street 1) plbd).Cards j 1
        = (E.Hands (usub node.Street 1) plbd).Canon ph → j = c) :
    vals.getD ph 0 = vals.getD c 0 := by
  unfold VCFR.StreetInitial at h
  dsimp only at h
  rw [if_neg hpath] at h
  split at h
  · cases h
  · rename_i vals1 σ1 hl
    cases h
    have hlen1 : vals1.length = E.G.NumHoleCardPairs (usub node.Street 1) := by
      refine loopM_invariant
        (fun r : List ℚ × State => r.1.length = E.G.NumHoleCardPairs (usub node.Street 1))
        _ _ (List.length_replicate _ _) (fun i s s' hs hb => ?_) _ _ hl
      split at hb
      · cases hb
      · cases hb
        exact loop_invariant
          (fun l : List ℚ => l.length = E.G.NumHoleCardPairs (usub node.Street 1)) _ _ _ hs
          (fun nh l hl => by dsimp only; rw [setAt_length]; exact hl)
    have hlen2 := loop_invariant
      (fun l : List ℚ => l.length = E.G.NumHoleCardPairs (usub node.Street 1))
      (E.G.NumHoleCardPairs (usub node.Street 1))
      (fun ph vals =>
        if (E.Hands (usub node.Street 1) plbd).NumVariants ph > 0 then
          setAt vals ph (vals.getD ph 0 / ((E.G.StreetPermutations node.Street : ℚ) *
            ((E.Hands (usub node.Street 1) plbd).NumVariants ph : ℚ)))
        else vals) vals1 hlen1
      (fun i l hl => by dsimp only; split <;> [rw [setAt_length]; skip] <;> exact hl)
    have hp1 := prev_canons_first (E.Hands (usub node.Street 1) plbd).NumVariants
      (fun i => (E.Hands (usub node.Street 1) plbd).Cards i 0 * (E.G.MaxCard + 1) +
          (E.Hands (usub node.Street 1) plbd).Cards i 1)
      (E.G.NumHoleCardPairs (usub node.Street 1)) E.uninitialised c
      (fun j hj he => huniq j hj (he.trans hcanon)) hvc _ (le_refl _) hc
    have hp2 := prev_canons_second (E.Hands (usub node.Street 1) plbd).NumVariants
      (fun i => (E.Hands (usub node.Street 1) plbd).Cards i 0 * (E.G.MaxCard + 1) +
          (E.Hands (usub node.Street 1) plbd).Cards i 1)
      (E.Hands (usub node.Street 1) plbd).Canon
      (E.G.NumHoleCardPairs (usub node.Street 1))
      (loop (E.G.NumHoleCardPairs (usub node.Street 1)) (fun ph (pc : Nat → Nat) =>
        if (E.Hands (usub node.Street 1) plbd).NumVariants ph > 0 then
          Function.update pc ((E.Hands (usub node.Street 1) plbd).Cards ph 0 *
            (E.G.MaxCard + 1) + (E.Hands (usub node.Street 1) plbd).Cards ph 1) ph
        else pc) E.uninitialised) c
      (fun j hj he => huniq j hj (he.trans hcanon)) hvc _ (le_refl _)
    dsimp only at hp1 hp2
    rw [hp1, hcanon] at hp2
    have hcopy := copy_canonical (E.Hands (usub node.Street 1) plbd).NumVariants
      (fun q => loop (E.G.NumHoleCardPairs (usub node.Street 1)) (fun ph (pc : Nat → Nat) =>
          if (E.Hands (usub node.Street 1) plbd).NumVariants ph = 0 then
            Function.update pc ((E.Hands (usub node.Street 1) plbd).Cards ph 0 *
              (E.G.MaxCard + 1) + (E.Hands (usub node.Street 1) plbd).Cards ph 1)
              (pc ((E.Hands (usub node.Street 1) plbd).Canon ph))
          else pc)
        (loop (E.G.NumHoleCardPairs (usub node.Street 1)) (fun ph (pc : Nat → Nat) =>
          if (E.Hands (usub node.Street 1) plbd).NumVariants ph > 0 then
            Function.update pc ((E.Hands (usub node.Street 1) plbd).Cards ph 0 *
              (E.G.MaxCard + 1) + (E.Hands (usub node.Street 1) plbd).Cards ph 1) ph
          else pc) E.uninitialised) ((E.Hands (usub node.Street 1) plbd).Canon q))
      (E.G.NumHoleCardPairs (usub node.Street 1)) _ hlen2 ph c hph hv0 hvc hp2 _ (le_refl _)
    exact (hcopy.2.2 hph).trans (hcopy.2.1 c hvc).symm

/-- C10, witness: in the two-street example the non-canonical hand 1 receives the value
of the canonical hand 0. -/
theorem StreetInitial_canonical_witness :
    ∃ vals σ', VCFR.StreetInitial (VCFR.Process exampleEnv2 exampleEngine2 2) exampleEnv2
        exampleEngine2 {} exampleStreet1 0 [1] = .ok (vals, σ') ∧
      vals.getD 1 0 = vals.getD 0 0 :=
  ⟨_, _, rfl, StreetInitial_canonical (VCFR.Process exampleEnv2 exampleEngine2 2) exampleEnv2
    exampleEngine2 {} _ exampleStreet1 0 [1] _ (by decide) rfl
    1 0 (by decide) (by decide) rfl (by decide) rfl
    (by
      intro j hj
      have hj' : j < 2 := hj
      interval_cases j <;> decide)⟩

/-! ## The shape of the value vector -/

/-- A well-formed list of successors: street, shape and height of its members. -/
theorem wellFormedList_getD (M st : Nat) :
    ∀ (l : List Node) (s : Nat), s < l.length → Node.WellFormedList M st l = true →
      ((l.getD s default).Street = st ∨
        ((l.getD s default).Street = st + 1 ∧ (l.getD s default).Terminal = false)) ∧
      (l.getD s default).WellFormed M = true ∧
      (l.getD s default).height ≤ Node.heightList l := by
  intro l
  induction l with
  | nil => intro s hs; simp at hs
  | cons c cs ih =>
    intro s hs hwf
    rw [Node.WellFormedList] at hwf
    simp only [Bool.and_eq_true, Bool.or_eq_true, decide_eq_true_eq, Bool.not_eq_true'] at hwf
    obtain ⟨⟨hst, hc⟩, hcs⟩ := hwf
    cases s with
    | zero =>
      simp only [List.getD_cons_zero]
      refine ⟨hst, hc, ?_⟩
      rw [Node.heightList]
      exact le_max_left _ _
    | succ s =>
      simp only [List.getD_cons_succ]
      have := ih s (by simpa using hs) hcs
      refine ⟨this.1, this.2.1, ?_⟩
      rw [Node.heightList]
      exact le_trans this.2.2 (le_max_right _ _)

/-- In a well-formed tree the `s`-th successor of a node is on the node's street or is a
non-terminal node of the next street, is well-formed and is less high than the node; and
the node's street is at most the last one. -/
theorem wellFormed_child (M : Nat) (node : Node) (hwf : node.WellFormed M = true) (s : Nat)
    (hs : s < node.NumSuccs) :
    ((node.IthSucc s).Street = node.Street ∨
      ((node.IthSucc s).Street = node.Street + 1 ∧ (node.IthSucc s).Terminal = false)) ∧
    (node.IthSucc s).WellFormed M = true ∧
    (node.IthSucc s).height + 1 ≤ node.height ∧ node.Street ≤ M := by
  cases node with
  | mk st t sd pa ps nt dsi csi succs =>
    rw [Node.WellFormed] at hwf
    simp only [Bool.and_eq_true, decide_eq_true_eq] at hwf
    have := wellFormedList_getD M st succs s hs hwf.2
    refine ⟨this.1, this.2.1, ?_, hwf.1⟩
    rw [Node.height]
    exact Nat.succ_le_succ this.2.2

theorem wellFormed_street (M : Nat) (node : Node) (hwf : node.WellFormed M = true) :
    node.Street ≤ M := by
  cases node with
  | mk st t sd pa ps nt dsi csi succs =>
    rw [Node.WellFormed] at hwf
    simp only [Bool.and_eq_true, decide_eq_true_eq] at hwf
    exact hwf.1

theorem height_pos (node : Node) : 1 ≤ node.height := by
  cases node with
  | mk st t sd pa ps nt dsi csi succs => rw [Node.height]; omega

/-- A stoppable loop: a property indexed by the number of steps made, preserved by every
returning step, holds after the loop when it returns; a property of the stops holds
when it stops. -/
theorem loopM_good {σ : Type} (P : Nat → σ → Prop) (Q : Abort → Prop)
    (body : Nat → σ → Except Abort σ) (init : σ) (n : Nat) (h0 : P 0 init)
    (hstep : ∀ i s, i < n → P i s → Outcome (P (i + 1)) Q (body i s)) :
    Outcome (P n) Q (loopM n body init) := by
  induction n with
  | zero => exact h0
  | succ n ih =>
    have ih' := ih (fun i s hi hp => hstep i s (Nat.lt_succ_of_lt hi) hp)
    rw [loopM]
    cases hl : loopM n body init with
    | error e => rw [hl] at ih'; exact ih'
    | ok st =>
      rw [hl] at ih'
      exact hstep n st (Nat.lt_succ_self n) ih'

/-- Loops that only store into a vector keep its length: one loop. -/
theorem loop_store_length (n N : Nat) (idx : Nat → List ℚ → Nat) (f : Nat → List ℚ → ℚ)
    (vals : List ℚ) (h : vals.length = N) :
    (loop n (fun i vals => setAt vals (idx i vals) (f i vals)) vals).length = N :=
  loop_invariant (fun l : List ℚ => l.length = N) n _ vals h
    (fun i l hl => by dsimp only; rw [setAt_length]; exact hl)

/-- Loops that only store into a vector keep its length: a loop over hands around a loop
over successors. -/
theorem loop_loop_store_length (n ns N : Nat) (f : Nat → Nat → List ℚ → ℚ) (vals : List ℚ)
    (h : vals.length = N) :
    (loop n (fun i vals => loop ns (fun s vals => setAt vals i (f i s vals)) vals)
      vals).length = N :=
  loop_invariant (fun l : List ℚ => l.length = N) n _ vals h
    (fun i l hl => loop_store_length ns N (fun _ _ => i) (f i) l hl)

/-- A table pointer asked with the element type the store declares is granted. -/
theorem Values_int_ok (c : CFRValues) (p st nt : Nat) (h : c.Ints p st = true) :
    c.Values_int p st nt = .ok (c.addr p st nt) := by
  unfold CFRValues.Values_int; rw [if_pos h]

theorem Values_double_ok (c : CFRValues) (p st nt : Nat) (h : ¬ c.Ints p st = true) :
    c.Values_double p st nt = .ok (c.addr p st nt) := by
  unfold CFRValues.Values_double; rw [if_neg h]

theorem Values_double_error (c : CFRValues) (p st nt : Nat) (e : Abort)
    (h : c.Values_double p st nt = .error e) :
    e = Abort.PolicyMismatch ∧ c.Ints p st = true := by
  unfold CFRValues.Values_double at h
  split at h
  · rename_i hi; cases h; exact ⟨rfl, hi⟩
  · cases h

/-- The combining part of `OurChoice` returns one value per hole-card pair of the node's
street (with a single successor: when that successor's vector has this length) and
keeps the cache in shape; it stops only on a current-strategy cache of integers. -/
theorem OurChoiceVals_shape (E : Env) (v : VCFR) (σ : State) (node : Node) (lbd : Nat)
    (succ_vals : List (List ℚ)) (hcache : CacheShape E v σ)
    (h1 : node.NumSuccs = 1 →
      (succ_vals.getD 0 []).length = E.G.NumHoleCardPairs node.Street) :
    ShapeResult E v (E.G.NumHoleCardPairs node.Street)
      (VCFR.OurChoiceVals E v σ node lbd succ_vals) := by
  unfold VCFR.OurChoiceVals
  dsimp only
  by_cases hns : node.NumSuccs = 1
  · rw [if_pos hns]; exact ⟨h1 hns, hcache⟩
  rw [if_neg hns]
  by_cases hbr : v.best_response_streets node.Street = true
  · rw [if_pos hbr]
    split
    · exact ⟨loop_store_length _ _ (fun i _ => i) _ _ (List.length_replicate _ _), hcache⟩
    · exact ⟨loop_store_length _ _ (fun i _ => i) _ _ (List.length_replicate _ _), hcache⟩
  rw [if_neg hbr]
  by_cases hb : ((! E.buckets.None node.Street) &&
      decide (node.PotSize < E.BucketThreshold node.Street)) = true
  · rw [if_pos hb]
    cases hv : v.current_strategy.Values_double v.p node.Street node.NonterminalID with
    | error e =>
      have := Values_double_error _ _ _ _ _ hv
      refine ⟨by rw [this.1]; decide, fun hq => ?_⟩
      rw [hq.2] at this
      exact Bool.noConfusion this.2
    | ok a =>
      dsimp only
      have hlen := loop_loop_store_length (E.G.NumHoleCardPairs node.Street) node.NumSuccs
        (E.G.NumHoleCardPairs node.Street)
        (fun i s vals => vals.getD i 0 + (succ_vals.getD s []).getD i 0 *
          σ.dmem (a + σ.street_buckets node.Street i * node.NumSuccs + s))
        (List.replicate (E.G.NumHoleCardPairs node.Street) 0) (List.length_replicate _ _)
      split
      · split
        · rename_i hi
          rw [Values_int_ok _ _ _ _ hi]
          exact ⟨hlen, hcache⟩
        · rename_i hi
          rw [Values_double_ok _ _ _ _ hi]
          exact ⟨hlen, hcache⟩
      · exact ⟨hlen, hcache⟩
  rw [if_neg hb]
  generalize (if v.value_calculation = true ∨
      v.use_avg_for_current_it > 0 ∧ v.it ≥ v.use_avg_for_current_it then v.sumprobs
    else v.regrets) = src
  generalize (if v.value_calculation = true ∨
      v.use_avg_for_current_it > 0 ∧ v.it ≥ v.use_avg_for_current_it then true
    else v.nn_regrets && decide (v.regret_floors node.Street ≥ 0)) = nonneg
  generalize (if v.value_calculation = true ∨
      v.use_avg_for_current_it > 0 ∧ v.it ≥ v.use_avg_for_current_it then (0 : ℚ)
    else v.explore) = explore
  by_cases hi : src.Ints v.p node.Street = true
  · rw [if_pos hi, Values_int_ok _ _ _ _ hi]
    dsimp only
    split <;> exact ⟨loop_loop_store_length _ _ _ _ _ (List.length_replicate _ _), hcache⟩
  · rw [if_neg hi, Values_double_ok _ _ _ _ hi]
    dsimp only
    split <;> exact ⟨loop_loop_store_length _ _ _ _ _ (List.length_replicate _ _), hcache⟩

/-- The routine `OurChoice` returns one value per hole-card pair of the node's street when the
recursive calls on its successors do. -/
theorem OurChoice_shape (proc : VCFR.ProcFn) (E : Env) (v : VCFR) (σ : State) (node : Node)
    (lbd : Nat) (op : List ℚ) (sop : ℚ) (tcp : Option (List ℚ))
    (hcache : CacheShape E v σ)
    (hproc : ∀ s, s < node.NumSuccs → ∀ σ1, CacheShape E v σ1 →
      ShapeResult E v (E.G.NumHoleCardPairs node.Street)
        (proc σ1 (node.IthSucc s) lbd op sop tcp node.Street)) :
    ShapeResult E v (E.G.NumHoleCardPairs node.Street)
      (VCFR.OurChoice proc E v σ node lbd op sop tcp) := by
  unfold VCFR.OurChoice
  have hloop := loopM_good
    (fun k (r : List (List ℚ) × State) => r.1.length = k ∧
      (∀ x, x ∈ r.1 → x.length = E.G.NumHoleCardPairs node.Street) ∧ CacheShape E v r.2)
    (fun e => e ≠ Abort.OutOfFuel ∧ ¬ Quiet E v)
    (fun s (r : List (List ℚ) × State) =>
      match proc r.2 (node.IthSucc s) lbd op sop tcp node.Street with
      | .ok (sv, σ1) => .ok (r.1 ++ [sv], σ1)
      | .error e => .error e) ([], σ) node.NumSuccs
    ⟨rfl, fun x hx => (by simp at hx), hcache⟩
    (fun i s hi hp => by
      have := hproc i hi s.2 hp.2.2
      dsimp only
      cases hr : proc s.2 (node.IthSucc i) lbd op sop tcp node.Street with
      | error e => rw [hr] at this; exact this
      | ok r =>
        rw [hr] at this
        obtain ⟨sv, σ1⟩ := r
        dsimp only
        refine ⟨by rw [List.length_append, hp.1]; rfl, fun x hx => ?_, this.2⟩
        rcases List.mem_append.mp hx with h | h
        · exact hp.2.1 x h
        · rw [List.mem_singleton.mp h]; exact this.1)
  cases hl : loopM node.NumSuccs (fun s (r : List (List ℚ) × State) =>
      match proc r.2 (node.IthSucc s) lbd op sop tcp node.Street with
      | .ok (sv, σ1) => .ok (r.1 ++ [sv], σ1)
      | .error e => .error e) ([], σ) with
  | error e => rw [hl] at hloop; exact hloop
  | ok r =>
    rw [hl] at hloop
    obtain ⟨succ_vals, σ1⟩ := r
    dsimp only at hloop ⊢
    refine OurChoiceVals_shape E v σ1 node lbd succ_vals hloop.2.2 (fun h1 => ?_)
    apply hloop.2.1
    have hlen : succ_vals.length = 1 := by rw [hloop.1, h1]
    match succ_vals, hlen with
    | [x], _ => simp

/-- The reach propagation of `OppChoice` keeps the cache in shape; it stops only on a
current-strategy cache of integers. -/
theorem OppChoiceReach_shape (E : Env) (v : VCFR) (σ : State) (node : Node) (lbd : Nat)
    (op : List ℚ) (hcache : CacheShape E v σ) :
    match VCFR.OppChoiceReach E v σ node lbd op with
    | .ok (_, σ1) => CacheShape E v σ1
    | .error e => e ≠ Abort.OutOfFuel ∧ ¬ Quiet E v := by
  unfold VCFR.OppChoiceReach
  dsimp only
  by_cases h1 : node.NumSuccs = 1
  · rw [if_pos h1]; exact hcache
  rw [if_neg h1]
  have hsp : ∃ q : Option Nat × Option Nat,
      (if v.sumprob_streets node.Street = true ∧ v.sumprobs.Players (v.p ^^^ 1) = true ∧
            ¬ v.pre_phase = true ∧ ¬ v.value_calculation = true then
          if v.sumprobs.Ints (v.p ^^^ 1) node.Street = true then
            (v.sumprobs.Values_int (v.p ^^^ 1) node.Street node.NonterminalID).map
              (fun a => (some a, none))
          else (v.sumprobs.Values_double (v.p ^^^ 1) node.Street node.NonterminalID).map
              (fun a => (none, some a))
        else .ok (none, none) : Except Abort (Option Nat × Option Nat)) = .ok q := by
    split
    · split
      · rename_i hi; rw [Values_int_ok _ _ _ _ hi]; exact ⟨_, rfl⟩
      · rename_i hi; rw [Values_double_ok _ _ _ _ hi]; exact ⟨_, rfl⟩
    · exact ⟨_, rfl⟩
  obtain ⟨⟨i_all_sumprobs, d_all_sumprobs⟩, hq⟩ := hsp
  rw [hq]
  dsimp only
  by_cases hb : ((! E.buckets.None node.Street) &&
      decide (node.PotSize < E.BucketThreshold node.Street)) = true
  · rw [if_pos hb]
    cases hv : v.current_strategy.Values_double (v.p ^^^ 1) node.Street node.NonterminalID
      with
    | error e =>
      have := Values_double_error _ _ _ _ _ hv
      refine ⟨by rw [this.1]; decide, fun hq => ?_⟩
      rw [hq.2] at this
      exact Bool.noConfusion this.2
    | ok a =>
      dsimp only
      cases d_all_sumprobs <;> exact hcache
  · rw [if_neg hb]
    generalize (if v.value_calculation = true ∧ ¬ v.br_current = true ∨
        v.use_avg_for_current_it > 0 ∧ v.it ≥ v.use_avg_for_current_it then v.sumprobs
      else v.regrets) = src
    by_cases hi : src.Ints (v.p ^^^ 1) node.Street = true
    · rw [if_pos hi, Values_int_ok _ _ _ _ hi]
      dsimp only
      cases d_all_sumprobs <;> exact hcache
    · rw [if_neg hi, Values_double_ok _ _ _ _ hi]
      exact hcache

/-- The routine `OppChoice` returns one value per hole-card pair of the node's street when the
recursive calls on its successors do. -/
theorem OppChoice_shape (proc : VCFR.ProcFn) (E : Env) (v : VCFR) (σ : State) (node : Node)
    (lbd : Nat) (op : List ℚ) (hcache : CacheShape E v σ)
    (hproc : ∀ s, s < node.NumSuccs → ∀ σ1 op1 sop1 tcp1, CacheShape E v σ1 →
      ShapeResult E v (E.G.NumHoleCardPairs node.Street)
        (proc σ1 (node.IthSucc s) lbd op1 sop1 tcp1 node.Street)) :
    ShapeResult E v (E.G.NumHoleCardPairs node.Street)
      (VCFR.OppChoice proc E v σ node lbd op) := by
  unfold VCFR.OppChoice
  dsimp only
  have hreach := OppChoiceReach_shape E v σ node lbd op hcache
  cases hr : VCFR.OppChoiceReach E v σ node lbd op with
  | error e => rw [hr] at hreach; exact hreach
  | ok r =>
    rw [hr] at hreach
    obtain ⟨succ_opp_probs, σ1⟩ := r
    dsimp only at hreach ⊢
    have hloop := loopM_good
      (fun _ (r : Option (List ℚ) × State) =>
        (∀ vals, r.1 = some vals → vals.length = E.G.NumHoleCardPairs node.Street) ∧
          CacheShape E v r.2)
      (fun e => e ≠ Abort.OutOfFuel ∧ ¬ Quiet E v)
      (fun s (r : Option (List ℚ) × State) =>
        if v.prune = true ∧
            (E.CommonBetResponseCalcs node.Street (E.Hands node.Street lbd)
              (succ_opp_probs.getD s [])).1 = 0 then .ok r
        else
          match proc r.2 (node.IthSucc s) lbd (succ_opp_probs.getD s [])
              (E.CommonBetResponseCalcs node.Street (E.Hands node.Street lbd)
                (succ_opp_probs.getD s [])).1
              (some (E.CommonBetResponseCalcs node.Street (E.Hands node.Street lbd)
                (succ_opp_probs.getD s [])).2) node.Street with
          | .error e => .error e
          | .ok (succ_vals, σ2) =>
            match r.1 with
            | none => .ok (some succ_vals, σ2)
            | some vals =>
              .ok (some (loop (E.G.NumHoleCardPairs node.Street) (fun i vals =>
                setAt vals i (vals.getD i 0 + succ_vals.getD i 0)) vals), σ2))
      (none, σ1) node.NumSuccs
      ⟨fun vals hv => (by cases hv), hreach⟩
      (fun i s hi hp => by
        dsimp only
        by_cases hpr : v.prune = true ∧
            (E.CommonBetResponseCalcs node.Street (E.Hands node.Street lbd)
              (succ_opp_probs.getD i [])).1 = 0
        · rw [if_pos hpr]
          exact hp
        · rw [if_neg hpr]
          have := hproc i hi s.2 (succ_opp_probs.getD i [])
            (E.CommonBetResponseCalcs node.Street (E.Hands node.Street lbd)
              (succ_opp_probs.getD i [])).1
            (some (E.CommonBetResponseCalcs node.Street (E.Hands node.Street lbd)
              (succ_opp_probs.getD i [])).2) hp.2
          cases hq : proc s.2 (node.IthSucc i) lbd (succ_opp_probs.getD i [])
              (E.CommonBetResponseCalcs node.Street (E.Hands node.Street lbd)
                (succ_opp_probs.getD i [])).1
              (some (E.CommonBetResponseCalcs node.Street (E.Hands node.Street lbd)
                (succ_opp_probs.getD i [])).2) node.Street with
          | error e => rw [hq] at this; exact this
          | ok r =>
            rw [hq] at this
            obtain ⟨sv, σ2⟩ := r
            cases hs1 : s.1 with
            | none =>
              exact ⟨fun vals hv => (by cases hv; exact this.1), this.2⟩
            | some vals0 =>
              refine ⟨fun vals hv => ?_, this.2⟩
              cases hv
              exact loop_store_length _ _ (fun i _ => i) _ _ (hp.1 vals0 hs1))
    cases hl : loopM node.NumSuccs _ (none, σ1) with
    | error e => rw [hl] at hloop; exact hloop
    | ok r =>
      rw [hl] at hloop
      obtain ⟨ov, σ2⟩ := r
      cases ov with
      | none => exact ⟨List.length_replicate _ _, hloop.2⟩
      | some vals => exact ⟨hloop.1 vals rfl, hloop.2⟩

/-- The join of a subgame held by a slot keeps the cache in shape. -/
theorem JoinSubgame_shape (E : Env) (v : VCFR) (σ : State) (t : Nat) (sg : VCFRSubgame)
    (hcache : CacheShape E v σ) (hsg : σ.active_subgames t = some sg) :
    CacheShape E v (VCFR.JoinSubgame σ t sg) := by
  unfold VCFR.JoinSubgame
  refine ⟨fun p nt bd fv h => ?_, fun t' sg' fv h hf => ?_⟩
  · dsimp only at h
    split at h
    · exact hcache.2 t sg fv hsg h
    · exact hcache.1 p nt bd fv h
  · dsimp only at h
    by_cases htt : t' = t
    · subst htt
      rw [Function.update_same] at h
      cases h
    · rw [Function.update_noteq htt] at h
      exact hcache.2 t' sg' fv h hf

/-- The routine `SpawnSubgame` keeps the cache in shape; its stops are a blocked semaphore or a
violated pool invariant. -/
theorem SpawnSubgame_shape (E : Env) (v : VCFR) (σ : State) (node : Node) (bd : Nat)
    (op : List ℚ) (hcache : CacheShape E v σ) :
    match VCFR.SpawnSubgame v σ node bd op with
    | .ok σ' => CacheShape E v σ'
    | .error e => e ≠ Abort.OutOfFuel := by
  unfold VCFR.SpawnSubgame
  dsimp only
  by_cases ha : σ.available = 0
  · rw [if_pos ha]
    exact (by decide : Abort.Blocked ≠ Abort.OutOfFuel)
  rw [if_neg ha]
  have hc1 : CacheShape E v { σ with available := σ.available - 1 } := hcache
  generalize ((List.range v.num_threads).find? (fun t => ! σ.subgame_running t)).getD
    v.num_threads = t
  by_cases ht : t = v.num_threads
  · rw [if_pos ht]
    exact (by decide : Abort.ConcurrencyInvariantViolation ≠ Abort.OutOfFuel)
  rw [if_neg ht]
  have hc2 : CacheShape E v (match σ.active_subgames t with
      | some old_subgame =>
        VCFR.JoinSubgame { σ with available := σ.available - 1 } t old_subgame
      | none => { σ with available := σ.available - 1 }) := by
    cases hact : σ.active_subgames t with
    | none => exact hc1
    | some old => exact JoinSubgame_shape E v _ t old hc1 hact
  generalize (match σ.active_subgames t with
      | some old_subgame =>
        VCFR.JoinSubgame { σ with available := σ.available - 1 } t old_subgame
      | none => { σ with available := σ.available - 1 }) = σ2 at hc2 ⊢
  by_cases hj : (σ.active_subgames t).isSome = true ∧ v.num_threads = 1 ∧
      σ2.g_num_active ≠ 0
  · rw [if_pos hj]
    exact (by decide : Abort.ConcurrencyInvariantViolation ≠ Abort.OutOfFuel)
  rw [if_neg hj]
  by_cases hl : v.num_threads = 1 ∧ (σ2.g_num_active + 1) % 4294967296 ≠ 1
  · rw [if_pos hl]
    exact (by decide : Abort.ConcurrencyInvariantViolation ≠ Abort.OutOfFuel)
  rw [if_neg hl]
  refine ⟨fun p nt bd fv h => hc2.1 p nt bd fv h, fun t' sg' fv h hf => ?_⟩
  dsimp only at h
  by_cases htt : t' = t
  · subst htt
    rw [Function.update_same] at h
    cases h
    cases hf
  · rw [Function.update_noteq htt] at h
    exact hc2.2 t' sg' fv h hf

/-- The routine `StreetInitial` returns one value per hole-card pair of the street before the node's
when the recursive calls on the node return or stop properly. -/
theorem StreetInitial_shape (proc : VCFR.ProcFn) (E : Env) (v : VCFR) (σ : State)
    (node : Node) (plbd : Nat) (op : List ℚ) (N : Nat)
    (hcache : CacheShape E v σ) (h1 : 1 ≤ node.Street) (hM : node.Street ≤ E.G.MaxStreet)
    (hms : E.G.MaxStreet < 4294967295)
    (hproc : ∀ σ1 lbd op1 sop1 tcp1, CacheShape E v σ1 →
      ShapeResult E v N (proc σ1 node lbd op1 sop1 tcp1 node.Street)) :
    ShapeResult E v (E.G.NumHoleCardPairs (node.Street - 1))
      (VCFR.StreetInitial proc E v σ node plbd op) := by
  have hsub : usub node.Street 1 = node.Street - 1 := usub_eq_sub (by omega) h1
  unfold VCFR.StreetInitial
  dsimp only
  rw [hsub]
  by_cases hhook : node.Street = v.subgame_street ∧ ¬ v.subgame = true
  · rw [if_pos hhook]
    have hnq : ¬ Quiet E v := fun hq => by
      have := hq.1
      rw [← hhook.1] at this
      omega
    by_cases hpp : v.pre_phase = true
    · rw [if_pos hpp]
      have hs := SpawnSubgame_shape E v σ node plbd op hcache
      cases hsp : VCFR.SpawnSubgame v σ node plbd op with
      | error e => rw [hsp] at hs; exact ⟨hs, hnq⟩
      | ok σ1 => rw [hsp] at hs; exact ⟨List.length_replicate _ _, hs⟩
    · rw [if_neg hpp]
      cases hfv : σ.final_vals node.PlayerActing node.NonterminalID plbd with
      | none => exact ⟨by decide, hnq⟩
      | some fv =>
        refine ⟨?_, fun p nt bd fv' h => ?_, hcache.2⟩
        · rw [hcache.1 _ _ _ _ hfv, ← hhook.1, hsub]
        · dsimp only at h
          split at h
          · cases h
          · exact hcache.1 p nt bd fv' h
  · rw [if_neg hhook]
    generalize hres : loopM _ _ _ = res
    have hloop : Outcome
        (fun r : List ℚ × State =>
          r.1.length = E.G.NumHoleCardPairs (node.Street - 1) ∧ CacheShape E v r.2)
        (fun e => e ≠ Abort.OutOfFuel ∧ ¬ Quiet E v) res := by
      subst hres
      refine loopM_good
        (fun _ (r : List ℚ × State) =>
          r.1.length = E.G.NumHoleCardPairs (node.Street - 1) ∧ CacheShape E v r.2)
        (fun e => e ≠ Abort.OutOfFuel ∧ ¬ Quiet E v) _ _ _ ?_ (fun k r _ hp => ?_)
      · exact ⟨List.length_replicate _ _, hcache⟩
      · dsimp only
        generalize hq : proc _ _ _ _ _ _ _ = q
        have hsr : ShapeResult E v N q := by
          subst hq
          refine hproc _ _ _ _ _ ?_
          split
          · exact hp.2
          · exact hp.2
        cases q with
        | error e => exact hsr
        | ok x =>
          obtain ⟨nv, σ2⟩ := x
          exact ⟨loop_store_length _ _ _ _ _ hp.1, hsr.2⟩
    cases res with
    | error e => exact hloop
    | ok r =>
      obtain ⟨vals1, σ1⟩ := r
      dsimp only at hloop ⊢
      refine ⟨?_, hloop.2⟩
      refine loop_invariant
        (fun l : List ℚ => l.length = E.G.NumHoleCardPairs (node.Street - 1)) _ _ _ ?_
        (fun i l hl => by dsimp only; split <;> [rw [setAt_length]; skip] <;> exact hl)
      exact loop_invariant
        (fun l : List ℚ => l.length = E.G.NumHoleCardPairs (node.Street - 1)) _ _ _ hloop.1
        (fun i l hl => by dsimp only; split <;> [rw [setAt_length]; skip] <;> exact hl)

/-- The length `Process` hands back for a successor of a node on street `st`: one value
per hole-card pair of `st`. -/
theorem child_expected_length (E : Env) (c : Node) (st : Nat)
    (h : c.Street = st ∨ (c.Street = st + 1 ∧ c.Terminal = false)) :
    E.G.NumHoleCardPairs
        (if c.Terminal = false ∧ c.Street > st then c.Street - 1 else c.Street)
      = E.G.NumHoleCardPairs st := by
  rcases h with h | ⟨h, ht⟩
  · rw [if_neg (by omega), h]
  · rw [if_pos ⟨ht, by omega⟩, h, Nat.add_sub_cancel]

/-- The shape of what `Process` returns, for terminal and non-terminal nodes, with the
fuel that a node of the given height needs. -/
theorem Process_shape_aux (E : Env) (v : VCFR) (hpay : PayoffShape E)
    (hms : E.G.MaxStreet < 4294967295) :
    ∀ (fuel : Nat) (σ : State) (node : Node) (lbd : Nat) (op : List ℚ) (sop : ℚ)
      (tcp : Option (List ℚ)) (last_st : Nat),
      node.WellFormed E.G.MaxStreet = true → CacheShape E v σ →
      2 * node.height ≤ fuel + (if node.Street ≤ last_st then 1 else 0) →
      ShapeResult E v
        (E.G.NumHoleCardPairs
          (if node.Terminal = false ∧ node.Street > last_st then node.Street - 1
            else node.Street))
        (VCFR.Process E v fuel σ node lbd op sop tcp last_st) := by
  intro fuel
  induction fuel with
  | zero =>
    intro σ node lbd op sop tcp last_st _ _ hf
    have := height_pos node
    split at hf <;> omega
  | succ fuel ih =>
    intro σ node lbd op sop tcp last_st hwf hcache hf
    rw [VCFR.Process]
    dsimp only
    by_cases ht : node.Terminal = true
    · rw [if_pos ht, if_neg (by rw [ht]; simp)]
      split
      · exact ⟨hpay.1 _ _ _ _ _, hcache⟩
      · exact ⟨hpay.2 _ _ _ _ _ _, hcache⟩
    · have htf : node.Terminal = false := by simpa using ht
      rw [if_neg ht]
      by_cases hst : node.Street > last_st
      · rw [if_pos hst, if_pos ⟨htf, hst⟩]
        refine StreetInitial_shape _ E v σ node lbd op (E.G.NumHoleCardPairs node.Street)
          hcache (by omega) (wellFormed_street _ _ hwf) hms (fun σ1 lbd1 op1 sop1 tcp1 hc1 => ?_)
        have := ih σ1 node lbd1 op1 sop1 tcp1 node.Street hwf hc1
          (by rw [if_pos (le_refl _)]; rw [if_neg (by omega)] at hf; omega)
        rw [if_neg (by omega)] at this
        exact this
      · rw [if_neg hst, if_neg (fun h => hst h.2)]
        rw [if_pos (by omega)] at hf
        have hchild : ∀ s, s < node.NumSuccs → ∀ σ1 op1 sop1 tcp1, CacheShape E v σ1 →
            ShapeResult E v (E.G.NumHoleCardPairs node.Street)
              (VCFR.Process E v fuel σ1 (node.IthSucc s) lbd op1 sop1 tcp1 node.Street) := by
          intro s hs σ1 op1 sop1 tcp1 hc1
          obtain ⟨hstreet, hwfc, hh, _⟩ := wellFormed_child _ node hwf s hs
          have := ih σ1 (node.IthSucc s) lbd op1 sop1 tcp1 node.Street hwfc hc1
            (by split <;> omega)
          rw [child_expected_length E _ _ hstreet] at this
          exact this
        split
        · exact OurChoice_shape _ E v σ node lbd op sop tcp hcache
            (fun s hs σ1 hc1 => hchild s hs σ1 op sop tcp hc1)
        · exact OppChoice_shape _ E v σ node lbd op hcache hchild

/-- C9, counterexample: `Process` on the first node of street 1 of the two-street example,
called with `last_st = 0`, returns the result of `StreetInitial`, which has one value per
hole-card pair of street 0 (two), not of the node's street 1 (one). -/
theorem Process_value_vector_counterexample :
    exampleStreet1.Terminal = false ∧
      (VCFR.Process exampleEnv2 exampleEngine2 4 {} exampleStreet1 0 [1] 0 none 0).toOption.map
        (fun r => r.1.length) = some 2 ∧
      exampleEnv2.G.NumHoleCardPairs exampleStreet1.Street = 1 := by
  decide!

/-- C9, amended: for every non-terminal node of a well-formed betting tree (every
successor on the node's street or a non-terminal node of the next street, terminal
payoffs with one value per hole-card pair of their street, cached subgame results with
one value per hole-card pair of the street before the subgame street) and every call
`Process(node, lbd, ..., last_st)` that returns, the returned vector has exactly
`num_hole_card_pairs(node.street)` elements when `node.street <= last_st` and exactly
`num_hole_card_pairs(node.street - 1)` elements when `node.street > last_st`, the case
in which `Process` returns the result of `StreetInitial(node)`.  With fuel twice the
height of the node the model never runs out of fuel, and an engine that splits off no
subgame and keeps its current strategy in doubles always returns. -/
theorem Process_value_vector_shape (E : Env) (v : VCFR) (hpay : PayoffShape E)
    (hms : E.G.MaxStreet < 4294967295) (fuel : Nat) (σ : State) (node : Node) (lbd : Nat)
    (op : List ℚ) (sop : ℚ) (tcp : Option (List ℚ)) (last_st : Nat)
    (hwf : node.WellFormed E.G.MaxStreet = true) (hnt : node.Terminal = false)
    (hcache : CacheShape E v σ) (hfuel : 2 * node.height ≤ fuel) :
    (∀ vals σ', VCFR.Process E v fuel σ node lbd op sop tcp last_st = .ok (vals, σ') →
      vals.length = E.G.NumHoleCardPairs
        (if node.Street > last_st then node.Street - 1 else node.Street)) ∧
    VCFR.Process E v fuel σ node lbd op sop tcp last_st ≠ .error Abort.OutOfFuel ∧
    (Quiet E v → ∃ vals σ', VCFR.Process E v fuel σ node lbd op sop tcp last_st
      = .ok (vals, σ')) := by
  have h := Process_shape_aux E v hpay hms fuel σ node lbd op sop tcp last_st hwf hcache
    (by omega)
  cases hr : VCFR.Process E v fuel σ node lbd op sop tcp last_st with
  | error e =>
    rw [hr] at h
    refine ⟨fun vals σ' hv => (by cases hv), fun he => ?_, fun hq => absurd hq h.2⟩
    cases he
    exact h.1 rfl
  | ok r =>
    rw [hr] at h
    obtain ⟨vals, σ'⟩ := r
    refine ⟨fun vals' σ'' hv => ?_, fun he => (by cases he), fun _ => ⟨vals, σ', rfl⟩⟩
    cases hv
    have h1 := h.1
    by_cases hst : node.Street > last_st
    · rw [if_pos ⟨hnt, hst⟩] at h1
      rw [if_pos hst]; exact h1
    · rw [if_neg (fun hc => hst hc.2)] at h1
      rw [if_neg hst]; exact h1

/-- C9, witness: the first node of street 1 of the two-street example, called with
`last_st = 0`, returns two values, one per hole-card pair of street 0. -/
theorem Process_value_vector_shape_witness :
    ∃ vals σ', VCFR.Process exampleEnv2 exampleEngine2 4 {} exampleStreet1 0 [1] 0 none 0
        = .ok (vals, σ') ∧ vals.length = 2 :=
  ⟨_, _, rfl, (Process_value_vector_shape exampleEnv2 exampleEngine2
    ⟨fun _ _ _ _ _ => List.length_replicate _ _, fun _ _ _ _ _ _ => List.length_replicate _ _⟩
    (by decide) 4 {} exampleStreet1 0 [1] 0 none 0 (by decide) rfl
    ⟨fun _ _ _ _ h => Option.noConfusion h, fun _ _ _ h => Option.noConfusion h⟩
    (by decide)).1 _ _ rfl⟩

/-! ## Regret updates: clamping, bucketed rows -/

/-- A loop over hands whose step `i` rewrites, cell by cell, the row of the bucket `bk i`:
a cell of row `b` gets, in turn, the steps of the hands of bucket `b`. -/
theorem loop_bucket_cells {α : Type} (base ns : Nat) (bk : Nat → Nat)
    (g : Nat → Nat → α → α) (m0 : Nat → α) (b s : Nat) (hs : s < ns) :
    ∀ n : Nat,
      loop n (fun i m => loop ns (fun s m =>
        Function.update m (base + bk i * ns + s) (g i s (m (base + bk i * ns + s)))) m) m0
          (base + b * ns + s)
        = loop n (fun i x => if bk i = b then g i s x else x) (m0 (base + b * ns + s)) := by
  intro n
  induction n with
  | zero => rfl
  | succ n ih =>
    rw [loop_succ, loop_succ]
    by_cases hb : bk n = b
    · rw [if_pos hb, ← ih, ← hb]
      exact loop_update_at (base + bk n * ns) (g n) _ ns s hs
    · rw [if_neg hb, ← ih]
      refine loop_update_off (base + bk n * ns) (g n) _ ns _ (fun t ht he => ?_)
      have := row_cell_inj hs ht (by omega : b * ns + s = bk n * ns + t)
      exact hb this.1.symm

/-- A loop over hands whose step `i` rewrites only the row of the bucket `bk i`, from the
content of that row: the row of a bucket that holds the single hand `i` gets what step `i`
yields on the initial heap. -/
theorem loop_bucket_rows_at {α : Type} (base ns : Nat) (bk : Nat → Nat)
    (f : Nat → (Nat → α) → (Nat → α))
    (frame : ∀ i m a, (∀ s, s < ns → a ≠ base + bk i * ns + s) → f i m a = m a)
    (loc : ∀ i m m', (∀ s, s < ns → m (base + bk i * ns + s) = m' (base + bk i * ns + s)) →
      ∀ s, s < ns → f i m (base + bk i * ns + s) = f i m' (base + bk i * ns + s))
    (m0 : Nat → α) (i s : Nat) (hs : s < ns) :
    ∀ n : Nat, i < n → (∀ j, j < n → bk j = bk i → j = i) →
      loop n f m0 (base + bk i * ns + s) = f i m0 (base + bk i * ns + s) := by
  have off : ∀ n : Nat, (∀ j, j < n → bk j ≠ bk i) → ∀ t, t < ns →
      loop n f m0 (base + bk i * ns + t) = m0 (base + bk i * ns + t) := by
    intro n
    induction n with
    | zero => intro _ t _; rfl
    | succ n ih =>
      intro hne t ht
      rw [loop_succ, frame n _ _ (fun u hu he => ?_)]
      · exact ih (fun j hj => hne j (Nat.lt_succ_of_lt hj)) t ht
      · have := row_cell_inj ht hu (by omega : bk i * ns + t = bk n * ns + u)
        exact hne n (Nat.lt_succ_self n) this.1.symm
  intro n
  induction n with
  | zero => intro hi; omega
  | succ n ih =>
    intro hi huniq
    rw [loop_succ]
    rcases Nat.lt_succ_iff_lt_or_eq.mp hi with h | h
    · have hne : bk n ≠ bk i := fun he => by
        have := huniq n (Nat.lt_succ_self n) he
        omega
      rw [frame n _ _ (fun u hu he => ?_)]
      · exact ih h (fun j hj => huniq j (Nat.lt_succ_of_lt hj))
      · have := row_cell_inj hs hu (by omega : bk i * ns + s = bk n * ns + u)
        exact hne this.1.symm
    · subst h
      refine loc i _ m0 (fun t ht => ?_) s hs
      exact off i (fun j hj he => by
        have := huniq j (Nat.lt_succ_of_lt hj) he
        omega) t ht

/-- With `nn_regrets`, the routine `UpdateRegrets_int` leaves the cells outside the table alone. -/
theorem UpdateRegrets_int_nn_frame (G : Game) (v : VCFR) (node : Node) (vals : List ℚ)
    (succ_vals : List (List ℚ)) (regrets : Nat) (imem : IntMem)
    (hnn : v.nn_regrets = true) (a : Nat)
    (ha : ∀ i s, i < G.NumHoleCardPairs node.Street → s < node.NumSuccs →
      a ≠ regrets + i * node.NumSuccs + s) :
    VCFR.UpdateRegrets_int G v node vals succ_vals regrets imem a = imem a := by
  unfold VCFR.UpdateRegrets_int
  simp only [hnn, if_true, update_ite_ite]
  refine loop_rows_off regrets node.NumSuccs _ (fun i m a ha => ?_) imem _ a ha
  exact loop_update_off (regrets + i * node.NumSuccs)
    (fun s x => if toInt (x + toInt (lrint (((succ_vals.getD s []).getD i 0 - vals.getD i 0) *
        v.regret_scaling node.Street))) < v.regret_floors node.Street
      then v.regret_floors node.Street
      else if toInt (x + toInt (lrint (((succ_vals.getD s []).getD i 0 - vals.getD i 0) *
        v.regret_scaling node.Street))) > v.regret_ceilings node.Street
      then v.regret_ceilings node.Street
      else toInt (x + toInt (lrint (((succ_vals.getD s []).getD i 0 - vals.getD i 0) *
        v.regret_scaling node.Street)))) m node.NumSuccs a ha

/-- C17: with `nn_regrets = true` the unabstracted integer `UpdateRegrets` stores in
every cell `(i, s)` of the table the clamp of the `int` sum of the cell's old content and
the rounded scaled delta `lrint((succ_vals[s][i] - vals[i]) * regret_scaling[st])`: the
floor if the sum is below the floor, else the ceiling if it is above the ceiling, else
the sum; when the exact sum fits an `int` it is the sum that is clamped.  The new content
of a cell depends on no other cell, and cells outside the table keep their content. -/
theorem UpdateRegrets_int_nn_clamp (G : Game) (v : VCFR) (node : Node) (vals : List ℚ)
    (succ_vals : List (List ℚ)) (regrets : Nat) (imem : IntMem)
    (hnn : v.nn_regrets = true) :
    (∀ i s, i < G.NumHoleCardPairs node.Street → s < node.NumSuccs →
      (VCFR.UpdateRegrets_int G v node vals succ_vals regrets imem
          (regrets + i * node.NumSuccs + s)
        = if toInt (imem (regrets + i * node.NumSuccs + s) +
              lrint (((succ_vals.getD s []).getD i 0 - vals.getD i 0) *
                v.regret_scaling node.Street)) < v.regret_floors node.Street
          then v.regret_floors node.Street
          else if toInt (imem (regrets + i * node.NumSuccs + s) +
              lrint (((succ_vals.getD s []).getD i 0 - vals.getD i 0) *
                v.regret_scaling node.Street)) > v.regret_ceilings node.Street
          then v.regret_ceilings node.Street
          else toInt (imem (regrets + i * node.NumSuccs + s) +
              lrint (((succ_vals.getD s []).getD i 0 - vals.getD i 0) *
                v.regret_scaling node.Street))) ∧
      (kMinInt ≤ imem (regrets + i * node.NumSuccs + s) +
            lrint (((succ_vals.getD s []).getD i 0 - vals.getD i 0) *
              v.regret_scaling node.Street) →
        imem (regrets + i * node.NumSuccs + s) +
            lrint (((succ_vals.getD s []).getD i 0 - vals.getD i 0) *
              v.regret_scaling node.Street) ≤ kMaxInt →
        VCFR.UpdateRegrets_int G v node vals succ_vals regrets imem
            (regrets + i * node.NumSuccs + s)
          = if imem (regrets + i * node.NumSuccs + s) +
                lrint (((succ_vals.getD s []).getD i 0 - vals.getD i 0) *
                  v.regret_scaling node.Street) < v.regret_floors node.Street
            then v.regret_floors node.Street
            else if imem (regrets + i * node.NumSuccs + s) +
                lrint (((succ_vals.getD s []).getD i 0 - vals.getD i 0) *
                  v.regret_scaling node.Street) > v.regret_ceilings node.Street
            then v.regret_ceilings node.Street
            else imem (regrets + i * node.NumSuccs + s) +
                lrint (((succ_vals.getD s []).getD i 0 - vals.getD i 0) *
                  v.regret_scaling node.Street))) ∧
    (∀ a, (∀ i s, i < G.NumHoleCardPairs node.Street → s < node.NumSuccs →
        a ≠ regrets + i * node.NumSuccs + s) →
      VCFR.UpdateRegrets_int G v node vals succ_vals regrets imem a = imem a) := by
  refine ⟨fun i s hi hs => ⟨?_, fun h1 h2 => ?_⟩, fun a ha => ?_⟩
  · exact UpdateRegrets_int_nn_cell G v node vals succ_vals regrets imem hnn i s hi hs
  · rw [UpdateRegrets_int_nn_cell G v node vals succ_vals regrets imem hnn i s hi hs]
    unfold kMinInt at h1
    unfold kMaxInt at h2
    dsimp only
    rw [toInt_eq_self h1 h2]
  · exact UpdateRegrets_int_nn_frame G v node vals succ_vals regrets imem hnn a ha

/-- C17, witness: floor 0, ceiling 100; the cell holding 60 gets `60 + 500`, clamped to
the ceiling, and the cell holding 2 gets `2 - 5`, clamped to the floor. -/
theorem UpdateRegrets_int_nn_clamp_witness :
    VCFR.UpdateRegrets_int { NumHoleCardPairs := fun _ => 2 }
        { nn_regrets := true, regret_ceilings := fun _ => 100 }
        (Node.mk 0 false false 0 0 0 0 0 [default, default]) [1, 2] [[501, 0], [-4, 7]] 4
        (fun a => if a = 4 then 60 else 2) (4 + 0 * 2 + 0) = 100 ∧
      VCFR.UpdateRegrets_int { NumHoleCardPairs := fun _ => 2 }
        { nn_regrets := true, regret_ceilings := fun _ => 100 }
        (Node.mk 0 false false 0 0 0 0 0 [default, default]) [1, 2] [[501, 0], [-4, 7]] 4
        (fun a => if a = 4 then 60 else 2) (4 + 0 * 2 + 1) = 0 :=
  ⟨((UpdateRegrets_int_nn_clamp { NumHoleCardPairs := fun _ => 2 }
      { nn_regrets := true, regret_ceilings := fun _ => 100 }
      (Node.mk 0 false false 0 0 0 0 0 [default, default]) [1, 2] [[501, 0], [-4, 7]] 4
      (fun a => if a = 4 then 60 else 2) rfl).1 0 0 (by decide) (by decide)).1.trans
        (by decide!),
   ((UpdateRegrets_int_nn_clamp { NumHoleCardPairs := fun _ => 2 }
      { nn_regrets := true, regret_ceilings := fun _ => 100 }
      (Node.mk 0 false false 0 0 0 0 0 [default, default]) [1, 2] [[501, 0], [-4, 7]] 4
      (fun a => if a = 4 then 60 else 2) rfl).1 0 1 (by decide) (by decide)).1.trans
        (by decide!)⟩

/-- C18: with `nn_regrets = true`, `UpdateRegretsBucketed` on integer and on double
regrets applies the ceiling only.  Every hand `i` of bucket `b`, in ascending order, sets
the cell `(b, s)` to the smaller of the ceiling and the cell's content plus the hand's
delta (`lrint((succ_vals[s][i] - vals[i]) * regret_scaling[st])` added as an `int`, or
`succ_vals[s][i] - vals[i]` on doubles); hands of other buckets leave the cell alone.  The
result is the same for every value of `regret_floors`, and a stored value can end below
the floor: with floor 0 the row `[0]` with delta `-3` becomes `[-3]`. -/
theorem UpdateRegretsBucketed_nn_no_floor (G : Game) (v : VCFR) (sb : Nat → Nat → Nat)
    (node : Node) (vals : List ℚ) (succ_vals : List (List ℚ)) (regrets : Nat)
    (hnn : v.nn_regrets = true) :
    (∀ (imem : IntMem) (b s : Nat), s < node.NumSuccs →
      VCFR.UpdateRegretsBucketed_int G v sb node vals succ_vals regrets imem
          (regrets + b * node.NumSuccs + s)
        = loop (G.NumHoleCardPairs node.Street) (fun i x =>
            if sb node.Street i = b then
              min (toInt (x + lrint (((succ_vals.getD s []).getD i 0 - vals.getD i 0) *
                v.regret_scaling node.Street))) (v.regret_ceilings node.Street)
            else x) (imem (regrets + b * node.NumSuccs + s))) ∧
    (∀ (dmem : DblMem) (b s : Nat), s < node.NumSuccs →
      VCFR.UpdateRegretsBucketed_double G v sb node vals succ_vals regrets dmem
          (regrets + b * node.NumSuccs + s)
        = loop (G.NumHoleCardPairs node.Street) (fun i x =>
            if sb node.Street i = b then
              min (x + (succ_vals.getD s []).getD i 0 - vals.getD i 0)
                ((v.regret_ceilings node.Street : Int) : ℚ)
            else x) (dmem (regrets + b * node.NumSuccs + s))) ∧
    (∀ (floors : Nat → Int) (imem : IntMem) (dmem : DblMem),
      VCFR.UpdateRegretsBucketed_int G { v with regret_floors := floors } sb node vals
          succ_vals regrets imem
        = VCFR.UpdateRegretsBucketed_int G v sb node vals succ_vals regrets imem ∧
      VCFR.UpdateRegretsBucketed_double G { v with regret_floors := floors } sb node vals
          succ_vals regrets dmem
        = VCFR.UpdateRegretsBucketed_double G v sb node vals succ_vals regrets dmem) ∧
    (VCFR.UpdateRegretsBucketed_int { NumHoleCardPairs := fun _ => 1 }
        { nn_regrets := true, regret_floors := fun _ => 0 } (fun _ _ => 0)
        (Node.mk 0 false false 0 0 0 0 0 [default]) [3] [[0]] 0 (fun _ => 0) 0 = -3 ∧
      VCFR.UpdateRegretsBucketed_double { NumHoleCardPairs := fun _ => 1 }
        { nn_regrets := true, regret_floors := fun _ => 0 } (fun _ _ => 0)
        (Node.mk 0 false false 0 0 0 0 0 [default]) [3] [[0]] 0 (fun _ => 0) 0 = -3) := by
  refine ⟨fun imem b s hs => ?_, fun dmem b s hs => ?_, fun floors imem dmem => ⟨rfl, rfl⟩,
    by decide!⟩
  · have h := loop_bucket_cells regrets node.NumSuccs (sb node.Street)
      (fun i s x => min (toInt (x + lrint (((succ_vals.getD s []).getD i 0 - vals.getD i 0) *
        v.regret_scaling node.Street))) (v.regret_ceilings node.Street)) imem b s hs
      (G.NumHoleCardPairs node.Street)
    refine Eq.trans ?_ h
    unfold VCFR.UpdateRegretsBucketed_int
    simp only [hnn, if_true, toInt_add_toInt, gt_iff_lt, ← not_le, ite_not, ← apply_ite,
      ← min_def]
  · have h := loop_bucket_cells regrets node.NumSuccs (sb node.Street)
      (fun i s x => min (x + (succ_vals.getD s []).getD i 0 - vals.getD i 0)
        ((v.regret_ceilings node.Street : Int) : ℚ)) dmem b s hs
      (G.NumHoleCardPairs node.Street)
    refine Eq.trans ?_ h
    unfold VCFR.UpdateRegretsBucketed_double
    simp only [hnn, if_true, gt_iff_lt, ← not_le, ite_not, ← apply_ite, ← min_def]

/-- C18, witness: two hands in bucket 1 of a table at address 4, ceiling 100; the cell
`(1, 0)` holding 60 gets `60 - 70 = -10` from hand 0 and then `-10 + 500`, cut to the
ceiling, from hand 1. -/
theorem UpdateRegretsBucketed_nn_no_floor_witness :
    VCFR.UpdateRegretsBucketed_int { NumHoleCardPairs := fun _ => 2 }
        { nn_regrets := true, regret_ceilings := fun _ => 100 } (fun _ _ => 1)
        (Node.mk 0 false false 0 0 0 0 0 [default, default]) [0, 0] [[-70, 500], [1, 2]] 4
        (fun _ => 60) (4 + 1 * 2 + 0) = 100 :=
  ((UpdateRegretsBucketed_nn_no_floor { NumHoleCardPairs := fun _ => 2 }
      { nn_regrets := true, regret_ceilings := fun _ => 100 } (fun _ _ => 1)
      (Node.mk 0 false false 0 0 0 0 0 [default, default]) [0, 0] [[-70, 500], [1, 2]] 4
      rfl).1 (fun _ => 60) 1 0 (by decide)).trans (by decide!)

/-- C19, counterexample: without `nn_regrets`, the bucketed integer update of the row
`[1900000000, -500000000]` with deltas `[200000000, 0]` halves the row as the
unabstracted update does: it ends as `[1050000000, -250000000]`, not as the sums
`[2100000000, -500000000]`. -/
theorem UpdateRegretsBucketed_int_halving_counterexample :
    ¬ (VCFR.UpdateRegretsBucketed_int { NumHoleCardPairs := fun _ => 1 } {} (fun _ _ => 0)
          (Node.mk 0 false false 0 0 0 0 0 [default, default]) [0] [[200000000], [0]] 0
          (fun a => if a = 0 then 1900000000 else -500000000) 0
        = toInt (1900000000 + lrint ((200000000 - 0) * 1))) ∧
      VCFR.UpdateRegretsBucketed_int { NumHoleCardPairs := fun _ => 1 } {} (fun _ _ => 0)
          (Node.mk 0 false false 0 0 0 0 0 [default, default]) [0] [[200000000], [0]] 0
          (fun a => if a = 0 then 1900000000 else -500000000) 0 = 1050000000 ∧
      VCFR.UpdateRegretsBucketed_int { NumHoleCardPairs := fun _ => 1 } {} (fun _ _ => 0)
          (Node.mk 0 false false 0 0 0 0 0 [default, default]) [0] [[200000000], [0]] 0
          (fun a => if a = 0 then 1900000000 else -500000000) 1 = -250000000 := by
  decide!

/-- C19, amended: without `nn_regrets`, the bucketed integer update applies the overflow
halving of the unabstracted integer update.  For a hand `i` that is the only hand of its
bucket `b`, every cell of row `b` gets the `int` sum of its content and the rounded
scaled delta, halved (truncating toward zero) exactly when some cell of the row is below
-2000000000 or above 2000000000 after its addition. -/
theorem UpdateRegretsBucketed_int_halves (G : Game) (v : VCFR) (sb : Nat → Nat → Nat)
    (node : Node) (vals : List ℚ) (succ_vals : List (List ℚ)) (regrets : Nat)
    (imem : IntMem) (hnn : v.nn_regrets = false) (i : Nat)
    (hi : i < G.NumHoleCardPairs node.Street)
    (halone : ∀ j, j < G.NumHoleCardPairs node.Street →
      sb node.Street j = sb node.Street i → j = i)
    (s : Nat) (hs : s < node.NumSuccs) :
    VCFR.UpdateRegretsBucketed_int G v sb node vals succ_vals regrets imem
        (regrets + sb node.Street i * node.NumSuccs + s)
      = if ∃ t, t < node.NumSuccs ∧
            (toInt (imem (regrets + sb node.Street i * node.NumSuccs + t) +
              lrint (((succ_vals.getD t []).getD i 0 - vals.getD i 0) *
                v.regret_scaling node.Street)) < -2000000000 ∨
             toInt (imem (regrets + sb node.Street i * node.NumSuccs + t) +
              lrint (((succ_vals.getD t []).getD i 0 - vals.getD i 0) *
                v.regret_scaling node.Street)) > 2000000000)
        then Int.tdiv (toInt (imem (regrets + sb node.Street i * node.NumSuccs + s) +
              lrint (((succ_vals.getD s []).getD i 0 - vals.getD i 0) *
                v.regret_scaling node.Street))) 2
        else toInt (imem (regrets + sb node.Street i * node.NumSuccs + s) +
              lrint (((succ_vals.getD s []).getD i 0 - vals.getD i 0) *
                v.regret_scaling node.Street)) := by
  have hrow := halving_row_at (regrets + sb node.Street i * node.NumSuccs) node.NumSuccs
    (fun s x => toInt (x + lrint (((succ_vals.getD s []).getD i 0 - vals.getD i 0) *
      v.regret_scaling node.Street))) imem s hs
  refine Eq.trans ?_ hrow
  unfold VCFR.UpdateRegretsBucketed_int
  simp only [hnn]
  refine loop_bucket_rows_at regrets node.NumSuccs (sb node.Street) _ ?_ ?_ imem i s hs
    (G.NumHoleCardPairs node.Street) hi halone
  · intro j m a ha
    exact halving_row_off (regrets + sb node.Street j * node.NumSuccs) node.NumSuccs
      (fun s x => toInt (x + lrint (((succ_vals.getD s []).getD j 0 - vals.getD j 0) *
        v.regret_scaling node.Street))) m a ha
  · intro j m m' h t ht
    have e1 := halving_row_at (regrets + sb node.Street j * node.NumSuccs) node.NumSuccs
      (fun s x => toInt (x + lrint (((succ_vals.getD s []).getD j 0 - vals.getD j 0) *
        v.regret_scaling node.Street))) m t ht
    have e2 := halving_row_at (regrets + sb node.Street j * node.NumSuccs) node.NumSuccs
      (fun s x => toInt (x + lrint (((succ_vals.getD s []).getD j 0 - vals.getD j 0) *
        v.regret_scaling node.Street))) m' t ht
    refine e1.trans (Eq.trans ?_ e2.symm)
    dsimp only
    rw [h t ht]
    have hc : (∃ u, u < node.NumSuccs ∧
          (toInt (m (regrets + sb node.Street j * node.NumSuccs + u) +
            lrint (((succ_vals.getD u []).getD j 0 - vals.getD j 0) *
              v.regret_scaling node.Street)) < -2000000000 ∨
           toInt (m (regrets + sb node.Street j * node.NumSuccs + u) +
            lrint (((succ_vals.getD u []).getD j 0 - vals.getD j 0) *
              v.regret_scaling node.Street)) > 2000000000)) ↔
        (∃ u, u < node.NumSuccs ∧
          (toInt (m' (regrets + sb node.Street j * node.NumSuccs + u) +
            lrint (((succ_vals.getD u []).getD j 0 - vals.getD j 0) *
              v.regret_scaling node.Street)) < -2000000000 ∨
           toInt (m' (regrets + sb node.Street j * node.NumSuccs + u) +
            lrint (((succ_vals.getD u []).getD j 0 - vals.getD j 0) *
              v.regret_scaling node.Street)) > 2000000000)) := by
      constructor
      · rintro ⟨u, hu, hb⟩; exact ⟨u, hu, by rw [← h u hu]; exact hb⟩
      · rintro ⟨u, hu, hb⟩; exact ⟨u, hu, by rw [h u hu]; exact hb⟩
    by_cases hx : ∃ u, u < node.NumSuccs ∧
          (toInt (m (regrets + sb node.Street j * node.NumSuccs + u) +
            lrint (((succ_vals.getD u []).getD j 0 - vals.getD j 0) *
              v.regret_scaling node.Street)) < -2000000000 ∨
           toInt (m (regrets + sb node.Street j * node.NumSuccs + u) +
            lrint (((succ_vals.getD u []).getD j 0 - vals.getD j 0) *
              v.regret_scaling node.Street)) > 2000000000)
    · rw [if_pos hx, if_pos (hc.mp hx)]
    · rw [if_neg hx, if_neg (fun h' => hx (hc.mpr h'))]

/-- C19, witness: two hands in the buckets 1 and 0 of a table at address 4; the row of
bucket 1 is `[1900000000, 1900000000]`, hand 0 adds `[200000000, 0]` and the row is
halved. -/
theorem UpdateRegretsBucketed_int_halves_witness :
    VCFR.UpdateRegretsBucketed_int { NumHoleCardPairs := fun _ => 2 } {}
        (fun _ i => 1 - i) (Node.mk 0 false false 0 0 0 0 0 [default, default]) [0, 0]
        [[200000000, 0], [0, 0]] 4 (fun _ => 1900000000) (4 + (1 - 0) * 2 + 1)
      = 950000000 :=
  (UpdateRegretsBucketed_int_halves { NumHoleCardPairs := fun _ => 2 } {}
    (fun _ i => 1 - i) (Node.mk 0 false false 0 0 0 0 0 [default, default]) [0, 0]
    [[200000000, 0], [0, 0]] 4 (fun _ => 1900000000) rfl 0 (by decide)
    (by decide) 1 (by decide)).trans (by decide!)

/-! ## The subgame hook of `StreetInitial` -/

/-- C13: at the subgame street, outside a subgame and outside the pre-phase,
`StreetInitial` returns exactly the vector held in `final_vals[p][nt][plbd]` and nulls
that slot, leaving the rest of the state as it was; it stops if and only if the slot is
null on entry, and then with `MissingFinalVals`; after a fetch, a second fetch of the
same slot from the state left behind stops with `MissingFinalVals`. -/
theorem StreetInitial_fetch (proc : VCFR.ProcFn) (E : Env) (v : VCFR) (σ : State)
    (node : Node) (plbd : Nat) (opp_probs : List ℚ)
    (hst : node.Street = v.subgame_street) (hsub : v.subgame = false)
    (hpre : v.pre_phase = false) :
    (∀ fv, σ.final_vals node.PlayerActing node.NonterminalID plbd = some fv →
      VCFR.StreetInitial proc E v σ node plbd opp_probs
        = .ok (fv, { σ with final_vals := (fun p nt bd =>
            if p = node.PlayerActing ∧ nt = node.NonterminalID ∧ bd = plbd then none
            else σ.final_vals p nt bd) })) ∧
    ((∃ e, VCFR.StreetInitial proc E v σ node plbd opp_probs = .error e) ↔
      σ.final_vals node.PlayerActing node.NonterminalID plbd = none) ∧
    (σ.final_vals node.PlayerActing node.NonterminalID plbd = none →
      VCFR.StreetInitial proc E v σ node plbd opp_probs = .error Abort.MissingFinalVals) ∧
    (∀ vals σ', VCFR.StreetInitial proc E v σ node plbd opp_probs = .ok (vals, σ') →
      ∀ (proc' : VCFR.ProcFn) (opp_probs' : List ℚ),
        VCFR.StreetInitial proc' E v σ' node plbd opp_probs'
          = .error Abort.MissingFinalVals) := by
  have hdef : ∀ (pr : VCFR.ProcFn) (τ : State) (op : List ℚ),
      VCFR.StreetInitial pr E v τ node plbd op
        = match τ.final_vals node.PlayerActing node.NonterminalID plbd with
          | none => .error Abort.MissingFinalVals
          | some fv => .ok (fv, { τ with final_vals := (fun p nt bd =>
              if p = node.PlayerActing ∧ nt = node.NonterminalID ∧ bd = plbd then none
              else τ.final_vals p nt bd) }) := by
    intro pr τ op
    unfold VCFR.StreetInitial
    simp only [hst, hsub, hpre, true_and, not_false_eq_true, Bool.false_eq_true, if_true,
      if_false]
  refine ⟨fun fv hfv => ?_, ⟨fun ⟨e, he⟩ => ?_, fun hnone => ?_⟩, fun hnone => ?_,
    fun vals σ' hok proc' op' => ?_⟩
  · rw [hdef, hfv]
  · rw [hdef] at he
    cases hslot : σ.final_vals node.PlayerActing node.NonterminalID plbd with
    | none => rfl
    | some fv => rw [hslot] at he; cases he
  · exact ⟨Abort.MissingFinalVals, by rw [hdef, hnone]⟩
  · rw [hdef, hnone]
  · rw [hdef] at hok
    cases hslot : σ.final_vals node.PlayerActing node.NonterminalID plbd with
    | none => rw [hslot] at hok; cases hok
    | some fv =>
      rw [hslot] at hok
      cases hok
      rw [hdef]
      simp

/-- C13, witness: the slot `(0, 0, 0)` holds `[7, 8]`; the fetch returns it and a second
fetch stops. -/
theorem StreetInitial_fetch_witness :
    ∃ σ' : State,
      VCFR.StreetInitial (fun _ _ _ _ _ _ _ => .error Abort.OutOfFuel) {}
          { subgame_street := 1 }
          { final_vals := fun _ _ _ => some [7, 8] } exampleStreet1 0 [] = .ok ([7, 8], σ') ∧
        VCFR.StreetInitial (fun _ _ _ _ _ _ _ => .error Abort.OutOfFuel) {}
          { subgame_street := 1 } σ' exampleStreet1 0 [] = .error Abort.MissingFinalVals :=
  ⟨_, (StreetInitial_fetch (fun _ _ _ _ _ _ _ => .error Abort.OutOfFuel) {}
      { subgame_street := 1 } { final_vals := fun _ _ _ => some [7, 8] } exampleStreet1 0 []
      rfl rfl rfl).1 [7, 8] rfl,
    (StreetInitial_fetch (fun _ _ _ _ _ _ _ => .error Abort.OutOfFuel) {}
      { subgame_street := 1 } { final_vals := fun _ _ _ => some [7, 8] } exampleStreet1 0 []
      rfl rfl rfl).2.2.2 _ _
      ((StreetInitial_fetch (fun _ _ _ _ _ _ _ => .error Abort.OutOfFuel) {}
        { subgame_street := 1 } { final_vals := fun _ _ _ => some [7, 8] } exampleStreet1 0
        [] rfl rfl rfl).1 [7, 8] rfl) _ _⟩

/-! ## The constructor -/

/-- A loop that stores a value chosen by the index into every cell below `n`. -/
theorem loop_fill {α : Type} (g : Nat → α) (a0 : Nat → α) :
    ∀ (n s : Nat), s < n →
      loop n (fun s a => Function.update a s (g s)) a0 s = g s := by
  intro n
  induction n with
  | zero => intro s hs; omega
  | succ n ih =>
    intro s hs
    rw [loop_succ]
    rcases Nat.lt_succ_iff_lt_or_eq.mp hs with h | h
    · rw [Function.update_noteq (by omega)]
      exact ih s h
    · subst h
      rw [Function.update_same]

/-- A store of one of two values into the same cell is a store of the chosen value. -/
theorem update_ite {α : Type} (m : Nat → α) (a : Nat) (c : Prop) [Decidable c] (x y : α) :
    (if c then Function.update m a x else Function.update m a y)
      = Function.update m a (if c then x else y) := by
  split_ifs <;> rfl

/-- The check of a configuration vector of `n` entries passes when the vector is empty or
has `m` entries or more. -/
theorem check_ok {α ε : Type} (n m : Nat) (e : ε) (a b : α) (h : n = 0 ∨ m ≤ n) :
    (if n = 0 then Except.ok a else if n < m then Except.error e else Except.ok b :
      Except ε α) = Except.ok (if n = 0 then a else b) := by
  by_cases h0 : n = 0
  · rw [if_pos h0, if_pos h0]
  · rw [if_neg h0, if_neg h0, if_neg (by omega)]

/-- The check of a configuration vector of `n` entries fails when the vector is neither
empty nor of `m` entries or more. -/
theorem check_error {α ε : Type} (n m : Nat) (e : ε) (a b : α) (h : n ≠ 0 ∧ n < m) :
    (if n = 0 then Except.ok a else if n < m then Except.error e else Except.ok b :
      Except ε α) = Except.error e := by
  rw [if_neg h.1, if_pos h.2]

/-- The four checks of the constructor, in the order of the code: what it returns is an
error exactly when a configuration vector is neither empty nor of `max_street + 1`
entries or more, and the tables it builds otherwise. -/
theorem VCFR_New_cases (E : Env) (cc : CFRConfig) (num_threads : Nat) (uninit : VCFR)
    (σ0 : State) :
    ((cc.RegretFloors.length ≠ 0 ∧ cc.RegretFloors.length < E.G.MaxStreet + 1) ∧
        VCFR.New E cc num_threads uninit σ0
          = .error ConfigurationError.RegretFloorVectorTooSmall) ∨
    ((cc.RegretCeilings.length ≠ 0 ∧ cc.RegretCeilings.length < E.G.MaxStreet + 1) ∧
        VCFR.New E cc num_threads uninit σ0
          = .error ConfigurationError.RegretCeilingVectorTooSmall) ∨
    ((cc.RegretScaling.length ≠ 0 ∧ cc.RegretScaling.length < E.G.MaxStreet + 1) ∧
        VCFR.New E cc num_threads uninit σ0
          = .error ConfigurationError.RegretScalingVectorTooSmall) ∨
    ((cc.SumprobScaling.length ≠ 0 ∧ cc.SumprobScaling.length < E.G.MaxStreet + 1) ∧
        VCFR.New E cc num_threads uninit σ0
          = .error ConfigurationError.SumprobScalingVectorTooSmall) ∨
    (((cc.RegretFloors.length = 0 ∨ E.G.MaxStreet + 1 ≤ cc.RegretFloors.length) ∧
      (cc.RegretCeilings.length = 0 ∨ E.G.MaxStreet + 1 ≤ cc.RegretCeilings.length) ∧
      (cc.RegretScaling.length = 0 ∨ E.G.MaxStreet + 1 ≤ cc.RegretScaling.length) ∧
      (cc.SumprobScaling.length = 0 ∨ E.G.MaxStreet + 1 ≤ cc.SumprobScaling.length)) ∧
      ∃ v σ, VCFR.New E cc num_threads uninit σ0 = .ok (v, σ) ∧
        v.regret_floors =
          (if cc.RegretFloors.length = 0 then
            loop (E.G.MaxStreet + 1) (fun s a => Function.update a s 0) uninit.regret_floors
          else
            loop (E.G.MaxStreet + 1) (fun s a => Function.update a s
              (if cc.RegretFloors.getD s 0 = 1 then kMinInt else cc.RegretFloors.getD s 0))
              uninit.regret_floors) ∧
        v.regret_ceilings =
          (if cc.RegretCeilings.length = 0 then
            loop (E.G.MaxStreet + 1) (fun s a => Function.update a s kMaxInt)
              uninit.regret_ceilings
          else
            loop (E.G.MaxStreet + 1) (fun s a => Function.update a s
              (if cc.RegretCeilings.getD s 0 = 0 then kMaxInt
                else cc.RegretCeilings.getD s 0)) uninit.regret_ceilings) ∧
        v.regret_scaling =
          (if cc.RegretScaling.length = 0 then
            loop (E.G.MaxStreet + 1) (fun s a => Function.update a s 1) uninit.regret_scaling
          else
            loop (E.G.MaxStreet + 1) (fun s a => Function.update a s
              (cc.RegretScaling.getD s 0)) uninit.regret_scaling) ∧
        v.sumprob_scaling =
          (if cc.SumprobScaling.length = 0 then
            loop (E.G.MaxStreet + 1) (fun s a => Function.update a s 1)
              uninit.sumprob_scaling
          else
            loop (E.G.MaxStreet + 1) (fun s a => Function.update a s
              (cc.SumprobScaling.getD s 0)) uninit.sumprob_scaling)) := by
  unfold VCFR.New
  simp only [update_ite]
  by_cases hf : cc.RegretFloors.length ≠ 0 ∧ cc.RegretFloors.length < E.G.MaxStreet + 1
  · exact Or.inl ⟨hf, by rw [check_error _ _ _ _ _ hf]⟩
  have hf' : cc.RegretFloors.length = 0 ∨ E.G.MaxStreet + 1 ≤ cc.RegretFloors.length := by
    omega
  rw [check_ok _ _ _ _ _ hf']
  by_cases hc : cc.RegretCeilings.length ≠ 0 ∧ cc.RegretCeilings.length < E.G.MaxStreet + 1
  · exact Or.inr (Or.inl ⟨hc, by rw [check_error _ _ _ _ _ hc]⟩)
  have hc' : cc.RegretCeilings.length = 0 ∨ E.G.MaxStreet + 1 ≤ cc.RegretCeilings.length := by
    omega
  rw [check_ok _ _ _ _ _ hc']
  by_cases hr : cc.RegretScaling.length ≠ 0 ∧ cc.RegretScaling.length < E.G.MaxStreet + 1
  · exact Or.inr (Or.inr (Or.inl ⟨hr, by rw [check_error _ _ _ _ _ hr]⟩))
  have hr' : cc.RegretScaling.length = 0 ∨ E.G.MaxStreet + 1 ≤ cc.RegretScaling.length := by
    omega
  rw [check_ok _ _ _ _ _ hr']
  by_cases hs : cc.SumprobScaling.length ≠ 0 ∧ cc.SumprobScaling.length < E.G.MaxStreet + 1
  · exact Or.inr (Or.inr (Or.inr (Or.inl ⟨hs, by rw [check_error _ _ _ _ _ hs]⟩)))
  have hs' : cc.SumprobScaling.length = 0 ∨ E.G.MaxStreet + 1 ≤ cc.SumprobScaling.length := by
    omega
  rw [check_ok _ _ _ _ _ hs']
  exact Or.inr (Or.inr (Or.inr (Or.inr ⟨⟨hf', hc', hr', hs'⟩, _, _, rfl, rfl, rfl, rfl, rfl⟩)))

/-- C14, counterexample: the default configuration has an empty `RegretFloors`, of length
`0 < max_street + 1`, and the construction returns: an empty vector selects the default
of the table. -/
theorem VCFR_New_empty_vector_counterexample :
    ¬ (({} : CFRConfig).RegretFloors.length < ({} : Env).G.MaxStreet + 1 →
        ∃ e, VCFR.New {} {} 1 {} {} = .error e) := by
  intro h
  obtain ⟨e, he⟩ := h (by decide)
  rcases VCFR_New_cases {} {} 1 {} {} with h1 | h1 | h1 | h1 | h1
  · exact h1.1.1 rfl
  · exact h1.1.1 rfl
  · exact h1.1.1 rfl
  · exact h1.1.1 rfl
  · obtain ⟨_, v, σ, hok, _⟩ := h1
    rw [hok] at he
    cases he

/-- C14, amended: the construction of the engine stops with a configuration error if and
only if one of the vectors `RegretFloors`, `RegretCeilings`, `RegretScaling`,
`SumprobScaling` is not empty and has fewer than `max_street + 1` entries. -/
theorem VCFR_New_fails_iff (E : Env) (cc : CFRConfig) (num_threads : Nat) (uninit : VCFR)
    (σ0 : State) :
    (∃ e, VCFR.New E cc num_threads uninit σ0 = .error e) ↔
      ((cc.RegretFloors.length ≠ 0 ∧ cc.RegretFloors.length < E.G.MaxStreet + 1) ∨
       (cc.RegretCeilings.length ≠ 0 ∧ cc.RegretCeilings.length < E.G.MaxStreet + 1) ∨
       (cc.RegretScaling.length ≠ 0 ∧ cc.RegretScaling.length < E.G.MaxStreet + 1) ∨
       (cc.SumprobScaling.length ≠ 0 ∧ cc.SumprobScaling.length < E.G.MaxStreet + 1)) := by
  rcases VCFR_New_cases E cc num_threads uninit σ0 with h | h | h | h | h
  · exact ⟨fun _ => Or.inl h.1, fun _ => ⟨_, h.2⟩⟩
  · exact ⟨fun _ => Or.inr (Or.inl h.1), fun _ => ⟨_, h.2⟩⟩
  · exact ⟨fun _ => Or.inr (Or.inr (Or.inl h.1)), fun _ => ⟨_, h.2⟩⟩
  · exact ⟨fun _ => Or.inr (Or.inr (Or.inr h.1)), fun _ => ⟨_, h.2⟩⟩
  · obtain ⟨⟨hf, hc, hr, hs⟩, v, σ, hok, _⟩ := h
    constructor
    · rintro ⟨e, he⟩
      rw [hok] at he
      cases he
    · intro hbad
      omega

/-- C14, witness: two streets and a `RegretCeilings` vector of one entry. -/
theorem VCFR_New_fails_iff_witness :
    ∃ e, VCFR.New { G := { MaxStreet := 1 } } { RegretCeilings := [5] } 1 {} {}
      = .error e :=
  (VCFR_New_fails_iff { G := { MaxStreet := 1 } } { RegretCeilings := [5] } 1 {} {}).mpr
    (Or.inr (Or.inl ⟨by decide, by decide⟩))

/-- C15: when every configuration vector is empty or has `max_street + 1` entries or
more, the construction returns, and on every street `s ≤ max_street`: the floor is 0 for
an empty `RegretFloors`, else `kMinInt` for the entry 1 and the entry itself otherwise;
the ceiling is `kMaxInt` for an empty `RegretCeilings`, else `kMaxInt` for the entry 0 and
the entry itself otherwise; the regret scaling and the sumprob scaling are 1 for an empty
vector and the entry of the vector otherwise. -/
theorem VCFR_New_tables (E : Env) (cc : CFRConfig) (num_threads : Nat) (uninit : VCFR)
    (σ0 : State)
    (hf : cc.RegretFloors.length = 0 ∨ E.G.MaxStreet + 1 ≤ cc.RegretFloors.length)
    (hc : cc.RegretCeilings.length = 0 ∨ E.G.MaxStreet + 1 ≤ cc.RegretCeilings.length)
    (hr : cc.RegretScaling.length = 0 ∨ E.G.MaxStreet + 1 ≤ cc.RegretScaling.length)
    (hs : cc.SumprobScaling.length = 0 ∨ E.G.MaxStreet + 1 ≤ cc.SumprobScaling.length) :
    ∃ v σ, VCFR.New E cc num_threads uninit σ0 = .ok (v, σ) ∧
      ∀ s, s ≤ E.G.MaxStreet →
        v.regret_floors s =
          (if cc.RegretFloors.length = 0 then 0
           else if cc.RegretFloors.getD s 0 = 1 then kMinInt
           else cc.RegretFloors.getD s 0) ∧
        v.regret_ceilings s =
          (if cc.RegretCeilings.length = 0 then kMaxInt
           else if cc.RegretCeilings.getD s 0 = 0 then kMaxInt
           else cc.RegretCeilings.getD s 0) ∧
        v.regret_scaling s =
          (if cc.RegretScaling.length = 0 then 1 else cc.RegretScaling.getD s 0) ∧
        v.sumprob_scaling s =
          (if cc.SumprobScaling.length = 0 then 1 else cc.SumprobScaling.getD s 0) := by
  rcases VCFR_New_cases E cc num_threads uninit σ0 with h | h | h | h | h
  · omega
  · omega
  · omega
  · omega
  · obtain ⟨_, v, σ, hok, e1, e2, e3, e4⟩ := h
    refine ⟨v, σ, hok, fun s hs' => ?_⟩
    have hlt : s < E.G.MaxStreet + 1 := by omega
    rw [e1, e2, e3, e4]
    refine ⟨?_, ?_, ?_, ?_⟩
    · split_ifs <;> simp only [loop_fill _ _ _ s hlt, *] <;> simp_all
    · split_ifs <;> simp only [loop_fill _ _ _ s hlt, *] <;> simp_all
    · split_ifs <;> simp only [loop_fill _ _ _ s hlt, *]
    · split_ifs <;> simp only [loop_fill _ _ _ s hlt, *]

/-- C15, witness: two streets, floors `[1, -5]`, ceilings `[0, 7]`, regret scaling
`[2, 3]` and an empty sumprob scaling. -/
theorem VCFR_New_tables_witness :
    ∃ v σ, VCFR.New { G := { MaxStreet := 1 } }
        { RegretFloors := [1, -5], RegretCeilings := [0, 7], RegretScaling := [2, 3] }
        1 {} {} = .ok (v, σ) ∧
      v.regret_floors 0 = kMinInt ∧ v.regret_floors 1 = -5 ∧
      v.regret_ceilings 0 = kMaxInt ∧ v.regret_ceilings 1 = 7 ∧
      v.regret_scaling 1 = 3 ∧ v.sumprob_scaling 1 = 1 :=
  let ⟨v, σ, hok, h⟩ := VCFR_New_tables { G := { MaxStreet := 1 } }
    { RegretFloors := [1, -5], RegretCeilings := [0, 7], RegretScaling := [2, 3] }
    1 {} {} (Or.inr (by decide)) (Or.inr (by decide)) (Or.inr (by decide))
    (Or.inl rfl)
  ⟨v, σ, hok, (h 0 (by decide)).1.trans (by decide), (h 1 (by decide)).1.trans (by decide),
    (h 0 (by decide)).2.1.trans (by decide), (h 1 (by decide)).2.1.trans (by decide),
    (h 1 (by decide)).2.2.1.trans (by simp), (h 1 (by decide)).2.2.2.trans (by simp)⟩

/-! ## `WaitForFinalSubgames` -/

/-- Emptying an occupied slot lowers the count of the occupied slots by one. -/
theorem count_active_update (f : Nat → Option VCFRSubgame) (t : Nat)
    (hsome : (f t).isSome = true) :
    ∀ n : Nat,
      (n ≤ t → loop n (fun u (c : Nat) =>
          if ((Function.update f t none) u).isSome then c + 1 else c) 0
        = loop n (fun u (c : Nat) => if (f u).isSome then c + 1 else c) 0) ∧
      (t < n → loop n (fun u (c : Nat) =>
          if ((Function.update f t none) u).isSome then c + 1 else c) 0 + 1
        = loop n (fun u (c : Nat) => if (f u).isSome then c + 1 else c) 0) := by
  intro n
  induction n with
  | zero => exact ⟨fun _ => rfl, fun h => by omega⟩
  | succ n ih =>
    refine ⟨fun h => ?_, fun h => ?_⟩
    · rw [loop_succ, loop_succ, Function.update_noteq (by omega), ih.1 (by omega)]
    · rw [loop_succ, loop_succ]
      rcases Nat.lt_succ_iff_lt_or_eq.mp h with h' | h'
      · rw [Function.update_noteq (by omega)]
        have := ih.2 h'
        split_ifs <;> omega
      · subst h'
        rw [Function.update_same, if_pos hsome, ih.1 (le_refl _)]
        simp

/-- When no slot is counted as occupied, every slot is empty. -/
theorem count_active_zero (f : Nat → Option VCFRSubgame) :
    ∀ n : Nat, loop n (fun t (c : Nat) => if (f t).isSome then c + 1 else c) 0 = 0 →
      ∀ t, t < n → f t = none := by
  intro n
  induction n with
  | zero => intro _ t ht; omega
  | succ n ih =>
    intro h t ht
    rw [loop_succ] at h
    by_cases hn : (f n).isSome = true
    · rw [if_pos hn] at h; omega
    · rw [if_neg hn] at h
      rcases Nat.lt_succ_iff_lt_or_eq.mp ht with h' | h'
      · exact ih h t h'
      · subst h'
        cases hf : f t with
        | none => rfl
        | some x => rw [hf] at hn; exact absurd rfl hn

/-- The joining loop, started with the number of the occupied slots, ends with no
occupied slot when it ends. -/
theorem JoinFinished_empties (v : VCFR) :
    ∀ (a : Nat) (σ : State) (n : Nat) (σ' : State),
      loop v.num_threads (fun t (c : Nat) =>
        if (σ.active_subgames t).isSome then c + 1 else c) 0 = n →
      VCFR.JoinFinished v a σ n = .ok σ' →
      loop v.num_threads (fun t (c : Nat) =>
        if (σ'.active_subgames t).isSome then c + 1 else c) 0 = 0 := by
  intro a
  induction a with
  | zero =>
    intro σ n σ' hn h
    cases n with
    | zero =>
      simp only [VCFR.JoinFinished] at h
      cases h
      exact hn
    | succ n => simp only [VCFR.JoinFinished] at h; cases h
  | succ a ih =>
    intro σ n σ' hn h
    cases n with
    | zero =>
      simp only [VCFR.JoinFinished] at h
      cases h
      exact hn
    | succ n =>
      simp only [VCFR.JoinFinished] at h
      cases hfind : (List.range v.num_threads).find? (fun t =>
          ! σ.subgame_running t && (σ.active_subgames t).isSome) with
      | none =>
        rw [hfind] at h
        dsimp only at h
        exact ih { σ with available := a } (n + 1) σ' hn h
      | some t =>
        rw [hfind] at h
        dsimp only at h
        have hmem := List.mem_of_find?_eq_some hfind
        have hlt : t < v.num_threads := List.mem_range.mp hmem
        cases hslot : σ.active_subgames t with
        | none => rw [hslot] at h; cases h
        | some sg =>
          rw [hslot] at h
          refine ih _ n σ' ?_ h
          have hc := (count_active_update σ.active_subgames t (by rw [hslot]; rfl)
            v.num_threads).2 hlt
          have : (VCFR.JoinSubgame { σ with available := a } t sg).active_subgames
              = Function.update σ.active_subgames t none := rfl
          rw [this]
          omega

/-- C16: a call of `WaitForFinalSubgames` that returns leaves every slot of the pool
empty and the counter of the active subgames at 0, and a second call on the state it
left returns that very state: it waits on no semaphore and joins nothing. -/
theorem WaitForFinalSubgames_idempotent (v : VCFR) (σ σ' : State)
    (h : VCFR.WaitForFinalSubgames v σ = .ok σ') :
    (∀ t, t < v.num_threads → σ'.active_subgames t = none) ∧
      σ'.g_num_active = 0 ∧
      VCFR.WaitForFinalSubgames v σ' = .ok σ' := by
  unfold VCFR.WaitForFinalSubgames at h
  dsimp only at h
  split at h
  · cases h
  rename_i hcount
  cases hjoin : VCFR.JoinFinished v σ.available σ (loop v.num_threads (fun t (n : Nat) =>
      if (σ.active_subgames t).isSome then n + 1 else n) 0) with
  | error e => rw [hjoin] at h; cases h
  | ok σ1 =>
    rw [hjoin] at h
    dsimp only at h
    split at h
    · cases h
    rename_i hact
    cases h
    have hzero := JoinFinished_empties v _ σ _ σ' rfl hjoin
    have hg : σ'.g_num_active = 0 := by omega
    refine ⟨count_active_zero _ _ hzero, hg, ?_⟩
    unfold VCFR.WaitForFinalSubgames
    dsimp only
    rw [hzero, hg]
    simp only [ne_eq, not_true_eq_false, if_false]
    cases σ'.available <;> simp [VCFR.JoinFinished, hg]

/-- C16, witness: one thread whose slot holds a finished subgame; the first call joins it
and the second call changes nothing. -/
theorem WaitForFinalSubgames_idempotent_witness :
    ∃ σ' : State, VCFR.WaitForFinalSubgames {} examplePool = .ok σ' ∧
      σ'.final_vals 0 0 0 = some [1, 2] ∧ σ'.available = 0 ∧
      (∀ t, t < ({} : VCFR).num_threads → σ'.active_subgames t = none) ∧
      σ'.g_num_active = 0 ∧
      VCFR.WaitForFinalSubgames {} σ' = .ok σ' :=
  ⟨_, rfl, rfl, rfl, WaitForFinalSubgames_idempotent {} examplePool _ rfl⟩

/-! ## `RegretsToProbs` -/

/-- The sum of the indicator of one index over the indices below `n`. -/
theorem sum_range_indicator (d : Nat) :
    ∀ n : Nat, ((List.range n).map (fun s => if s = d then (1 : ℚ) else 0)).sum
      = if d < n then 1 else 0 := by
  intro n
  induction n with
  | zero => simp
  | succ n ih =>
    rw [List.range_succ, List.map_append, List.sum_append, ih]
    by_cases h1 : d < n
    · have h2 : n ≠ d := by omega
      simp [h1, h2, Nat.lt_succ_of_lt h1]
    · by_cases h2 : n = d
      · subst h2; simp
      · have h3 : ¬ d < n + 1 := by omega
        simp [h1, h2, h3]

/-- The sum of a constant over the indices of a list that a mask selects. -/
theorem sum_map_mask (p : Nat → Bool) (c : ℚ) :
    ∀ l : List Nat, (l.map (fun s => if p s then c else 0)).sum
      = ((l.filter p).length : ℚ) * c := by
  intro l
  induction l with
  | nil => simp
  | cons a l ih =>
    rw [List.map_cons, List.sum_cons, ih]
    by_cases h : p a = true
    · simp [h, List.filter_cons]; ring
    · simp [h, List.filter_cons]

/-- The sum of an affine image of a row. -/
theorem sum_map_affine (f g : Nat → ℚ) (c : ℚ) :
    ∀ l : List Nat, (l.map (fun s => f s * c + g s)).sum
      = (l.map f).sum * c + (l.map g).sum := by
  intro l
  induction l with
  | nil => simp
  | cons a l ih =>
    simp only [List.map_cons, List.sum_cons, ih]
    ring

/-- The sum of a row divided by a constant. -/
theorem sum_map_div (f : Nat → ℚ) (c : ℚ) :
    ∀ l : List Nat, (l.map (fun s => f s / c)).sum = (l.map f).sum / c := by
  intro l
  induction l with
  | nil => simp
  | cons a l ih =>
    simp only [List.map_cons, List.sum_cons, ih]
    ring

/-- The sum of a row of non-negative values is non-negative. -/
theorem sum_map_nonneg (f : Nat → ℚ) :
    ∀ l : List Nat, (∀ s ∈ l, 0 ≤ f s) → 0 ≤ (l.map f).sum := by
  intro l
  induction l with
  | nil => intro _; simp
  | cons a l ih =>
    intro h
    rw [List.map_cons, List.sum_cons]
    exact add_nonneg (h a (List.mem_cons_self a l))
      (ih (fun s hs => h s (List.mem_cons_of_mem a hs)))

/-- C12, counterexample: four settings on which the policy of section 4.A does not return
a distribution.  With `nonneg = false` the row `[3, -1]` has the positive sum 2 and the
second successor gets the probability `-1/2`; on the all-zero row with the default
successor 5 out of 2 successors every entry is 0; with exploration `1/2`, two successors
counted as non-terminal and a mask that marks one, the entries add up to `3/4`; and for
no successor at all the output is empty and adds up to 0. -/
theorem RegretsToProbs_negative_counterexample :
    ¬ ((∀ x ∈ VCFR.RegretsToProbs (fun s => if s = 0 then 3 else -1) 2 false false 0 0 0
          [false, false], 0 ≤ x) ∧
        (VCFR.RegretsToProbs (fun s => if s = 0 then 3 else -1) 2 false false 0 0 0
          [false, false]).sum = 1) ∧
    ¬ ((∀ x ∈ VCFR.RegretsToProbs (fun _ => 0) 2 true false 5 0 0 [false, false], 0 ≤ x) ∧
        (VCFR.RegretsToProbs (fun _ => 0) 2 true false 5 0 0 [false, false]).sum = 1) ∧
    ¬ ((∀ x ∈ VCFR.RegretsToProbs (fun _ => 1) 2 true false 0 (1 / 2) 2 [true, false],
          0 ≤ x) ∧
        (VCFR.RegretsToProbs (fun _ => 1) 2 true false 0 (1 / 2) 2 [true, false]).sum = 1) ∧
    ¬ ((∀ x ∈ VCFR.RegretsToProbs (fun _ => 1) 0 true true 0 0 0 [], 0 ≤ x) ∧
        (VCFR.RegretsToProbs (fun _ => 1) 0 true true 0 0 0 []).sum = 1) := by
  decide!

/-- The non-uniform part of the policy on a row `r` of non-negative values: normalise, or
fall back on the default successor, then mix the exploration in. -/
theorem policy_row (r : Nat → ℚ) (n d : Nat) (e : ℚ) (k : Nat) (mask : List Bool)
    (hr : ∀ s, s < n → 0 ≤ r s) (hd : d < n) (he0 : 0 ≤ e) (he1 : e < 1)
    (hmask : k = ((List.range n).filter (fun s => mask.getD s false)).length) :
    (∀ x ∈ (if e > 0 ∧ k > 0 then
          (List.range n).map (fun s =>
            (if ((List.range n).map r).sum > 0 then r s / ((List.range n).map r).sum
              else if s = d then 1 else 0) * (1 - e) +
              if mask.getD s false then e / (k : ℚ) else 0)
        else (List.range n).map (fun s =>
            if ((List.range n).map r).sum > 0 then r s / ((List.range n).map r).sum
            else if s = d then 1 else 0)), 0 ≤ x) ∧
      (if e > 0 ∧ k > 0 then
          (List.range n).map (fun s =>
            (if ((List.range n).map r).sum > 0 then r s / ((List.range n).map r).sum
              else if s = d then 1 else 0) * (1 - e) +
              if mask.getD s false then e / (k : ℚ) else 0)
        else (List.range n).map (fun s =>
            if ((List.range n).map r).sum > 0 then r s / ((List.range n).map r).sum
            else if s = d then 1 else 0)).sum = 1 := by
  have hbase : ∀ s, s < n →
      0 ≤ (if ((List.range n).map r).sum > 0 then r s / ((List.range n).map r).sum
            else if s = d then (1 : ℚ) else 0) := by
    intro s hs
    split_ifs with h1 h2
    · exact div_nonneg (hr s hs) (le_of_lt h1)
    · exact zero_le_one
    · exact le_refl _
  have hsum : ((List.range n).map (fun s =>
      if ((List.range n).map r).sum > 0 then r s / ((List.range n).map r).sum
      else if s = d then (1 : ℚ) else 0)).sum = 1 := by
    by_cases h1 : ((List.range n).map r).sum > 0
    · simp only [h1, if_true]
      rw [sum_map_div, div_self (ne_of_gt h1)]
    · simp only [h1, if_false]
      rw [sum_range_indicator, if_pos hd]
  by_cases hx : e > 0 ∧ k > 0
  · rw [if_pos hx]
    refine ⟨fun x hxm => ?_, ?_⟩
    · obtain ⟨s, hs, rfl⟩ := List.mem_map.mp hxm
      have hs' : s < n := List.mem_range.mp hs
      refine add_nonneg (mul_nonneg (hbase s hs') (by linarith)) ?_
      split_ifs
      · exact div_nonneg he0 (Nat.cast_nonneg k)
      · exact le_refl _
    · have hk : (k : ℚ) ≠ 0 := by
        have := hx.2
        exact_mod_cast (by omega : k ≠ 0)
      rw [sum_map_affine (fun s =>
          if ((List.range n).map r).sum > 0 then r s / ((List.range n).map r).sum
          else if s = d then (1 : ℚ) else 0)
        (fun s => if mask.getD s false then e / (k : ℚ) else 0) (1 - e), hsum,
        sum_map_mask (fun s => mask.getD s false) (e / (k : ℚ)), ← hmask]
      field_simp
  · rw [if_neg hx]
    refine ⟨fun x hxm => ?_, hsum⟩
    obtain ⟨s, hs, rfl⟩ := List.mem_map.mp hxm
    exact hbase s (List.mem_range.mp hs)

/-- C12, amended: for a row of at least one successor, a default successor among them,
`explore` in `[0, 1)` and a count of the non-terminal successors that agrees with the
mask, the policy of section 4.A returns non-negative entries that sum to 1 whenever the
uniform flag is set, `nonneg` is set, or no entry of the row is negative. -/
theorem RegretsToProbs_distribution (row : Nat → ℚ) (num_succs : Nat)
    (nonneg uniform : Bool) (default_succ_index : Nat) (explore : ℚ)
    (num_nonterminal_succs : Nat) (nonterminal_succs : List Bool)
    (hn : 0 < num_succs)
    (hrow : uniform = true ∨ nonneg = true ∨ ∀ s, s < num_succs → 0 ≤ row s)
    (hd : default_succ_index < num_succs) (he0 : 0 ≤ explore) (he1 : explore < 1)
    (hmask : num_nonterminal_succs =
      ((List.range num_succs).filter (fun s => nonterminal_succs.getD s false)).length) :
    (∀ x ∈ VCFR.RegretsToProbs row num_succs nonneg uniform default_succ_index explore
        num_nonterminal_succs nonterminal_succs, 0 ≤ x) ∧
      (VCFR.RegretsToProbs row num_succs nonneg uniform default_succ_index explore
        num_nonterminal_succs nonterminal_succs).sum = 1 := by
  unfold VCFR.RegretsToProbs
  by_cases hu : uniform = true
  · rw [if_pos hu]
    have hne : (num_succs : ℚ) ≠ 0 := by exact_mod_cast (by omega : num_succs ≠ 0)
    refine ⟨fun x hx => ?_, ?_⟩
    · rw [List.eq_of_mem_replicate hx]
      exact div_nonneg zero_le_one (Nat.cast_nonneg num_succs)
    · rw [List.sum_replicate, nsmul_eq_mul]
      field_simp
  · rw [if_neg hu]
    have hr : ∀ s, s < num_succs → 0 ≤ (if nonneg = true then max (row s) 0 else row s) := by
      intro s hs
      rcases hrow with h | h | h
      · exact absurd h hu
      · rw [if_pos h]; exact le_max_right _ _
      · split_ifs
        · exact le_max_right _ _
        · exact h s hs
    exact policy_row (fun s => if nonneg = true then max (row s) 0 else row s) num_succs
      default_succ_index explore num_nonterminal_succs nonterminal_succs hr hd he0 he1 hmask

/-- C12, witness: the row `[3, -1]` with `nonneg`, exploration `1/4` and a non-terminal
second successor. -/
theorem RegretsToProbs_distribution_witness :
    (∀ x ∈ VCFR.RegretsToProbs (fun s => if s = 0 then 3 else -1) 2 true false 0 (1 / 4) 1
        [false, true], 0 ≤ x) ∧
      (VCFR.RegretsToProbs (fun s => if s = 0 then 3 else -1) 2 true false 0 (1 / 4) 1
        [false, true]).sum = 1 :=
  RegretsToProbs_distribution (fun s => if s = 0 then 3 else -1) 2 true false 0 (1 / 4) 1
    [false, true] (by decide) (Or.inr (Or.inl rfl)) (by decide) (by decide!) (by decide!)
    (by decide)

/-! ## Pruning in `OppChoice` -/

/-- The reach vectors of the successors do not depend on the pruning flag. -/
theorem OppChoiceReach_prune (E : Env) (v : VCFR) (b : Bool) (σ : State) (node : Node)
    (lbd : Nat) (opp_probs : List ℚ) :
    VCFR.OppChoiceReach E { v with prune := b } σ node lbd opp_probs
      = VCFR.OppChoiceReach E v σ node lbd opp_probs := rfl

/-- Two stoppable loops whose steps keep a relation between their states end alike. -/
theorem loopM_alike {α β : Type} (R : α → β → Prop) (f : Nat → α → Except Abort α)
    (g : Nat → β → Except Abort β) (a0 : α) (b0 : β) (n : Nat) (h0 : R a0 b0)
    (hstep : ∀ i a b, i < n → R a b → Alike R (f i a) (g i b)) :
    Alike R (loopM n f a0) (loopM n g b0) := by
  induction n with
  | zero => exact h0
  | succ n ih =>
    have ih' := ih (fun i a b hi hr => hstep i a b (Nat.lt_succ_of_lt hi) hr)
    rw [loopM, loopM]
    cases hf : loopM n f a0 with
    | error e =>
      cases hg : loopM n g b0 with
      | error e' => rw [hf, hg] at ih'; exact ih'
      | ok b => rw [hf, hg] at ih'; exact ih'.elim
    | ok a =>
      cases hg : loopM n g b0 with
      | error e' => rw [hf, hg] at ih'; exact ih'.elim
      | ok b =>
        rw [hf, hg] at ih'
        exact hstep n a b (Nat.lt_succ_self n) ih'

/-- A store of the content of a cell into that cell changes nothing. -/
theorem setAt_getD_self (l : List ℚ) : ∀ i : Nat, setAt l i (l.getD i 0) = l := by
  unfold setAt
  induction l with
  | nil => intro i; rfl
  | cons a l ih =>
    intro i
    cases i with
    | zero => rfl
    | succ i =>
      have := ih i
      simp only [List.getD_eq_getElem?_getD] at this
      simp only [List.set_cons_succ, List.getD_eq_getElem?_getD, List.getElem?_cons_succ, this]

/-- A store beyond the end of a vector changes nothing. -/
theorem setAt_beyond (l : List ℚ) (i : Nat) (x : ℚ) (h : l.length ≤ i) : setAt l i x = l := by
  unfold setAt
  exact List.set_eq_of_length_le h

/-- Adding a zero vector, cell by cell, changes nothing. -/
theorem add_zero_vector (M : Nat) (w : List ℚ) :
    ∀ N : Nat, loop N (fun i vals =>
      setAt vals i (vals.getD i 0 + (List.replicate M (0 : ℚ)).getD i 0)) w = w := by
  intro N
  induction N with
  | zero => rfl
  | succ N ih =>
    rw [loop_succ, ih, getD_replicate_zero, add_zero, setAt_getD_self]

/-- The cells of a vector after the first `k` cell-by-cell additions of another. -/
theorem add_vector_cells (sv w : List ℚ) :
    ∀ k : Nat,
      (loop k (fun i vals => setAt vals i (vals.getD i 0 + sv.getD i 0)) w).length
          = w.length ∧
        ∀ j, (loop k (fun i vals => setAt vals i (vals.getD i 0 + sv.getD i 0)) w).getD j 0
          = if j < k ∧ j < w.length then w.getD j 0 + sv.getD j 0 else w.getD j 0 := by
  intro k
  induction k with
  | zero => exact ⟨rfl, fun j => by simp [loop]⟩
  | succ k ih =>
    obtain ⟨hl, hc⟩ := ih
    rw [loop_succ]
    refine ⟨by rw [setAt_length, hl], fun j => ?_⟩
    by_cases hjk : j = k
    · subst hjk
      by_cases hj : j < w.length
      · rw [getD_setAt_same _ _ _ _ (by rw [hl]; exact hj), hc j,
          if_neg (by omega), if_pos ⟨Nat.lt_succ_self j, hj⟩]
      · rw [setAt_beyond _ _ _ (by rw [hl]; omega), hc j, if_neg (by omega),
          if_neg (by omega)]
    · rw [getD_setAt_ne _ _ _ _ _ (fun h => hjk h.symm), hc j]
      by_cases hj : j < k ∧ j < w.length
      · rw [if_pos hj, if_pos ⟨by omega, hj.2⟩]
      · rw [if_neg hj, if_neg (by omega)]

/-- Adding a vector of `N` values to the zero vector of `N` values gives that vector. -/
theorem zero_add_vector (N : Nat) (sv : List ℚ) (h : sv.length = N) :
    loop N (fun i vals => setAt vals i (vals.getD i 0 + sv.getD i 0))
      (List.replicate N (0 : ℚ)) = sv := by
  obtain ⟨hl, hc⟩ := add_vector_cells sv (List.replicate N (0 : ℚ)) N
  rw [List.length_replicate] at hl
  refine List.ext_getElem (by rw [hl, h]) (fun j h1 h2 => ?_)
  have hj : j < N := by rw [← hl]; exact h1
  have := hc j
  rw [List.getD_eq_getElem _ _ h1, if_pos ⟨hj, by rw [List.length_replicate]; exact hj⟩,
    getD_replicate_zero, zero_add, List.getD_eq_getElem _ _ h2] at this
  exact this

/-- The loop of `OppChoice` over the successors, run with pruning and run without pruning
on recursive calls that return the zero vector where the reach sum is 0: the states
agree, and the running vectors agree or the second is the zero vector while the first is
still null. -/
theorem prune_loop_alike (proc : VCFR.ProcFn) (E : Env) (v1 v2 : VCFR)
    (h1 : v1.prune = true) (h2 : v2.prune = false) (node : Node) (lbd : Nat)
    (succ_opp_probs : List (List ℚ)) (σ1 : State)
    (hlen : ∀ τ n b op sop tcp lst vals τ', proc τ n b op sop tcp lst = .ok (vals, τ') →
      vals.length = E.G.NumHoleCardPairs node.Street) :
    Alike (fun (a b : Option (List ℚ) × State) => a.2 = b.2 ∧
        ((a.1 = b.1 ∧ ∀ w, a.1 = some w → w.length = E.G.NumHoleCardPairs node.Street) ∨
         (a.1 = none ∧ b.1 = some (List.replicate (E.G.NumHoleCardPairs node.Street) 0))))
      (loopM node.NumSuccs (fun s (r : Option (List ℚ) × State) =>
        if v1.prune ∧ (E.CommonBetResponseCalcs node.Street (E.Hands node.Street lbd)
            (succ_opp_probs.getD s [])).1 = 0 then .ok r
        else
          match proc r.2 (node.IthSucc s) lbd (succ_opp_probs.getD s [])
              (E.CommonBetResponseCalcs node.Street (E.Hands node.Street lbd)
                (succ_opp_probs.getD s [])).1
              (some (E.CommonBetResponseCalcs node.Street (E.Hands node.Street lbd)
                (succ_opp_probs.getD s [])).2) node.Street with
          | .error e => .error e
          | .ok (succ_vals, σ2) =>
            match r.1 with
            | none => .ok (some succ_vals, σ2)
            | some vals =>
              .ok (some (loop (E.G.NumHoleCardPairs node.Street) (fun i vals =>
                setAt vals i (vals.getD i 0 + succ_vals.getD i 0)) vals), σ2))
        (none, σ1))
      (loopM node.NumSuccs (fun s (r : Option (List ℚ) × State) =>
        if v2.prune ∧ (E.CommonBetResponseCalcs node.Street (E.Hands node.Street lbd)
            (succ_opp_probs.getD s [])).1 = 0 then .ok r
        else
          match (if (E.CommonBetResponseCalcs node.Street (E.Hands node.Street lbd)
                (succ_opp_probs.getD s [])).1 = 0 then
              .ok (List.replicate (E.G.NumHoleCardPairs node.Street) 0, r.2)
            else proc r.2 (node.IthSucc s) lbd (succ_opp_probs.getD s [])
              (E.CommonBetResponseCalcs node.Street (E.Hands node.Street lbd)
                (succ_opp_probs.getD s [])).1
              (some (E.CommonBetResponseCalcs node.Street (E.Hands node.Street lbd)
                (succ_opp_probs.getD s [])).2) node.Street :
              Except Abort (List ℚ × State)) with
          | .error e => .error e
          | .ok (succ_vals, σ2) =>
            match r.1 with
            | none => .ok (some succ_vals, σ2)
            | some vals =>
              .ok (some (loop (E.G.NumHoleCardPairs node.Street) (fun i vals =>
                setAt vals i (vals.getD i 0 + succ_vals.getD i 0)) vals), σ2))
        (none, σ1)) := by
  refine loopM_alike _ _ _ _ _ _ ⟨rfl, Or.inl ⟨rfl, fun w hw => by cases hw⟩⟩ ?_
  rintro s ⟨a1, τ⟩ ⟨b1, τ'⟩ _ ⟨hτ, hR⟩
  simp only at hτ hR
  subst hτ
  simp only [h1, h2, true_and, false_and, if_false, Bool.false_eq_true]
  by_cases hc : (E.CommonBetResponseCalcs node.Street (E.Hands node.Street lbd)
      (succ_opp_probs.getD s [])).1 = 0
  · simp only [hc, if_true]
    rcases hR with ⟨he, hl⟩ | ⟨he1, he2⟩
    · subst he
      cases a1 with
      | none => exact ⟨rfl, Or.inr ⟨rfl, rfl⟩⟩
      | some w =>
        refine ⟨rfl, Or.inl ⟨?_, hl⟩⟩
        simp only [add_zero_vector]
    · subst he1
      subst he2
      refine ⟨rfl, Or.inr ⟨rfl, ?_⟩⟩
      simp only [add_zero_vector]
  · simp only [hc, if_false]
    cases hp : proc τ (node.IthSucc s) lbd (succ_opp_probs.getD s [])
        (E.CommonBetResponseCalcs node.Street (E.Hands node.Street lbd)
          (succ_opp_probs.getD s [])).1
        (some (E.CommonBetResponseCalcs node.Street (E.Hands node.Street lbd)
          (succ_opp_probs.getD s [])).2) node.Street with
    | error e => exact rfl
    | ok r =>
      obtain ⟨sv, τ2⟩ := r
      have hsv := hlen _ _ _ _ _ _ _ _ _ hp
      rcases hR with ⟨he, hl⟩ | ⟨he1, he2⟩
      · subst he
        cases a1 with
        | none => exact ⟨rfl, Or.inl ⟨rfl, fun w hw => by cases hw; exact hsv⟩⟩
        | some w =>
          refine ⟨rfl, Or.inl ⟨rfl, fun w' hw' => ?_⟩⟩
          cases hw'
          rw [(add_vector_cells sv w _).1]
          exact hl w rfl
      · subst he1
        subst he2
        refine ⟨rfl, Or.inl ⟨?_, fun w hw => by cases hw; exact hsv⟩⟩
        simp only [zero_add_vector _ sv hsv]

/-- C11: in `OppChoice`, for recursive calls `proc` that return vectors of
`num_hole_card_pairs(st)` values, the result with `prune = true` is the result with
`prune = false` of the calls that return the zero vector (and leave the state alone)
wherever the successor's `succ_sum_opp_probs` is 0, the test on which the code prunes;
and when the `succ_sum_opp_probs` of every successor is 0, the result with `prune = true`
is the zero vector of `num_hole_card_pairs(st)` values. -/
theorem OppChoice_prune_consistent (proc : VCFR.ProcFn) (E : Env) (v : VCFR) (σ : State)
    (node : Node) (lbd : Nat) (opp_probs : List ℚ)
    (hlen : ∀ τ n b op sop tcp lst vals τ', proc τ n b op sop tcp lst = .ok (vals, τ') →
      vals.length = E.G.NumHoleCardPairs node.Street) :
    VCFR.OppChoice proc E { v with prune := true } σ node lbd opp_probs
      = VCFR.OppChoice (fun τ n b op sop tcp lst =>
          if sop = 0 then .ok (List.replicate (E.G.NumHoleCardPairs node.Street) 0, τ)
          else proc τ n b op sop tcp lst) E { v with prune := false } σ node lbd opp_probs ∧
    (∀ succ_opp_probs σ1,
      VCFR.OppChoiceReach E v σ node lbd opp_probs = .ok (succ_opp_probs, σ1) →
      (∀ s, s < node.NumSuccs →
        (E.CommonBetResponseCalcs node.Street (E.Hands node.Street lbd)
          (succ_opp_probs.getD s [])).1 = 0) →
      VCFR.OppChoice proc E { v with prune := true } σ node lbd opp_probs
        = .ok (List.replicate (E.G.NumHoleCardPairs node.Street) 0, σ1)) := by
  constructor
  · unfold VCFR.OppChoice
    rw [OppChoiceReach_prune E v true, OppChoiceReach_prune E v false]
    cases hreach : VCFR.OppChoiceReach E v σ node lbd opp_probs with
    | error e => rfl
    | ok r =>
      obtain ⟨sop, σ1⟩ := r
      dsimp only
      generalize hx : loopM _ _ _ = x
      generalize hy : loopM _ _ _ = y
      have hal : Alike (fun (a b : Option (List ℚ) × State) => a.2 = b.2 ∧
          ((a.1 = b.1 ∧ ∀ w, a.1 = some w → w.length = E.G.NumHoleCardPairs node.Street) ∨
           (a.1 = none ∧
             b.1 = some (List.replicate (E.G.NumHoleCardPairs node.Street) 0)))) x y := by
        rw [← hx, ← hy]
        exact prune_loop_alike proc E { v with prune := true } { v with prune := false }
          rfl rfl node lbd sop σ1 hlen
      cases x with
      | error e =>
        cases y with
        | error e' => cases hal; rfl
        | ok b => exact hal.elim
      | ok a =>
        cases y with
        | error e' => exact hal.elim
        | ok b =>
          obtain ⟨a1, τ⟩ := a
          obtain ⟨b1, τ'⟩ := b
          obtain ⟨hτ, hR⟩ := hal
          simp only at hτ hR
          subst hτ
          rcases hR with ⟨he, _⟩ | ⟨he1, he2⟩
          · subst he
            cases a1 <;> rfl
          · subst he1
            subst he2
            rfl
  · intro sop σ1 hreach hzero
    unfold VCFR.OppChoice
    rw [OppChoiceReach_prune E v true, hreach]
    dsimp only
    generalize hx : loopM _ _ _ = x
    have hinv : Outcome (fun r : Option (List ℚ) × State => r = (none, σ1))
        (fun _ => False) x := by
      rw [← hx]
      refine loopM_good (fun _ (r : Option (List ℚ) × State) => r = (none, σ1))
        (fun _ => False) _ _ _ rfl (fun s r hs hr => ?_)
      subst hr
      simp only [hzero s hs, and_self, if_true]
      exact rfl
    cases x with
    | error e => exact hinv.elim
    | ok r =>
      have hr : r = (none, σ1) := hinv
      subst hr
      rfl

/-- C11, witness: an opponent node over the two leaves, reach 1 on the only encoding and
an all-zero regret row, so that the default successor 0 gets the whole reach and the
successor 1 is pruned; the recursive calls return `[1, 2, 3]`. -/
theorem OppChoice_prune_consistent_witness :
    VCFR.OppChoice (fun τ _ _ _ _ _ _ => .ok ([1, 2, 3], τ)) exampleSumEnv
        { ({ p := 1 } : VCFR) with prune := true } {} (exampleRoot 0) 0 [1]
      = VCFR.OppChoice (fun τ n b op sop tcp lst =>
          if sop = 0 then
            .ok (List.replicate (exampleSumEnv.G.NumHoleCardPairs (exampleRoot 0).Street) 0, τ)
          else (fun τ _ _ _ _ _ _ => .ok ([1, 2, 3], τ) : VCFR.ProcFn) τ n b op sop tcp lst)
          exampleSumEnv { ({ p := 1 } : VCFR) with prune := false } {} (exampleRoot 0) 0 [1] :=
  (OppChoice_prune_consistent (fun τ _ _ _ _ _ _ => .ok ([1, 2, 3], τ)) exampleSumEnv
    { p := 1 } {} (exampleRoot 0) 0 [1]
    (fun _ _ _ _ _ _ _ _ _ h => by cases h; rfl)).1

/-! ## Reach vectors of the successors -/

theorem setAt2_length (a : List (List ℚ)) (s e : Nat) (x : ℚ) :
    (setAt2 a s e x).length = a.length := by
  unfold setAt2
  exact List.length_set _ _ _

/-- A store into a cell of a table keeps the length of every row. -/
theorem setAt2_row_length (a : List (List ℚ)) (s e : Nat) (x : ℚ) (t : Nat) :
    ((setAt2 a s e x).getD t []).length = (a.getD t []).length := by
  unfold setAt2
  by_cases hts : s = t
  · subst hts
    by_cases hs : s < a.length
    · rw [List.getD_eq_getElem?_getD, List.getElem?_set_self hs, Option.getD_some,
        List.length_set]
    · rw [List.set_eq_of_length_le (by omega)]
  · rw [List.getD_eq_getElem?_getD, List.getElem?_set_ne hts, List.getD_eq_getElem?_getD]

/-- The content of a table after a store into the cell `(s, e)`. -/
theorem setAt2_cell (a : List (List ℚ)) (s e : Nat) (x : ℚ) (t e' : Nat) :
    ((setAt2 a s e x).getD t []).getD e' 0
      = if t = s ∧ e' = e ∧ s < a.length ∧ e < (a.getD s []).length then x
        else (a.getD t []).getD e' 0 := by
  unfold setAt2
  by_cases hts : s = t
  · subst hts
    by_cases hs : s < a.length
    · rw [List.getD_eq_getElem?_getD (a.set s _), List.getElem?_set_self hs, Option.getD_some]
      by_cases hee : e = e'
      · subst hee
        by_cases he : e < (a.getD s []).length
        · rw [if_pos ⟨rfl, rfl, hs, he⟩, List.getD_eq_getElem?_getD,
            List.getElem?_set_self he, Option.getD_some]
        · rw [if_neg (fun h => he h.2.2.2), List.set_eq_of_length_le (by omega)]
      · rw [if_neg (fun h => hee h.2.1.symm), List.getD_eq_getElem?_getD,
          List.getElem?_set_ne hee, ← List.getD_eq_getElem?_getD]
    · rw [if_neg (fun h => hs h.2.2.1), List.set_eq_of_length_le (by omega)]
  · rw [if_neg (fun h => hts h.1.symm), List.getD_eq_getElem?_getD (a.set s _),
      List.getElem?_set_ne hts, ← List.getD_eq_getElem?_getD]

/-- The loop that stores `x s` into the cell `(s, e)` of every row `s < n`: the lengths
are kept, and a cell `(t, e)` of a row `t < n` that exists holds `x t`, every other cell
its old content. -/
theorem reach_rows (e : Nat) (x : Nat → ℚ) (a : List (List ℚ)) :
    ∀ n : Nat,
      (loop n (fun s sop => setAt2 sop s e (x s)) a).length = a.length ∧
      (∀ t, ((loop n (fun s sop => setAt2 sop s e (x s)) a).getD t []).length
        = (a.getD t []).length) ∧
      (∀ t e', ((loop n (fun s sop => setAt2 sop s e (x s)) a).getD t []).getD e' 0
        = if t < n ∧ e' = e ∧ t < a.length ∧ e < (a.getD t []).length then x t
          else (a.getD t []).getD e' 0) := by
  intro n
  induction n with
  | zero => exact ⟨rfl, fun _ => rfl, fun t e' => by simp [loop]⟩
  | succ n ih =>
    obtain ⟨h1, h2, h3⟩ := ih
    rw [loop_succ]
    refine ⟨by rw [setAt2_length, h1], fun t => by rw [setAt2_row_length, h2 t],
      fun t e' => ?_⟩
    rw [setAt2_cell, h1, h2 n, h3 t e']
    by_cases htn : t = n
    · subst htn
      by_cases hc : e' = e ∧ t < a.length ∧ e < (a.getD t []).length
      · rw [if_pos ⟨rfl, hc⟩, if_pos ⟨Nat.lt_succ_self t, hc⟩]
      · rw [if_neg (fun h => hc h.2), if_neg (fun h => by omega), if_neg (fun h => hc h.2)]
    · rw [if_neg (fun h => htn h.1)]
      by_cases hc : t < n ∧ e' = e ∧ t < a.length ∧ e < (a.getD t []).length
      · rw [if_pos hc, if_pos ⟨by omega, hc.2⟩]
      · rw [if_neg hc, if_neg (fun h => hc ⟨by omega, h.2⟩)]

/-- The first component of a loop on pairs whose first component is updated on its
own. -/
theorem loop_pair_fst {α β : Type} (F : Nat → α → α) (G : Nat → α × β → β) (a : α) (b : β) :
    ∀ n : Nat, (loop n (fun s (q : α × β) => (F s q.1, G s q)) (a, b)).1 = loop n F a := by
  intro n
  induction n with
  | zero => rfl
  | succ n ih => rw [loop_succ, loop_succ, ← ih]

/-- The loop over the hands, as far as the reach vectors go: when the turn of hand `j`
stores `x j m s` into the cell `(s, e j)` of every successor `s` (`m` being the heap at
the start of the turn), the cell `(s, e i)` of a hand `i` whose encoding no other hand
shares holds, at the end, what the turn of hand `i` stored. -/
theorem hand_loop_reach {M : Type} (ns : Nat) (e : Nat → Nat) (x : Nat → M → Nat → ℚ)
    (body : Nat → List (List ℚ) × M → List (List ℚ) × M)
    (hbody : ∀ j r, (body j r).1 = loop ns (fun s sop => setAt2 sop s (e j) (x j r.2 s)) r.1)
    (sop0 : List (List ℚ)) (m0 : M) (i s : Nat) (hs : s < ns) (hrow : s < sop0.length)
    (hcol : e i < (sop0.getD s []).length) :
    ∀ N : Nat, i < N → (∀ j, j < N → j ≠ i → e j ≠ e i) →
      ((loop N body (sop0, m0)).1.getD s []).getD (e i) 0
        = x i (loop i body (sop0, m0)).2 s := by
  have hshape : ∀ k : Nat, (loop k body (sop0, m0)).1.length = sop0.length ∧
      ∀ t, ((loop k body (sop0, m0)).1.getD t []).length = (sop0.getD t []).length := by
    intro k
    induction k with
    | zero => exact ⟨rfl, fun _ => rfl⟩
    | succ k ih =>
      rw [loop_succ, hbody]
      obtain ⟨r1, r2, _⟩ := reach_rows (e k) (x k (loop k body (sop0, m0)).2)
        (loop k body (sop0, m0)).1 ns
      exact ⟨r1.trans ih.1, fun t => (r2 t).trans (ih.2 t)⟩
  intro N
  induction N with
  | zero => intro hi; omega
  | succ N ih =>
    intro hi huniq
    rw [loop_succ, hbody]
    obtain ⟨_, _, r3⟩ := reach_rows (e N) (x N (loop N body (sop0, m0)).2)
      (loop N body (sop0, m0)).1 ns
    rw [r3 s (e i)]
    rcases Nat.lt_succ_iff_lt_or_eq.mp hi with h | h
    · rw [if_neg (fun hc => huniq N (Nat.lt_succ_self N) (by omega) hc.2.1.symm)]
      exact ih h (fun j hj => huniq j (Nat.lt_succ_of_lt hj))
    · subst h
      rw [if_pos ⟨hs, rfl, by rw [(hshape i).1]; exact hrow, by rw [(hshape i).2 s]; exact hcol⟩]

/-- The reach cells that `ProcessOppProbsBucketed` on integer sumprobs leaves: the reach
of the hand times the current-strategy probability of its bucket. -/
theorem ProcessOppProbsBucketed_int_reach (G : Game) (v : VCFR) (sb : Nat → Nat → Nat)
    (node : Node) (hands : CanonicalCards) (opp_probs : List ℚ)
    (succ_opp_probs : List (List ℚ)) (current_probs : Nat) (sumprobs : Option Nat)
    (dmem : DblMem) (imem : IntMem) (i s : Nat)
    (hi : i < G.NumHoleCardPairs node.Street) (hs : s < node.NumSuccs)
    (huniq : ∀ j, j < G.NumHoleCardPairs node.Street → j ≠ i →
      VCFR.Encoding G hands j ≠ VCFR.Encoding G hands i)
    (hrow : s < succ_opp_probs.length)
    (hcol : VCFR.Encoding G hands i < (succ_opp_probs.getD s []).length) :
    (((VCFR.ProcessOppProbsBucketed_int G v sb node hands opp_probs succ_opp_probs
        current_probs sumprobs dmem imem).1.getD s []).getD (VCFR.Encoding G hands i) 0)
      = dmul (opp_probs.getD (VCFR.Encoding G hands i) 0)
          (dmem (current_probs + sb node.Street i * node.NumSuccs + s)) := by
  unfold VCFR.ProcessOppProbsBucketed_int
  refine hand_loop_reach node.NumSuccs (VCFR.Encoding G hands)
    (fun j (_ : IntMem) s => dmul (opp_probs.getD (VCFR.Encoding G hands j) 0)
      (dmem (current_probs + sb node.Street j * node.NumSuccs + s))) _ ?_
    succ_opp_probs imem i s hs hrow hcol (G.NumHoleCardPairs node.Street) hi huniq
  intro j r
  dsimp only
  by_cases hop : opp_probs.getD (VCFR.Encoding G hands j) 0 = 0
  · simp only [hop, if_true, dmul_zero_left]
  · simp only [hop, if_false]
    have hfst := loop_pair_fst
      (fun s sop => setAt2 sop s (VCFR.Encoding G hands j)
        (dmul (opp_probs.getD (VCFR.Encoding G hands j) 0)
          (dmem (current_probs + sb node.Street j * node.NumSuccs + s))))
      (fun s (q : List (List ℚ) × IntMem × Bool) =>
        VCFR.SumprobUpdate_int v node.Street
          (sumprobs.map (fun a => a + sb node.Street j * node.NumSuccs)) s
          (dmul (opp_probs.getD (VCFR.Encoding G hands j) 0)
            (dmem (current_probs + sb node.Street j * node.NumSuccs + s))) q.2)
      r.1 (r.2, false) node.NumSuccs
    split
    · exact hfst
    · exact hfst

/-- The second component of a loop on pairs whose second component is updated on its
own. -/
theorem loop_pair_snd {α β : Type} (F : Nat → α × β → α) (G : Nat → β → β) (a : α) (b : β) :
    ∀ n : Nat, (loop n (fun s (q : α × β) => (F s q, G s q.2)) (a, b)).2 = loop n G b := by
  intro n
  induction n with
  | zero => rfl
  | succ n ih => rw [loop_succ, loop_succ, ← ih]

/-- A property that every step of a loop preserves holds after the loop; the steps are
those below the bound. -/
theorem loop_invariant_lt {σ : Type} (P : σ → Prop) (n : Nat) (body : Nat → σ → σ)
    (init : σ) (h0 : P init) (hstep : ∀ i, i < n → ∀ s, P s → P (body i s)) :
    P (loop n body init) := by
  induction n with
  | zero => exact h0
  | succ n ih =>
    exact hstep n (Nat.lt_succ_self n) _
      (ih (fun i hi s hs => hstep i (Nat.lt_succ_of_lt hi) s hs))

/-- The loop over the hands, as far as a heap goes: a cell that no turn writes, each turn
being idle or writing elsewhere, keeps its content. -/
theorem hand_loop_heap_frame {T α : Type} (body : Nat → T × (Nat → α) → T × (Nat → α))
    (idle : Nat → Prop) (W : Nat → Nat → Prop)
    (hframe : ∀ j r a, idle j ∨ ¬ W j a → (body j r).2 a = r.2 a)
    (init : T × (Nat → α)) (a : Nat) :
    ∀ k : Nat, (∀ j, j < k → idle j ∨ ¬ W j a) → (loop k body init).2 a = init.2 a := by
  intro k
  induction k with
  | zero => intro _; rfl
  | succ k ih =>
    intro h
    rw [loop_succ, hframe k _ a (h k (Nat.lt_succ_self k))]
    exact ih (fun j hj => h j (Nat.lt_succ_of_lt hj))

/-- The update of double sumprobs writes the cell of the successor only. -/
theorem SumprobUpdate_double_frame (v : VCFR) (my_sumprobs : Option Nat) (s : Nat) (x : ℚ)
    (m : DblMem) (a : Nat) (h : ∀ sp, my_sumprobs = some sp → a ≠ sp + s) :
    VCFR.SumprobUpdate_double v my_sumprobs s x m a = m a := by
  unfold VCFR.SumprobUpdate_double
  cases my_sumprobs with
  | none => simp
  | some sp =>
    have ha : a ≠ sp + s := h sp rfl
    simp only [Option.getD_some]
    split_ifs <;> first | rfl | exact Function.update_noteq ha _ _

/-- The policy reads the first `num_succs` values of the row only. -/
theorem RegretsToProbs_congr (row row' : Nat → ℚ) (num_succs : Nat) (nonneg uniform : Bool)
    (default_succ_index : Nat) (explore : ℚ) (num_nonterminal_succs : Nat)
    (nonterminal_succs : List Bool) (h : ∀ s, s < num_succs → row s = row' s) :
    VCFR.RegretsToProbs row num_succs nonneg uniform default_succ_index explore
        num_nonterminal_succs nonterminal_succs
      = VCFR.RegretsToProbs row' num_succs nonneg uniform default_succ_index explore
        num_nonterminal_succs nonterminal_succs := by
  unfold VCFR.RegretsToProbs
  have hr : ∀ s ∈ List.range num_succs,
      (if nonneg = true then max (row s) 0 else row s)
        = (if nonneg = true then max (row' s) 0 else row' s) := by
    intro s hs
    rw [h s (List.mem_range.mp hs)]
  have hS : ((List.range num_succs).map
        (fun s => if nonneg = true then max (row s) 0 else row s)).sum
      = ((List.range num_succs).map
        (fun s => if nonneg = true then max (row' s) 0 else row' s)).sum := by
    rw [List.map_congr_left hr]
  dsimp only
  rw [hS]
  by_cases hu : uniform = true
  · rw [if_pos hu, if_pos hu]
  · rw [if_neg hu, if_neg hu]
    by_cases hx : explore > 0 ∧ num_nonterminal_succs > 0
    · rw [if_pos hx, if_pos hx]
      exact List.map_congr_left (fun s hs => by rw [hr s hs])
    · rw [if_neg hx, if_neg hx]
      exact List.map_congr_left (fun s hs => by rw [hr s hs])

/-- The cells of the double heap that `ProcessOppProbs` on double values leaves alone:
those outside the sumprob rows of the hands with a non-zero reach. -/
theorem ProcessOppProbs_double_double_frame (G : Game) (v : VCFR) (node : Node)
    (hands : CanonicalCards) (nonneg : Bool) (explore : ℚ) (opp_probs : List ℚ)
    (succ_opp_probs : List (List ℚ)) (cs_vals : Nat) (sumprobs : Option Nat)
    (dmem : DblMem) (a : Nat)
    (h : ∀ j, j < G.NumHoleCardPairs node.Street →
      opp_probs.getD (VCFR.Encoding G hands j) 0 = 0 ∨
      ¬ ∃ sp t, sumprobs = some sp ∧ t < node.NumSuccs ∧ a = sp + j * node.NumSuccs + t) :
    (VCFR.ProcessOppProbs_double_double G v node hands nonneg explore opp_probs
      succ_opp_probs cs_vals sumprobs dmem).2 a = dmem a := by
  unfold VCFR.ProcessOppProbs_double_double
  refine hand_loop_heap_frame _ (fun j => opp_probs.getD (VCFR.Encoding G hands j) 0 = 0)
    (fun j a => ∃ sp t, sumprobs = some sp ∧ t < node.NumSuccs ∧
      a = sp + j * node.NumSuccs + t) ?_ (succ_opp_probs, dmem) a _ h
  intro j r b hb
  dsimp only
  by_cases hop : opp_probs.getD (VCFR.Encoding G hands j) 0 = 0
  · rw [if_pos hop]
  · rw [if_neg hop]
    have hW := hb.resolve_left hop
    obtain ⟨r1, r2⟩ := r
    rw [loop_pair_snd]
    refine loop_invariant_lt (fun m : DblMem => m b = r2 b) _ _ _ rfl (fun t ht m hm => ?_)
    dsimp only
    rw [SumprobUpdate_double_frame _ _ _ _ _ _ ?_]
    · exact hm
    · intro sp' hsp' hbe
      apply hW
      cases hsum : sumprobs with
      | none => rw [hsum] at hsp'; simp at hsp'
      | some sp =>
        rw [hsum] at hsp'
        by_cases hvc : v.value_calculation = true
        · simp [hvc] at hsp'
        · simp only [hvc, not_false_eq_true, if_true, Option.map_some', Option.some.injEq,
            Bool.false_eq_true] at hsp'
          exact ⟨sp, t, rfl, ht, by omega⟩

/-- The reach cells that `ProcessOppProbs` on double values leaves: the reach of the hand
times the probability that the policy derives from the hand's row of current-strategy
values, as the turns of the earlier hands left that row. -/
theorem ProcessOppProbs_double_double_reach_at (G : Game) (v : VCFR) (node : Node)
    (hands : CanonicalCards) (nonneg : Bool) (explore : ℚ) (opp_probs : List ℚ)
    (succ_opp_probs : List (List ℚ)) (cs_vals : Nat) (sumprobs : Option Nat)
    (dmem : DblMem) (i s : Nat)
    (hi : i < G.NumHoleCardPairs node.Street) (hs : s < node.NumSuccs)
    (huniq : ∀ j, j < G.NumHoleCardPairs node.Street → j ≠ i →
      VCFR.Encoding G hands j ≠ VCFR.Encoding G hands i)
    (hrow : s < succ_opp_probs.length)
    (hcol : VCFR.Encoding G hands i < (succ_opp_probs.getD s []).length) :
    (((VCFR.ProcessOppProbs_double_double G v node hands nonneg explore opp_probs
        succ_opp_probs cs_vals sumprobs dmem).1.getD s []).getD (VCFR.Encoding G hands i) 0)
      = dmul (opp_probs.getD (VCFR.Encoding G hands i) 0)
          ((VCFR.RegretsToProbs
            (fun s => (VCFR.ProcessOppProbs_double_double
              { G with NumHoleCardPairs := fun _ => i } v node hands nonneg explore opp_probs
              succ_opp_probs cs_vals sumprobs dmem).2 (cs_vals + i * node.NumSuccs + s))
            node.NumSuccs nonneg v.uniform node.DefaultSuccIndex explore
            (VCFR.NonterminalSuccs node).1 (VCFR.NonterminalSuccs node).2).getD s 0) := by
  unfold VCFR.ProcessOppProbs_double_double
  refine (hand_loop_reach node.NumSuccs (VCFR.Encoding G hands)
    (fun j (m : DblMem) s => dmul (opp_probs.getD (VCFR.Encoding G hands j) 0)
      ((VCFR.RegretsToProbs (fun s => m (cs_vals + j * node.NumSuccs + s))
        node.NumSuccs nonneg v.uniform node.DefaultSuccIndex explore
        (VCFR.NonterminalSuccs node).1 (VCFR.NonterminalSuccs node).2).getD s 0)) _ ?_
    succ_opp_probs dmem i s hs hrow hcol (G.NumHoleCardPairs node.Street) hi huniq).trans rfl
  intro j r
  obtain ⟨r1, r2⟩ := r
  dsimp only
  by_cases hop : opp_probs.getD (VCFR.Encoding G hands j) 0 = 0
  · simp only [hop, if_true, dmul_zero_left]
  · simp only [hop, if_false]
    exact loop_pair_fst
      (fun s sop => setAt2 sop s (VCFR.Encoding G hands j)
        (dmul (opp_probs.getD (VCFR.Encoding G hands j) 0)
          ((VCFR.RegretsToProbs (fun s => r2 (cs_vals + j * node.NumSuccs + s))
            node.NumSuccs nonneg v.uniform node.DefaultSuccIndex explore
            (VCFR.NonterminalSuccs node).1 (VCFR.NonterminalSuccs node).2).getD s 0)))
      (fun s (q : List (List ℚ) × DblMem) =>
        VCFR.SumprobUpdate_double v
          (if ¬ v.value_calculation then sumprobs.map (fun a => a + j * node.NumSuccs)
            else none) s
          (dmul (opp_probs.getD (VCFR.Encoding G hands j) 0)
            ((VCFR.RegretsToProbs (fun s => r2 (cs_vals + j * node.NumSuccs + s))
              node.NumSuccs nonneg v.uniform node.DefaultSuccIndex explore
              (VCFR.NonterminalSuccs node).1 (VCFR.NonterminalSuccs node).2).getD s 0)) q.2)
      r1 r2 node.NumSuccs

/-- C20: for a hand `i` of the street whose encoding `enc(i)` no other hand shares and
whose cells `succ_opp_probs[s][enc(i)]` exist, after `ProcessOppProbs` on double values
and after `ProcessOppProbsBucketed` on integer sumprobs every successor `s` has
`succ_opp_probs[s][enc(i)] = opp_probs[enc(i)] * prob_i[s]`, the product of doubles
`dmul`.  In the unabstracted routine
`prob_i` is the policy `RegretsToProbs` of hand `i`'s row of current-strategy values (no
sumprob row of an earlier hand overlapping that row); in the bucketed routine it is the
row of the bucket of hand `i` in the current-strategy table.  When `opp_probs[enc(i)]`
is 0, every `succ_opp_probs[s][enc(i)]` is 0, the unabstracted routine leaves hand `i`'s
sumprob row as it was, and the turn of hand `i` in the bucketed routine changes no cell
of the sumprobs: the run over the hands up to `i` leaves the heap that the run over the
hands before `i` leaves. -/
theorem ProcessOppProbs_reach (G : Game) (v : VCFR) (sb : Nat → Nat → Nat) (node : Node)
    (hands : CanonicalCards) (nonneg : Bool) (explore : ℚ) (opp_probs : List ℚ)
    (succ_opp_probs : List (List ℚ)) (cs_vals current_probs : Nat) (sumprobs : Option Nat)
    (dmem : DblMem) (imem : IntMem) (i : Nat)
    (hi : i < G.NumHoleCardPairs node.Street)
    (huniq : ∀ j, j < G.NumHoleCardPairs node.Street → j ≠ i →
      VCFR.Encoding G hands j ≠ VCFR.Encoding G hands i)
    (hshape : ∀ s, s < node.NumSuccs → s < succ_opp_probs.length ∧
      VCFR.Encoding G hands i < (succ_opp_probs.getD s []).length) :
    ((∀ sp, sumprobs = some sp → ∀ j, j < i → ∀ t u, t < node.NumSuccs →
        u < node.NumSuccs → sp + j * node.NumSuccs + t ≠ cs_vals + i * node.NumSuccs + u) →
      ∀ s, s < node.NumSuccs →
        (((VCFR.ProcessOppProbs_double_double G v node hands nonneg explore opp_probs
          succ_opp_probs cs_vals sumprobs dmem).1.getD s []).getD
            (VCFR.Encoding G hands i) 0)
        = dmul (opp_probs.getD (VCFR.Encoding G hands i) 0)
            ((VCFR.RegretsToProbs (fun s => dmem (cs_vals + i * node.NumSuccs + s))
              node.NumSuccs nonneg v.uniform node.DefaultSuccIndex explore
              (VCFR.NonterminalSuccs node).1 (VCFR.NonterminalSuccs node).2).getD s 0)) ∧
    (∀ s, s < node.NumSuccs →
      (((VCFR.ProcessOppProbsBucketed_int G v sb node hands opp_probs succ_opp_probs
        current_probs sumprobs dmem imem).1.getD s []).getD (VCFR.Encoding G hands i) 0)
      = dmul (opp_probs.getD (VCFR.Encoding G hands i) 0)
          (dmem (current_probs + sb node.Street i * node.NumSuccs + s))) ∧
    (opp_probs.getD (VCFR.Encoding G hands i) 0 = 0 →
      (∀ s, s < node.NumSuccs →
        (((VCFR.ProcessOppProbs_double_double G v node hands nonneg explore opp_probs
          succ_opp_probs cs_vals sumprobs dmem).1.getD s []).getD
            (VCFR.Encoding G hands i) 0) = 0 ∧
        (((VCFR.ProcessOppProbsBucketed_int G v sb node hands opp_probs succ_opp_probs
          current_probs sumprobs dmem imem).1.getD s []).getD
            (VCFR.Encoding G hands i) 0) = 0) ∧
      (∀ sp, sumprobs = some sp → ∀ s, s < node.NumSuccs →
        (VCFR.ProcessOppProbs_double_double G v node hands nonneg explore opp_probs
          succ_opp_probs cs_vals sumprobs dmem).2 (sp + i * node.NumSuccs + s)
          = dmem (sp + i * node.NumSuccs + s)) ∧
      (VCFR.ProcessOppProbsBucketed_int { G with NumHoleCardPairs := fun _ => i + 1 } v sb
          node hands opp_probs succ_opp_probs current_probs sumprobs dmem imem).2
        = (VCFR.ProcessOppProbsBucketed_int { G with NumHoleCardPairs := fun _ => i } v sb
          node hands opp_probs succ_opp_probs current_probs sumprobs dmem imem).2) := by
  refine ⟨fun hsep s hs => ?_, fun s hs => ?_, fun hop => ⟨fun s hs => ⟨?_, ?_⟩,
    fun sp hsp s hs => ?_, ?_⟩⟩
  · rw [ProcessOppProbs_double_double_reach_at G v node hands nonneg explore opp_probs
      succ_opp_probs cs_vals sumprobs dmem i s hi hs huniq (hshape s hs).1 (hshape s hs).2]
    rw [RegretsToProbs_congr _ (fun s => dmem (cs_vals + i * node.NumSuccs + s)) _ _ _ _ _ _ _
      (fun u hu => ProcessOppProbs_double_double_frame
        { G with NumHoleCardPairs := fun _ => i } v node hands nonneg explore opp_probs
        succ_opp_probs cs_vals sumprobs dmem (cs_vals + i * node.NumSuccs + u)
        (fun j hj => Or.inr (fun ⟨sp, t, hsp, ht, he⟩ =>
          hsep sp hsp j hj t u ht hu he.symm)))]
  · exact ProcessOppProbsBucketed_int_reach G v sb node hands opp_probs succ_opp_probs
      current_probs sumprobs dmem imem i s hi hs huniq (hshape s hs).1 (hshape s hs).2
  · rw [ProcessOppProbs_double_double_reach_at G v node hands nonneg explore opp_probs
      succ_opp_probs cs_vals sumprobs dmem i s hi hs huniq (hshape s hs).1 (hshape s hs).2,
      hop, dmul_zero_left]
  · rw [ProcessOppProbsBucketed_int_reach G v sb node hands opp_probs succ_opp_probs
      current_probs sumprobs dmem imem i s hi hs huniq (hshape s hs).1 (hshape s hs).2,
      hop, dmul_zero_left]
  · refine ProcessOppProbs_double_double_frame G v node hands nonneg explore opp_probs
      succ_opp_probs cs_vals sumprobs dmem _ (fun j hj => ?_)
    by_cases hji : j = i
    · subst hji; exact Or.inl hop
    · refine Or.inr (fun ⟨sp', t, hsp', ht, he⟩ => hji ?_)
      rw [hsp] at hsp'
      cases hsp'
      exact ((row_cell_inj hs ht (by omega :
        i * node.NumSuccs + s = j * node.NumSuccs + t)).1).symm
  · unfold VCFR.ProcessOppProbsBucketed_int
    dsimp only
    rw [loop_succ]
    have henc : VCFR.Encoding { G with NumHoleCardPairs := fun _ => i + 1 } hands i
        = VCFR.Encoding G hands i := rfl
    rw [henc, if_pos hop]
    rfl

/-- C20, witness: two hands with the encodings 4 and 8, two successors; hand 1 has the
reach `1/2` and the row `[3, 1]` of current-strategy values, so the successor 0 gets the
reach `1/2 * 3/4`. -/
theorem ProcessOppProbs_reach_witness :
    (((VCFR.ProcessOppProbs_double_double
        { MaxCard := 3, NumHoleCardPairs := fun _ => 2 } {} (exampleRoot 0) exampleHands0
        false 0 [0, 0, 0, 0, 1 / 4, 0, 0, 0, 1 / 2]
        (List.replicate 2 (List.replicate 16 0)) 0 (some 100)
        (fun a => if a = 2 then 3 else 1)).1.getD 0 []).getD
          (VCFR.Encoding { MaxCard := 3, NumHoleCardPairs := fun _ => 2 } exampleHands0 1) 0)
      = 3 / 8 :=
  ((ProcessOppProbs_reach { MaxCard := 3, NumHoleCardPairs := fun _ => 2 } {} (fun _ _ => 0)
      (exampleRoot 0) exampleHands0 false 0 [0, 0, 0, 0, 1 / 4, 0, 0, 0, 1 / 2]
      (List.replicate 2 (List.replicate 16 0)) 0 0 (some 100)
      (fun a => if a = 2 then 3 else 1) (fun _ => 0) 1 (by decide) (by decide)
      (by decide)).1
    (fun sp hsp j hj t u ht hu => by
      cases hsp
      have h2 : (exampleRoot 0).NumSuccs = 2 := rfl
      rw [h2] at ht hu ⊢
      omega) 0 (by decide)).trans (by decide!)

/-! ## The bucketed update under the identity bucket map -/

/-- Two loops whose steps agree below the bound agree. -/
theorem loop_congr {σ : Type} (n : Nat) (f g : Nat → σ → σ) (init : σ)
    (h : ∀ i, i < n → ∀ s, f i s = g i s) : loop n f init = loop n g init := by
  induction n with
  | zero => rfl
  | succ n ih =>
    rw [loop_succ, loop_succ, ih (fun i hi s => h i (Nat.lt_succ_of_lt hi) s),
      h n (Nat.lt_succ_self n)]

/-- C28: without `nn_regrets`, when `street_buckets[st][i] = i` for every hand `i` of the
street, the integer `UpdateRegretsBucketed` leaves the very integer heap that the
unabstracted integer `UpdateRegrets` leaves on the same inputs, halved rows included. -/
theorem UpdateRegretsBucketed_int_identity (G : Game) (v : VCFR) (sb : Nat → Nat → Nat)
    (node : Node) (vals : List ℚ) (succ_vals : List (List ℚ)) (regrets : Nat)
    (imem : IntMem) (hnn : v.nn_regrets = false)
    (hid : ∀ i, i < G.NumHoleCardPairs node.Street → sb node.Street i = i) :
    VCFR.UpdateRegretsBucketed_int G v sb node vals succ_vals regrets imem
      = VCFR.UpdateRegrets_int G v node vals succ_vals regrets imem := by
  unfold VCFR.UpdateRegretsBucketed_int VCFR.UpdateRegrets_int
  simp only [hnn]
  refine loop_congr _ _ _ _ (fun i hi m => ?_)
  dsimp only
  rw [hid i hi]

/-- C28, witness: one hand, the row `[1900000000, -500000000]` with deltas
`[200000000, 0]`: both updates halve it. -/
theorem UpdateRegretsBucketed_int_identity_witness :
    VCFR.UpdateRegretsBucketed_int { NumHoleCardPairs := fun _ => 1 } {} (fun _ i => i)
        (Node.mk 0 false false 0 0 0 0 0 [default, default]) [0] [[200000000], [0]] 0
        (fun a => if a = 0 then 1900000000 else -500000000)
      = VCFR.UpdateRegrets_int { NumHoleCardPairs := fun _ => 1 } {}
        (Node.mk 0 false false 0 0 0 0 0 [default, default]) [0] [[200000000], [0]] 0
        (fun a => if a = 0 then 1900000000 else -500000000) :=
  UpdateRegretsBucketed_int_identity { NumHoleCardPairs := fun _ => 1 } {} (fun _ i => i)
    (Node.mk 0 false false 0 0 0 0 0 [default, default]) [0] [[200000000], [0]] 0
    (fun a => if a = 0 then 1900000000 else -500000000) rfl (fun _ _ => rfl)

/-! ## The weight of a sumprob update -/

/-- C29: whenever a sumprob update is applied (learning mode, sumprobs present, outside
the hard-warmup window; `it_` an `unsigned int`), at integer and at double sumprobs alike
and so in every variant of `ProcessOppProbs` and `ProcessOppProbsBucketed`, the weight is
a natural number `w ≥ 1`: it is 1 in the weight-1 branch; in the branch that computes
`it - hard_warmup` the iteration exceeds `hard_warmup`, and in the branch that computes
`it - soft_warmup` it exceeds `soft_warmup`, so that the unsigned subtraction is the
exact difference.  The cell of the successor gains `succ_opp_prob * w`, scaled and
rounded on integer storage. -/
theorem SumprobUpdate_positive_weight (v : VCFR) (st ms s : Nat) (x : ℚ)
    (hit : v.it < 4294967296) (hvc : v.value_calculation = false)
    (hgate : ¬ (0 < v.hard_warmup ∧ v.it ≤ v.hard_warmup)) :
    ∃ w : Nat, 1 ≤ w ∧
      ((((v.hard_warmup = 0 ∧ v.soft_warmup = 0) ∨
            (0 < v.soft_warmup ∧ v.it ≤ v.soft_warmup)) ∧ w = 1) ∨
        (¬ ((v.hard_warmup = 0 ∧ v.soft_warmup = 0) ∨
            (0 < v.soft_warmup ∧ v.it ≤ v.soft_warmup)) ∧ 0 < v.hard_warmup ∧
          v.hard_warmup < v.it ∧ usub v.it v.hard_warmup = w ∧
          w = v.it - v.hard_warmup) ∨
        (¬ ((v.hard_warmup = 0 ∧ v.soft_warmup = 0) ∨
            (0 < v.soft_warmup ∧ v.it ≤ v.soft_warmup)) ∧ v.hard_warmup = 0 ∧
          v.soft_warmup < v.it ∧ usub v.it v.soft_warmup = w ∧
          w = v.it - v.soft_warmup)) ∧
      (∀ m : DblMem,
        VCFR.SumprobUpdate_double v (some ms) s x m
          = Function.update m (ms + s) (m (ms + s) + x * (w : ℚ))) ∧
      (∀ md : IntMem × Bool,
        (VCFR.SumprobUpdate_int v st (some ms) s x md).1
          = Function.update md.1 (ms + s)
              (toInt (md.1 (ms + s) + lrint (x * (w : ℚ) * v.sumprob_scaling st)))) := by
  have hnone : ¬ (v.value_calculation = true ∨ (some ms : Option Nat) = none ∨
      (v.hard_warmup > 0 ∧ v.it ≤ v.hard_warmup)) := by
    rintro (h | h | h)
    · rw [hvc] at h; exact Bool.noConfusion h
    · exact Option.noConfusion h
    · exact hgate h
  unfold VCFR.SumprobUpdate_double VCFR.SumprobUpdate_int
  simp only [if_neg hnone, Option.getD_some]
  by_cases h1 : (v.hard_warmup = 0 ∧ v.soft_warmup = 0) ∨
      (0 < v.soft_warmup ∧ v.it ≤ v.soft_warmup)
  · refine ⟨1, le_refl 1, Or.inl ⟨h1, rfl⟩, fun m => ?_, fun md => ?_⟩
    · rw [if_pos h1, Nat.cast_one, mul_one]
    · rw [if_pos h1, Nat.cast_one, mul_one]
      split <;> rfl
  · by_cases h2 : 0 < v.hard_warmup
    · have hlt : v.hard_warmup < v.it := by omega
      have hu : usub v.it v.hard_warmup = v.it - v.hard_warmup :=
        usub_eq_sub hit (le_of_lt hlt)
      refine ⟨v.it - v.hard_warmup, by omega, Or.inr (Or.inl ⟨h1, h2, hlt, hu, rfl⟩),
        fun m => ?_, fun md => ?_⟩
      · rw [if_neg h1, if_pos h2, hu]
      · rw [if_neg h1, if_pos h2, hu]
        split <;> rfl
    · have hlt : v.soft_warmup < v.it := by omega
      have hu : usub v.it v.soft_warmup = v.it - v.soft_warmup :=
        usub_eq_sub hit (le_of_lt hlt)
      refine ⟨v.it - v.soft_warmup, by omega, Or.inr (Or.inr ⟨h1, by omega, hlt, hu, rfl⟩),
        fun m => ?_, fun md => ?_⟩
      · rw [if_neg h1, if_neg h2, hu]
      · rw [if_neg h1, if_neg h2, hu]
        split <;> rfl

/-- C29, witness: iteration 7 after a hard warmup of 5 iterations: the weight is 2. -/
theorem SumprobUpdate_positive_weight_witness :
    ∃ w : Nat, 1 ≤ w ∧ usub 7 5 = w ∧
      VCFR.SumprobUpdate_double { hard_warmup := 5, it := 7 } (some 10) 1 (3 / 10)
          (fun _ => 0)
        = Function.update (fun _ => 0) (10 + 1) (0 + 3 / 10 * (w : ℚ)) :=
  let ⟨w, hw, hc, hd, _⟩ := SumprobUpdate_positive_weight { hard_warmup := 5, it := 7 } 0 10 1
    (3 / 10) (by decide) rfl (by decide)
  ⟨w, hw, hc.elim (fun h => absurd h.1 (by decide))
    (fun h => h.elim (fun h => h.2.2.2.1) (fun h => absurd h.2.1 (by decide))),
    hd (fun _ => 0)⟩

/-! ## The values of a traverser's node -/

/-- The loop that stores `f i` into the cell of every hand `i` of the zero vector. -/
theorem fill_cells (f : Nat → ℚ) (n : Nat) :
    ∀ k, k ≤ n →
      (loop k (fun i vals => setAt vals i (f i)) (List.replicate n 0)).length = n ∧
      ∀ i, (loop k (fun i vals => setAt vals i (f i)) (List.replicate n 0)).getD i 0
        = if i < k then f i else 0 := by
  intro k
  induction k with
  | zero =>
    intro _
    exact ⟨List.length_replicate _ _, fun i => by
      rw [if_neg (Nat.not_lt_zero i)]; exact getD_replicate_zero n i⟩
  | succ k ih =>
    intro hk
    obtain ⟨hl, hc⟩ := ih (by omega)
    rw [loop_succ]
    refine ⟨by rw [setAt_length, hl], fun i => ?_⟩
    by_cases hik : i = k
    · subst hik
      rw [getD_setAt_same _ _ _ _ (by rw [hl]; omega), if_pos (Nat.lt_succ_self i)]
    · rw [getD_setAt_ne _ _ _ _ _ (fun h => hik h.symm), hc i]
      by_cases hlt : i < k
      · rw [if_pos hlt, if_pos (by omega)]
      · rw [if_neg hlt, if_neg (by omega)]

/-- The running maximum over the successors `0 .. n` of the values `g`: it bounds every
one of them and is one of them. -/
theorem running_max (g : Nat → ℚ) :
    ∀ n : Nat,
      (∀ s, s ≤ n →
        g s ≤ (loop n (fun k (mb : ℚ × Nat) =>
          if g (k + 1) > mb.1 then (g (k + 1), k + 1) else mb) (g 0, 0)).1) ∧
      ∃ s, s ≤ n ∧
        (loop n (fun k (mb : ℚ × Nat) =>
          if g (k + 1) > mb.1 then (g (k + 1), k + 1) else mb) (g 0, 0)).1 = g s := by
  intro n
  induction n with
  | zero => exact ⟨fun s hs => by rw [Nat.le_zero.mp hs]; exact le_refl _, 0, le_refl 0, rfl⟩
  | succ n ih =>
    obtain ⟨hmax, t, ht, heq⟩ := ih
    rw [loop_succ]
    by_cases hgt : g (n + 1) > (loop n (fun k (mb : ℚ × Nat) =>
        if g (k + 1) > mb.1 then (g (k + 1), k + 1) else mb) (g 0, 0)).1
    · rw [if_pos hgt]
      refine ⟨fun s hs => ?_, n + 1, le_refl _, rfl⟩
      rcases Nat.lt_succ_iff_lt_or_eq.mp (Nat.lt_succ_of_le hs) with h | h
      · exact le_trans (hmax s (by omega)) (le_of_lt hgt)
      · rw [h]
    · rw [if_neg hgt]
      refine ⟨fun s hs => ?_, t, by omega, heq⟩
      rcases Nat.lt_succ_iff_lt_or_eq.mp (Nat.lt_succ_of_le hs) with h | h
      · exact hmax s (by omega)
      · rw [h]; exact not_lt.mp hgt

/-- C25: at a traverser's node with at least two successors on a street with best
response enabled, the combining part of `OurChoice` returns, with the state the
recursive calls left (no regret table is written), a vector of one value per hand:
`succ_vals[call_succ_index][i]` when `always_call_preflop` is set and `st = 0`, and
otherwise the greatest of the `succ_vals[s][i]`, which bounds every one of them and is
one of them. -/
theorem OurChoiceVals_best_response (E : Env) (v : VCFR) (σ : State) (node : Node)
    (lbd : Nat) (succ_vals : List (List ℚ)) (hns : 2 ≤ node.NumSuccs)
    (hbr : v.best_response_streets node.Street = true) :
    ∃ vals, VCFR.OurChoiceVals E v σ node lbd succ_vals = .ok (vals, σ) ∧
      vals.length = E.G.NumHoleCardPairs node.Street ∧
      ∀ i, i < E.G.NumHoleCardPairs node.Street →
        (v.always_call_preflop = true ∧ node.Street = 0 →
          vals.getD i 0 = (succ_vals.getD node.CallSuccIndex []).getD i 0) ∧
        (¬ (v.always_call_preflop = true ∧ node.Street = 0) →
          (∀ s, s < node.NumSuccs → (succ_vals.getD s []).getD i 0 ≤ vals.getD i 0) ∧
          ∃ s, s < node.NumSuccs ∧ vals.getD i 0 = (succ_vals.getD s []).getD i 0) := by
  unfold VCFR.OurChoiceVals
  dsimp only
  rw [if_neg (by omega), if_pos hbr]
  by_cases hcall : v.always_call_preflop = true ∧ node.Street = 0
  · rw [if_pos hcall]
    obtain ⟨hl, hc⟩ := fill_cells (fun i => (succ_vals.getD node.CallSuccIndex []).getD i 0)
      (E.G.NumHoleCardPairs node.Street) (E.G.NumHoleCardPairs node.Street) (le_refl _)
    refine ⟨_, rfl, hl, fun i hi => ⟨fun _ => ?_, fun h => absurd hcall h⟩⟩
    rw [hc i, if_pos hi]
  · rw [if_neg hcall]
    obtain ⟨hl, hc⟩ := fill_cells (fun i => (loop (node.NumSuccs - 1)
        (fun k (mb : ℚ × Nat) =>
          if (succ_vals.getD (k + 1) []).getD i 0 > mb.1 then
            ((succ_vals.getD (k + 1) []).getD i 0, k + 1)
          else mb) ((succ_vals.getD 0 []).getD i 0, 0)).1)
      (E.G.NumHoleCardPairs node.Street) (E.G.NumHoleCardPairs node.Street) (le_refl _)
    refine ⟨_, rfl, hl, fun i hi => ⟨fun h => absurd h hcall, fun _ => ?_⟩⟩
    rw [hc i, if_pos hi]
    obtain ⟨hmax, t, ht, heq⟩ := running_max (fun s => (succ_vals.getD s []).getD i 0)
      (node.NumSuccs - 1)
    exact ⟨fun s hs => hmax s (by omega), t, by omega, heq⟩

/-- C25, witness: three hands, the successor values `[2, 0, 0]` and `[-1, 0, 5]`: the
best response is worth `[2, 0, 5]`. -/
theorem OurChoiceVals_best_response_witness :
    ∃ vals, VCFR.OurChoiceVals exampleEnv { best_response_streets := fun _ => true } {}
        (exampleRoot 0) 0 [[2, 0, 0], [-1, 0, 5]] = .ok (vals, {}) ∧
      vals.length = 3 ∧ (2 : ℚ) ≤ vals.getD 0 0 ∧ (5 : ℚ) ≤ vals.getD 2 0 :=
  let ⟨vals, hok, hl, h⟩ := OurChoiceVals_best_response exampleEnv
    { best_response_streets := fun _ => true } {} (exampleRoot 0) 0 [[2, 0, 0], [-1, 0, 5]]
    (by decide) rfl
  ⟨vals, hok, hl, ((h 0 (by decide)).2 (by decide)).1 0 (by decide),
    ((h 2 (by decide)).2 (by decide)).1 1 (by decide)⟩

/-- The accumulation `acc += g s` over the successors is the sum of the terms. -/
theorem loop_sum_eq (g : Nat → ℚ) :
    ∀ n : Nat, loop n (fun s acc => acc + g s) 0 = ((List.range n).map g).sum := by
  intro n
  induction n with
  | zero => rfl
  | succ n ih =>
    rw [loop_succ, ih, List.range_succ, List.map_append, List.sum_append]
    simp

/-- The mixed values of all hands, as sums. -/
theorem mixed_values (g : Nat → Nat → ℚ) (ns n : Nat) :
    (loop n (fun i vals => loop ns (fun s vals => setAt vals i (vals.getD i 0 + g i s)) vals)
        (List.replicate n 0)).length = n ∧
      ∀ i, i < n →
        (loop n (fun i vals =>
            loop ns (fun s vals => setAt vals i (vals.getD i 0 + g i s)) vals)
          (List.replicate n 0)).getD i 0 = ((List.range ns).map (g i)).sum := by
  obtain ⟨hl, hc⟩ := accumulate_hands g ns n n (le_refl n)
  refine ⟨hl, fun i hi => ?_⟩
  rw [hc i, if_pos hi, loop_sum_eq]

/-- C26: at a traverser's node on a street without best response, the combining part of
`OurChoice` returns the sole successor's vector, with the state as it is, when the node
has exactly one successor; with two successors or more it returns, for every hand `i`,
the sum over the successors `s` of `succ_vals[s][i] * current_probs_i[s]`, where
`current_probs_i` is, on a bucketed node (the current-strategy cache holding doubles),
the row of the cache at the bucket `street_buckets[st][i]`, and on an unabstracted node
the `RegretsToProbs` image of hand `i`'s row at board `lbd` in the table of the regrets,
or of the sumprobs when the average strategy is asked for. -/
theorem OurChoiceVals_mixed (E : Env) (v : VCFR) (σ : State) (node : Node) (lbd : Nat)
    (succ_vals : List (List ℚ)) (hbr : v.best_response_streets node.Street = false) :
    (node.NumSuccs = 1 →
      VCFR.OurChoiceVals E v σ node lbd succ_vals = .ok (succ_vals.getD 0 [], σ)) ∧
    (2 ≤ node.NumSuccs →
      ((! E.buckets.None node.Street) &&
        decide (node.PotSize < E.BucketThreshold node.Street)) = true →
      v.current_strategy.Ints v.p node.Street = false →
      ∃ vals σ', VCFR.OurChoiceVals E v σ node lbd succ_vals = .ok (vals, σ') ∧
        vals.length = E.G.NumHoleCardPairs node.Street ∧
        ∀ i, i < E.G.NumHoleCardPairs node.Street →
          vals.getD i 0 = ((List.range node.NumSuccs).map (fun s =>
            (succ_vals.getD s []).getD i 0 *
              σ.dmem (v.current_strategy.addr v.p node.Street node.NonterminalID +
                σ.street_buckets node.Street i * node.NumSuccs + s))).sum) ∧
    (2 ≤ node.NumSuccs →
      ((! E.buckets.None node.Street) &&
        decide (node.PotSize < E.BucketThreshold node.Street)) = false →
      ∃ vals σ', VCFR.OurChoiceVals E v σ node lbd succ_vals = .ok (vals, σ') ∧
        vals.length = E.G.NumHoleCardPairs node.Street ∧
        ∀ i, i < E.G.NumHoleCardPairs node.Street →
          vals.getD i 0 = ((List.range node.NumSuccs).map (fun s =>
            (succ_vals.getD s []).getD i 0 *
              (VCFR.RegretsToProbs
                (fun s =>
                  if (if v.value_calculation = true ∨ (v.use_avg_for_current_it > 0 ∧
                        v.it ≥ v.use_avg_for_current_it) then v.sumprobs
                      else v.regrets).Ints v.p node.Street = true then
                    ((σ.imem ((if v.value_calculation = true ∨
                        (v.use_avg_for_current_it > 0 ∧ v.it ≥ v.use_avg_for_current_it)
                        then v.sumprobs else v.regrets).addr v.p node.Street
                          node.NonterminalID +
                        lbd * E.G.NumHoleCardPairs node.Street * node.NumSuccs +
                        i * node.NumSuccs + s) : Int) : ℚ)
                  else
                    σ.dmem ((if v.value_calculation = true ∨
                        (v.use_avg_for_current_it > 0 ∧ v.it ≥ v.use_avg_for_current_it)
                        then v.sumprobs else v.regrets).addr v.p node.Street
                          node.NonterminalID +
                        lbd * E.G.NumHoleCardPairs node.Street * node.NumSuccs +
                        i * node.NumSuccs + s))
                node.NumSuccs
                (if v.value_calculation = true ∨ (v.use_avg_for_current_it > 0 ∧
                    v.it ≥ v.use_avg_for_current_it) then true
                  else (v.nn_regrets && decide (v.regret_floors node.Street ≥ 0)))
                v.uniform node.DefaultSuccIndex
                (if v.value_calculation = true ∨ (v.use_avg_for_current_it > 0 ∧
                    v.it ≥ v.use_avg_for_current_it) then 0 else v.explore)
                (VCFR.NonterminalSuccs node).1 (VCFR.NonterminalSuccs node).2).getD s 0)).sum)
    := by
  refine ⟨fun h1 => ?_, fun hns hb hcs => ?_, fun hns hb => ?_⟩
  · unfold VCFR.OurChoiceVals
    dsimp only
    rw [if_pos h1]
  · unfold VCFR.OurChoiceVals
    dsimp only
    rw [if_neg (by omega), if_neg (by rw [hbr]; exact Bool.false_ne_true), if_pos hb,
      Values_double_ok _ _ _ _ (by rw [hcs]; exact Bool.false_ne_true)]
    dsimp only
    obtain ⟨hl, hc⟩ := mixed_values (fun i s => (succ_vals.getD s []).getD i 0 *
        σ.dmem (v.current_strategy.addr v.p node.Street node.NonterminalID +
          σ.street_buckets node.Street i * node.NumSuccs + s))
      node.NumSuccs (E.G.NumHoleCardPairs node.Street)
    split
    · split
      · rename_i hi
        rw [Values_int_ok _ _ _ _ hi]
        exact ⟨_, _, rfl, hl, hc⟩
      · rename_i hi
        rw [Values_double_ok _ _ _ _ hi]
        exact ⟨_, _, rfl, hl, hc⟩
    · exact ⟨_, _, rfl, hl, hc⟩
  · unfold VCFR.OurChoiceVals
    dsimp only
    rw [if_neg (by omega), if_neg (by rw [hbr]; exact Bool.false_ne_true),
      if_neg (by rw [hb]; exact Bool.false_ne_true)]
    generalize (if v.value_calculation = true ∨
        v.use_avg_for_current_it > 0 ∧ v.it ≥ v.use_avg_for_current_it then v.sumprobs
      else v.regrets) = src
    generalize (if v.value_calculation = true ∨
        v.use_avg_for_current_it > 0 ∧ v.it ≥ v.use_avg_for_current_it then true
      else v.nn_regrets && decide (v.regret_floors node.Street ≥ 0)) = nonneg
    generalize (if v.value_calculation = true ∨
        v.use_avg_for_current_it > 0 ∧ v.it ≥ v.use_avg_for_current_it then (0 : ℚ)
      else v.explore) = explore
    by_cases hi : src.Ints v.p node.Street = true
    · rw [if_pos hi, Values_int_ok _ _ _ _ hi]
      dsimp only
      simp only [hi, if_true]
      obtain ⟨hl, hc⟩ := mixed_values (fun i s => (succ_vals.getD s []).getD i 0 *
          (VCFR.RegretsToProbs (fun s => ((σ.imem (src.addr v.p node.Street
              node.NonterminalID + lbd * E.G.NumHoleCardPairs node.Street * node.NumSuccs +
              i * node.NumSuccs + s) : Int) : ℚ)) node.NumSuccs nonneg v.uniform
            node.DefaultSuccIndex explore (VCFR.NonterminalSuccs node).1
            (VCFR.NonterminalSuccs node).2).getD s 0)
        node.NumSuccs (E.G.NumHoleCardPairs node.Street)
      split <;> exact ⟨_, _, rfl, hl, hc⟩
    · rw [if_neg hi, Values_double_ok _ _ _ _ hi]
      dsimp only
      simp only [hi, if_false, Bool.false_eq_true]
      obtain ⟨hl, hc⟩ := mixed_values (fun i s => (succ_vals.getD s []).getD i 0 *
          (VCFR.RegretsToProbs (fun s => σ.dmem (src.addr v.p node.Street
              node.NonterminalID + lbd * E.G.NumHoleCardPairs node.Street * node.NumSuccs +
              i * node.NumSuccs + s)) node.NumSuccs nonneg v.uniform
            node.DefaultSuccIndex explore (VCFR.NonterminalSuccs node).1
            (VCFR.NonterminalSuccs node).2).getD s 0)
        node.NumSuccs (E.G.NumHoleCardPairs node.Street)
      split <;> exact ⟨_, _, rfl, hl, hc⟩

/-- C26, witness: the one-street example, unabstracted, with all-zero regrets: the default
successor 0 has probability 1 and hand 0 is worth `2 * 1 + (-1) * 0`. -/
theorem OurChoiceVals_mixed_witness :
    ∃ vals σ', VCFR.OurChoiceVals exampleEnv {} {} (exampleRoot 0) 0
        [[2, 0, 0], [-1, 0, 0]] = .ok (vals, σ') ∧ vals.length = 3 ∧ vals.getD 0 0 = 2 :=
  let ⟨vals, σ', hok, hl, h⟩ := (OurChoiceVals_mixed exampleEnv {} {} (exampleRoot 0) 0
    [[2, 0, 0], [-1, 0, 0]] rfl).2.2 (by decide) rfl
  ⟨vals, σ', hok, hl, (h 0 (by decide)).trans (by decide!)⟩

/-! ## The counter of the active subgames -/

/-- The first element of a range that a test accepts: it is in the range, it passes the
test and nothing before it does. -/
theorem find_range (p : Nat → Bool) :
    ∀ (n s t : Nat), (List.range' s n).find? p = some t →
      s ≤ t ∧ t < s + n ∧ p t = true ∧ ∀ u, s ≤ u → u < t → p u = false := by
  intro n
  induction n with
  | zero => intro s t h; simp at h
  | succ n ih =>
    intro s t h
    rw [List.range'_succ, List.find?_cons] at h
    cases hp : p s with
    | true =>
      rw [hp] at h
      cases h
      exact ⟨le_refl _, by omega, hp, fun u h1 h2 => by omega⟩
    | false =>
      rw [hp] at h
      obtain ⟨h1, h2, h3, h4⟩ := ih (s + 1) t h
      refine ⟨by omega, by omega, h3, fun u hu1 hu2 => ?_⟩
      by_cases hus : u = s
      · rw [hus]; exact hp
      · exact h4 u (by omega) hu2

/-- No more slots are occupied than there are slots. -/
theorem count_active_le (f : Nat → Option VCFRSubgame) :
    ∀ n : Nat, loop n (fun u (c : Nat) => if (f u).isSome then c + 1 else c) 0 ≤ n := by
  intro n
  induction n with
  | zero => exact le_refl 0
  | succ n ih =>
    rw [loop_succ]
    split_ifs <;> omega

/-- Filling a slot: the count of the occupied slots grows by one when the slot was empty
and stays when it was occupied. -/
theorem count_active_fill (f : Nat → Option VCFRSubgame) (t n : Nat) (x : VCFRSubgame)
    (ht : t < n) :
    loop n (fun u (c : Nat) => if ((Function.update f t (some x)) u).isSome then c + 1
        else c) 0
      = loop n (fun u (c : Nat) => if (f u).isSome then c + 1 else c) 0 +
          (if (f t).isSome then 0 else 1) := by
  have h1 := (count_active_update (Function.update f t (some x)) t
    (by rw [Function.update_same]; rfl) n).2 ht
  rw [Function.update_idem] at h1
  by_cases hs : (f t).isSome = true
  · rw [if_pos hs]
    have h2 := (count_active_update f t hs n).2 ht
    omega
  · rw [if_neg hs]
    have hnone : f t = none := by
      cases hf : f t with
      | none => rfl
      | some y => rw [hf] at hs; exact absurd rfl hs
    have : Function.update f t none = f := by
      rw [← hnone]; exact Function.update_eq_self t f
    rw [this] at h1
    omega

/-- What `SpawnSubgame` does to the pool when it returns: it takes the first slot `t` that
is not running, caches the result of the subgame that the slot still holds, installs the
new subgame there, and keeps the counter in step with the occupied slots. -/
theorem SpawnSubgame_pool (v : VCFR) (σ σ' : State) (node : Node) (bd : Nat)
    (op : List ℚ) (hnt : v.num_threads < 4294967296) (hinv : PoolInvariant v σ)
    (h : VCFR.SpawnSubgame v σ node bd op = .ok σ') :
    PoolInvariant v σ' ∧
      ∃ t, t < v.num_threads ∧ σ.subgame_running t = false ∧
        (∀ u, u < t → σ.subgame_running u = true) ∧
        σ'.active_subgames t = some
          { root := node, root_bd := bd, p := v.p, target_p := v.target_p, it := v.it,
            opp_probs := op, thread_index := t,
            last_checkpoint_it := v.last_checkpoint_it } ∧
        σ'.subgame_running t = true ∧
        (∀ u, u ≠ t → σ'.active_subgames u = σ.active_subgames u) ∧
        (∀ old, σ.active_subgames t = some old →
          σ'.final_vals old.root.PlayerActing old.root.NonterminalID old.root_bd
            = old.final_vals) := by
  unfold PoolInvariant at hinv ⊢
  unfold VCFR.SpawnSubgame at h
  dsimp only at h
  by_cases ha : σ.available = 0
  · rw [if_pos ha] at h; cases h
  rw [if_neg ha] at h
  cases hfind : (List.range v.num_threads).find? (fun t => ! σ.subgame_running t) with
  | none =>
    rw [hfind] at h
    simp only [Option.getD_none, if_true] at h
    cases h
  | some t =>
    rw [hfind] at h
    simp only [Option.getD_some] at h
    rw [List.range_eq_range'] at hfind
    obtain ⟨_, htn, hpt, hmin⟩ := find_range _ _ _ _ hfind
    have htn' : t < v.num_threads := by omega
    have hrun : σ.subgame_running t = false := by
      cases hr : σ.subgame_running t with
      | false => rfl
      | true => rw [hr] at hpt; exact absurd hpt (by decide)
    have hbefore : ∀ u, u < t → σ.subgame_running u = true := by
      intro u hu
      have := hmin u (Nat.zero_le u) hu
      cases hr : σ.subgame_running u with
      | true => rfl
      | false => rw [hr] at this; exact absurd this (by decide)
    rw [if_neg (by omega)] at h
    have hle := count_active_le σ.active_subgames v.num_threads
    cases hact : σ.active_subgames t with
    | none =>
      rw [hact] at h
      simp only [Option.isSome_none, Bool.false_eq_true, false_and, if_false] at h
      have hfill := count_active_fill σ.active_subgames t v.num_threads
        { root := node, root_bd := bd, p := v.p, target_p := v.target_p, it := v.it,
          opp_probs := op, thread_index := t,
          last_checkpoint_it := v.last_checkpoint_it } htn'
      have hle' := count_active_le (Function.update σ.active_subgames t (some
        { root := node, root_bd := bd, p := v.p, target_p := v.target_p, it := v.it,
          opp_probs := op, thread_index := t,
          last_checkpoint_it := v.last_checkpoint_it })) v.num_threads
      rw [hact] at hfill
      simp only [Option.isSome_none, Bool.false_eq_true, if_false] at hfill
      split at h
      · cases h
      · cases h
        dsimp only
        refine ⟨?_, t, htn', hrun, hbefore, Function.update_same _ _ _,
          Function.update_same _ _ _, fun u hu => Function.update_noteq hu _ _,
          fun old hold => by rw [hact] at hold; cases hold⟩
        rw [hfill]
        omega
    | some old =>
      rw [hact] at h
      have hfill := count_active_fill σ.active_subgames t v.num_threads
        { root := node, root_bd := bd, p := v.p, target_p := v.target_p, it := v.it,
          opp_probs := op, thread_index := t,
          last_checkpoint_it := v.last_checkpoint_it } htn'
      have hpos := (count_active_update σ.active_subgames t (by rw [hact]; rfl)
        v.num_threads).2 htn'
      rw [hact] at hfill
      simp only [Option.isSome_some, if_true, add_zero] at hfill
      simp only [VCFR.JoinSubgame, Option.isSome_some, true_and] at h
      split at h
      · cases h
      · split at h
        · cases h
        · cases h
          dsimp only
          refine ⟨?_, t, htn', hrun, hbefore, Function.update_same _ _ _,
            Function.update_same _ _ _, fun u hu => ?_, fun old' hold => ?_⟩
          · rw [Function.update_idem, hfill]
            unfold usub
            omega
          · rw [Function.update_noteq hu, Function.update_noteq hu]
          · rw [hact] at hold
            cases hold
            simp

/-- The pool that the constructor leaves: no slot below `num_threads` holds a subgame,
and the counter `g_num_active` is as it was. -/
theorem VCFR_New_pool (E : Env) (cc : CFRConfig) (num_threads : Nat) (uninit : VCFR)
    (σ0 : State) (v1 : VCFR) (σ1 : State)
    (h : VCFR.New E cc num_threads uninit σ0 = .ok (v1, σ1)) :
    v1.num_threads = num_threads ∧ σ1.g_num_active = σ0.g_num_active ∧
      (∀ t, t < num_threads → σ1.active_subgames t = none) ∧
      (∀ t, t < num_threads → σ1.subgame_running t = false) := by
  unfold VCFR.New at h
  dsimp only at h
  split at h
  · cases h
  split at h
  · cases h
  split at h
  · cases h
  split at h
  · cases h
  cases h
  exact ⟨rfl, rfl, fun t ht => loop_fill (fun _ => none) _ _ t ht,
    fun t ht => loop_fill (fun _ => false) _ _ t ht⟩

/-- Empty slots are not counted. -/
theorem count_active_none (f : Nat → Option VCFRSubgame) :
    ∀ n : Nat, (∀ t, t < n → f t = none) →
      loop n (fun u (c : Nat) => if (f u).isSome then c + 1 else c) 0 = 0 := by
  intro n
  induction n with
  | zero => intro _; rfl
  | succ n ih =>
    intro h
    rw [loop_succ, h n (Nat.lt_succ_self n), ih (fun t ht => h t (Nat.lt_succ_of_lt ht))]
    rfl

/-- A call of `WaitForFinalSubgames` that returns leaves no occupied slot and the counter
at 0. -/
theorem WaitForFinalSubgames_returns (v : VCFR) (σ σ' : State)
    (h : VCFR.WaitForFinalSubgames v σ = .ok σ') :
    loop v.num_threads (fun t (n : Nat) =>
        if (σ'.active_subgames t).isSome then n + 1 else n) 0 = 0 ∧
      σ'.g_num_active = 0 := by
  unfold VCFR.WaitForFinalSubgames at h
  dsimp only at h
  split at h
  · cases h
  cases hjoin : VCFR.JoinFinished v σ.available σ (loop v.num_threads (fun t (n : Nat) =>
      if (σ.active_subgames t).isSome then n + 1 else n) 0) with
  | error e => rw [hjoin] at h; cases h
  | ok σ1 =>
    rw [hjoin] at h
    dsimp only at h
    split at h
    · cases h
    rename_i hact
    cases h
    exact ⟨JoinFinished_empties v _ σ _ σ' rfl hjoin, by omega⟩

/-- C30: on the sequential state of the pool of an engine of fewer than `2^32` threads,
the counter `g_num_active` is the number of the slots that hold a subgame after the
construction (the counter starting at 0, its static initial value), after every
`SpawnSubgame` that returns from a state where it is, after every `Post` from such a
state, and after every `WaitForFinalSubgames` that returns.  A `SpawnSubgame` that returns
installs the new subgame in the slot `t` of lowest index with `subgame_running[t]` false,
marks the slot as running, leaves the other slots alone, and has first cached, under the
key of its root, the result of the subgame that the slot still held. -/
theorem pool_counter_invariant (v : VCFR) (hnt : v.num_threads < 4294967296) :
    (∀ (E : Env) (cc : CFRConfig) (uninit : VCFR) (σ0 : State) (v1 : VCFR) (σ1 : State),
      σ0.g_num_active = 0 →
      VCFR.New E cc v.num_threads uninit σ0 = .ok (v1, σ1) → PoolInvariant v1 σ1) ∧
    (∀ (σ σ' : State) (node : Node) (bd : Nat) (op : List ℚ),
      PoolInvariant v σ → VCFR.SpawnSubgame v σ node bd op = .ok σ' →
      PoolInvariant v σ' ∧
        ∃ t, t < v.num_threads ∧ σ.subgame_running t = false ∧
          (∀ u, u < t → σ.subgame_running u = true) ∧
          σ'.active_subgames t = some
            { root := node, root_bd := bd, p := v.p, target_p := v.target_p, it := v.it,
              opp_probs := op, thread_index := t,
              last_checkpoint_it := v.last_checkpoint_it } ∧
          σ'.subgame_running t = true ∧
          (∀ u, u ≠ t → σ'.active_subgames u = σ.active_subgames u) ∧
          (∀ old, σ.active_subgames t = some old →
            σ'.final_vals old.root.PlayerActing old.root.NonterminalID old.root_bd
              = old.final_vals)) ∧
    (∀ (σ : State) (t : Nat), PoolInvariant v σ → PoolInvariant v (VCFR.Post σ t)) ∧
    (∀ σ σ' : State, VCFR.WaitForFinalSubgames v σ = .ok σ' → PoolInvariant v σ') := by
  refine ⟨fun E cc uninit σ0 v1 σ1 h0 h => ?_,
    fun σ σ' node bd op hinv h => SpawnSubgame_pool v σ σ' node bd op hnt hinv h,
    fun σ t hinv => hinv, fun σ σ' h => ?_⟩
  · obtain ⟨h1, h2, h3, _⟩ := VCFR_New_pool E cc v.num_threads uninit σ0 v1 σ1 h
    unfold PoolInvariant
    rw [h1, h2, h0]
    exact count_active_none _ _ h3
  · obtain ⟨h1, h2⟩ := WaitForFinalSubgames_returns v σ σ' h
    unfold PoolInvariant
    rw [h1, h2]

/-- C30, witness: the pool of one thread whose slot holds a finished subgame: a
`SpawnSubgame` caches its result `[1, 2]`, installs the new subgame in slot 0 and leaves
the counter at 1. -/
theorem pool_counter_invariant_witness :
    ∃ σ' : State, VCFR.SpawnSubgame {} examplePool exampleStreet1 3 [] = .ok σ' ∧
      PoolInvariant {} σ' ∧ σ'.g_num_active = 1 ∧ σ'.final_vals 0 0 0 = some [1, 2] ∧
      σ'.subgame_running 0 = true :=
  ⟨_, rfl, ((pool_counter_invariant {} (by decide)).2.1 examplePool _ exampleStreet1 3 []
    rfl rfl).1, rfl, rfl, rfl⟩

/-! ## `StreetInitial`: the values of the canonical hands -/

/-- The accumulation `vals[idx nh] += g nh` over the hands `nh < n`: a cell of the vector
gains the terms of the hands that point to it. -/
theorem accumulate_lookup (idx : Nat → Nat) (g : Nat → ℚ) (vals0 : List ℚ) :
    ∀ n : Nat,
      (loop n (fun nh vals => setAt vals (idx nh) (vals.getD (idx nh) 0 + g nh))
        vals0).length = vals0.length ∧
      ∀ ph, ph < vals0.length →
        (loop n (fun nh vals => setAt vals (idx nh) (vals.getD (idx nh) 0 + g nh))
          vals0).getD ph 0
        = vals0.getD ph 0 +
            ((List.range n).map (fun nh => if idx nh = ph then g nh else 0)).sum := by
  intro n
  induction n with
  | zero => exact ⟨rfl, fun ph _ => by simp [loop]⟩
  | succ n ih =>
    obtain ⟨hl, hc⟩ := ih
    rw [loop_succ]
    refine ⟨by rw [setAt_length, hl], fun ph hph => ?_⟩
    rw [List.range_succ, List.map_append, List.sum_append, List.map_singleton,
      List.sum_singleton, ← add_assoc, ← hc ph hph]
    by_cases he : idx n = ph
    · rw [if_pos he, he, getD_setAt_same _ _ _ _ (by rw [hl]; exact hph)]
    · rw [if_neg he, getD_setAt_ne _ _ _ _ _ he, add_zero]

/-- The scaling pass: the cell of a canonical hand is divided, the others are kept. -/
theorem scale_canonical (nv : Nat → Nat) (d : Nat → ℚ) (vals1 : List ℚ) :
    ∀ k : Nat, k ≤ vals1.length →
      (loop k (fun ph vals =>
        if nv ph > 0 then setAt vals ph (vals.getD ph 0 / d ph) else vals) vals1).length
          = vals1.length ∧
      ∀ ph,
        (loop k (fun ph vals =>
          if nv ph > 0 then setAt vals ph (vals.getD ph 0 / d ph) else vals) vals1).getD ph 0
        = if ph < k ∧ nv ph > 0 then vals1.getD ph 0 / d ph else vals1.getD ph 0 := by
  intro k
  induction k with
  | zero => intro _; exact ⟨rfl, fun ph => by simp [loop]⟩
  | succ k ih =>
    intro hk
    obtain ⟨hl, hc⟩ := ih (by omega)
    rw [loop_succ]
    by_cases hv : nv k > 0
    · rw [if_pos hv]
      refine ⟨by rw [setAt_length, hl], fun ph => ?_⟩
      by_cases hpk : ph = k
      · subst hpk
        rw [getD_setAt_same _ _ _ _ (by rw [hl]; omega), hc ph, if_neg (by omega),
          if_pos ⟨Nat.lt_succ_self ph, hv⟩]
      · rw [getD_setAt_ne _ _ _ _ _ (fun h => hpk h.symm), hc ph]
        by_cases hcond : ph < k ∧ nv ph > 0
        · rw [if_pos hcond, if_pos ⟨by omega, hcond.2⟩]
        · rw [if_neg hcond, if_neg (fun h => hcond ⟨by omega, h.2⟩)]
    · rw [if_neg hv]
      refine ⟨hl, fun ph => ?_⟩
      rw [hc ph]
      by_cases hcond : ph < k ∧ nv ph > 0
      · rw [if_pos hcond, if_pos ⟨by omega, hcond.2⟩]
      · rw [if_neg hcond]
        by_cases hpk : ph = k
        · subst hpk; rw [if_neg (fun h => hv h.2)]
        · rw [if_neg (fun h => hcond ⟨by omega, h.2⟩)]

/-- The copy pass keeps the cells of the canonical hands. -/
theorem copy_keeps_canonical (nv : Nat → Nat) (pcs : Nat → Nat) (vals2 : List ℚ)
    (j : Nat) (hj : 0 < nv j) :
    ∀ k : Nat,
      (loop k (fun ph vals =>
        if nv ph = 0 then setAt vals ph (vals.getD (pcs ph) 0) else vals) vals2).getD j 0
        = vals2.getD j 0 := by
  intro k
  induction k with
  | zero => rfl
  | succ k ih =>
    rw [loop_succ]
    split
    · rename_i hk0
      rw [getD_setAt_ne _ _ _ _ _ (fun he => by subst he; omega), ih]
    · exact ih

/-- C24: on the board-enumeration path of `StreetInitial`, when the recursive call for the
`k`-th successor board `ngbd = SuccBoardBegin + k` returns the vector `nv k` (and the state
`st (k + 1)` from the state `st k` with the buckets of the board entered),
`StreetInitial` returns, and for every canonical previous-street hand `ph`
(`NumVariants(ph) > 0`) the returned `vals[ph]` is the sum, over the successor boards and
over the new-street hands `nh` whose hole-card encoding the reverse canonical lookup maps
to `ph`, of `board_variants(ngbd) * nv k [nh]`, divided by
`StreetPermutations(nst) * NumVariants(ph)`. -/
theorem StreetInitial_value_formula (proc : VCFR.ProcFn) (E : Env) (v : VCFR) (σ : State)
    (node : Node) (plbd : Nat) (op : List ℚ) (nv : Nat → List ℚ) (st : Nat → State)
    (pgbd b e : Nat) (nlbd : Nat → Nat)
    (hpath : ¬ (node.Street = v.subgame_street ∧ ¬ v.subgame = true))
    (hpgbd : pgbd = if v.root_bd_st = 0 then plbd
      else E.B.GlobalIndex v.root_bd_st v.root_bd (usub node.Street 1) plbd)
    (hb : b = E.B.SuccBoardBegin (usub node.Street 1) pgbd node.Street)
    (he : e = E.B.SuccBoardEnd (usub node.Street 1) pgbd node.Street)
    (hnl : ∀ k, nlbd k = if v.root_bd_st = 0 then b + k
      else E.B.LocalIndex v.root_bd_st v.root_bd node.Street (b + k))
    (h0 : st 0 = σ)
    (hproc : ∀ k, k < e - b →
      proc (VCFR.EnterBoard E node (b + k) (nlbd k) (st k)) node (nlbd k) op 0 none
        node.Street = .ok (nv k, st (k + 1))) :
    ∃ vals, VCFR.StreetInitial proc E v σ node plbd op = .ok (vals, st (e - b)) ∧
      vals.length = E.G.NumHoleCardPairs (usub node.Street 1) ∧
      ∀ ph, ph < E.G.NumHoleCardPairs (usub node.Street 1) → 0 < (E.Hands (usub node.Street 1) plbd).NumVariants ph →
        vals.getD ph 0
          = ((List.range (e - b)).map (fun k =>
              ((List.range (E.Hands node.Street (nlbd k)).NumRaw).map (fun nh =>
                if VCFR.PrevCanons E (usub node.Street 1) plbd
                    ((E.Hands node.Street (nlbd k)).Cards nh 0 * (E.G.MaxCard + 1) +
                      (E.Hands node.Street (nlbd k)).Cards nh 1) = ph
                then (E.B.NumVariants node.Street (b + k) : ℚ) * (nv k).getD nh 0
                else 0)).sum)).sum /
            ((E.G.StreetPermutations node.Street : ℚ) *
              ((E.Hands (usub node.Street 1) plbd).NumVariants ph : ℚ)) := by
  subst hpgbd
  subst hb
  subst he
  unfold VCFR.StreetInitial
  dsimp only
  rw [if_neg hpath]
  generalize hx : loopM _ _ _ = x
  have hgood : Outcome (fun r : List ℚ × State =>
      r.2 = st (E.B.SuccBoardEnd (usub node.Street 1)
          (if v.root_bd_st = 0 then plbd
            else E.B.GlobalIndex v.root_bd_st v.root_bd (usub node.Street 1) plbd)
          node.Street -
        E.B.SuccBoardBegin (usub node.Street 1)
          (if v.root_bd_st = 0 then plbd
            else E.B.GlobalIndex v.root_bd_st v.root_bd (usub node.Street 1) plbd)
          node.Street) ∧
      r.1.length = E.G.NumHoleCardPairs (usub node.Street 1) ∧
      ∀ ph, ph < E.G.NumHoleCardPairs (usub node.Street 1) →
        r.1.getD ph 0 = ((List.range (E.B.SuccBoardEnd (usub node.Street 1)
          (if v.root_bd_st = 0 then plbd
            else E.B.GlobalIndex v.root_bd_st v.root_bd (usub node.Street 1) plbd)
          node.Street -
        E.B.SuccBoardBegin (usub node.Street 1)
          (if v.root_bd_st = 0 then plbd
            else E.B.GlobalIndex v.root_bd_st v.root_bd (usub node.Street 1) plbd)
          node.Street)).map (fun k =>
              ((List.range (E.Hands node.Street (nlbd k)).NumRaw).map (fun nh =>
                if VCFR.PrevCanons E (usub node.Street 1) plbd
                    ((E.Hands node.Street (nlbd k)).Cards nh 0 * (E.G.MaxCard + 1) +
                      (E.Hands node.Street (nlbd k)).Cards nh 1) = ph
                then (E.B.NumVariants node.Street
                  (E.B.SuccBoardBegin (usub node.Street 1)
                    (if v.root_bd_st = 0 then plbd
                      else E.B.GlobalIndex v.root_bd_st v.root_bd (usub node.Street 1) plbd)
                    node.Street + k) : ℚ) * (nv k).getD nh 0
                else 0)).sum)).sum) (fun _ => False) x := by
    rw [← hx]
    refine loopM_good (fun n (r : List ℚ × State) =>
      r.2 = st n ∧ r.1.length = E.G.NumHoleCardPairs (usub node.Street 1) ∧
      ∀ ph, ph < E.G.NumHoleCardPairs (usub node.Street 1) →
        r.1.getD ph 0 = ((List.range n).map (fun k =>
              ((List.range (E.Hands node.Street (nlbd k)).NumRaw).map (fun nh =>
                if VCFR.PrevCanons E (usub node.Street 1) plbd
                    ((E.Hands node.Street (nlbd k)).Cards nh 0 * (E.G.MaxCard + 1) +
                      (E.Hands node.Street (nlbd k)).Cards nh 1) = ph
                then (E.B.NumVariants node.Street
                  (E.B.SuccBoardBegin (usub node.Street 1)
                    (if v.root_bd_st = 0 then plbd
                      else E.B.GlobalIndex v.root_bd_st v.root_bd (usub node.Street 1) plbd)
                    node.Street + k) : ℚ) * (nv k).getD nh 0
                else 0)).sum)).sum) (fun _ => False) _ _ _
      ⟨h0.symm, List.length_replicate _ _, fun ph _ => by
        simp [getD_replicate_zero]⟩ (fun k r hk hp => ?_)
    obtain ⟨hst, hlen, hcells⟩ := hp
    obtain ⟨r1, r2⟩ := r
    simp only at hst hlen hcells
    subst hst
    dsimp only
    rw [← hnl k]
    have hcall := hproc k hk
    unfold VCFR.EnterBoard at hcall
    dsimp only at hcall
    rw [hcall]
    dsimp only
    obtain ⟨al, ac⟩ := accumulate_lookup
      (fun nh => VCFR.PrevCanons E (usub node.Street 1) plbd
        ((E.Hands node.Street (nlbd k)).Cards nh 0 * (E.G.MaxCard + 1) +
          (E.Hands node.Street (nlbd k)).Cards nh 1))
      (fun nh => (E.B.NumVariants node.Street
        (E.B.SuccBoardBegin (usub node.Street 1)
          (if v.root_bd_st = 0 then plbd
            else E.B.GlobalIndex v.root_bd_st v.root_bd (usub node.Street 1) plbd)
          node.Street + k) : ℚ) * (nv k).getD nh 0) r1
      (E.Hands node.Street (nlbd k)).NumRaw
    refine ⟨rfl, al.trans hlen, fun ph hph => ?_⟩
    rw [List.range_succ, List.map_append, List.sum_append, List.map_singleton,
      List.sum_singleton, ← hcells ph hph]
    exact ac ph (by rw [hlen]; exact hph)
  cases x with
  | error err => exact hgood.elim
  | ok r =>
    obtain ⟨vals1, σ1⟩ := r
    obtain ⟨hst, hlen, hcells⟩ := hgood
    simp only at hst hlen hcells
    subst hst
    dsimp only
    obtain ⟨sl, sc⟩ := scale_canonical (E.Hands (usub node.Street 1) plbd).NumVariants
      (fun ph => (E.G.StreetPermutations node.Street : ℚ) *
        ((E.Hands (usub node.Street 1) plbd).NumVariants ph : ℚ)) vals1
      (E.G.NumHoleCardPairs (usub node.Street 1)) (by rw [hlen])
    refine ⟨_, rfl, ?_, fun ph hph hv => ?_⟩
    · refine loop_invariant
        (fun l : List ℚ => l.length = E.G.NumHoleCardPairs (usub node.Street 1)) _ _ _
        (sl.trans hlen) (fun i l hl => ?_)
      dsimp only
      split
      · rw [setAt_length]; exact hl
      · exact hl
    · rw [copy_keeps_canonical _ _ _ ph hv, sc ph, if_pos ⟨hph, hv⟩, hcells ph hph]


/-- C24, witness: in the two-street example the one successor board returns the value 5
for its single hand, whose encoding the lookup maps to the canonical hand 0 with two
variants: the value of hand 0 is `1 * 5 / (1 * 2)`. -/
theorem StreetInitial_value_formula_witness :
    ∃ vals, VCFR.StreetInitial (VCFR.Process exampleEnv2 exampleEngine2 2) exampleEnv2
        exampleEngine2 {} exampleStreet1 0 [1] = .ok (vals, {}) ∧
      vals.length = 2 ∧ vals.getD 0 0 = 5 / 2 := by
  obtain ⟨vals, h, hl, hc⟩ := StreetInitial_value_formula
    (VCFR.Process exampleEnv2 exampleEngine2 2) exampleEnv2 exampleEngine2 {}
    exampleStreet1 0 [1] (fun _ => [5]) (fun _ => {}) 0 0 1 (fun k => k)
    (by decide) rfl rfl rfl (fun k => (Nat.zero_add k).symm) rfl
    (fun k hk => by
      have hk0 : k = 0 := Nat.lt_one_iff.mp hk
      subst hk0
      rfl)
  refine ⟨vals, h, hl, ?_⟩
  rw [hc 0 (by decide) (by decide)]
  decide!

/-! ## The integer sumprob rows: addition and halving -/

/-- The adding pass of a sumprob row: the heap component is the cell-by-cell update. -/
theorem sum_pass_fst (b : Nat) (g : Nat → Int → Int) (m : IntMem) (f : Bool) :
    ∀ k : Nat,
      (loop k (fun s (mo : IntMem × Bool) =>
        let m1 := Function.update mo.1 (b + s) (g s (mo.1 (b + s)))
        if m1 (b + s) > 2000000000 then (m1, true) else (m1, mo.2)) (m, f)).1
      = loop k (fun s m => Function.update m (b + s) (g s (m (b + s)))) m := by
  intro k
  induction k with
  | zero => rfl
  | succ k ih =>
    rw [loop_succ, loop_succ, ← ih]
    dsimp only
    split <;> rfl

/-- The adding pass of a sumprob row: the flag is raised exactly when some cell exceeded
2000000000 on its addition. -/
theorem sum_pass_snd (b : Nat) (g : Nat → Int → Int) (m : IntMem) (f : Bool) :
    ∀ k : Nat,
      ((loop k (fun s (mo : IntMem × Bool) =>
        let m1 := Function.update mo.1 (b + s) (g s (mo.1 (b + s)))
        if m1 (b + s) > 2000000000 then (m1, true) else (m1, mo.2)) (m, f)).2 = true
      ↔ (f = true ∨ ∃ t, t < k ∧ g t (m (b + t)) > 2000000000)) := by
  intro k
  induction k with
  | zero => simp [loop]
  | succ k ih =>
    rw [loop_succ]
    dsimp only
    rw [Function.update_same, sum_pass_fst b g m f k,
      loop_update_off b g m k (b + k) (fun s hs => by omega)]
    split
    · rename_i hbad
      simp only [true_iff]
      exact Or.inr ⟨k, Nat.lt_succ_self k, hbad⟩
    · rename_i hgood
      rw [ih]
      constructor
      · rintro (h | ⟨t, ht, hb⟩)
        · exact Or.inl h
        · exact Or.inr ⟨t, Nat.lt_succ_of_lt ht, hb⟩
      · rintro (h | ⟨t, ht, hb⟩)
        · exact Or.inl h
        · rcases Nat.lt_succ_iff_lt_or_eq.mp ht with h | h
          · exact Or.inr ⟨t, h, hb⟩
          · subst h; exact absurd hb hgood

/-- The add-then-halve treatment of a sumprob row leaves the cells outside the row
alone. -/
theorem sum_row_off (b ns : Nat) (g : Nat → Int → Int) (m : IntMem) (a : Nat)
    (ha : ∀ s, s < ns → a ≠ b + s) :
    (let r := loop ns (fun s (mo : IntMem × Bool) =>
        let m1 := Function.update mo.1 (b + s) (g s (mo.1 (b + s)))
        if m1 (b + s) > 2000000000 then (m1, true) else (m1, mo.2)) (m, false)
     if r.2 then
       loop ns (fun s m => Function.update m (b + s) (Int.tdiv (m (b + s)) 2)) r.1
     else r.1) a = m a := by
  dsimp only
  split
  · rw [loop_update_off b (fun _ x => Int.tdiv x 2) _ ns a ha, sum_pass_fst,
      loop_update_off b g m ns a ha]
  · rw [sum_pass_fst, loop_update_off b g m ns a ha]

/-- The add-then-halve treatment of a sumprob row: each cell gets its addition, halved
when some cell of the row exceeded 2000000000 on its addition. -/
theorem sum_row_at (b ns : Nat) (g : Nat → Int → Int) (m : IntMem) (s : Nat)
    (hs : s < ns) :
    (let r := loop ns (fun s (mo : IntMem × Bool) =>
        let m1 := Function.update mo.1 (b + s) (g s (mo.1 (b + s)))
        if m1 (b + s) > 2000000000 then (m1, true) else (m1, mo.2)) (m, false)
     if r.2 then
       loop ns (fun s m => Function.update m (b + s) (Int.tdiv (m (b + s)) 2)) r.1
     else r.1) (b + s)
    = if ∃ t, t < ns ∧ g t (m (b + t)) > 2000000000
      then Int.tdiv (g s (m (b + s))) 2 else g s (m (b + s)) := by
  dsimp only
  have hflag := sum_pass_snd b g m false ns
  split
  · rename_i h
    have hex := hflag.mp h
    simp only [Bool.false_eq_true, false_or] at hex
    rw [if_pos hex, loop_update_at b (fun _ x => Int.tdiv x 2) _ ns s hs, sum_pass_fst,
      loop_update_at b g m ns s hs]
  · rename_i h
    have hex : ¬ ∃ t, t < ns ∧ g t (m (b + t)) > 2000000000 :=
      fun hex => h (hflag.mpr (Or.inr hex))
    rw [if_neg hex, sum_pass_fst, loop_update_at b g m ns s hs]

/-- The update of integer sumprobs when it is not gated off: the cell of the successor
gets `lrint (succ_opp_prob * w * sumprob_scaling[st])` added, `w` being the weight of the
iteration, and the flag is raised when the cell then exceeds 2000000000. -/
theorem SumprobUpdate_int_active (v : VCFR) (st b s : Nat) (x w : ℚ) (md : IntMem × Bool)
    (hvc : v.value_calculation = false)
    (hgate : ¬ (v.hard_warmup > 0 ∧ v.it ≤ v.hard_warmup))
    (hw : w = if (v.hard_warmup = 0 ∧ v.soft_warmup = 0) ∨
        (v.soft_warmup > 0 ∧ v.it ≤ v.soft_warmup) then 1
      else if v.hard_warmup > 0 then (usub v.it v.hard_warmup : ℚ)
      else (usub v.it v.soft_warmup : ℚ)) :
    VCFR.SumprobUpdate_int v st (some b) s x md
      = (let m1 := Function.update md.1 (b + s)
          (toInt (md.1 (b + s) + lrint (x * w * v.sumprob_scaling st)))
        if m1 (b + s) > 2000000000 then (m1, true) else (m1, md.2)) := by
  unfold VCFR.SumprobUpdate_int
  rw [if_neg (by simp only [hvc, Bool.false_eq_true, false_or, reduceCtorEq]; exact hgate)]
  simp only [Option.getD_some]
  rw [update_ite_ite]
  have hamount : (if (v.hard_warmup = 0 ∧ v.soft_warmup = 0) ∨
        (v.soft_warmup > 0 ∧ v.it ≤ v.soft_warmup) then
        toInt (md.1 (b + s) + lrint (x * v.sumprob_scaling st))
      else if v.hard_warmup > 0 then
        toInt (md.1 (b + s) + lrint (x * (usub v.it v.hard_warmup : ℚ) *
          v.sumprob_scaling st))
      else toInt (md.1 (b + s) + lrint (x * (usub v.it v.soft_warmup : ℚ) *
          v.sumprob_scaling st)))
      = toInt (md.1 (b + s) + lrint (x * w * v.sumprob_scaling st)) := by
    rw [hw]
    split_ifs <;> simp only [mul_one]
  rw [hamount]

/-- The update of double sumprobs when it is not gated off: the cell of the successor
gets `succ_opp_prob * w` added, `w` being the weight of the iteration. -/
theorem SumprobUpdate_double_active (v : VCFR) (b s : Nat) (x w : ℚ) (m : DblMem)
    (hvc : v.value_calculation = false)
    (hgate : ¬ (v.hard_warmup > 0 ∧ v.it ≤ v.hard_warmup))
    (hw : w = if (v.hard_warmup = 0 ∧ v.soft_warmup = 0) ∨
        (v.soft_warmup > 0 ∧ v.it ≤ v.soft_warmup) then 1
      else if v.hard_warmup > 0 then (usub v.it v.hard_warmup : ℚ)
      else (usub v.it v.soft_warmup : ℚ)) :
    VCFR.SumprobUpdate_double v (some b) s x m
      = Function.update m (b + s) (m (b + s) + x * w) := by
  unfold VCFR.SumprobUpdate_double
  rw [if_neg (by simp only [hvc, Bool.false_eq_true, false_or, reduceCtorEq]; exact hgate)]
  simp only [Option.getD_some]
  rw [update_ite_ite, hw]
  split_ifs <;> simp only [mul_one]


/-- One turn of a hand on integer sumprobs, when the update is not gated off: the reach
cells are stored on their own, and the sumprob row gets the add-then-halve treatment. -/
theorem sumprob_turn_int (v : VCFR) (st b ns enc : Nat) (x : Nat → ℚ) (w : ℚ)
    (r1 : List (List ℚ)) (m : IntMem)
    (hvc : v.value_calculation = false)
    (hgate : ¬ (v.hard_warmup > 0 ∧ v.it ≤ v.hard_warmup))
    (hw : w = if (v.hard_warmup = 0 ∧ v.soft_warmup = 0) ∨
        (v.soft_warmup > 0 ∧ v.it ≤ v.soft_warmup) then 1
      else if v.hard_warmup > 0 then (usub v.it v.hard_warmup : ℚ)
      else (usub v.it v.soft_warmup : ℚ)) :
    (let q := loop ns (fun s (q : List (List ℚ) × IntMem × Bool) =>
        (setAt2 q.1 s enc (x s), VCFR.SumprobUpdate_int v st (some b) s (x s) q.2))
        (r1, m, false)
      if q.2.2 then
        (q.1, loop ns (fun s m =>
          Function.update m (b + s) (Int.tdiv (m (b + s)) 2)) q.2.1)
      else (q.1, q.2.1))
    = (loop ns (fun s sop => setAt2 sop s enc (x s)) r1,
        (let r := loop ns (fun s (mo : IntMem × Bool) =>
            let m1 := Function.update mo.1 (b + s)
              (toInt (mo.1 (b + s) + lrint (x s * w * v.sumprob_scaling st)))
            if m1 (b + s) > 2000000000 then (m1, true) else (m1, mo.2)) (m, false)
          if r.2 then
            loop ns (fun s m => Function.update m (b + s) (Int.tdiv (m (b + s)) 2)) r.1
          else r.1)) := by
  have h1 := loop_pair_fst (fun s sop => setAt2 sop s enc (x s))
    (fun s (q : List (List ℚ) × IntMem × Bool) =>
      VCFR.SumprobUpdate_int v st (some b) s (x s) q.2) r1 (m, false) ns
  have h2 := loop_pair_snd (fun s (q : List (List ℚ) × IntMem × Bool) =>
      setAt2 q.1 s enc (x s))
    (fun s (md : IntMem × Bool) => VCFR.SumprobUpdate_int v st (some b) s (x s) md)
    r1 (m, false) ns
  have h3 := loop_congr ns
    (fun s (md : IntMem × Bool) => VCFR.SumprobUpdate_int v st (some b) s (x s) md)
    (fun s (mo : IntMem × Bool) =>
      let m1 := Function.update mo.1 (b + s)
        (toInt (mo.1 (b + s) + lrint (x s * w * v.sumprob_scaling st)))
      if m1 (b + s) > 2000000000 then (m1, true) else (m1, mo.2)) (m, false)
    (fun s _ md => SumprobUpdate_int_active v st b s (x s) w md hvc hgate hw)
  rw [h3] at h2
  dsimp only at h1 h2 ⊢
  rw [h2, h1]
  split <;> rfl

/-- One turn of a hand on double sumprobs, when the update is not gated off: the reach
cells are stored on their own, and every cell of the sumprob row gets its addition. -/
theorem sumprob_turn_double (v : VCFR) (b ns enc : Nat) (x : Nat → ℚ) (w : ℚ)
    (r1 : List (List ℚ)) (m : DblMem)
    (hvc : v.value_calculation = false)
    (hgate : ¬ (v.hard_warmup > 0 ∧ v.it ≤ v.hard_warmup))
    (hw : w = if (v.hard_warmup = 0 ∧ v.soft_warmup = 0) ∨
        (v.soft_warmup > 0 ∧ v.it ≤ v.soft_warmup) then 1
      else if v.hard_warmup > 0 then (usub v.it v.hard_warmup : ℚ)
      else (usub v.it v.soft_warmup : ℚ)) :
    loop ns (fun s (q : List (List ℚ) × DblMem) =>
        (setAt2 q.1 s enc (x s), VCFR.SumprobUpdate_double v (some b) s (x s) q.2)) (r1, m)
    = (loop ns (fun s sop => setAt2 sop s enc (x s)) r1,
        loop ns (fun s m => Function.update m (b + s) (m (b + s) + x s * w)) m) := by
  have h1 := loop_pair_fst (fun s sop => setAt2 sop s enc (x s))
    (fun s (q : List (List ℚ) × DblMem) =>
      VCFR.SumprobUpdate_double v (some b) s (x s) q.2) r1 m ns
  have h2 := loop_pair_snd (fun s (q : List (List ℚ) × DblMem) =>
      setAt2 q.1 s enc (x s))
    (fun s (md : DblMem) => VCFR.SumprobUpdate_double v (some b) s (x s) md) r1 m ns
  have h3 := loop_congr ns
    (fun s (md : DblMem) => VCFR.SumprobUpdate_double v (some b) s (x s) md)
    (fun s m => Function.update m (b + s) (m (b + s) + x s * w)) m
    (fun s _ md => SumprobUpdate_double_active v b s (x s) w md hvc hgate hw)
  rw [h3] at h2
  exact Prod.ext h1 h2

/-- The loop over the hands, as far as a cell of the heap goes that only the turn of
hand `i` may write: the cell holds at the end what the turn of hand `i` left, and it held
its initial content when that turn began. -/
theorem hand_loop_heap_at {T α : Type} (body : Nat → T × (Nat → α) → T × (Nat → α))
    (W : Nat → Nat → Prop)
    (hframe : ∀ j r a, ¬ W j a → (body j r).2 a = r.2 a)
    (init : T × (Nat → α)) (i a : Nat) :
    ∀ N : Nat, i < N → (∀ j, j < N → j ≠ i → ¬ W j a) →
      (loop N body init).2 a = (body i (loop i body init)).2 a ∧
      (loop i body init).2 a = init.2 a := by
  intro N
  induction N with
  | zero => intro hi; omega
  | succ N ih =>
    intro hi hW
    rcases Nat.lt_succ_iff_lt_or_eq.mp hi with h | h
    · rw [loop_succ, hframe N _ a (hW N (Nat.lt_succ_self N) (by omega))]
      exact ih h (fun j hj => hW j (Nat.lt_succ_of_lt hj))
    · subst h
      refine ⟨rfl, ?_⟩
      exact hand_loop_heap_frame body (fun _ => False) W
        (fun j r a h => hframe j r a (h.resolve_left id)) init a i
        (fun j hj => Or.inr (hW j (Nat.lt_succ_of_lt hj) (by omega)))


/-- The turn of a hand with non-zero reach in `ProcessOppProbs` on integer values and
sumprobs, when the update is not gated off: the sumprob row of the hand gets the
add-then-halve treatment on the heap that the earlier hands left. -/
theorem ProcessOppProbs_int_int_turn (G : Game) (v : VCFR) (node : Node)
    (hands : CanonicalCards) (nonneg : Bool) (explore : ℚ) (opp_probs : List ℚ)
    (succ_opp_probs : List (List ℚ)) (cs_vals sp : Nat) (imem : IntMem) (i : Nat) (w : ℚ)
    (hvc : v.value_calculation = false)
    (hgate : ¬ (v.hard_warmup > 0 ∧ v.it ≤ v.hard_warmup))
    (hw : w = if (v.hard_warmup = 0 ∧ v.soft_warmup = 0) ∨
        (v.soft_warmup > 0 ∧ v.it ≤ v.soft_warmup) then 1
      else if v.hard_warmup > 0 then (usub v.it v.hard_warmup : ℚ)
      else (usub v.it v.soft_warmup : ℚ))
    (hop : opp_probs.getD (VCFR.Encoding G hands i) 0 ≠ 0) (m : IntMem)
    (hm : m = (VCFR.ProcessOppProbs_int_int { G with NumHoleCardPairs := fun _ => i } v node
      hands nonneg explore opp_probs succ_opp_probs cs_vals (some sp) imem).2) :
    (VCFR.ProcessOppProbs_int_int { G with NumHoleCardPairs := fun _ => i + 1 } v node
      hands nonneg explore opp_probs succ_opp_probs cs_vals (some sp) imem).2
    = (let r := loop node.NumSuccs (fun s (mo : IntMem × Bool) =>
          let m1 := Function.update mo.1 (sp + i * node.NumSuccs + s)
            (toInt (mo.1 (sp + i * node.NumSuccs + s) +
              lrint (dmul (opp_probs.getD (VCFR.Encoding G hands i) 0)
                ((VCFR.RegretsToProbs (fun u => (m (cs_vals + i * node.NumSuccs + u) : ℚ))
                  node.NumSuccs nonneg v.uniform node.DefaultSuccIndex explore
                  (VCFR.NonterminalSuccs node).1 (VCFR.NonterminalSuccs node).2).getD s 0) *
                w * v.sumprob_scaling node.Street)))
          if m1 (sp + i * node.NumSuccs + s) > 2000000000 then (m1, true)
          else (m1, mo.2)) (m, false)
        if r.2 then
          loop node.NumSuccs (fun s m =>
            Function.update m (sp + i * node.NumSuccs + s)
              (Int.tdiv (m (sp + i * node.NumSuccs + s)) 2)) r.1
        else r.1) := by
  subst hm
  unfold VCFR.ProcessOppProbs_int_int
  dsimp only
  rw [loop_succ]
  have henc : VCFR.Encoding { G with NumHoleCardPairs := fun _ => i + 1 } hands i
      = VCFR.Encoding G hands i := rfl
  rw [henc, if_neg hop]
  simp only [hvc, Bool.false_eq_true, not_false_eq_true, if_true, Option.map_some',
    Option.getD_some]
  rw [sumprob_turn_int v node.Street (sp + i * node.NumSuccs) node.NumSuccs
    (VCFR.Encoding G hands i) _ w _ _ hvc hgate hw]
  rfl


/-- The turn of a hand with non-zero reach in `ProcessOppProbsBucketed` on integer
sumprobs, when the update is not gated off: the sumprob row of the hand's bucket gets the
add-then-halve treatment on the heap that the earlier hands left. -/
theorem ProcessOppProbsBucketed_int_turn (G : Game) (v : VCFR) (sb : Nat → Nat → Nat)
    (node : Node) (hands : CanonicalCards) (opp_probs : List ℚ)
    (succ_opp_probs : List (List ℚ)) (current_probs sp : Nat) (dmem : DblMem)
    (imem : IntMem) (i : Nat) (w : ℚ)
    (hvc : v.value_calculation = false)
    (hgate : ¬ (v.hard_warmup > 0 ∧ v.it ≤ v.hard_warmup))
    (hw : w = if (v.hard_warmup = 0 ∧ v.soft_warmup = 0) ∨
        (v.soft_warmup > 0 ∧ v.it ≤ v.soft_warmup) then 1
      else if v.hard_warmup > 0 then (usub v.it v.hard_warmup : ℚ)
      else (usub v.it v.soft_warmup : ℚ))
    (hop : opp_probs.getD (VCFR.Encoding G hands i) 0 ≠ 0) (m : IntMem)
    (hm : m = (VCFR.ProcessOppProbsBucketed_int { G with NumHoleCardPairs := fun _ => i } v
      sb node hands opp_probs succ_opp_probs current_probs (some sp) dmem imem).2) :
    (VCFR.ProcessOppProbsBucketed_int { G with NumHoleCardPairs := fun _ => i + 1 } v sb
      node hands opp_probs succ_opp_probs current_probs (some sp) dmem imem).2
    = (let r := loop node.NumSuccs (fun s (mo : IntMem × Bool) =>
          let m1 := Function.update mo.1 (sp + sb node.Street i * node.NumSuccs + s)
            (toInt (mo.1 (sp + sb node.Street i * node.NumSuccs + s) +
              lrint (dmul (opp_probs.getD (VCFR.Encoding G hands i) 0)
                (dmem (current_probs + sb node.Street i * node.NumSuccs + s)) *
                w * v.sumprob_scaling node.Street)))
          if m1 (sp + sb node.Street i * node.NumSuccs + s) > 2000000000 then (m1, true)
          else (m1, mo.2)) (m, false)
        if r.2 then
          loop node.NumSuccs (fun s m =>
            Function.update m (sp + sb node.Street i * node.NumSuccs + s)
              (Int.tdiv (m (sp + sb node.Street i * node.NumSuccs + s)) 2)) r.1
        else r.1) := by
  subst hm
  unfold VCFR.ProcessOppProbsBucketed_int
  dsimp only
  rw [loop_succ]
  have henc : VCFR.Encoding { G with NumHoleCardPairs := fun _ => i + 1 } hands i
      = VCFR.Encoding G hands i := rfl
  rw [henc, if_neg hop]
  simp only [Option.map_some', Option.getD_some]
  rw [sumprob_turn_int v node.Street (sp + sb node.Street i * node.NumSuccs) node.NumSuccs
    (VCFR.Encoding G hands i) _ w _ _ hvc hgate hw]
  rfl

/-- A sumprob row that starts in `[0, 2000000000]` and gets amounts in `[0, 147483647]`
added ends in `[0, 2000000000]` under the add-then-halve treatment. -/
theorem sum_row_range (old add : Nat → Int) (ns s : Nat) (hs : s < ns)
    (h : ∀ t, t < ns → 0 ≤ old t ∧ old t ≤ 2000000000 ∧ 0 ≤ add t ∧ add t ≤ 147483647) :
    0 ≤ (if ∃ t, t < ns ∧ toInt (old t + add t) > 2000000000
        then Int.tdiv (toInt (old s + add s)) 2 else toInt (old s + add s)) ∧
    (if ∃ t, t < ns ∧ toInt (old t + add t) > 2000000000
        then Int.tdiv (toInt (old s + add s)) 2 else toInt (old s + add s)) ≤ 2000000000 := by
  obtain ⟨h1, h2, h3, h4⟩ := h s hs
  have he : toInt (old s + add s) = old s + add s := toInt_eq_self (by omega) (by omega)
  by_cases hex : ∃ t, t < ns ∧ toInt (old t + add t) > 2000000000
  · rw [if_pos hex, he]
    rcases tdiv_two_cases (old s + add s) with ⟨_, hd⟩ | ⟨hneg, _⟩
    · rw [hd]; omega
    · omega
  · rw [if_neg hex, he]
    have : ¬ toInt (old s + add s) > 2000000000 := fun hc => hex ⟨s, hs, hc⟩
    rw [he] at this
    omega

/-- C23: with integer sumprobs, in the turn of a hand `i` with non-zero reach (the update
not being gated off), `ProcessOppProbs` and `ProcessOppProbsBucketed` leave in every cell
`s` of the hand's (the bucket's) sumprob row the sum `a s` of the cell and the amount
added for the successor `s`, halved once (integer division by 2) exactly when some sum
`a t` of the row exceeds 2000000000, whichever successor that is; and when the row starts
in `[0, 2000000000]` and every amount lies in `[0, 147483647]`, the row ends in
`[0, 2000000000]`.  `m` is the heap that the hands before `i` leave, `m'` the heap after
the turn of hand `i`. -/
theorem ProcessOppProbs_int_sumprob_halving (G : Game) (v : VCFR) (sb : Nat → Nat → Nat)
    (node : Node) (hands : CanonicalCards) (nonneg : Bool) (explore : ℚ)
    (opp_probs : List ℚ) (succ_opp_probs : List (List ℚ)) (cs_vals current_probs sp : Nat)
    (dmem : DblMem) (imem : IntMem) (i : Nat) (w : ℚ)
    (hvc : v.value_calculation = false)
    (hgate : ¬ (v.hard_warmup > 0 ∧ v.it ≤ v.hard_warmup))
    (hw : w = if (v.hard_warmup = 0 ∧ v.soft_warmup = 0) ∨
        (v.soft_warmup > 0 ∧ v.it ≤ v.soft_warmup) then 1
      else if v.hard_warmup > 0 then (usub v.it v.hard_warmup : ℚ)
      else (usub v.it v.soft_warmup : ℚ))
    (hop : opp_probs.getD (VCFR.Encoding G hands i) 0 ≠ 0) :
    (∀ (m m' : IntMem) (add : Nat → Int),
      m = (VCFR.ProcessOppProbs_int_int { G with NumHoleCardPairs := fun _ => i } v node
        hands nonneg explore opp_probs succ_opp_probs cs_vals (some sp) imem).2 →
      m' = (VCFR.ProcessOppProbs_int_int { G with NumHoleCardPairs := fun _ => i + 1 } v
        node hands nonneg explore opp_probs succ_opp_probs cs_vals (some sp) imem).2 →
      (∀ s, add s = lrint (dmul (opp_probs.getD (VCFR.Encoding G hands i) 0)
        ((VCFR.RegretsToProbs (fun u => (m (cs_vals + i * node.NumSuccs + u) : ℚ))
          node.NumSuccs nonneg v.uniform node.DefaultSuccIndex explore
          (VCFR.NonterminalSuccs node).1 (VCFR.NonterminalSuccs node).2).getD s 0) *
        w * v.sumprob_scaling node.Street)) →
      (∀ s, s < node.NumSuccs →
        m' (sp + i * node.NumSuccs + s)
          = if ∃ t, t < node.NumSuccs ∧
                toInt (m (sp + i * node.NumSuccs + t) + add t) > 2000000000
            then Int.tdiv (toInt (m (sp + i * node.NumSuccs + s) + add s)) 2
            else toInt (m (sp + i * node.NumSuccs + s) + add s)) ∧
      ((∀ s, s < node.NumSuccs →
          0 ≤ m (sp + i * node.NumSuccs + s) ∧
          m (sp + i * node.NumSuccs + s) ≤ 2000000000 ∧
          0 ≤ add s ∧ add s ≤ 147483647) →
        ∀ s, s < node.NumSuccs →
          0 ≤ m' (sp + i * node.NumSuccs + s) ∧
          m' (sp + i * node.NumSuccs + s) ≤ 2000000000)) ∧
    (∀ (m m' : IntMem) (add : Nat → Int),
      m = (VCFR.ProcessOppProbsBucketed_int { G with NumHoleCardPairs := fun _ => i } v sb
        node hands opp_probs succ_opp_probs current_probs (some sp) dmem imem).2 →
      m' = (VCFR.ProcessOppProbsBucketed_int { G with NumHoleCardPairs := fun _ => i + 1 }
        v sb node hands opp_probs succ_opp_probs current_probs (some sp) dmem imem).2 →
      (∀ s, add s = lrint (dmul (opp_probs.getD (VCFR.Encoding G hands i) 0)
        (dmem (current_probs + sb node.Street i * node.NumSuccs + s)) *
        w * v.sumprob_scaling node.Street)) →
      (∀ s, s < node.NumSuccs →
        m' (sp + sb node.Street i * node.NumSuccs + s)
          = if ∃ t, t < node.NumSuccs ∧
                toInt (m (sp + sb node.Street i * node.NumSuccs + t) + add t) > 2000000000
            then Int.tdiv (toInt (m (sp + sb node.Street i * node.NumSuccs + s) + add s)) 2
            else toInt (m (sp + sb node.Street i * node.NumSuccs + s) + add s)) ∧
      ((∀ s, s < node.NumSuccs →
          0 ≤ m (sp + sb node.Street i * node.NumSuccs + s) ∧
          m (sp + sb node.Street i * node.NumSuccs + s) ≤ 2000000000 ∧
          0 ≤ add s ∧ add s ≤ 147483647) →
        ∀ s, s < node.NumSuccs →
          0 ≤ m' (sp + sb node.Street i * node.NumSuccs + s) ∧
          m' (sp + sb node.Street i * node.NumSuccs + s) ≤ 2000000000)) := by
  constructor
  · intro m m' add hm hm' hadd
    have hcell : ∀ s, s < node.NumSuccs →
        m' (sp + i * node.NumSuccs + s)
          = if ∃ t, t < node.NumSuccs ∧
                toInt (m (sp + i * node.NumSuccs + t) + add t) > 2000000000
            then Int.tdiv (toInt (m (sp + i * node.NumSuccs + s) + add s)) 2
            else toInt (m (sp + i * node.NumSuccs + s) + add s) := by
      intro s hs
      rw [hm', ProcessOppProbs_int_int_turn G v node hands nonneg explore opp_probs
        succ_opp_probs cs_vals sp imem i w hvc hgate hw hop m hm]
      simp only [← hadd]
      exact sum_row_at (sp + i * node.NumSuccs) node.NumSuccs
        (fun t old => toInt (old + add t)) m s hs
    refine ⟨hcell, fun hr s hs => ?_⟩
    rw [hcell s hs]
    exact sum_row_range (fun t => m (sp + i * node.NumSuccs + t)) add node.NumSuccs s hs hr
  · intro m m' add hm hm' hadd
    have hcell : ∀ s, s < node.NumSuccs →
        m' (sp + sb node.Street i * node.NumSuccs + s)
          = if ∃ t, t < node.NumSuccs ∧
                toInt (m (sp + sb node.Street i * node.NumSuccs + t) + add t) > 2000000000
            then Int.tdiv (toInt (m (sp + sb node.Street i * node.NumSuccs + s) + add s)) 2
            else toInt (m (sp + sb node.Street i * node.NumSuccs + s) + add s) := by
      intro s hs
      rw [hm', ProcessOppProbsBucketed_int_turn G v sb node hands opp_probs
        succ_opp_probs current_probs sp dmem imem i w hvc hgate hw hop m hm]
      simp only [← hadd]
      exact sum_row_at (sp + sb node.Street i * node.NumSuccs) node.NumSuccs
        (fun t old => toInt (old + add t)) m s hs
    refine ⟨hcell, fun hr s hs => ?_⟩
    rw [hcell s hs]
    exact sum_row_range (fun t => m (sp + sb node.Street i * node.NumSuccs + t)) add
      node.NumSuccs s hs hr


/-- C23, witness: hand 0 has the reach 1 and the regret row `[3, 1]`, the scaling is 4,
so that 3 and 1 are added to its sumprob row `[1999999999, 10]`; the first sum exceeds
2000000000 and the row ends as `[1000000001, 5]`. -/
theorem ProcessOppProbs_int_sumprob_halving_witness :
    (VCFR.ProcessOppProbs_int_int { MaxCard := 3, NumHoleCardPairs := fun _ => 0 + 1 }
        { sumprob_scaling := fun _ => 4 } (exampleRoot 0) exampleHands0 false 0
        [0, 0, 0, 0, 1, 0, 0, 0, 1 / 2] (List.replicate 2 (List.replicate 16 0)) 0
        (some 100)
        (fun a => if a = 0 then 3 else if a = 1 then 1 else if a = 100 then 1999999999
          else if a = 101 then 10 else 0)).2 (100 + 0 * (exampleRoot 0).NumSuccs + 1) = 5 :=
  (((ProcessOppProbs_int_sumprob_halving { MaxCard := 3, NumHoleCardPairs := fun _ => 2 }
      { sumprob_scaling := fun _ => 4 } (fun _ _ => 0) (exampleRoot 0) exampleHands0 false 0
      [0, 0, 0, 0, 1, 0, 0, 0, 1 / 2] (List.replicate 2 (List.replicate 16 0)) 0 0 100
      (fun _ => 0)
      (fun a => if a = 0 then 3 else if a = 1 then 1 else if a = 100 then 1999999999
        else if a = 101 then 10 else 0) 0 1 rfl (by decide) (by decide) (by decide!)).1
    _ _ _ rfl rfl (fun _ => rfl)).1 1 (by decide)).trans (by decide!)

/-! ## The sumprob rows after `ProcessOppProbs` -/

/-- The update of integer sumprobs writes the cell of the successor only. -/
theorem SumprobUpdate_int_frame (v : VCFR) (st : Nat) (my_sumprobs : Option Nat) (s : Nat)
    (x : ℚ) (md : IntMem × Bool) (a : Nat) (h : ∀ sp, my_sumprobs = some sp → a ≠ sp + s) :
    (VCFR.SumprobUpdate_int v st my_sumprobs s x md).1 a = md.1 a := by
  unfold VCFR.SumprobUpdate_int
  cases my_sumprobs with
  | none => simp
  | some sp =>
    have ha : a ≠ sp + s := h sp rfl
    simp only [Option.getD_some]
    rw [update_ite_ite]
    split_ifs <;> first | rfl | exact Function.update_noteq ha _ _

/-- Without a sumprob row the update of integer sumprobs does nothing. -/
theorem SumprobUpdate_int_none (v : VCFR) (st s : Nat) (x : ℚ) (md : IntMem × Bool) :
    VCFR.SumprobUpdate_int v st none s x md = md := by
  unfold VCFR.SumprobUpdate_int
  rw [if_pos (Or.inr (Or.inl rfl))]

/-- One turn of a hand on integer sumprobs leaves the cells outside the hand's sumprob
row alone. -/
theorem sumprob_turn_int_frame (v : VCFR) (st ns enc : Nat) (msp : Option Nat)
    (x : Nat → ℚ) (r1 : List (List ℚ)) (m : IntMem) (a : Nat)
    (h : ∀ b, msp = some b → ∀ s, s < ns → a ≠ b + s) :
    (let q := loop ns (fun s (q : List (List ℚ) × IntMem × Bool) =>
        (setAt2 q.1 s enc (x s), VCFR.SumprobUpdate_int v st msp s (x s) q.2))
        (r1, m, false)
      if q.2.2 then
        (q.1, loop ns (fun s m =>
          Function.update m (msp.getD 0 + s) (Int.tdiv (m (msp.getD 0 + s)) 2)) q.2.1)
      else (q.1, q.2.1)).2 a = m a := by
  have h2 := loop_pair_snd (fun s (q : List (List ℚ) × IntMem × Bool) =>
      setAt2 q.1 s enc (x s))
    (fun s (md : IntMem × Bool) => VCFR.SumprobUpdate_int v st msp s (x s) md)
    r1 (m, false) ns
  dsimp only at h2 ⊢
  rw [h2]
  cases msp with
  | none =>
    have hq : loop ns (fun s (md : IntMem × Bool) =>
        VCFR.SumprobUpdate_int v st none s (x s) md) (m, false) = (m, false) :=
      loop_invariant (fun md : IntMem × Bool => md = (m, false)) _ _ _ rfl
        (fun s md hmd => by dsimp only; rw [SumprobUpdate_int_none, hmd])
    rw [hq]
    simp
  | some b =>
    have hq : (loop ns (fun s (md : IntMem × Bool) =>
        VCFR.SumprobUpdate_int v st (some b) s (x s) md) (m, false)).1 a = m a :=
      loop_invariant_lt (fun md : IntMem × Bool => md.1 a = m a) _ _ _ rfl
        (fun s hs md hmd => by
          dsimp only
          rw [SumprobUpdate_int_frame v st (some b) s (x s) md a
            (fun sp hsp => by cases hsp; exact h b rfl s hs)]
          exact hmd)
    simp only [Option.getD_some]
    split
    · dsimp only
      rw [loop_update_off b (fun _ y => Int.tdiv y 2) _ ns a (h b rfl)]
      exact hq
    · exact hq

/-- One turn of a hand on double sumprobs leaves the cells outside the hand's sumprob row
alone. -/
theorem sumprob_turn_double_frame (v : VCFR) (ns enc : Nat) (msp : Option Nat)
    (x : Nat → ℚ) (r1 : List (List ℚ)) (m : DblMem) (a : Nat)
    (h : ∀ b, msp = some b → ∀ s, s < ns → a ≠ b + s) :
    (loop ns (fun s (q : List (List ℚ) × DblMem) =>
        (setAt2 q.1 s enc (x s), VCFR.SumprobUpdate_double v msp s (x s) q.2))
        (r1, m)).2 a = m a := by
  rw [loop_pair_snd (fun s (q : List (List ℚ) × DblMem) => setAt2 q.1 s enc (x s))
    (fun s (md : DblMem) => VCFR.SumprobUpdate_double v msp s (x s) md) r1 m ns]
  exact loop_invariant_lt (fun md : DblMem => md a = m a) _ _ _ rfl
    (fun s hs md hmd => by
      dsimp only
      rw [SumprobUpdate_double_frame v msp s (x s) md a (fun sp hsp => h sp hsp s hs)]
      exact hmd)


/-- The sumprob row that `ProcessOppProbs` hands to the update of hand `j`: a row of the
table it was given. -/
theorem my_sumprobs_some (vc : Bool) (sumprobs : Option Nat) (k b : Nat)
    (h : (if ¬ vc = true then sumprobs.map (fun a => a + k) else none) = some b) :
    ∃ sp, sumprobs = some sp ∧ b = sp + k := by
  cases sumprobs with
  | none => cases vc <;> simp at h
  | some sp =>
    cases vc
    · simp only [Bool.false_eq_true, not_false_eq_true, if_true, Option.map_some',
        Option.some.injEq] at h
      exact ⟨sp, rfl, h.symm⟩
    · simp at h

/-- The cells of the integer heap that `ProcessOppProbs` on integer values and sumprobs
leaves alone: those outside the sumprob rows of the hands with a non-zero reach. -/
theorem ProcessOppProbs_int_int_frame (G : Game) (v : VCFR) (node : Node)
    (hands : CanonicalCards) (nonneg : Bool) (explore : ℚ) (opp_probs : List ℚ)
    (succ_opp_probs : List (List ℚ)) (cs_vals : Nat) (sumprobs : Option Nat)
    (imem : IntMem) (a : Nat)
    (h : ∀ j, j < G.NumHoleCardPairs node.Street →
      opp_probs.getD (VCFR.Encoding G hands j) 0 = 0 ∨
      ¬ ∃ sp t, sumprobs = some sp ∧ t < node.NumSuccs ∧ a = sp + j * node.NumSuccs + t) :
    (VCFR.ProcessOppProbs_int_int G v node hands nonneg explore opp_probs
      succ_opp_probs cs_vals sumprobs imem).2 a = imem a := by
  unfold VCFR.ProcessOppProbs_int_int
  refine hand_loop_heap_frame _ (fun j => opp_probs.getD (VCFR.Encoding G hands j) 0 = 0)
    (fun j a => ∃ sp t, sumprobs = some sp ∧ t < node.NumSuccs ∧
      a = sp + j * node.NumSuccs + t) ?_ (succ_opp_probs, imem) a _ h
  intro j r b hb
  dsimp only
  by_cases hop : opp_probs.getD (VCFR.Encoding G hands j) 0 = 0
  · rw [if_pos hop]
  · rw [if_neg hop]
    have hW := hb.resolve_left hop
    exact sumprob_turn_int_frame v node.Street node.NumSuccs _ _ _ r.1 r.2 b
      (fun b' hb' t ht hbe => by
        obtain ⟨sp, hsp, hbs⟩ := my_sumprobs_some _ _ _ _ hb'
        exact hW ⟨sp, t, hsp, ht, by omega⟩)

/-- The cells of the double heap that `ProcessOppProbs` on integer values and double
sumprobs leaves alone: those outside the sumprob rows of the hands with a non-zero
reach. -/
theorem ProcessOppProbs_int_double_frame (G : Game) (v : VCFR) (node : Node)
    (hands : CanonicalCards) (nonneg : Bool) (explore : ℚ) (opp_probs : List ℚ)
    (succ_opp_probs : List (List ℚ)) (cs_vals : Nat) (sumprobs : Option Nat)
    (imem : IntMem) (dmem : DblMem) (a : Nat)
    (h : ∀ j, j < G.NumHoleCardPairs node.Street →
      opp_probs.getD (VCFR.Encoding G hands j) 0 = 0 ∨
      ¬ ∃ sp t, sumprobs = some sp ∧ t < node.NumSuccs ∧ a = sp + j * node.NumSuccs + t) :
    (VCFR.ProcessOppProbs_int_double G v node hands nonneg explore opp_probs
      succ_opp_probs cs_vals sumprobs imem dmem).2 a = dmem a := by
  unfold VCFR.ProcessOppProbs_int_double
  refine hand_loop_heap_frame _ (fun j => opp_probs.getD (VCFR.Encoding G hands j) 0 = 0)
    (fun j a => ∃ sp t, sumprobs = some sp ∧ t < node.NumSuccs ∧
      a = sp + j * node.NumSuccs + t) ?_ (succ_opp_probs, dmem) a _ h
  intro j r b hb
  dsimp only
  by_cases hop : opp_probs.getD (VCFR.Encoding G hands j) 0 = 0
  · rw [if_pos hop]
  · rw [if_neg hop]
    have hW := hb.resolve_left hop
    obtain ⟨r1, r2⟩ := r
    exact sumprob_turn_double_frame v node.NumSuccs _ _ _ r1 r2 b
      (fun b' hb' t ht hbe => by
        obtain ⟨sp, hsp, hbs⟩ := my_sumprobs_some _ _ _ _ hb'
        exact hW ⟨sp, t, hsp, ht, by omega⟩)

/-- A prefix of the hands leaves the sumprob rows of the later hands alone, and the later
hands leave the row of hand `i` alone: the separation that the rows of one table have. -/
theorem sumprob_rows_apart (ns sp i s : Nat) (hs : s < ns) (j : Nat) (hj : j ≠ i) :
    ¬ ∃ sp' t, some sp = some sp' ∧ t < ns ∧ sp + i * ns + s = sp' + j * ns + t := by
  rintro ⟨sp', t, hsp, ht, he⟩
  cases hsp
  exact hj ((row_cell_inj hs ht (by omega : i * ns + s = j * ns + t)).1).symm


/-- The sumprob row of hand `i` after `ProcessOppProbs` on integer values and sumprobs
is the row that the turn of hand `i` leaves. -/
theorem ProcessOppProbs_int_int_row (G : Game) (v : VCFR) (node : Node)
    (hands : CanonicalCards) (nonneg : Bool) (explore : ℚ) (opp_probs : List ℚ)
    (succ_opp_probs : List (List ℚ)) (cs_vals sp : Nat) (imem : IntMem) (i s : Nat)
    (hi : i < G.NumHoleCardPairs node.Street) (hs : s < node.NumSuccs) :
    (VCFR.ProcessOppProbs_int_int G v node hands nonneg explore opp_probs
      succ_opp_probs cs_vals (some sp) imem).2 (sp + i * node.NumSuccs + s)
    = (VCFR.ProcessOppProbs_int_int { G with NumHoleCardPairs := fun _ => i + 1 } v node
      hands nonneg explore opp_probs succ_opp_probs cs_vals (some sp) imem).2
        (sp + i * node.NumSuccs + s) := by
  unfold VCFR.ProcessOppProbs_int_int
  refine ((hand_loop_heap_at _
    (fun j a => ∃ sp' t, some sp = some sp' ∧ t < node.NumSuccs ∧
      a = sp' + j * node.NumSuccs + t) ?_ (succ_opp_probs, imem) i
    (sp + i * node.NumSuccs + s) (G.NumHoleCardPairs node.Street) hi
    (fun j _ hj => sumprob_rows_apart node.NumSuccs sp i s hs j hj)).1).trans rfl
  intro j r b hW
  dsimp only
  by_cases hop : opp_probs.getD (VCFR.Encoding G hands j) 0 = 0
  · rw [if_pos hop]
  · rw [if_neg hop]
    exact sumprob_turn_int_frame v node.Street node.NumSuccs _ _ _ r.1 r.2 b
      (fun b' hb' t ht hbe => by
        obtain ⟨sp', hsp, hbs⟩ := my_sumprobs_some _ _ _ _ hb'
        exact hW ⟨sp', t, hsp, ht, by omega⟩)

/-- The sumprob row of hand `i` after `ProcessOppProbs` on integer values and double
sumprobs is the row that the turn of hand `i` leaves. -/
theorem ProcessOppProbs_int_double_row (G : Game) (v : VCFR) (node : Node)
    (hands : CanonicalCards) (nonneg : Bool) (explore : ℚ) (opp_probs : List ℚ)
    (succ_opp_probs : List (List ℚ)) (cs_vals sp : Nat) (imem : IntMem) (dmem : DblMem)
    (i s : Nat) (hi : i < G.NumHoleCardPairs node.Street) (hs : s < node.NumSuccs) :
    (VCFR.ProcessOppProbs_int_double G v node hands nonneg explore opp_probs
      succ_opp_probs cs_vals (some sp) imem dmem).2 (sp + i * node.NumSuccs + s)
    = (VCFR.ProcessOppProbs_int_double { G with NumHoleCardPairs := fun _ => i + 1 } v node
      hands nonneg explore opp_probs succ_opp_probs cs_vals (some sp) imem dmem).2
        (sp + i * node.NumSuccs + s) := by
  unfold VCFR.ProcessOppProbs_int_double
  refine ((hand_loop_heap_at _
    (fun j a => ∃ sp' t, some sp = some sp' ∧ t < node.NumSuccs ∧
      a = sp' + j * node.NumSuccs + t) ?_ (succ_opp_probs, dmem) i
    (sp + i * node.NumSuccs + s) (G.NumHoleCardPairs node.Street) hi
    (fun j _ hj => sumprob_rows_apart node.NumSuccs sp i s hs j hj)).1).trans rfl
  intro j r b hW
  dsimp only
  by_cases hop : opp_probs.getD (VCFR.Encoding G hands j) 0 = 0
  · rw [if_pos hop]
  · rw [if_neg hop]
    obtain ⟨r1, r2⟩ := r
    exact sumprob_turn_double_frame v node.NumSuccs _ _ _ r1 r2 b
      (fun b' hb' t ht hbe => by
        obtain ⟨sp', hsp, hbs⟩ := my_sumprobs_some _ _ _ _ hb'
        exact hW ⟨sp', t, hsp, ht, by omega⟩)

/-- The sumprob row of hand `i` after `ProcessOppProbs` on double values is the row that
the turn of hand `i` leaves. -/
theorem ProcessOppProbs_double_double_row (G : Game) (v : VCFR) (node : Node)
    (hands : CanonicalCards) (nonneg : Bool) (explore : ℚ) (opp_probs : List ℚ)
    (succ_opp_probs : List (List ℚ)) (cs_vals sp : Nat) (dmem : DblMem)
    (i s : Nat) (hi : i < G.NumHoleCardPairs node.Street) (hs : s < node.NumSuccs) :
    (VCFR.ProcessOppProbs_double_double G v node hands nonneg explore opp_probs
      succ_opp_probs cs_vals (some sp) dmem).2 (sp + i * node.NumSuccs + s)
    = (VCFR.ProcessOppProbs_double_double { G with NumHoleCardPairs := fun _ => i + 1 } v
      node hands nonneg explore opp_probs succ_opp_probs cs_vals (some sp) dmem).2
        (sp + i * node.NumSuccs + s) := by
  unfold VCFR.ProcessOppProbs_double_double
  refine ((hand_loop_heap_at _
    (fun j a => ∃ sp' t, some sp = some sp' ∧ t < node.NumSuccs ∧
      a = sp' + j * node.NumSuccs + t) ?_ (succ_opp_probs, dmem) i
    (sp + i * node.NumSuccs + s) (G.NumHoleCardPairs node.Street) hi
    (fun j _ hj => sumprob_rows_apart node.NumSuccs sp i s hs j hj)).1).trans rfl
  intro j r b hW
  dsimp only
  by_cases hop : opp_probs.getD (VCFR.Encoding G hands j) 0 = 0
  · rw [if_pos hop]
  · rw [if_neg hop]
    obtain ⟨r1, r2⟩ := r
    exact sumprob_turn_double_frame v node.NumSuccs _ _ _ r1 r2 b
      (fun b' hb' t ht hbe => by
        obtain ⟨sp', hsp, hbs⟩ := my_sumprobs_some _ _ _ _ hb'
        exact hW ⟨sp', t, hsp, ht, by omega⟩)

/-- The turn of a hand with non-zero reach in `ProcessOppProbs` on integer values and
double sumprobs, when the update is not gated off. -/
theorem ProcessOppProbs_int_double_turn (G : Game) (v : VCFR) (node : Node)
    (hands : CanonicalCards) (nonneg : Bool) (explore : ℚ) (opp_probs : List ℚ)
    (succ_opp_probs : List (List ℚ)) (cs_vals sp : Nat) (imem : IntMem) (dmem : DblMem)
    (i : Nat) (w : ℚ)
    (hvc : v.value_calculation = false)
    (hgate : ¬ (v.hard_warmup > 0 ∧ v.it ≤ v.hard_warmup))
    (hw : w = if (v.hard_warmup = 0 ∧ v.soft_warmup = 0) ∨
        (v.soft_warmup > 0 ∧ v.it ≤ v.soft_warmup) then 1
      else if v.hard_warmup > 0 then (usub v.it v.hard_warmup : ℚ)
      else (usub v.it v.soft_warmup : ℚ))
    (hop : opp_probs.getD (VCFR.Encoding G hands i) 0 ≠ 0) (m : DblMem)
    (hm : m = (VCFR.ProcessOppProbs_int_double { G with NumHoleCardPairs := fun _ => i } v
      node hands nonneg explore opp_probs succ_opp_probs cs_vals (some sp) imem dmem).2) :
    (VCFR.ProcessOppProbs_int_double { G with NumHoleCardPairs := fun _ => i + 1 } v node
      hands nonneg explore opp_probs succ_opp_probs cs_vals (some sp) imem dmem).2
    = loop node.NumSuccs (fun s m =>
        Function.update m (sp + i * node.NumSuccs + s)
          (m (sp + i * node.NumSuccs + s) +
            dmul (opp_probs.getD (VCFR.Encoding G hands i) 0)
              ((VCFR.RegretsToProbs (fun u => (imem (cs_vals + i * node.NumSuccs + u) : ℚ))
                node.NumSuccs nonneg v.uniform node.DefaultSuccIndex explore
                (VCFR.NonterminalSuccs node).1 (VCFR.NonterminalSuccs node).2).getD s 0) *
              w)) m := by
  subst hm
  unfold VCFR.ProcessOppProbs_int_double
  dsimp only
  rw [loop_succ]
  have henc : VCFR.Encoding { G with NumHoleCardPairs := fun _ => i + 1 } hands i
      = VCFR.Encoding G hands i := rfl
  rw [henc, if_neg hop]
  simp only [hvc, Bool.false_eq_true, not_false_eq_true, if_true, Option.map_some']
  rw [sumprob_turn_double v (sp + i * node.NumSuccs) node.NumSuccs
    (VCFR.Encoding G hands i) _ w _ _ hvc hgate hw]
  rfl

/-- The turn of a hand with non-zero reach in `ProcessOppProbs` on double values, when
the update is not gated off. -/
theorem ProcessOppProbs_double_double_turn (G : Game) (v : VCFR) (node : Node)
    (hands : CanonicalCards) (nonneg : Bool) (explore : ℚ) (opp_probs : List ℚ)
    (succ_opp_probs : List (List ℚ)) (cs_vals sp : Nat) (dmem : DblMem)
    (i : Nat) (w : ℚ)
    (hvc : v.value_calculation = false)
    (hgate : ¬ (v.hard_warmup > 0 ∧ v.it ≤ v.hard_warmup))
    (hw : w = if (v.hard_warmup = 0 ∧ v.soft_warmup = 0) ∨
        (v.soft_warmup > 0 ∧ v.it ≤ v.soft_warmup) then 1
      else if v.hard_warmup > 0 then (usub v.it v.hard_warmup : ℚ)
      else (usub v.it v.soft_warmup : ℚ))
    (hop : opp_probs.getD (VCFR.Encoding G hands i) 0 ≠ 0) (m : DblMem)
    (hm : m = (VCFR.ProcessOppProbs_double_double { G with NumHoleCardPairs := fun _ => i }
      v node hands nonneg explore opp_probs succ_opp_probs cs_vals (some sp) dmem).2) :
    (VCFR.ProcessOppProbs_double_double { G with NumHoleCardPairs := fun _ => i + 1 } v
      node hands nonneg explore opp_probs succ_opp_probs cs_vals (some sp) dmem).2
    = loop node.NumSuccs (fun s m' =>
        Function.update m' (sp + i * node.NumSuccs + s)
          (m' (sp + i * node.NumSuccs + s) +
            dmul (opp_probs.getD (VCFR.Encoding G hands i) 0)
              ((VCFR.RegretsToProbs (fun u => m (cs_vals + i * node.NumSuccs + u))
                node.NumSuccs nonneg v.uniform node.DefaultSuccIndex explore
                (VCFR.NonterminalSuccs node).1 (VCFR.NonterminalSuccs node).2).getD s 0) *
              w)) m := by
  subst hm
  unfold VCFR.ProcessOppProbs_double_double
  dsimp only
  rw [loop_succ]
  have henc : VCFR.Encoding { G with NumHoleCardPairs := fun _ => i + 1 } hands i
      = VCFR.Encoding G hands i := rfl
  rw [henc, if_neg hop]
  simp only [hvc, Bool.false_eq_true, not_false_eq_true, if_true, Option.map_some']
  rw [sumprob_turn_double v (sp + i * node.NumSuccs) node.NumSuccs
    (VCFR.Encoding G hands i) _ w _ _ hvc hgate hw]
  rfl


/-- The first component of a choice between two pairs with the same first component. -/
theorem ite_pair_fst {α β : Type} (c : Prop) [Decidable c] (a : α) (b b' : β) :
    (if c then (a, b) else (a, b')).1 = a := by
  split <;> rfl

/-- The reach cells that `ProcessOppProbs` on integer values and sumprobs leaves: the
reach of the hand times the probability that the policy derives from the hand's row of
current-strategy values, as the turns of the earlier hands left that row. -/
theorem ProcessOppProbs_int_int_reach_at (G : Game) (v : VCFR) (node : Node)
    (hands : CanonicalCards) (nonneg : Bool) (explore : ℚ) (opp_probs : List ℚ)
    (succ_opp_probs : List (List ℚ)) (cs_vals : Nat) (sumprobs : Option Nat)
    (imem : IntMem) (i s : Nat)
    (hi : i < G.NumHoleCardPairs node.Street) (hs : s < node.NumSuccs)
    (huniq : ∀ j, j < G.NumHoleCardPairs node.Street → j ≠ i →
      VCFR.Encoding G hands j ≠ VCFR.Encoding G hands i)
    (hrow : s < succ_opp_probs.length)
    (hcol : VCFR.Encoding G hands i < (succ_opp_probs.getD s []).length) :
    (((VCFR.ProcessOppProbs_int_int G v node hands nonneg explore opp_probs
        succ_opp_probs cs_vals sumprobs imem).1.getD s []).getD (VCFR.Encoding G hands i) 0)
      = dmul (opp_probs.getD (VCFR.Encoding G hands i) 0)
          ((VCFR.RegretsToProbs
            (fun s => ((VCFR.ProcessOppProbs_int_int
              { G with NumHoleCardPairs := fun _ => i } v node hands nonneg explore opp_probs
              succ_opp_probs cs_vals sumprobs imem).2 (cs_vals + i * node.NumSuccs + s) : ℚ))
            node.NumSuccs nonneg v.uniform node.DefaultSuccIndex explore
            (VCFR.NonterminalSuccs node).1 (VCFR.NonterminalSuccs node).2).getD s 0) := by
  unfold VCFR.ProcessOppProbs_int_int
  refine (hand_loop_reach node.NumSuccs (VCFR.Encoding G hands)
    (fun j (m : IntMem) s => dmul (opp_probs.getD (VCFR.Encoding G hands j) 0)
      ((VCFR.RegretsToProbs (fun s => (m (cs_vals + j * node.NumSuccs + s) : ℚ))
        node.NumSuccs nonneg v.uniform node.DefaultSuccIndex explore
        (VCFR.NonterminalSuccs node).1 (VCFR.NonterminalSuccs node).2).getD s 0)) _ ?_
    succ_opp_probs imem i s hs hrow hcol (G.NumHoleCardPairs node.Street) hi huniq).trans rfl
  intro j r
  obtain ⟨r1, r2⟩ := r
  dsimp only
  by_cases hop : opp_probs.getD (VCFR.Encoding G hands j) 0 = 0
  · simp only [hop, if_true, dmul_zero_left]
  · simp only [hop, if_false]
    have hfst := loop_pair_fst
      (fun s sop => setAt2 sop s (VCFR.Encoding G hands j)
        (dmul (opp_probs.getD (VCFR.Encoding G hands j) 0)
          ((VCFR.RegretsToProbs (fun s => (r2 (cs_vals + j * node.NumSuccs + s) : ℚ))
            node.NumSuccs nonneg v.uniform node.DefaultSuccIndex explore
            (VCFR.NonterminalSuccs node).1 (VCFR.NonterminalSuccs node).2).getD s 0)))
      (fun s (q : List (List ℚ) × IntMem × Bool) =>
        VCFR.SumprobUpdate_int v node.Street
          (if ¬ v.value_calculation then sumprobs.map (fun a => a + j * node.NumSuccs)
            else none) s
          (dmul (opp_probs.getD (VCFR.Encoding G hands j) 0)
            ((VCFR.RegretsToProbs (fun s => (r2 (cs_vals + j * node.NumSuccs + s) : ℚ))
              node.NumSuccs nonneg v.uniform node.DefaultSuccIndex explore
              (VCFR.NonterminalSuccs node).1 (VCFR.NonterminalSuccs node).2).getD s 0)) q.2)
      r1 (r2, false) node.NumSuccs
    rw [ite_pair_fst]
    exact hfst

/-- The reach cells that `ProcessOppProbs` on integer values and double sumprobs leaves:
the reach of the hand times the probability that the policy derives from the hand's row
of current-strategy values. -/
theorem ProcessOppProbs_int_double_reach (G : Game) (v : VCFR) (node : Node)
    (hands : CanonicalCards) (nonneg : Bool) (explore : ℚ) (opp_probs : List ℚ)
    (succ_opp_probs : List (List ℚ)) (cs_vals : Nat) (sumprobs : Option Nat)
    (imem : IntMem) (dmem : DblMem) (i s : Nat)
    (hi : i < G.NumHoleCardPairs node.Street) (hs : s < node.NumSuccs)
    (huniq : ∀ j, j < G.NumHoleCardPairs node.Street → j ≠ i →
      VCFR.Encoding G hands j ≠ VCFR.Encoding G hands i)
    (hrow : s < succ_opp_probs.length)
    (hcol : VCFR.Encoding G hands i < (succ_opp_probs.getD s []).length) :
    (((VCFR.ProcessOppProbs_int_double G v node hands nonneg explore opp_probs
        succ_opp_probs cs_vals sumprobs imem dmem).1.getD s []).getD
          (VCFR.Encoding G hands i) 0)
      = dmul (opp_probs.getD (VCFR.Encoding G hands i) 0)
          ((VCFR.RegretsToProbs
            (fun s => (imem (cs_vals + i * node.NumSuccs + s) : ℚ))
            node.NumSuccs nonneg v.uniform node.DefaultSuccIndex explore
            (VCFR.NonterminalSuccs node).1 (VCFR.NonterminalSuccs node).2).getD s 0) := by
  unfold VCFR.ProcessOppProbs_int_double
  refine hand_loop_reach node.NumSuccs (VCFR.Encoding G hands)
    (fun j (_ : DblMem) s => dmul (opp_probs.getD (VCFR.Encoding G hands j) 0)
      ((VCFR.RegretsToProbs (fun s => (imem (cs_vals + j * node.NumSuccs + s) : ℚ))
        node.NumSuccs nonneg v.uniform node.DefaultSuccIndex explore
        (VCFR.NonterminalSuccs node).1 (VCFR.NonterminalSuccs node).2).getD s 0)) _ ?_
    succ_opp_probs dmem i s hs hrow hcol (G.NumHoleCardPairs node.Street) hi huniq
  intro j r
  obtain ⟨r1, r2⟩ := r
  dsimp only
  by_cases hop : opp_probs.getD (VCFR.Encoding G hands j) 0 = 0
  · simp only [hop, if_true, dmul_zero_left]
  · simp only [hop, if_false]
    exact loop_pair_fst
      (fun s sop => setAt2 sop s (VCFR.Encoding G hands j)
        (dmul (opp_probs.getD (VCFR.Encoding G hands j) 0)
          ((VCFR.RegretsToProbs (fun s => (imem (cs_vals + j * node.NumSuccs + s) : ℚ))
            node.NumSuccs nonneg v.uniform node.DefaultSuccIndex explore
            (VCFR.NonterminalSuccs node).1 (VCFR.NonterminalSuccs node).2).getD s 0)))
      (fun s (q : List (List ℚ) × DblMem) =>
        VCFR.SumprobUpdate_double v
          (if ¬ v.value_calculation then sumprobs.map (fun a => a + j * node.NumSuccs)
            else none) s
          (dmul (opp_probs.getD (VCFR.Encoding G hands j) 0)
            ((VCFR.RegretsToProbs (fun s => (imem (cs_vals + j * node.NumSuccs + s) : ℚ))
              node.NumSuccs nonneg v.uniform node.DefaultSuccIndex explore
              (VCFR.NonterminalSuccs node).1 (VCFR.NonterminalSuccs node).2).getD s 0)) q.2)
      r1 r2 node.NumSuccs


/-- After `ProcessOppProbs` on integer values and double sumprobs, when the update is not
gated off, the cell `s` of the sumprob row of a hand with non-zero reach has gained the
successor's reach of the hand times the weight of the iteration. -/
theorem ProcessOppProbs_int_double_cell (G : Game) (v : VCFR) (node : Node)
    (hands : CanonicalCards) (nonneg : Bool) (explore : ℚ) (opp_probs : List ℚ)
    (succ_opp_probs : List (List ℚ)) (cs_vals sp : Nat) (imem : IntMem) (dmem : DblMem)
    (i s : Nat) (w : ℚ)
    (hvc : v.value_calculation = false)
    (hgate : ¬ (v.hard_warmup > 0 ∧ v.it ≤ v.hard_warmup))
    (hw : w = if (v.hard_warmup = 0 ∧ v.soft_warmup = 0) ∨
        (v.soft_warmup > 0 ∧ v.it ≤ v.soft_warmup) then 1
      else if v.hard_warmup > 0 then (usub v.it v.hard_warmup : ℚ)
      else (usub v.it v.soft_warmup : ℚ))
    (hi : i < G.NumHoleCardPairs node.Street) (hs : s < node.NumSuccs)
    (hop : opp_probs.getD (VCFR.Encoding G hands i) 0 ≠ 0)
    (huniq : ∀ j, j < G.NumHoleCardPairs node.Street → j ≠ i →
      VCFR.Encoding G hands j ≠ VCFR.Encoding G hands i)
    (hrow : s < succ_opp_probs.length)
    (hcol : VCFR.Encoding G hands i < (succ_opp_probs.getD s []).length) :
    (VCFR.ProcessOppProbs_int_double G v node hands nonneg explore opp_probs
      succ_opp_probs cs_vals (some sp) imem dmem).2 (sp + i * node.NumSuccs + s)
    = dmem (sp + i * node.NumSuccs + s) +
        ((VCFR.ProcessOppProbs_int_double G v node hands nonneg explore opp_probs
          succ_opp_probs cs_vals (some sp) imem dmem).1.getD s []).getD
            (VCFR.Encoding G hands i) 0 * w := by
  rw [ProcessOppProbs_int_double_reach G v node hands nonneg explore opp_probs
      succ_opp_probs cs_vals (some sp) imem dmem i s hi hs huniq hrow hcol,
    ProcessOppProbs_int_double_row G v node hands nonneg explore opp_probs succ_opp_probs
      cs_vals sp imem dmem i s hi hs,
    ProcessOppProbs_int_double_turn G v node hands nonneg explore opp_probs succ_opp_probs
      cs_vals sp imem dmem i w hvc hgate hw hop _ rfl,
    loop_update_at (sp + i * node.NumSuccs)
      (fun s old => old + dmul (opp_probs.getD (VCFR.Encoding G hands i) 0)
        ((VCFR.RegretsToProbs (fun u => (imem (cs_vals + i * node.NumSuccs + u) : ℚ))
          node.NumSuccs nonneg v.uniform node.DefaultSuccIndex explore
          (VCFR.NonterminalSuccs node).1 (VCFR.NonterminalSuccs node).2).getD s 0) * w)
      _ node.NumSuccs s hs,
    ProcessOppProbs_int_double_frame { G with NumHoleCardPairs := fun _ => i } v node hands
      nonneg explore opp_probs succ_opp_probs cs_vals (some sp) imem dmem _
      (fun j hj => Or.inr (sumprob_rows_apart node.NumSuccs sp i s hs j
        (Nat.ne_of_lt hj)))]

/-- After `ProcessOppProbs` on double values, when the update is not gated off, the cell
`s` of the sumprob row of a hand with non-zero reach has gained the successor's reach of
the hand times the weight of the iteration. -/
theorem ProcessOppProbs_double_double_cell (G : Game) (v : VCFR) (node : Node)
    (hands : CanonicalCards) (nonneg : Bool) (explore : ℚ) (opp_probs : List ℚ)
    (succ_opp_probs : List (List ℚ)) (cs_vals sp : Nat) (dmem : DblMem)
    (i s : Nat) (w : ℚ)
    (hvc : v.value_calculation = false)
    (hgate : ¬ (v.hard_warmup > 0 ∧ v.it ≤ v.hard_warmup))
    (hw : w = if (v.hard_warmup = 0 ∧ v.soft_warmup = 0) ∨
        (v.soft_warmup > 0 ∧ v.it ≤ v.soft_warmup) then 1
      else if v.hard_warmup > 0 then (usub v.it v.hard_warmup : ℚ)
      else (usub v.it v.soft_warmup : ℚ))
    (hi : i < G.NumHoleCardPairs node.Street) (hs : s < node.NumSuccs)
    (hop : opp_probs.getD (VCFR.Encoding G hands i) 0 ≠ 0)
    (huniq : ∀ j, j < G.NumHoleCardPairs node.Street → j ≠ i →
      VCFR.Encoding G hands j ≠ VCFR.Encoding G hands i)
    (hrow : s < succ_opp_probs.length)
    (hcol : VCFR.Encoding G hands i < (succ_opp_probs.getD s []).length) :
    (VCFR.ProcessOppProbs_double_double G v node hands nonneg explore opp_probs
      succ_opp_probs cs_vals (some sp) dmem).2 (sp + i * node.NumSuccs + s)
    = dmem (sp + i * node.NumSuccs + s) +
        ((VCFR.ProcessOppProbs_double_double G v node hands nonneg explore opp_probs
          succ_opp_probs cs_vals (some sp) dmem).1.getD s []).getD
            (VCFR.Encoding G hands i) 0 * w := by
  rw [ProcessOppProbs_double_double_reach_at G v node hands nonneg explore opp_probs
      succ_opp_probs cs_vals (some sp) dmem i s hi hs huniq hrow hcol,
    ProcessOppProbs_double_double_row G v node hands nonneg explore opp_probs succ_opp_probs
      cs_vals sp dmem i s hi hs,
    ProcessOppProbs_double_double_turn G v node hands nonneg explore opp_probs
      succ_opp_probs cs_vals sp dmem i w hvc hgate hw hop _ rfl,
    loop_update_at (sp + i * node.NumSuccs)
      (fun s old => old + dmul (opp_probs.getD (VCFR.Encoding G hands i) 0)
        ((VCFR.RegretsToProbs (fun u => (VCFR.ProcessOppProbs_double_double
            { G with NumHoleCardPairs := fun _ => i } v node hands nonneg explore opp_probs
            succ_opp_probs cs_vals (some sp) dmem).2 (cs_vals + i * node.NumSuccs + u))
          node.NumSuccs nonneg v.uniform node.DefaultSuccIndex explore
          (VCFR.NonterminalSuccs node).1 (VCFR.NonterminalSuccs node).2).getD s 0) * w)
      _ node.NumSuccs s hs,
    ProcessOppProbs_double_double_frame { G with NumHoleCardPairs := fun _ => i } v node
      hands nonneg explore opp_probs succ_opp_probs cs_vals (some sp) dmem
      (sp + i * node.NumSuccs + s)
      (fun j hj => Or.inr (sumprob_rows_apart node.NumSuccs sp i s hs j
        (Nat.ne_of_lt hj)))]

/-- After `ProcessOppProbs` on integer values and sumprobs, when the update is not gated
off, the cell `s` of the sumprob row of a hand with non-zero reach holds its old content
plus the rounded amount of the successor, halved when some such sum of the row exceeds
2000000000. -/
theorem ProcessOppProbs_int_int_cell (G : Game) (v : VCFR) (node : Node)
    (hands : CanonicalCards) (nonneg : Bool) (explore : ℚ) (opp_probs : List ℚ)
    (succ_opp_probs : List (List ℚ)) (cs_vals sp : Nat) (imem : IntMem)
    (i s : Nat) (w : ℚ)
    (hvc : v.value_calculation = false)
    (hgate : ¬ (v.hard_warmup > 0 ∧ v.it ≤ v.hard_warmup))
    (hw : w = if (v.hard_warmup = 0 ∧ v.soft_warmup = 0) ∨
        (v.soft_warmup > 0 ∧ v.it ≤ v.soft_warmup) then 1
      else if v.hard_warmup > 0 then (usub v.it v.hard_warmup : ℚ)
      else (usub v.it v.soft_warmup : ℚ))
    (hi : i < G.NumHoleCardPairs node.Street) (hs : s < node.NumSuccs)
    (hop : opp_probs.getD (VCFR.Encoding G hands i) 0 ≠ 0)
    (huniq : ∀ j, j < G.NumHoleCardPairs node.Street → j ≠ i →
      VCFR.Encoding G hands j ≠ VCFR.Encoding G hands i)
    (hshape : ∀ t, t < node.NumSuccs → t < succ_opp_probs.length ∧
      VCFR.Encoding G hands i < (succ_opp_probs.getD t []).length)
    (rs : List (List ℚ))
    (hrs : rs = (VCFR.ProcessOppProbs_int_int G v node hands nonneg explore opp_probs
      succ_opp_probs cs_vals (some sp) imem).1) :
    (VCFR.ProcessOppProbs_int_int G v node hands nonneg explore opp_probs
      succ_opp_probs cs_vals (some sp) imem).2 (sp + i * node.NumSuccs + s)
    = if ∃ t, t < node.NumSuccs ∧
          toInt (imem (sp + i * node.NumSuccs + t) +
            lrint ((rs.getD t []).getD (VCFR.Encoding G hands i) 0 * w *
              v.sumprob_scaling node.Street)) > 2000000000
      then Int.tdiv (toInt (imem (sp + i * node.NumSuccs + s) +
            lrint ((rs.getD s []).getD (VCFR.Encoding G hands i) 0 * w *
              v.sumprob_scaling node.Street))) 2
      else toInt (imem (sp + i * node.NumSuccs + s) +
            lrint ((rs.getD s []).getD (VCFR.Encoding G hands i) 0 * w *
              v.sumprob_scaling node.Street)) := by
  have hx : ∀ t, t < node.NumSuccs →
      (rs.getD t []).getD (VCFR.Encoding G hands i) 0
        = dmul (opp_probs.getD (VCFR.Encoding G hands i) 0)
          ((VCFR.RegretsToProbs
            (fun s => ((VCFR.ProcessOppProbs_int_int
              { G with NumHoleCardPairs := fun _ => i } v node hands nonneg explore opp_probs
              succ_opp_probs cs_vals (some sp) imem).2 (cs_vals + i * node.NumSuccs + s) : ℚ))
            node.NumSuccs nonneg v.uniform node.DefaultSuccIndex explore
            (VCFR.NonterminalSuccs node).1 (VCFR.NonterminalSuccs node).2).getD t 0) := by
    intro t ht
    rw [hrs]
    exact ProcessOppProbs_int_int_reach_at G v node hands nonneg explore opp_probs
      succ_opp_probs cs_vals (some sp) imem i t hi ht huniq (hshape t ht).1 (hshape t ht).2
  have hm0 : ∀ t, t < node.NumSuccs →
      (VCFR.ProcessOppProbs_int_int { G with NumHoleCardPairs := fun _ => i } v node hands
        nonneg explore opp_probs succ_opp_probs cs_vals (some sp) imem).2
          (sp + i * node.NumSuccs + t) = imem (sp + i * node.NumSuccs + t) :=
    fun t ht => ProcessOppProbs_int_int_frame { G with NumHoleCardPairs := fun _ => i } v
      node hands nonneg explore opp_probs succ_opp_probs cs_vals (some sp) imem _
      (fun j hj => Or.inr (sumprob_rows_apart node.NumSuccs sp i t ht j (Nat.ne_of_lt hj)))
  rw [ProcessOppProbs_int_int_row G v node hands nonneg explore opp_probs succ_opp_probs
      cs_vals sp imem i s hi hs,
    ProcessOppProbs_int_int_turn G v node hands nonneg explore opp_probs succ_opp_probs
      cs_vals sp imem i w hvc hgate hw hop _ rfl]
  have hrowat := sum_row_at (sp + i * node.NumSuccs) node.NumSuccs
    (fun t old => toInt (old + lrint (dmul (opp_probs.getD (VCFR.Encoding G hands i) 0)
      ((VCFR.RegretsToProbs
        (fun s => ((VCFR.ProcessOppProbs_int_int
          { G with NumHoleCardPairs := fun _ => i } v node hands nonneg explore opp_probs
          succ_opp_probs cs_vals (some sp) imem).2 (cs_vals + i * node.NumSuccs + s) : ℚ))
        node.NumSuccs nonneg v.uniform node.DefaultSuccIndex explore
        (VCFR.NonterminalSuccs node).1 (VCFR.NonterminalSuccs node).2).getD t 0) *
      w * v.sumprob_scaling node.Street)))
    (VCFR.ProcessOppProbs_int_int { G with NumHoleCardPairs := fun _ => i } v node hands
      nonneg explore opp_probs succ_opp_probs cs_vals (some sp) imem).2 s hs
  refine hrowat.trans ?_
  dsimp only
  have hex : (∃ t, t < node.NumSuccs ∧
      toInt ((VCFR.ProcessOppProbs_int_int { G with NumHoleCardPairs := fun _ => i } v node
        hands nonneg explore opp_probs succ_opp_probs cs_vals (some sp) imem).2
          (sp + i * node.NumSuccs + t) +
        lrint (dmul (opp_probs.getD (VCFR.Encoding G hands i) 0)
          ((VCFR.RegretsToProbs
            (fun s => ((VCFR.ProcessOppProbs_int_int
              { G with NumHoleCardPairs := fun _ => i } v node hands nonneg explore opp_probs
              succ_opp_probs cs_vals (some sp) imem).2 (cs_vals + i * node.NumSuccs + s) : ℚ))
            node.NumSuccs nonneg v.uniform node.DefaultSuccIndex explore
            (VCFR.NonterminalSuccs node).1 (VCFR.NonterminalSuccs node).2).getD t 0) *
          w * v.sumprob_scaling node.Street)) > 2000000000) ↔
      (∃ t, t < node.NumSuccs ∧
        toInt (imem (sp + i * node.NumSuccs + t) +
          lrint ((rs.getD t []).getD (VCFR.Encoding G hands i) 0 * w *
            v.sumprob_scaling node.Street)) > 2000000000) := by
    constructor
    · rintro ⟨t, ht, hb⟩
      exact ⟨t, ht, by rw [hx t ht, ← hm0 t ht]; exact hb⟩
    · rintro ⟨t, ht, hb⟩
      exact ⟨t, ht, by rw [hx t ht, ← hm0 t ht] at hb; exact hb⟩
  rw [← hx s hs, hm0 s hs]
  by_cases hc : ∃ t, t < node.NumSuccs ∧
        toInt (imem (sp + i * node.NumSuccs + t) +
          lrint ((rs.getD t []).getD (VCFR.Encoding G hands i) 0 * w *
            v.sumprob_scaling node.Street)) > 2000000000
  · rw [if_pos hc, if_pos (hex.mpr hc)]
  · rw [if_neg hc, if_neg (fun h => hc (hex.mp h))]

/-! ## The dispatch of `OppChoice` on an unabstracted node -/

/-- The routine that `OppChoice` calls on an unabstracted node with more than one
successor (`vcfr.cpp` lines 774-868): `src` is the store of the current-strategy values,
`ip` and `dp` are the pointers `i_sumprobs` and `d_sumprobs`. -/
theorem OppChoiceReach_unabstracted (E : Env) (v : VCFR) (σ : State) (node : Node)
    (lbd : Nat) (opp_probs : List ℚ)
    (hns : node.NumSuccs ≠ 1)
    (hunab : ((! E.buckets.None node.Street) &&
      decide (node.PotSize < E.BucketThreshold node.Street)) = false)
    (src : CFRValues)
    (hsrc : src = if (v.value_calculation ∧ ¬ v.br_current) ∨
        (v.use_avg_for_current_it > 0 ∧ v.it ≥ v.use_avg_for_current_it)
      then v.sumprobs else v.regrets)
    (nonneg : Bool)
    (hnonneg : nonneg = if v.value_calculation ∧ ¬ v.br_current then true
      else (v.nn_regrets && decide (v.regret_floors node.Street ≥ 0)))
    (explore : ℚ)
    (hexplore : explore = if v.value_calculation ∧ ¬ v.br_current then 0 else v.explore)
    (table : List (List ℚ))
    (htable : table = List.replicate node.NumSuccs (List.replicate
      (if E.G.NumCardsForStreet 0 = 1 then E.G.MaxCard + 1
        else (E.G.MaxCard + 1) * (E.G.MaxCard + 1)) 0))
    (upd : Bool)
    (hupd : upd = (v.sumprob_streets node.Street && v.sumprobs.Players (v.p ^^^ 1) &&
      ! v.pre_phase && ! v.value_calculation))
    (off : Nat) (hoff : off = lbd * E.G.NumHoleCardPairs node.Street * node.NumSuccs) :
    VCFR.OppChoiceReach E v σ node lbd opp_probs
      = if src.Ints (v.p ^^^ 1) node.Street = true then
          if upd = true ∧ v.sumprobs.Ints (v.p ^^^ 1) node.Street = false then
            .ok ((VCFR.ProcessOppProbs_int_double E.G v node (E.Hands node.Street lbd) nonneg
                explore opp_probs table
                (src.addr (v.p ^^^ 1) node.Street node.NonterminalID + off)
                (some (v.sumprobs.addr (v.p ^^^ 1) node.Street node.NonterminalID + off))
                σ.imem σ.dmem).1,
              { σ with dmem := (VCFR.ProcessOppProbs_int_double E.G v node
                (E.Hands node.Street lbd) nonneg explore opp_probs table
                (src.addr (v.p ^^^ 1) node.Street node.NonterminalID + off)
                (some (v.sumprobs.addr (v.p ^^^ 1) node.Street node.NonterminalID + off))
                σ.imem σ.dmem).2 })
          else
            .ok ((VCFR.ProcessOppProbs_int_int E.G v node (E.Hands node.Street lbd) nonneg
                explore opp_probs table
                (src.addr (v.p ^^^ 1) node.Street node.NonterminalID + off)
                (if upd = true then
                  some (v.sumprobs.addr (v.p ^^^ 1) node.Street node.NonterminalID + off)
                  else none) σ.imem).1,
              { σ with imem := (VCFR.ProcessOppProbs_int_int E.G v node
                (E.Hands node.Street lbd) nonneg explore opp_probs table
                (src.addr (v.p ^^^ 1) node.Street node.NonterminalID + off)
                (if upd = true then
                  some (v.sumprobs.addr (v.p ^^^ 1) node.Street node.NonterminalID + off)
                  else none) σ.imem).2 })
        else
          .ok ((VCFR.ProcessOppProbs_double_double E.G v node (E.Hands node.Street lbd)
              nonneg explore opp_probs table
              (src.addr (v.p ^^^ 1) node.Street node.NonterminalID + off)
              (if upd = true ∧ v.sumprobs.Ints (v.p ^^^ 1) node.Street = false then
                some (v.sumprobs.addr (v.p ^^^ 1) node.Street node.NonterminalID + off)
                else none) σ.dmem).1,
            { σ with dmem := (VCFR.ProcessOppProbs_double_double E.G v node
              (E.Hands node.Street lbd) nonneg explore opp_probs table
              (src.addr (v.p ^^^ 1) node.Street node.NonterminalID + off)
              (if upd = true ∧ v.sumprobs.Ints (v.p ^^^ 1) node.Street = false then
                some (v.sumprobs.addr (v.p ^^^ 1) node.Street node.NonterminalID + off)
                else none) σ.dmem).2 }) := by
  subst hsrc hnonneg hexplore htable hoff
  unfold VCFR.OppChoiceReach
  dsimp only
  rw [if_neg hns, hunab]
  generalize (if (v.value_calculation = true ∧ ¬ v.br_current = true) ∨
        (v.use_avg_for_current_it > 0 ∧ v.it ≥ v.use_avg_for_current_it)
      then v.sumprobs else v.regrets) = src
  cases hst : v.sumprob_streets node.Street <;>
  cases hpl : v.sumprobs.Players (v.p ^^^ 1) <;>
  cases hpre : v.pre_phase <;>
  cases hvc : v.value_calculation <;>
  cases hsi : v.sumprobs.Ints (v.p ^^^ 1) node.Street <;>
  cases hci : src.Ints (v.p ^^^ 1) node.Street <;>
  simp [hupd, hst, hpl, hpre, hvc, hsi, hci, CFRValues.Values_int, CFRValues.Values_double,
    Except.map]

/-- The table of reach vectors that `OppChoice` allocates has the cell of every successor
and every encoding. -/
theorem reach_table_shape (ns ne s e : Nat) (hs : s < ns) (he : e < ne) :
    s < (List.replicate ns (List.replicate ne (0 : ℚ))).length ∧
    e < ((List.replicate ns (List.replicate ne (0 : ℚ))).getD s []).length := by
  refine ⟨by rw [List.length_replicate]; exact hs, ?_⟩
  rw [List.getD_eq_getElem?_getD, List.getElem?_replicate, if_pos hs, Option.getD_some,
    List.length_replicate]
  exact he

/-- Without a sumprob table `ProcessOppProbs` on double values leaves the double heap
alone. -/
theorem ProcessOppProbs_double_double_none (G : Game) (v : VCFR) (node : Node)
    (hands : CanonicalCards) (nonneg : Bool) (explore : ℚ) (opp_probs : List ℚ)
    (succ_opp_probs : List (List ℚ)) (cs_vals : Nat) (dmem : DblMem) :
    (VCFR.ProcessOppProbs_double_double G v node hands nonneg explore opp_probs
      succ_opp_probs cs_vals none dmem).2 = dmem :=
  funext (fun a => ProcessOppProbs_double_double_frame G v node hands nonneg explore
    opp_probs succ_opp_probs cs_vals none dmem a
    (fun _ _ => Or.inr (fun ⟨_, _, h, _⟩ => by cases h)))

/-- C22, as the code has it: at an unabstracted opponent node with more than one
successor, in learning mode (not value-only, not pre-phase), outside the hard-warmup
window, with sumprobs enabled for the street and allocated for the opponent, `OppChoice`
leaves the sumprob row of a hand `i` with non-zero reach (whose encoding no other hand
shares and lies in the table) as follows.  With double sumprobs every cell `s` has gained
`succ_opp_probs[s][enc(i)] * w`, `w` being the weight of the iteration.  With integer
sumprobs and integer current-strategy values every cell `s` holds its old content plus
`lrint (succ_opp_probs[s][enc(i)] * w * sumprob_scaling[st])`, halved when some such sum
of the row exceeds 2000000000.  With integer sumprobs and double current-strategy values
(the regrets, or the sumprobs once `use_avg_for_current_it` is reached) nothing is added:
the state is left as it was. -/
theorem OppChoiceReach_sumprob_rows (E : Env) (v : VCFR) (σ σ' : State) (node : Node)
    (lbd : Nat) (opp_probs : List ℚ) (rs : List (List ℚ)) (i : Nat) (w : ℚ)
    (hns : node.NumSuccs ≠ 1)
    (hunab : ((! E.buckets.None node.Street) &&
      decide (node.PotSize < E.BucketThreshold node.Street)) = false)
    (hvc : v.value_calculation = false) (hpre : v.pre_phase = false)
    (hgate : ¬ (v.hard_warmup > 0 ∧ v.it ≤ v.hard_warmup))
    (hw : w = if (v.hard_warmup = 0 ∧ v.soft_warmup = 0) ∨
        (v.soft_warmup > 0 ∧ v.it ≤ v.soft_warmup) then 1
      else if v.hard_warmup > 0 then (usub v.it v.hard_warmup : ℚ)
      else (usub v.it v.soft_warmup : ℚ))
    (hstreet : v.sumprob_streets node.Street = true)
    (hplayers : v.sumprobs.Players (v.p ^^^ 1) = true)
    (h : VCFR.OppChoiceReach E v σ node lbd opp_probs = .ok (rs, σ'))
    (hi : i < E.G.NumHoleCardPairs node.Street)
    (hop : opp_probs.getD (VCFR.Encoding E.G (E.Hands node.Street lbd) i) 0 ≠ 0)
    (huniq : ∀ j, j < E.G.NumHoleCardPairs node.Street → j ≠ i →
      VCFR.Encoding E.G (E.Hands node.Street lbd) j
        ≠ VCFR.Encoding E.G (E.Hands node.Street lbd) i)
    (henc : VCFR.Encoding E.G (E.Hands node.Street lbd) i
      < if E.G.NumCardsForStreet 0 = 1 then E.G.MaxCard + 1
        else (E.G.MaxCard + 1) * (E.G.MaxCard + 1)) :
    (v.sumprobs.Ints (v.p ^^^ 1) node.Street = false → ∀ s, s < node.NumSuccs →
      σ'.dmem (v.sumprobs.addr (v.p ^^^ 1) node.Street node.NonterminalID +
          lbd * E.G.NumHoleCardPairs node.Street * node.NumSuccs + i * node.NumSuccs + s)
        = σ.dmem (v.sumprobs.addr (v.p ^^^ 1) node.Street node.NonterminalID +
            lbd * E.G.NumHoleCardPairs node.Street * node.NumSuccs + i * node.NumSuccs + s) +
          (rs.getD s []).getD (VCFR.Encoding E.G (E.Hands node.Street lbd) i) 0 * w) ∧
    (v.sumprobs.Ints (v.p ^^^ 1) node.Street = true →
      (if v.use_avg_for_current_it > 0 ∧ v.it ≥ v.use_avg_for_current_it
        then v.sumprobs else v.regrets).Ints (v.p ^^^ 1) node.Street = true →
      ∀ s, s < node.NumSuccs →
      σ'.imem (v.sumprobs.addr (v.p ^^^ 1) node.Street node.NonterminalID +
          lbd * E.G.NumHoleCardPairs node.Street * node.NumSuccs + i * node.NumSuccs + s)
        = if ∃ t, t < node.NumSuccs ∧
              toInt (σ.imem (v.sumprobs.addr (v.p ^^^ 1) node.Street node.NonterminalID +
                  lbd * E.G.NumHoleCardPairs node.Street * node.NumSuccs +
                  i * node.NumSuccs + t) +
                lrint ((rs.getD t []).getD (VCFR.Encoding E.G (E.Hands node.Street lbd) i) 0 *
                  w * v.sumprob_scaling node.Street)) > 2000000000
          then Int.tdiv (toInt (σ.imem
                (v.sumprobs.addr (v.p ^^^ 1) node.Street node.NonterminalID +
                  lbd * E.G.NumHoleCardPairs node.Street * node.NumSuccs +
                  i * node.NumSuccs + s) +
              lrint ((rs.getD s []).getD (VCFR.Encoding E.G (E.Hands node.Street lbd) i) 0 *
                w * v.sumprob_scaling node.Street))) 2
          else toInt (σ.imem
                (v.sumprobs.addr (v.p ^^^ 1) node.Street node.NonterminalID +
                  lbd * E.G.NumHoleCardPairs node.Street * node.NumSuccs +
                  i * node.NumSuccs + s) +
              lrint ((rs.getD s []).getD (VCFR.Encoding E.G (E.Hands node.Street lbd) i) 0 *
                w * v.sumprob_scaling node.Street))) ∧
    (v.sumprobs.Ints (v.p ^^^ 1) node.Street = true →
      (if v.use_avg_for_current_it > 0 ∧ v.it ≥ v.use_avg_for_current_it
        then v.sumprobs else v.regrets).Ints (v.p ^^^ 1) node.Street = false →
      σ' = σ) := by
  rw [OppChoiceReach_unabstracted E v σ node lbd opp_probs hns hunab _ rfl _ rfl _ rfl _ rfl
    _ rfl _ rfl] at h
  have hupd : (v.sumprob_streets node.Street && v.sumprobs.Players (v.p ^^^ 1) &&
      ! v.pre_phase && ! v.value_calculation) = true := by
    rw [hstreet, hplayers, hpre, hvc]; rfl
  have hsrc : (if (v.value_calculation = true ∧ ¬ v.br_current = true) ∨
        (v.use_avg_for_current_it > 0 ∧ v.it ≥ v.use_avg_for_current_it)
      then v.sumprobs else v.regrets)
      = (if v.use_avg_for_current_it > 0 ∧ v.it ≥ v.use_avg_for_current_it
        then v.sumprobs else v.regrets) := by
    simp only [hvc, Bool.false_eq_true, false_and, false_or]
  rw [hupd, hsrc] at h
  have hshape := fun t (ht : t < node.NumSuccs) =>
    reach_table_shape node.NumSuccs _ t _ ht henc
  refine ⟨fun hsi s hs => ?_, fun hsi hci s hs => ?_, fun hsi hci => ?_⟩
  · rw [hsi] at h
    simp only [true_and, if_true] at h
    by_cases hci : (if v.use_avg_for_current_it > 0 ∧ v.it ≥ v.use_avg_for_current_it
        then v.sumprobs else v.regrets).Ints (v.p ^^^ 1) node.Street = true
    · rw [if_pos hci] at h
      cases h
      exact ProcessOppProbs_int_double_cell E.G v node _ _ _ opp_probs _ _ _ σ.imem σ.dmem
        i s w hvc hgate hw hi hs hop huniq (hshape s hs).1 (hshape s hs).2
    · rw [if_neg hci] at h
      cases h
      exact ProcessOppProbs_double_double_cell E.G v node _ _ _ opp_probs _ _ _ σ.dmem
        i s w hvc hgate hw hi hs hop huniq (hshape s hs).1 (hshape s hs).2
  · rw [hsi, hci] at h
    simp only [Bool.true_eq_false, and_false, if_false, if_true] at h
    cases h
    exact ProcessOppProbs_int_int_cell E.G v node _ _ _ opp_probs _ _ _ σ.imem
      i s w hvc hgate hw hi hs hop huniq hshape _ rfl
  · rw [hsi, hci] at h
    simp only [Bool.true_eq_false, and_false, if_false, Bool.false_eq_true] at h
    cases h
    rw [ProcessOppProbs_double_double_none]


/-- C22, counterexample: a learning run with double regrets and integer sumprobs at the
two-hand node of the opponent.  Hand 0 has the reach 1, the successor 0 gets the reach
`3/4` of it, which scaled by 4 rounds to 3, and yet the cell of the successor 0 in the
sumprob row of hand 0 is left as it was. -/
theorem OppChoiceReach_sumprob_counterexample :
    ∃ rs σ', VCFR.OppChoiceReach exampleOppEnv exampleDoubleRegrets exampleOppState
        (exampleRoot 0) 0 [0, 0, 0, 0, 1, 0, 0, 0, 1 / 2] = .ok (rs, σ') ∧
      (exampleRoot 0).NumSuccs = 2 ∧
      exampleOppEnv.buckets.None 0 = true ∧
      exampleDoubleRegrets.value_calculation = false ∧
      exampleDoubleRegrets.pre_phase = false ∧
      exampleDoubleRegrets.hard_warmup = 0 ∧
      exampleDoubleRegrets.sumprob_streets 0 = true ∧
      exampleDoubleRegrets.sumprobs.Players 0 = true ∧
      exampleDoubleRegrets.regrets.Ints 0 0 = false ∧
      exampleDoubleRegrets.sumprobs.Ints 0 0 = true ∧
      VCFR.Encoding exampleOppEnv.G exampleHands0 0 = 4 ∧
      ([0, 0, 0, 0, 1, 0, 0, 0, 1 / 2] : List ℚ).getD 4 0 = 1 ∧
      (rs.getD 0 []).getD 4 0 = 3 / 4 ∧
      lrint ((rs.getD 0 []).getD 4 0 * 1 * exampleDoubleRegrets.sumprob_scaling 0) = 3 ∧
      σ'.imem (100 + 0 * 2 * 2 + 0 * 2 + 0) = exampleOppState.imem (100 + 0 * 2 * 2 + 0 * 2 + 0) :=
  ⟨_, _, rfl, rfl, rfl, rfl, rfl, rfl, rfl, rfl, rfl, rfl, rfl, by decide!, by decide!,
    by decide!, rfl⟩

/-- C22, witness: the same node in a learning run with integer regrets and integer
sumprobs.  The amounts 3 and 1 are added to the sumprob row `[1999999999, 10]` of hand 0;
the first sum exceeds 2000000000, so that the second cell ends as `(10 + 1) / 2`. -/
theorem OppChoiceReach_sumprob_rows_witness :
    ∃ rs σ', VCFR.OppChoiceReach exampleOppEnv exampleIntRegrets exampleOppState
        (exampleRoot 0) 0 [0, 0, 0, 0, 1, 0, 0, 0, 1 / 2] = .ok (rs, σ') ∧
      σ'.imem (100 + 0 * 2 * 2 + 0 * 2 + 1) = 5 :=
  ⟨_, _, rfl,
    ((OppChoiceReach_sumprob_rows exampleOppEnv exampleIntRegrets exampleOppState _
      (exampleRoot 0) 0 [0, 0, 0, 0, 1, 0, 0, 0, 1 / 2] _ 0 1 (by decide) rfl rfl rfl
      (by decide) (by decide!) rfl rfl rfl (by decide) (by decide!) (by decide)
      (by decide)).2.1 rfl rfl 1 (by decide)).trans (by decide!)⟩

/-! ## The source of the opponent's strategy -/

/-- C27, as the code has it: at an unabstracted opponent node with more than one
successor the reach vectors that `OppChoice` computes are those of the policy
`RegretsToProbs` of the rows of the table `src`, which is the sumprob table when the run
is value-only without `br_current`, or when `use_avg_for_current_it` is positive and
reached by the iteration (be the run a learning run, or a value-only run with
`br_current`), and the regret table otherwise.  For a hand `i` whose encoding no other
hand shares and lies in the table: `succ_opp_probs[s][enc(i)]` is `opp_probs[enc(i)]`
times (the product of doubles `dmul`) the probability of `s` under the policy of hand
`i`'s row of `src` (no sumprob row of an earlier hand overlapping that row, when both
tables have the same element type). -/
theorem OppChoiceReach_strategy_source (E : Env) (v : VCFR) (σ σ' : State) (node : Node)
    (lbd : Nat) (opp_probs : List ℚ) (rs : List (List ℚ)) (i s : Nat)
    (src : CFRValues) (nonneg : Bool) (explore : ℚ)
    (hns : node.NumSuccs ≠ 1)
    (hunab : ((! E.buckets.None node.Street) &&
      decide (node.PotSize < E.BucketThreshold node.Street)) = false)
    (hsrc : src = if (v.value_calculation ∧ ¬ v.br_current) ∨
        (v.use_avg_for_current_it > 0 ∧ v.it ≥ v.use_avg_for_current_it)
      then v.sumprobs else v.regrets)
    (hnonneg : nonneg = if v.value_calculation ∧ ¬ v.br_current then true
      else (v.nn_regrets && decide (v.regret_floors node.Street ≥ 0)))
    (hexplore : explore = if v.value_calculation ∧ ¬ v.br_current then 0 else v.explore)
    (h : VCFR.OppChoiceReach E v σ node lbd opp_probs = .ok (rs, σ'))
    (hi : i < E.G.NumHoleCardPairs node.Street) (hs : s < node.NumSuccs)
    (huniq : ∀ j, j < E.G.NumHoleCardPairs node.Street → j ≠ i →
      VCFR.Encoding E.G (E.Hands node.Street lbd) j
        ≠ VCFR.Encoding E.G (E.Hands node.Street lbd) i)
    (henc : VCFR.Encoding E.G (E.Hands node.Street lbd) i
      < if E.G.NumCardsForStreet 0 = 1 then E.G.MaxCard + 1
        else (E.G.MaxCard + 1) * (E.G.MaxCard + 1))
    (hsep : v.sumprobs.Ints (v.p ^^^ 1) node.Street = src.Ints (v.p ^^^ 1) node.Street →
      ∀ j, j < i → ∀ t u, t < node.NumSuccs → u < node.NumSuccs →
        v.sumprobs.addr (v.p ^^^ 1) node.Street node.NonterminalID +
            lbd * E.G.NumHoleCardPairs node.Street * node.NumSuccs + j * node.NumSuccs + t
          ≠ src.addr (v.p ^^^ 1) node.Street node.NonterminalID +
            lbd * E.G.NumHoleCardPairs node.Street * node.NumSuccs + i * node.NumSuccs + u) :
    (rs.getD s []).getD (VCFR.Encoding E.G (E.Hands node.Street lbd) i) 0
      = dmul (opp_probs.getD (VCFR.Encoding E.G (E.Hands node.Street lbd) i) 0)
        ((VCFR.RegretsToProbs
          (fun u =>
            if src.Ints (v.p ^^^ 1) node.Street = true then
              (σ.imem (src.addr (v.p ^^^ 1) node.Street node.NonterminalID +
                lbd * E.G.NumHoleCardPairs node.Street * node.NumSuccs +
                i * node.NumSuccs + u) : ℚ)
            else
              σ.dmem (src.addr (v.p ^^^ 1) node.Street node.NonterminalID +
                lbd * E.G.NumHoleCardPairs node.Street * node.NumSuccs +
                i * node.NumSuccs + u))
          node.NumSuccs nonneg v.uniform node.DefaultSuccIndex explore
          (VCFR.NonterminalSuccs node).1 (VCFR.NonterminalSuccs node).2).getD s 0) := by
  rw [OppChoiceReach_unabstracted E v σ node lbd opp_probs hns hunab src hsrc nonneg hnonneg
    explore hexplore _ rfl _ rfl _ rfl] at h
  have hshape := reach_table_shape node.NumSuccs _ s _ hs henc
  by_cases hci : src.Ints (v.p ^^^ 1) node.Street = true
  · rw [if_pos hci] at h
    simp only [hci, if_true]
    by_cases hd : (v.sumprob_streets node.Street && v.sumprobs.Players (v.p ^^^ 1) &&
        ! v.pre_phase && ! v.value_calculation) = true ∧
        v.sumprobs.Ints (v.p ^^^ 1) node.Street = false
    · rw [if_pos hd] at h
      cases h
      exact ProcessOppProbs_int_double_reach E.G v node _ nonneg explore opp_probs _ _ _
        σ.imem σ.dmem i s hi hs huniq hshape.1 hshape.2
    · rw [if_neg hd] at h
      cases h
      rw [ProcessOppProbs_int_int_reach_at E.G v node _ nonneg explore opp_probs _ _ _
        σ.imem i s hi hs huniq hshape.1 hshape.2]
      rw [RegretsToProbs_congr _ (fun u => (σ.imem
          (src.addr (v.p ^^^ 1) node.Street node.NonterminalID +
            lbd * E.G.NumHoleCardPairs node.Street * node.NumSuccs +
            i * node.NumSuccs + u) : ℚ)) _ _ _ _ _ _ _
        (fun u hu => by
          dsimp only
          rw [ProcessOppProbs_int_int_frame { E.G with NumHoleCardPairs := fun _ => i } v node
            _ nonneg explore opp_probs _ _ _ σ.imem _
            (fun j hj => Or.inr (fun ⟨sp, t, hsp, ht, he⟩ => by
              by_cases hu' : (v.sumprob_streets node.Street &&
                  v.sumprobs.Players (v.p ^^^ 1) && ! v.pre_phase &&
                  ! v.value_calculation) = true
              · rw [if_pos hu'] at hsp
                cases hsp
                have hsi : v.sumprobs.Ints (v.p ^^^ 1) node.Street = true := by
                  cases hx : v.sumprobs.Ints (v.p ^^^ 1) node.Street
                  · exact absurd ⟨hu', hx⟩ hd
                  · rfl
                exact hsep (hsi.trans hci.symm) j hj t u ht hu he.symm
              · rw [if_neg hu'] at hsp
                cases hsp))])]
  · rw [if_neg hci] at h
    have hcf : src.Ints (v.p ^^^ 1) node.Street = false := by
      cases hx : src.Ints (v.p ^^^ 1) node.Street
      · rfl
      · exact absurd hx hci
    simp only [hcf, Bool.false_eq_true, if_false]
    cases h
    rw [ProcessOppProbs_double_double_reach_at E.G v node _ nonneg explore opp_probs _ _ _
      σ.dmem i s hi hs huniq hshape.1 hshape.2]
    rw [RegretsToProbs_congr _ (fun u => σ.dmem
        (src.addr (v.p ^^^ 1) node.Street node.NonterminalID +
          lbd * E.G.NumHoleCardPairs node.Street * node.NumSuccs +
          i * node.NumSuccs + u)) _ _ _ _ _ _ _
      (fun u hu => by
        dsimp only
        rw [ProcessOppProbs_double_double_frame { E.G with NumHoleCardPairs := fun _ => i } v
          node _ nonneg explore opp_probs _ _ _ σ.dmem _
          (fun j hj => Or.inr (fun ⟨sp, t, hsp, ht, he⟩ => by
            by_cases hu' : (v.sumprob_streets node.Street &&
                v.sumprobs.Players (v.p ^^^ 1) && ! v.pre_phase &&
                ! v.value_calculation) = true ∧
                v.sumprobs.Ints (v.p ^^^ 1) node.Street = false
            · rw [if_pos hu'] at hsp
              cases hsp
              exact hsep (hu'.2.trans hcf.symm) j hj t u ht hu he.symm
            · rw [if_neg hu'] at hsp
              cases hsp))])]


/-- C27, counterexample: a learning run (`value_calculation = false`) in its first
iteration with `use_avg_for_current_it = 1`.  The reach that the successor 0 gets of
hand 0 is the one under the policy of the sumprob row `[1999999999, 10]`, not the one
under the policy of the regret row `[3, 1]`. -/
theorem OppChoiceReach_source_counterexample :
    ∃ rs σ', VCFR.OppChoiceReach exampleOppEnv
        { exampleIntRegrets with it := 1, use_avg_for_current_it := 1 } exampleOppState
        (exampleRoot 0) 0 [0, 0, 0, 0, 1, 0, 0, 0, 1 / 2] = .ok (rs, σ') ∧
      exampleIntRegrets.value_calculation = false ∧
      exampleOppEnv.buckets.None 0 = true ∧
      (rs.getD 0 []).getD 4 0
        = dmul 1 ((VCFR.RegretsToProbs (fun u => (exampleOppState.imem (100 + u) : ℚ)) 2
          false false 0 0 (VCFR.NonterminalSuccs (exampleRoot 0)).1
          (VCFR.NonterminalSuccs (exampleRoot 0)).2).getD 0 0) ∧
      (rs.getD 0 []).getD 4 0
        ≠ dmul 1 ((VCFR.RegretsToProbs (fun u => (exampleOppState.imem (0 + u) : ℚ)) 2
          false false 0 0 (VCFR.NonterminalSuccs (exampleRoot 0)).1
          (VCFR.NonterminalSuccs (exampleRoot 0)).2).getD 0 0) :=
  ⟨_, _, rfl, rfl, rfl, by decide!, by decide!⟩

/-- C27, witness: the learning run with `use_avg_for_current_it = 0` takes the regret
table: hand 1 has the reach `1/2` and the regret row `[1, 3]`, so that the successor 0
gets the reach `1/2 * 1/4` of it. -/
theorem OppChoiceReach_strategy_source_witness :
    ∃ rs σ', VCFR.OppChoiceReach exampleOppEnv exampleIntRegrets exampleOppState
        (exampleRoot 0) 0 [0, 0, 0, 0, 1, 0, 0, 0, 1 / 2] = .ok (rs, σ') ∧
      (rs.getD 0 []).getD 8 0 = 1 / 8 :=
  ⟨_, _, rfl,
    (OppChoiceReach_strategy_source exampleOppEnv exampleIntRegrets exampleOppState _
      (exampleRoot 0) 0 [0, 0, 0, 0, 1, 0, 0, 0, 1 / 2] _ 1 0 _ _ _ (by decide) rfl rfl rfl
      rfl rfl (by decide) (by decide) (by decide) (by decide)
      (fun _ j hj t u ht hu => by
        have h2 : (exampleRoot 0).NumSuccs = 2 := rfl
        have h3 : exampleIntRegrets.sumprobs.addr (exampleIntRegrets.p ^^^ 1)
          (exampleRoot 0).Street (exampleRoot 0).NonterminalID = 100 := rfl
        have h4 : exampleIntRegrets.regrets.addr (exampleIntRegrets.p ^^^ 1)
          (exampleRoot 0).Street (exampleRoot 0).NonterminalID = 0 := rfl
        have h5 : exampleOppEnv.G.NumHoleCardPairs (exampleRoot 0).Street = 2 := rfl
        simp only [h2, h5] at ht hu ⊢
        show exampleIntRegrets.sumprobs.addr (exampleIntRegrets.p ^^^ 1)
            (exampleRoot 0).Street (exampleRoot 0).NonterminalID + 0 * 2 * 2 + j * 2 + t
          ≠ exampleIntRegrets.regrets.addr (exampleIntRegrets.p ^^^ 1)
            (exampleRoot 0).Street (exampleRoot 0).NonterminalID + 0 * 2 * 2 + 1 * 2 + u
        rw [h3, h4]
        omega)).trans (by decide!)⟩

/-! ## The rounding of doubles -/

/-- The power `pow2 e` is the power `2^e` of the rationals. -/
theorem pow2_eq_zpow (e : Int) : pow2 e = (2 : ℚ) ^ e := by
  unfold pow2
  by_cases h : 0 ≤ e
  · rw [if_pos h]
    obtain ⟨n, rfl⟩ := Int.eq_ofNat_of_zero_le h
    simp
  · rw [if_neg h]
    obtain ⟨n, hn⟩ := Int.exists_eq_neg_ofNat (le_of_lt (not_le.mp h))
    subst hn
    simp

/-- The leading bit: `2^(log2Fuel fuel n) ≤ n < 2^(log2Fuel fuel n + 1)` with enough
fuel. -/
theorem log2Fuel_spec : ∀ (fuel n : Nat), n ≤ fuel → 0 < n →
    2 ^ log2Fuel fuel n ≤ n ∧ n < 2 ^ (log2Fuel fuel n + 1) := by
  intro fuel
  induction fuel with
  | zero => intro n h0 hn; omega
  | succ fuel ih =>
    intro n hle hn
    rw [log2Fuel]
    by_cases h2 : n < 2
    · rw [if_pos h2]
      have : n = 1 := by omega
      subst this
      exact ⟨le_refl _, by norm_num⟩
    · rw [if_neg h2]
      obtain ⟨h1, h3⟩ := ih (n / 2) (by omega) (by omega)
      constructor
      · rw [pow_succ]
        calc 2 ^ log2Fuel fuel (n / 2) * 2 ≤ n / 2 * 2 := Nat.mul_le_mul_right 2 h1
          _ ≤ n := Nat.div_mul_le_self n 2
      · rw [pow_succ]
        have : n / 2 + 1 ≤ 2 ^ (log2Fuel fuel (n / 2) + 1) := h3
        omega

/-- The number lies below the next power: `|x| < 2^(binexp x + 1)`. -/
theorem lt_binexp_succ (x : ℚ) (hx : x ≠ 0) : |x| < pow2 (binexp x + 1) := by
  have hn : 0 < x.num.natAbs := Int.natAbs_pos.mpr (Rat.num_ne_zero.mpr hx)
  have hd : 0 < x.den := x.den_pos
  obtain ⟨_, ha⟩ := log2Fuel_spec x.num.natAbs x.num.natAbs (le_refl _) hn
  obtain ⟨hb, _⟩ := log2Fuel_spec x.den x.den (le_refl _) hd
  have habs : |x| = (x.num.natAbs : ℚ) / (x.den : ℚ) := by
    conv_lhs => rw [← Rat.num_div_den x]
    rw [abs_div, Nat.cast_natAbs, Int.cast_abs, abs_of_pos (by exact_mod_cast hd : (0 : ℚ) < x.den)]
  unfold binexp
  dsimp only
  by_cases hlt : |x| < pow2 ((log2Fuel x.num.natAbs x.num.natAbs : Int)
      - (log2Fuel x.den x.den : Int))
  · rw [if_pos hlt, sub_add_cancel]
    exact hlt
  · rw [if_neg hlt, habs, pow2_eq_zpow, zpow_add₀ (by norm_num), zpow_sub₀ (by norm_num),
      zpow_natCast, zpow_natCast, zpow_one, div_mul_eq_mul_div,
      div_lt_div_iff₀ (by exact_mod_cast hd) (by positivity)]
    have h1 : (x.num.natAbs : ℚ) < (2 : ℚ) ^ log2Fuel x.num.natAbs x.num.natAbs * 2 := by
      have : x.num.natAbs < 2 ^ log2Fuel x.num.natAbs x.num.natAbs * 2 := by
        rw [← pow_succ]; exact ha
      exact_mod_cast this
    have h2 : ((2 : ℚ) ^ log2Fuel x.den x.den) ≤ (x.den : ℚ) := by
      exact_mod_cast hb
    exact mul_lt_mul h1 h2 (by positivity) (by positivity)

/-- The rounding of 0 is 0. -/
theorem round64_zero : round64 0 = 0 := by
  unfold round64
  rw [if_pos rfl]

